import Mathlib

/-!
# Verification development for `gontainer-helpers`

Shallow embedding of package `container` (`container.go`, `param_container.go`,
`tagged_container.go`, the three `atomic_*.go` facades, `circular_deps.go`, `errors.go` and
`types.go`, with the object graphs of its test files), of `setter.Set` with `reflect.Convert`,
and of the exporter chain of package `exporters`.

* Go `interface{}` values are `Option α` (`none` is `nil`), Go `error` values are
  `Option GoError` (`none` is `nil`).
* Providers and decorators are Go closures that may call back into the container
  that is running them. They are embedded as interaction trees (`Prog`): a tree
  either returns, panics, or performs one call on the container (or one access to
  the variables it captured) and continues with the answer.
* `Container.Get` is re-entrant through the provider it runs, so it is defined by
  recursion on a fuel argument; `none` means that the fuel ran out.
* The world carries a ghost `trace` of the steps of `Get` (`Event`); no definition
  reads it.
* Go maps are association lists read with `mapGet`. Go does not specify the order in which a
  `range` loop visits a map, so every function that ranges over one takes that order as a
  parameter `ρ`, and the statements hold for every `ρ` that only reorders the keys (`IsRange`).
-/

namespace container

/-! ## Go maps with string keys -/

/-- Value stored under key `k` (`v, ok := m[k]`). -/
def mapGet {β : Type} : List (String × β) → String → Option β
  | [], _ => none
  | (k', v) :: rest, k => if k' = k then some v else mapGet rest k

/-- Assignment `m[k] = v`. -/
def mapSet {β : Type} : List (String × β) → String → β → List (String × β)
  | [], k, v => [(k, v)]
  | (k', v') :: rest, k, v => if k' = k then (k, v) :: rest else (k', v') :: mapSet rest k v

/-- Builtin `delete(m, k)`. -/
def mapDelete {β : Type} : List (String × β) → String → List (String × β)
  | [], _ => []
  | (k', v') :: rest, k => if k' = k then mapDelete rest k else (k', v') :: mapDelete rest k

/-- Keys of the map, each once: what a `range` loop over the map visits, in an order that Go
leaves unspecified. -/
def mapKeys {β : Type} (m : List (String × β)) : List String :=
  (m.map Prod.fst).dedup

/-- Source: `sort.Strings`, ascending in the byte-wise order of Go strings; for UTF-8 text that
is the lexicographic order of the code points. -/
def sortStrings (l : List String) : List String :=
  l.insertionSort fun a b => a.data ≤ b.data

/-! ## errors.go -/

/-- A non-nil Go `error`: its `Error()` text, and whether its dynamic type is `finalErr`. -/
structure GoError where
  msg : String
  isFinalErr : Bool
  deriving DecidableEq, Repr

/-- Result of `fmt.Errorf` / `errors.New`: an ordinary error. -/
def plainErr (msg : String) : GoError := ⟨msg, false⟩

/-- The text `circular dependency: a -> b -> a` of `newCircularDepError`. -/
def circularDepMsg (deps : List String) : String :=
  "circular dependency: " ++ String.intercalate " -> " deps

/-- Source: `newCircularDepError`. -/
def newCircularDepError (deps : List String) : GoError :=
  ⟨circularDepMsg deps, true⟩

/-- A value handed to `panic`: an `error`, or any other value given by its `%s` rendering. -/
inductive Payload where
  | error (e : GoError)
  | value (shown : String)
  deriving DecidableEq, Repr

/-- Rendering of a recovered value under the `%s` verb. -/
def Payload.format : Payload → String
  | .error e => e.msg
  | .value s => s

/-- Source: `fmt.Errorf("cannot %s service %s: %s", action, id, cause)` with the id in backticks. -/
def errorMsg (action id cause : String) : String :=
  "cannot " ++ action ++ " service `" ++ id ++ "`: " ++ cause

/-! ## circular_deps.go -/

/-- Source: `circularDeps`. -/
structure circularDeps where
  chain : List String
  deriving DecidableEq, Repr

/-- Source: `newCircularDeps`. -/
def newCircularDeps : circularDeps := ⟨[]⟩

/-- Source: `circularDeps.start`; the returned list is `nil` (empty) when there is no cycle,
and the live chain always receives `id` (the deferred append). -/
def circularDeps.start (c : circularDeps) (id : String) : List String × circularDeps :=
  let deps := if id ∈ c.chain then c.chain ++ [id] else []
  (deps, ⟨c.chain ++ [id]⟩)

/-- Source: `circularDeps.stop`. It is only called after `start`, on a chain that is not empty
(Go would panic on the empty slice). -/
def circularDeps.stop (c : circularDeps) : circularDeps := ⟨c.chain.dropLast⟩

/-! ## container.go: data -/

/-- Source: `Scope`. -/
inductive Scope where
  | ScopeShared
  | ScopeNestedShared
  | ScopeNonShared
  deriving DecidableEq, Repr

/-- Code of a provider or decorator closure, as an interaction tree over the container that
runs it. `σ` is the type of the variables the closures capture, `α` the type of non-nil
service values. `get`, `has`, `register`, `override`, `revoke`, `remove` and
`registerDecorator` are calls of the container methods of the same name; `read` and `modify`
access the captured variables; `ret v e` is `return v, e`; `panic p` is `panic(p)`. -/
inductive Prog (σ α : Type) where
  | ret (v : Option α) (e : Option GoError)
  | panic (p : Payload)
  | get (id : String) (k : Option α → Option GoError → Prog σ α)
  | has (id : String) (k : Bool → Prog σ α)
  | register (id : String) (p : Prog σ α) (s : Scope) (k : Option GoError → Prog σ α)
  | override (id : String) (p : Prog σ α) (s : Scope) (k : Prog σ α)
  | revoke (id : String) (k : Option GoError → Prog σ α)
  | remove (id : String) (k : Option GoError → Prog σ α)
  | registerDecorator (d : String → Option α → Prog σ α) (k : Prog σ α)
  | read (k : σ → Prog σ α)
  | modify (f : σ → σ) (k : Prog σ α)

/-- Source: `Provider`, a closure `func() (interface{}, error)`. -/
abbrev Provider (σ α : Type) := Prog σ α

/-- Source: `Decorator`, a closure `func(id string, v interface{}) (interface{}, error)`. -/
abbrev Decorator (σ α : Type) := String → Option α → Prog σ α

/-- Source: `ServiceDefinition`. -/
structure ServiceDefinition (σ α : Type) where
  Provider : Provider σ α
  Scope : container.Scope

/-- Source: `metaServiceDefinition`. -/
structure metaServiceDefinition (σ α : Type) where
  definition : ServiceDefinition σ α
  service : Option α
  created : Bool

/-- Source: `Container`. `cacheNestedShared = none` is the nil map. -/
structure Container (σ α : Type) where
  services : List (String × metaServiceDefinition σ α)
  circularDeps : circularDeps
  decorators : List (Decorator σ α)
  cacheNestedShared : Option (List (String × Option α))

/-- Ghost record of one step of `Get`: the provider of `id` is invoked; the decorator at
`index` is invoked on `id`; `Get(id)` reaches its final `return service, nil` with a newly built
instance; a frame creates the `cacheNestedShared` map while the chain has `depth` elements. -/
inductive Event where
  | provider (id : String)
  | decorator (index : Nat) (id : String)
  | built (id : String)
  | cacheCreated (depth : Nat)
  deriving DecidableEq, Repr

/-- The container together with the variables captured by its closures and the ghost trace. -/
structure World (σ α : Type) where
  c : Container σ α
  env : σ
  trace : List Event

/-- Source: `NewContainer`; `definitions` lists the entries of the Go map. -/
def NewContainer {σ α : Type} (definitions : List (String × ServiceDefinition σ α)) :
    Container σ α :=
  { services := definitions.foldl (fun m d => mapSet m d.1 ⟨d.2, none, false⟩) []
    circularDeps := newCircularDeps
    decorators := []
    cacheNestedShared := none }

/-- Source: `Container.Has`. -/
def Container.Has {σ α : Type} (c : Container σ α) (id : String) : Bool :=
  (mapGet c.services id).isSome

/-- Source: `Container.Register`. -/
def Container.Register {σ α : Type} (c : Container σ α) (id : String)
    (s : ServiceDefinition σ α) : Option GoError × Container σ α :=
  if c.Has id then
    (some (plainErr ("service `" ++ id ++ "` is already registered")), c)
  else
    (none, { c with services := mapSet c.services id ⟨s, none, false⟩ })

/-- Source: `Container.Override`. -/
def Container.Override {σ α : Type} (c : Container σ α) (id : String)
    (s : ServiceDefinition σ α) : Container σ α :=
  { c with services := mapSet c.services id ⟨s, none, false⟩ }

/-- Source: `errMsgServiceDoesNotExist`. -/
def errMsgServiceDoesNotExist (action id : String) : String :=
  "cannot " ++ action ++ " service `" ++ id ++ "`, because it does not exist"

/-- Source: `Container.Revoke`. -/
def Container.Revoke {σ α : Type} (c : Container σ α) (id : String) :
    Option GoError × Container σ α :=
  match mapGet c.services id with
  | none => (some (plainErr (errMsgServiceDoesNotExist "revoke" id)), c)
  | some cp => (none, { c with services := mapSet c.services id { cp with service := none, created := false } })

/-- Source: `Container.Remove`. -/
def Container.Remove {σ α : Type} (c : Container σ α) (id : String) :
    Option GoError × Container σ α :=
  if c.Has id then
    (none, { c with services := mapDelete c.services id })
  else
    (some (plainErr (errMsgServiceDoesNotExist "remove" id)), c)

/-- Source: `Container.RegisterDecorator`. -/
def Container.RegisterDecorator {σ α : Type} (c : Container σ α) (d : Decorator σ α) :
    Container σ α :=
  { c with decorators := c.decorators ++ [d] }

/-- Source: `Container.GetAllServiceIDs`; `ρ` puts the keys of the map into the order in which
the `range` loop visits them. -/
def Container.GetAllServiceIDs {σ α : Type} (c : Container σ α)
    (ρ : List String → List String) : List String :=
  sortStrings (ρ (mapKeys c.services))

/-! ## container.go: running closures and `Get` -/

/-- How a closure, or the body of `Get`, stops. -/
inductive Outcome (α : Type) where
  | returned (v : Option α) (e : Option GoError)
  | panicked (p : Payload)

/-- Result of `Container.Get`: `(service, err)`. -/
abbrev GetResult (α : Type) := Option α × Option GoError

/-- Replace the container of a world. -/
def World.withC {σ α : Type} (w : World σ α) (c : Container σ α) : World σ α :=
  { w with c := c }

/-- Append one event to the ghost trace. -/
def World.log {σ α : Type} (w : World σ α) (e : Event) : World σ α :=
  { w with trace := w.trace ++ [e] }

/-- Execution of a closure; `getf` is `Container.Get` of the container running it. -/
def runProg {σ α : Type} (getf : String → World σ α → Option (GetResult α × World σ α)) :
    Prog σ α → World σ α → Option (Outcome α × World σ α)
  | .ret v e, w => some (.returned v e, w)
  | .panic p, w => some (.panicked p, w)
  | .get id k, w =>
    match getf id w with
    | none => none
    | some (r, w') => runProg getf (k r.1 r.2) w'
  | .has id k, w => runProg getf (k (w.c.Has id)) w
  | .register id p s k, w =>
    runProg getf (k (w.c.Register id ⟨p, s⟩).1) (w.withC (w.c.Register id ⟨p, s⟩).2)
  | .override id p s k, w => runProg getf k (w.withC (w.c.Override id ⟨p, s⟩))
  | .revoke id k, w => runProg getf (k (w.c.Revoke id).1) (w.withC (w.c.Revoke id).2)
  | .remove id k, w => runProg getf (k (w.c.Remove id).1) (w.withC (w.c.Remove id).2)
  | .registerDecorator d k, w => runProg getf k (w.withC (w.c.RegisterDecorator d))
  | .read k, w => runProg getf (k w.env) w
  | .modify f k, w => runProg getf k { w with env := f w.env }

/-- Source: `Container.MustGet`, as code of a closure: `k` receives the service. -/
def MustGet {σ α : Type} (id : String) (k : Option α → Prog σ α) : Prog σ α :=
  .get id fun r e =>
    match e with
    | some e => .panic (.error e)
    | none => k r

/-- Source: the loop of `Container.decorate` over the decorators `ds`, the `i`-th first, with
`r` the value so far. -/
def decorateLoop {σ α : Type} (getf : String → World σ α → Option (GetResult α × World σ α))
    (id : String) : List (Decorator σ α) → Nat → Option α → World σ α →
    Option (Outcome α × World σ α)
  | [], _, r, w => some (.returned r none, w)
  | d :: ds, i, r, w =>
    match runProg getf (d id r) (w.log (.decorator i id)) with
    | none => none
    | some (.panicked p, w') => some (.panicked p, w')
    | some (.returned r' (some e), w') => some (.returned r' (some e), w')
    | some (.returned r' none, w') => decorateLoop getf id ds (i + 1) r' w'

/-- Source: `Container.decorate`; `range c.decorators` is evaluated once, on entry. -/
def decorate {σ α : Type} (getf : String → World σ α → Option (GetResult α × World σ α))
    (id : String) (s : Option α) (w : World σ α) : Option (Outcome α × World σ α) :=
  decorateLoop getf id w.c.decorators 0 s w

/-- Source: the closure `decorateErr` inside `Container.Get`. -/
def decorateErr {σ α : Type} (c : Container σ α) (id : String) (err : GoError)
    (action : String) : GoError :=
  if err.isFinalErr then
    if c.circularDeps.chain.length = 1 then plainErr (errorMsg action id err.msg) else err
  else plainErr (errorMsg action id err.msg)

/-- How the body of `Get` stops, before its deferred calls run: a `return`, or a panic `r`
with the named result `service` as it stands. -/
inductive Exit (α : Type) where
  | returned (service : Option α) (err : Option GoError)
  | panicking (service : Option α) (r : Payload)

/-- The exit is a panic or the return of a non-nil error. -/
def Exit.isFailure {α : Type} : Exit α → Bool
  | .returned _ none => false
  | _ => true

/-- Source: `Container.Get`, lines 141-151: caching by scope and the final `return`. An
assignment to an entry of a nil map is a run-time panic. -/
def getStore {σ α : Type} (id : String) (serviceDef : metaServiceDefinition σ α)
    (service : Option α) (w : World σ α) : Exit α × World σ α :=
  let w1 :=
    if serviceDef.definition.Scope = .ScopeShared then
      w.withC { w.c with services := mapSet w.c.services id { serviceDef with created := true, service := service } }
    else w
  if serviceDef.definition.Scope = .ScopeNestedShared then
    match w1.c.cacheNestedShared with
    | none => (.panicking service (.error (plainErr "assignment to entry in nil map")), w1)
    | some cache =>
      (.returned service none,
        (w1.withC { w1.c with cacheNestedShared := some (mapSet cache id service) }).log (.built id))
  else (.returned service none, w1.log (.built id))

/-- Source: `Container.Get`, lines 131-151: provider, decorators, caching by scope. -/
def getBuild {σ α : Type} (getf : String → World σ α → Option (GetResult α × World σ α))
    (id : String) (serviceDef : metaServiceDefinition σ α) (w : World σ α) :
    Option (Exit α × World σ α) :=
  match runProg getf serviceDef.definition.Provider (w.log (.provider id)) with
  | none => none
  | some (.panicked p, w1) => some (.panicking none p, w1)
  | some (.returned _ (some e), w1) =>
    some (.returned none (some (decorateErr w1.c id e "create")), w1)
  | some (.returned service none, w1) =>
    match decorate getf id service w1 with
    | none => none
    | some (.panicked p, w2) => some (.panicking service p, w2)
    | some (.returned _ (some e), w2) =>
      some (.returned none (some (decorateErr w2.c id e "decorate")), w2)
    | some (.returned service none, w2) => some (getStore id serviceDef service w2)

/-- Source: `Container.Get`, lines 94-151, after `start`: the exit of the body, whether the
deferred reset of `cacheNestedShared` was registered, and the world. -/
def getBody {σ α : Type} (getf : String → World σ α → Option (GetResult α × World σ α))
    (id : String) (deps : List String) (w : World σ α) : Option (Exit α × Bool × World σ α) :=
  if deps.length ≠ 0 then
    some (.returned none (some (newCircularDepError deps)), false, w)
  else
    match w.c.cacheNestedShared.bind (fun cache => mapGet cache id) with
    | some s => some (.returned s none, false, w)
    | none =>
      match mapGet w.c.services id with
      | none => some (.returned none (some (plainErr ("service `" ++ id ++ "` does not exist"))), false, w)
      | some serviceDef =>
        if serviceDef.created then some (.returned serviceDef.service none, false, w)
        else
          match w.c.cacheNestedShared with
          | none =>
            (getBuild getf id serviceDef
              ((w.withC { w.c with cacheNestedShared := some [] }).log
                (.cacheCreated w.c.circularDeps.chain.length))).map
              fun r => (r.1, true, r.2)
          | some _ => (getBuild getf id serviceDef w).map fun r => (r.1, false, r.2)

/-- Source: the first two deferred calls of `Container.Get`, in the order they run: the reset
of `cacheNestedShared` (when it was registered), then `circularDeps.stop`. -/
def World.leave {σ α : Type} (w : World σ α) (resetCache : Bool) : World σ α :=
  let w1 := if resetCache then w.withC { w.c with cacheNestedShared := none } else w
  w1.withC { w1.c with circularDeps := w1.c.circularDeps.stop }

/-- Source: the deferred calls of `Container.Get`: `World.leave`, then the `recover` handler,
which turns a panic into the error `cannot create service ...`. -/
def getDefers {σ α : Type} (id : String) (exit : Exit α) (resetCache : Bool) (w : World σ α) :
    GetResult α × World σ α :=
  match exit with
  | .returned service err => ((service, err), w.leave resetCache)
  | .panicking service r =>
    ((service, some (plainErr (errorMsg "create" id r.format))), w.leave resetCache)

/-- Source: `Container.Get`. -/
def Get {σ α : Type} : Nat → String → World σ α → Option (GetResult α × World σ α)
  | 0, _, _ => none
  | n + 1, id, w =>
    let started := w.c.circularDeps.start id
    match getBody (Get n) id started.1 (w.withC { w.c with circularDeps := started.2 }) with
    | none => none
    | some (exit, resetCache, w') => some (getDefers id exit resetCache w')

/-! ## param_container.go -/

/-- Code of a parameter provider, as an interaction tree over the `ParamContainer` that runs
it: `getParam`, `hasParam`, `registerParam` and `overrideParam` are calls of the methods of the
same name; the other constructors are as in `Prog`. -/
inductive ParamProg (σ α : Type) where
  | ret (v : Option α) (e : Option GoError)
  | panic (p : Payload)
  | getParam (id : String) (k : Option α → Option GoError → ParamProg σ α)
  | hasParam (id : String) (k : Bool → ParamProg σ α)
  | registerParam (id : String) (p : ParamProg σ α) (disposable : Bool)
      (k : Option GoError → ParamProg σ α)
  | overrideParam (id : String) (p : ParamProg σ α) (disposable : Bool) (k : ParamProg σ α)
  | read (k : σ → ParamProg σ α)
  | modify (f : σ → σ) (k : ParamProg σ α)

/-- Source: `ParamDefinition`. -/
structure ParamDefinition (σ α : Type) where
  Provider : ParamProg σ α
  Disposable : Bool

/-- Source: `metaParamDefinition`. -/
structure metaParamDefinition (σ α : Type) where
  definition : ParamDefinition σ α
  param : Option α
  created : Bool

/-- Source: `ParamContainer`. -/
structure ParamContainer (σ α : Type) where
  params : List (String × metaParamDefinition σ α)
  circularDeps : circularDeps

/-- The parameter container with the captured variables and the ghost trace of provider
invocations. -/
structure ParamWorld (σ α : Type) where
  b : ParamContainer σ α
  env : σ
  trace : List Event

/-- Source: `NewParamContainer`. -/
def NewParamContainer {σ α : Type} (definitions : List (String × ParamDefinition σ α)) :
    ParamContainer σ α :=
  { params := definitions.foldl (fun m d => mapSet m d.1 ⟨d.2, none, false⟩) []
    circularDeps := newCircularDeps }

/-- Source: `ParamContainer.HasParam`. -/
def ParamContainer.HasParam {σ α : Type} (b : ParamContainer σ α) (id : String) : Bool :=
  (mapGet b.params id).isSome

/-- Source: `ParamContainer.RegisterParam`. -/
def ParamContainer.RegisterParam {σ α : Type} (b : ParamContainer σ α) (id : String)
    (d : ParamDefinition σ α) : Option GoError × ParamContainer σ α :=
  if b.HasParam id then
    (some (plainErr ("parameter `" ++ id ++ "` already exists")), b)
  else
    (none, { b with params := mapSet b.params id ⟨d, none, false⟩ })

/-- Source: `ParamContainer.OverrideParam`. -/
def ParamContainer.OverrideParam {σ α : Type} (b : ParamContainer σ α) (id : String)
    (d : ParamDefinition σ α) : ParamContainer σ α :=
  { b with params := mapSet b.params id ⟨d, none, false⟩ }

/-- Source: `ParamContainer.GetAllParamIDs`; `ρ` puts the keys of the map into the order in
which the `range` loop visits them. -/
def ParamContainer.GetAllParamIDs {σ α : Type} (b : ParamContainer σ α)
    (ρ : List String → List String) : List String :=
  sortStrings (ρ (mapKeys b.params))

/-- Source: the format `cannot get parameter %s: %s` of `GetParam`, the id in backticks. -/
def paramErrorMsg (id cause : String) : String :=
  "cannot get parameter `" ++ id ++ "`: " ++ cause

/-- Execution of a parameter provider; `getf` is `GetParam` of the container running it. -/
def runParamProg {σ α : Type}
    (getf : String → ParamWorld σ α → Option (GetResult α × ParamWorld σ α)) :
    ParamProg σ α → ParamWorld σ α → Option (Outcome α × ParamWorld σ α)
  | .ret v e, w => some (.returned v e, w)
  | .panic p, w => some (.panicked p, w)
  | .getParam id k, w =>
    match getf id w with
    | none => none
    | some (r, w') => runParamProg getf (k r.1 r.2) w'
  | .hasParam id k, w => runParamProg getf (k (w.b.HasParam id)) w
  | .registerParam id p d k, w =>
    runParamProg getf (k (w.b.RegisterParam id ⟨p, d⟩).1)
      { w with b := (w.b.RegisterParam id ⟨p, d⟩).2 }
  | .overrideParam id p d k, w => runParamProg getf k { w with b := w.b.OverrideParam id ⟨p, d⟩ }
  | .read k, w => runParamProg getf (k w.env) w
  | .modify f k, w => runParamProg getf k { w with env := f w.env }

/-- Source: `ParamContainer.MustGetParam`, as code of a provider. -/
def MustGetParam {σ α : Type} (id : String) (k : Option α → ParamProg σ α) : ParamProg σ α :=
  .getParam id fun r e =>
    match e with
    | some e => .panic (.error e)
    | none => k r

/-- Source: `ParamContainer.GetParam`, lines 59-83, after `start`. -/
def getParamBody {σ α : Type}
    (getf : String → ParamWorld σ α → Option (GetResult α × ParamWorld σ α))
    (id : String) (deps : List String) (w : ParamWorld σ α) :
    Option (Exit α × ParamWorld σ α) :=
  if deps.length ≠ 0 then
    some (.returned none (some (newCircularDepError deps)), w)
  else
    match mapGet w.b.params id with
    | none => some (.returned none (some (plainErr ("parameter `" ++ id ++ "` does not exist"))), w)
    | some paramDef =>
      if paramDef.created then some (.returned paramDef.param none, w)
      else
        match runParamProg getf paramDef.definition.Provider
            { w with trace := w.trace ++ [.provider id] } with
        | none => none
        | some (.panicked p, w1) => some (.panicking none p, w1)
        | some (.returned param (some err), w1) => some (.panicking param (.error err), w1)
        | some (.returned param none, w1) =>
          if !paramDef.definition.Disposable then
            some (.returned param none,
              { w1 with b := { w1.b with params := mapSet w1.b.params id { paramDef with created := true, param := param } } })
          else some (.returned param none, w1)

/-- Source: the deferred calls of `ParamContainer.GetParam`, in the order they run:
`circularDeps.stop`, then the `recover` handler. -/
def getParamDefers {σ α : Type} (id : String) (exit : Exit α) (w : ParamWorld σ α) :
    GetResult α × ParamWorld σ α :=
  let w1 : ParamWorld σ α := { w with b := { w.b with circularDeps := w.b.circularDeps.stop } }
  match exit with
  | .returned param err => ((param, err), w1)
  | .panicking param (.error f) =>
    if f.isFinalErr then
      if w1.b.circularDeps.chain.length = 0 then
        ((param, some (plainErr (paramErrorMsg id f.msg))), w1)
      else ((param, some f), w1)
    else ((param, some (plainErr (paramErrorMsg id f.msg))), w1)
  | .panicking param (.value s) => ((param, some (plainErr (paramErrorMsg id s))), w1)

/-- Source: `ParamContainer.GetParam`. -/
def GetParam {σ α : Type} : Nat → String → ParamWorld σ α →
    Option (GetResult α × ParamWorld σ α)
  | 0, _, _ => none
  | n + 1, id, w =>
    let started := w.b.circularDeps.start id
    match getParamBody (GetParam n) id started.1
        { w with b := { w.b with circularDeps := started.2 } } with
    | none => none
    | some (exit, w') => some (getParamDefers id exit w')


/-! ## tagged_container.go -/

/-- Source: `TaggedContainer`. `container` is the method `Get` of the wrapped container, which
works on a state of type `W` (`none`: it did not return); `mapping[tag][serviceID]` is the
priority. -/
structure TaggedContainer (W α : Type) where
  container : String → W → Option (GetResult α × W)
  mapping : List (String × List (String × Int))

/-- Source: `NewTaggedContainer`. -/
def NewTaggedContainer {W α : Type} (container : String → W → Option (GetResult α × W)) :
    TaggedContainer W α :=
  ⟨container, []⟩

/-- Source: `sort.SliceStable` with the `less` of `getIDsByTag`,
`svcs[i].priority > svcs[j].priority`: descending priority, and elements of which neither is
`less` than the other stay in the order they had. -/
def sortByPriority (svcs : List (String × Int)) : List (String × Int) :=
  svcs.insertionSort fun a b => a.2 ≥ b.2

/-- Source: `TaggedContainer.getIDsByTag`; `ρ` puts the keys of `mapping[tag]` into the order in
which the `range` loop visits them. -/
def TaggedContainer.getIDsByTag {W α : Type} (b : TaggedContainer W α)
    (ρ : List String → List String) (tag : String) : List String :=
  let tagMapping := (mapGet b.mapping tag).getD []
  let svcs := (ρ (mapKeys tagMapping)).filterMap fun id =>
    (mapGet tagMapping id).map fun p => (id, p)
  (sortByPriority svcs).map Prod.fst

/-- How `GetByTag` stops: `return result, err` (`result = none` is the nil slice), or a
run-time panic. -/
inductive TagOutcome (α : Type) where
  | returned (result : Option (List (Option α))) (err : Option GoError)
  | panicked (p : Payload)

/-- Source: the loop of `TaggedContainer.GetByTag` over the ids still to fetch, `i` the index
of the first of them; `result[i] = r` panics when `i` is out of range. -/
def getByTagLoop {W α : Type} (get : String → W → Option (GetResult α × W)) (tag : String) :
    List String → Nat → List (Option α) → W → Option (TagOutcome α × W)
  | [], _, result, w => some (.returned (some result) none, w)
  | id :: ids, i, result, w =>
    match get id w with
    | none => none
    | some ((_, some err), w') =>
      some (.returned none
        (some (plainErr ("cannot get services by tag `" ++ tag ++ "`: " ++ err.msg))), w')
    | some ((r, none), w') =>
      if i < result.length then getByTagLoop get tag ids (i + 1) (result.set i r) w'
      else
        some (.panicked (.error (plainErr ("runtime error: index out of range [" ++ toString i ++
          "] with length " ++ toString result.length))), w')

/-- Source: `TaggedContainer.GetByTag`. It calls `getIDsByTag` twice, so it ranges over
`mapping[tag]` twice: `ρ1` is the order of the first loop, which fixes the length of `result`,
`ρ2` the order of the second, which fixes the ids that are fetched. -/
def TaggedContainer.GetByTag {W α : Type} (b : TaggedContainer W α)
    (ρ1 ρ2 : List String → List String) (tag : String) (w : W) : Option (TagOutcome α × W) :=
  let ids := b.getIDsByTag ρ1 tag
  getByTagLoop b.container tag (b.getIDsByTag ρ2 tag) 0 (List.replicate ids.length none) w

/-- Source: `TaggedContainer.MustGetByTag`. -/
def TaggedContainer.MustGetByTag {W α : Type} (b : TaggedContainer W α)
    (ρ1 ρ2 : List String → List String) (tag : String) (w : W) : Option (TagOutcome α × W) :=
  match b.GetByTag ρ1 ρ2 tag w with
  | some (.returned _ (some err), w') => some (.panicked (.error err), w')
  | r => r

/-- Source: `TaggedContainer.TagService`. -/
def TaggedContainer.TagService {W α : Type} (b : TaggedContainer W α) (id tag : String)
    (priority : Int) : Option GoError × TaggedContainer W α :=
  let mapping1 := if (mapGet b.mapping tag).isSome then b.mapping else mapSet b.mapping tag []
  if ((mapGet mapping1 tag).bind fun m => mapGet m id).isSome then
    (some (plainErr ("service `" ++ id ++ "` is already tagged as `" ++ tag ++ "`")),
      { b with mapping := mapping1 })
  else
    (none, { b with
      mapping := mapSet mapping1 tag (mapSet ((mapGet mapping1 tag).getD []) id priority) })

/-- Source: `TaggedContainer.OverrideTagService`. -/
def TaggedContainer.OverrideTagService {W α : Type} (b : TaggedContainer W α) (id tag : String)
    (priority : Int) : TaggedContainer W α :=
  let mapping1 := if (mapGet b.mapping tag).isSome then b.mapping else mapSet b.mapping tag []
  { b with
    mapping := mapSet mapping1 tag (mapSet ((mapGet mapping1 tag).getD []) id priority) }

/-- Source: `TaggedContainer.IsTaggedBy`. -/
def TaggedContainer.IsTaggedBy {W α : Type} (b : TaggedContainer W α) (id tag : String) :
    Bool :=
  ((mapGet b.mapping tag).bind fun m => mapGet m id).isSome

/-! ## atomic_container.go, atomic_param_container.go, atomic_tagged_container.go -/

/-- Source: `sync.Mutex`, as a run with a single goroutine sees it. -/
structure Mutex where
  locked : Bool
  deriving DecidableEq, Repr

/-- Source: `Mutex.Lock`. On a mutex that is held the call blocks, and in a run with a single
goroutine nobody releases the mutex: the call never returns (`none`). -/
def Mutex.Lock (m : Mutex) : Option Mutex :=
  if m.locked then none else some ⟨true⟩

/-- Source: `Mutex.Unlock`. It is only called by the deferred call of a method whose `Lock`
succeeded, on a mutex that is held (Go ends the program on any other). -/
def Mutex.Unlock (_ : Mutex) : Mutex := ⟨false⟩

/-- The body shared by the methods of the facades: `a.locker.Lock()`, `defer
a.locker.Unlock()`, then the call `op` on the wrapped component, made while the mutex is as
`Lock` left it. The deferred `Unlock` runs when `op` returns and when it panics (the result
type `R` covers both); when `Lock` or `op` never returns, neither does the method. -/
def withLock {S R : Type} (locker : Mutex) (op : Mutex → Option (R × S)) :
    Option (R × S × Mutex) :=
  match locker.Lock with
  | none => none
  | some l =>
    match op l with
    | none => none
    | some (r, s) => some (r, s, l.Unlock)

/-- Source: `Container.Get`, with the calls of `Get` made by the closures answered by `getf`:
by the container itself (`getf` is `Get` with less fuel), or by a facade the closures were
given instead. -/
def getStep {σ α : Type} (getf : String → World σ α → Option (GetResult α × World σ α))
    (id : String) (w : World σ α) : Option (GetResult α × World σ α) :=
  let started := w.c.circularDeps.start id
  match getBody getf id started.1 (w.withC { w.c with circularDeps := started.2 }) with
  | none => none
  | some (exit, resetCache, w') => some (getDefers id exit resetCache w')

/-- Source: `Container.MustGet`, called from outside a closure. -/
def Container.MustGet {σ α : Type} (fuel : Nat) (id : String) (w : World σ α) :
    Option (Outcome α × World σ α) :=
  match Get fuel id w with
  | none => none
  | some ((_, some e), w') => some (.panicked (.error e), w')
  | some ((r, none), w') => some (.returned r none, w')

/-- Source: `Container.MustRevoke`. -/
def Container.MustRevoke {σ α : Type} (c : Container σ α) (id : String) :
    Outcome α × Container σ α :=
  match (c.Revoke id).1 with
  | some err => (.panicked (.error err), (c.Revoke id).2)
  | none => (.returned none none, (c.Revoke id).2)

/-- Source: `Container.MustRemove`. -/
def Container.MustRemove {σ α : Type} (c : Container σ α) (id : String) :
    Outcome α × Container σ α :=
  match (c.Remove id).1 with
  | some err => (.panicked (.error err), (c.Remove id).2)
  | none => (.returned none none, (c.Remove id).2)

/-- Source: `ParamContainer.MustGetParam`, called from outside a provider. -/
def ParamContainer.MustGetParam {σ α : Type} (fuel : Nat) (id : String) (w : ParamWorld σ α) :
    Option (Outcome α × ParamWorld σ α) :=
  match GetParam fuel id w with
  | none => none
  | some ((_, some e), w') => some (.panicked (.error e), w')
  | some ((r, none), w') => some (.returned r none, w')

/-- Source: `AtomicContainer`: the wrapped container, with the variables of its closures and
the ghost trace, and the mutex. -/
structure AtomicContainer (σ α : Type) where
  container : World σ α
  locker : Mutex

/-- Source: `NewAtomicContainer`. -/
def NewAtomicContainer {σ α : Type} (c : World σ α) : AtomicContainer σ α :=
  ⟨c, ⟨false⟩⟩

/-- Source: `AtomicContainer.Get`. `get` is the method `Get` of the wrapped container, given
the state of the mutex during the call: `fun _ => Get fuel` for a `Container` whose closures
call the container itself. -/
def AtomicContainer.Get {σ α : Type}
    (get : Mutex → String → World σ α → Option (GetResult α × World σ α)) (id : String)
    (a : AtomicContainer σ α) : Option (GetResult α × AtomicContainer σ α) :=
  (withLock a.locker fun l => get l id a.container).map fun x => (x.1, ⟨x.2.1, x.2.2⟩)

/-- Source: `Container.Get` of a container wrapped by an `AtomicContainer` whose closures call
`Get` on that facade (the first run of `TestAtomicContainer_NestedLock`); `l` is the state of
the mutex of the facade while the container runs. -/
def nestedGet {σ α : Type} :
    Nat → Mutex → String → World σ α → Option (GetResult α × World σ α)
  | 0, _, _, _ => none
  | n + 1, l, id, w =>
    getStep (fun id' w' =>
      (AtomicContainer.Get (nestedGet n) id' ⟨w', l⟩).map fun x => (x.1, x.2.container)) id w

/-- Source: `AtomicContainer.Register`. -/
def AtomicContainer.Register {σ α : Type} (id : String) (s : ServiceDefinition σ α)
    (a : AtomicContainer σ α) : Option (Option GoError × AtomicContainer σ α) :=
  (withLock a.locker fun _ =>
    some ((a.container.c.Register id s).1, a.container.withC (a.container.c.Register id s).2)).map
    fun x => (x.1, ⟨x.2.1, x.2.2⟩)

/-- Source: `AtomicContainer.Override`. -/
def AtomicContainer.Override {σ α : Type} (id : String) (s : ServiceDefinition σ α)
    (a : AtomicContainer σ α) : Option (Unit × AtomicContainer σ α) :=
  (withLock a.locker fun _ => some ((), a.container.withC (a.container.c.Override id s))).map
    fun x => (x.1, ⟨x.2.1, x.2.2⟩)

/-- Source: `AtomicContainer.Has`. -/
def AtomicContainer.Has {σ α : Type} (id : String) (a : AtomicContainer σ α) :
    Option (Bool × AtomicContainer σ α) :=
  (withLock a.locker fun _ => some (a.container.c.Has id, a.container)).map
    fun x => (x.1, ⟨x.2.1, x.2.2⟩)

/-- Source: `AtomicContainer.GetAllServiceIDs`. -/
def AtomicContainer.GetAllServiceIDs {σ α : Type} (ρ : List String → List String)
    (a : AtomicContainer σ α) : Option (List String × AtomicContainer σ α) :=
  (withLock a.locker fun _ => some (a.container.c.GetAllServiceIDs ρ, a.container)).map
    fun x => (x.1, ⟨x.2.1, x.2.2⟩)

/-- Source: `AtomicContainer.MustGet`, over a `Container` whose closures call the container
itself. -/
def AtomicContainer.MustGet {σ α : Type} (fuel : Nat) (id : String) (a : AtomicContainer σ α) :
    Option (Outcome α × AtomicContainer σ α) :=
  (withLock a.locker fun _ => Container.MustGet fuel id a.container).map
    fun x => (x.1, ⟨x.2.1, x.2.2⟩)

/-- Source: `AtomicContainer.RegisterDecorator`. -/
def AtomicContainer.RegisterDecorator {σ α : Type} (d : Decorator σ α)
    (a : AtomicContainer σ α) : Option (Unit × AtomicContainer σ α) :=
  (withLock a.locker fun _ =>
    some ((), a.container.withC (a.container.c.RegisterDecorator d))).map
    fun x => (x.1, ⟨x.2.1, x.2.2⟩)

/-- Source: `AtomicContainer.Revoke`. -/
def AtomicContainer.Revoke {σ α : Type} (id : String) (a : AtomicContainer σ α) :
    Option (Option GoError × AtomicContainer σ α) :=
  (withLock a.locker fun _ =>
    some ((a.container.c.Revoke id).1, a.container.withC (a.container.c.Revoke id).2)).map
    fun x => (x.1, ⟨x.2.1, x.2.2⟩)

/-- Source: `AtomicContainer.MustRevoke`. -/
def AtomicContainer.MustRevoke {σ α : Type} (id : String) (a : AtomicContainer σ α) :
    Option (Outcome α × AtomicContainer σ α) :=
  (withLock a.locker fun _ =>
    some ((a.container.c.MustRevoke id).1,
      a.container.withC (a.container.c.MustRevoke id).2)).map
    fun x => (x.1, ⟨x.2.1, x.2.2⟩)

/-- Source: `AtomicContainer.Remove`. -/
def AtomicContainer.Remove {σ α : Type} (id : String) (a : AtomicContainer σ α) :
    Option (Option GoError × AtomicContainer σ α) :=
  (withLock a.locker fun _ =>
    some ((a.container.c.Remove id).1, a.container.withC (a.container.c.Remove id).2)).map
    fun x => (x.1, ⟨x.2.1, x.2.2⟩)

/-- Source: `AtomicContainer.MustRemove`. -/
def AtomicContainer.MustRemove {σ α : Type} (id : String) (a : AtomicContainer σ α) :
    Option (Outcome α × AtomicContainer σ α) :=
  (withLock a.locker fun _ =>
    some ((a.container.c.MustRemove id).1,
      a.container.withC (a.container.c.MustRemove id).2)).map
    fun x => (x.1, ⟨x.2.1, x.2.2⟩)

/-- Source: `AtomicParamContainer`: the wrapped parameter container, with the variables of its
providers and the ghost trace, and the mutex. -/
structure AtomicParamContainer (σ α : Type) where
  container : ParamWorld σ α
  locker : Mutex

/-- Source: `NewAtomicParamContainer`. -/
def NewAtomicParamContainer {σ α : Type} (container : ParamWorld σ α) :
    AtomicParamContainer σ α :=
  ⟨container, ⟨false⟩⟩

/-- Source: `AtomicParamContainer.GetParam`, over a `ParamContainer` whose providers call the
container itself. -/
def AtomicParamContainer.GetParam {σ α : Type} (fuel : Nat) (id : String)
    (a : AtomicParamContainer σ α) : Option (GetResult α × AtomicParamContainer σ α) :=
  (withLock a.locker fun _ => container.GetParam fuel id a.container).map
    fun x => (x.1, ⟨x.2.1, x.2.2⟩)

/-- Source: `AtomicParamContainer.MustGetParam`. -/
def AtomicParamContainer.MustGetParam {σ α : Type} (fuel : Nat) (id : String)
    (a : AtomicParamContainer σ α) : Option (Outcome α × AtomicParamContainer σ α) :=
  (withLock a.locker fun _ => ParamContainer.MustGetParam fuel id a.container).map
    fun x => (x.1, ⟨x.2.1, x.2.2⟩)

/-- Source: `AtomicParamContainer.RegisterParam`. -/
def AtomicParamContainer.RegisterParam {σ α : Type} (id : String) (d : ParamDefinition σ α)
    (a : AtomicParamContainer σ α) : Option (Option GoError × AtomicParamContainer σ α) :=
  (withLock a.locker fun _ =>
    some ((a.container.b.RegisterParam id d).1,
      ({ a.container with b := (a.container.b.RegisterParam id d).2 } : ParamWorld σ α))).map
    fun x => (x.1, ⟨x.2.1, x.2.2⟩)

/-- Source: `AtomicParamContainer.OverrideParam`. -/
def AtomicParamContainer.OverrideParam {σ α : Type} (id : String) (d : ParamDefinition σ α)
    (a : AtomicParamContainer σ α) : Option (Unit × AtomicParamContainer σ α) :=
  (withLock a.locker fun _ =>
    some ((), ({ a.container with b := a.container.b.OverrideParam id d } : ParamWorld σ α))).map
    fun x => (x.1, ⟨x.2.1, x.2.2⟩)

/-- Source: `AtomicParamContainer.HasParam`. -/
def AtomicParamContainer.HasParam {σ α : Type} (id : String) (a : AtomicParamContainer σ α) :
    Option (Bool × AtomicParamContainer σ α) :=
  (withLock a.locker fun _ => some (a.container.b.HasParam id, a.container)).map
    fun x => (x.1, ⟨x.2.1, x.2.2⟩)

/-- Source: `AtomicParamContainer.GetAllParamIDs`. -/
def AtomicParamContainer.GetAllParamIDs {σ α : Type} (ρ : List String → List String)
    (a : AtomicParamContainer σ α) : Option (List String × AtomicParamContainer σ α) :=
  (withLock a.locker fun _ => some (a.container.b.GetAllParamIDs ρ, a.container)).map
    fun x => (x.1, ⟨x.2.1, x.2.2⟩)

/-- Source: `AtomicTaggedContainer`: the wrapped tagged container and the mutex. -/
structure AtomicTaggedContainer (W α : Type) where
  container : TaggedContainer W α
  locker : Mutex

/-- Source: `NewAtomicTaggedContainer`. -/
def NewAtomicTaggedContainer {W α : Type} (container : TaggedContainer W α) :
    AtomicTaggedContainer W α :=
  ⟨container, ⟨false⟩⟩

/-- Source: `AtomicTaggedContainer.GetByTag`. After `Lock` its body is `return
a.GetByTag(id)`: a call of this same method on the receiver, whose mutex is now held, not of
`a.container.GetByTag`. The fuel bounds the depth of these calls; `w` is the state of the
container under the tagged container. -/
def AtomicTaggedContainer.GetByTag {W α : Type} :
    Nat → String → AtomicTaggedContainer W α → W →
      Option ((TagOutcome α × W) × AtomicTaggedContainer W α)
  | 0, _, _, _ => none
  | n + 1, id, a, w =>
    (withLock a.locker fun l =>
      AtomicTaggedContainer.GetByTag n id { a with locker := l } w).map
      fun x => (x.1, { x.2.1 with locker := x.2.2 })

/-- Source: `AtomicTaggedContainer.MustGetByTag`; its body is `return a.MustGetByTag(id)`. -/
def AtomicTaggedContainer.MustGetByTag {W α : Type} :
    Nat → String → AtomicTaggedContainer W α → W →
      Option ((TagOutcome α × W) × AtomicTaggedContainer W α)
  | 0, _, _, _ => none
  | n + 1, id, a, w =>
    (withLock a.locker fun l =>
      AtomicTaggedContainer.MustGetByTag n id { a with locker := l } w).map
      fun x => (x.1, { x.2.1 with locker := x.2.2 })

/-- Source: `AtomicTaggedContainer.TagService`; its body is `return a.TagService(id, tag,
priority)`. -/
def AtomicTaggedContainer.TagService {W α : Type} :
    Nat → String → String → Int → AtomicTaggedContainer W α →
      Option (Option GoError × AtomicTaggedContainer W α)
  | 0, _, _, _, _ => none
  | n + 1, id, tag, priority, a =>
    (withLock a.locker fun l =>
      AtomicTaggedContainer.TagService n id tag priority { a with locker := l }).map
      fun x => (x.1, { x.2.1 with locker := x.2.2 })

/-- Source: `AtomicTaggedContainer.OverrideTagService`; its body is
`a.OverrideTagService(id, tag, priority)`. -/
def AtomicTaggedContainer.OverrideTagService {W α : Type} :
    Nat → String → String → Int → AtomicTaggedContainer W α →
      Option (Unit × AtomicTaggedContainer W α)
  | 0, _, _, _, _ => none
  | n + 1, id, tag, priority, a =>
    (withLock a.locker fun l =>
      AtomicTaggedContainer.OverrideTagService n id tag priority { a with locker := l }).map
      fun x => (x.1, { x.2.1 with locker := x.2.2 })

/-- Source: `AtomicTaggedContainer.IsTaggedBy`; its body is
`return a.container.IsTaggedBy(id, tag)`. -/
def AtomicTaggedContainer.IsTaggedBy {W α : Type} (id tag : String)
    (a : AtomicTaggedContainer W α) : Option (Bool × AtomicTaggedContainer W α) :=
  (withLock a.locker fun _ => some (a.container.IsTaggedBy id tag, a.container)).map
    fun x => (x.1, ⟨x.2.1, x.2.2⟩)

end container

namespace reflect

/-! ## Package `reflect`: convert.go -/

/-- Source: `reflect.Kind` of the Go library. -/
inductive Kind where
  | Invalid | Bool | Int | Int8 | Int16 | Int32 | Int64 | Uint | Uint8 | Uint16 | Uint32
  | Uint64 | Uintptr | Float32 | Float64 | Complex64 | Complex128 | Array | Chan | Func
  | Interface | Map | Ptr | Slice | String | Struct | UnsafePointer
  deriving DecidableEq, Repr

/-- Source: `reflect.Kind.String` of the Go library. -/
def kindString : Kind → String
  | .Invalid => "invalid" | .Bool => "bool" | .Int => "int" | .Int8 => "int8"
  | .Int16 => "int16" | .Int32 => "int32" | .Int64 => "int64" | .Uint => "uint"
  | .Uint8 => "uint8" | .Uint16 => "uint16" | .Uint32 => "uint32" | .Uint64 => "uint64"
  | .Uintptr => "uintptr" | .Float32 => "float32" | .Float64 => "float64"
  | .Complex64 => "complex64" | .Complex128 => "complex128" | .Array => "array"
  | .Chan => "chan" | .Func => "func" | .Interface => "interface" | .Map => "map"
  | .Ptr => "ptr" | .Slice => "slice" | .String => "string" | .Struct => "struct"
  | .UnsafePointer => "unsafe.Pointer"

/-- What the code reads of the element type of a slice or array type: `Elem().PkgPath()` and
`Elem().Kind()`. -/
structure ElemType where
  pkgPath : String
  kind : Kind
  deriving DecidableEq, Repr

/-- A `reflect.Type` as far as the code looks at it: `String()` (which is also what the `%T`
verb prints), `PkgPath()` (empty for a predeclared or unnamed type), `Kind()`, and `Elem()` for
a slice or array type. -/
structure GoType where
  name : String
  pkgPath : String
  kind : Kind
  elem : Option ElemType
  deriving DecidableEq, Repr

/-- The predeclared type `int`. -/
def intType : GoType := ⟨"int", "", .Int, none⟩

/-- Source: `isNilable`. -/
def isNilable (k : Kind) : Bool :=
  match k with
  | .Chan | .Func | .Map | .Ptr | .UnsafePointer | .Interface | .Slice => true
  | _ => false

/-- Source: `Convert`. The result is the pair `(reflect.Value, error)`, with `none` for the
invalid `reflect.Value{}`. A nil `value` is decided here (lines 22-27); `zero` is
`reflect.Zero`. For a non-nil `value` the function rests on `ConvertibleTo` and `Convert` of the
Go library, so that part (lines 28-42) is the parameter `convert`. -/
def Convert {V : Type} (zero : GoType → V)
    (convert : V → GoType → Option V × Option container.GoError) (value : Option V)
    (toType : GoType) : Option V × Option container.GoError :=
  match value with
  | none =>
    if isNilable toType.kind then (some (zero toType), none)
    else (none, some (container.plainErr ("cannot cast `<nil>` to `" ++ toType.name ++ "`")))
  | some v => convert v toType

end reflect

namespace setter

/-! ## Package `setter`: set.go -/

/-- The `reflect.Value` of the argument `strct` of `Set` and what `Elem` reaches from it:
`invalid` is the zero `reflect.Value` (of a nil interface, or behind a nil pointer), a struct is
the list of its fields with their types and values, `other` is a value of any other kind. `V`
is the type of the field values. -/
inductive Value (V : Type) where
  | invalid
  | strct (type : reflect.GoType) (fields : List (String × reflect.GoType × V))
  | ptr (type : reflect.GoType) (elem : Value V)
  | iface (type : reflect.GoType) (elem : Value V)
  | other (type : reflect.GoType)
  deriving DecidableEq

/-- Source: `reflect.Value.Kind`. -/
def Value.Kind {V : Type} : Value V → reflect.Kind
  | .invalid => .Invalid
  | .strct _ _ => .Struct
  | .ptr _ _ => .Ptr
  | .iface _ _ => .Interface
  | .other t => t.kind

/-- Rendering of the value under the `%T` verb. -/
def Value.typeString {V : Type} : Value V → String
  | .invalid => "<nil>"
  | .strct t _ => t.name
  | .ptr t _ => t.name
  | .iface t _ => t.name
  | .other t => t.name

/-- The value reached by `n` calls of `Elem`. -/
def Value.elems {V : Type} : Nat → Value V → Value V
  | 0, v => v
  | n + 1, .ptr _ e => Value.elems n e
  | n + 1, .iface _ e => Value.elems n e
  | _ + 1, _ => .invalid

/-- The value with what `n` calls of `Elem` reach replaced by `x`: the effect of a write through
the pointers. -/
def Value.assign {V : Type} : Nat → Value V → Value V → Value V
  | 0, _, x => x
  | n + 1, .ptr t e, x => .ptr t (Value.assign n e x)
  | n + 1, .iface t e, x => .iface t (Value.assign n e x)
  | _ + 1, v, _ => v

/-- Source: `valueToKindChain`. -/
def valueToKindChain {V : Type} : Value V → List reflect.Kind
  | .ptr _ e => .Ptr :: valueToKindChain e
  | .iface _ e => .Interface :: valueToKindChain e
  | v => [v.Kind]

/-- Source: `kindChain.equalTo`. -/
def equalTo (c kinds : List reflect.Kind) : Bool :=
  c.length == kinds.length && (List.zipWith (fun a b => decide (a = b)) c kinds).all id

/-- Source: `kindChain.isInterfaceOverPointerChain`. -/
def isInterfaceOverPointerChain (c : List reflect.Kind) : Bool :=
  if c.length < 4 then false
  else if c.head? ≠ some .Ptr then false
  else if c.get? 1 ≠ some .Interface then false
  else if c.getLast? ≠ some .Struct then false
  else ((c.take (c.length - 1)).drop 2).all fun curr => decide (curr = .Ptr)

/-- Source: `kindChain.String`. -/
def chainString (c : List reflect.Kind) : String :=
  ".".intercalate (c.map reflect.kindString)

/-- Source: `set`, on the struct `strct`; the result is the error and the struct after the call.
`none` is the panic of `FieldByName` on a value that is not a struct. -/
def set {V : Type} (zero : reflect.GoType → V)
    (convert : V → reflect.GoType → Option V × Option container.GoError) (strct : Value V)
    (field : String) (val : Option V) : Option (Option container.GoError × Value V) :=
  match strct with
  | .strct t fields =>
    match container.mapGet fields field with
    | none => some (some (container.plainErr ("field `" ++ field ++ "` does not exist")), strct)
    | some f =>
      match reflect.Convert zero convert val f.1 with
      | (some v, none) => some (none, .strct t (container.mapSet fields field (f.1, v)))
      | (_, some err) => some (some err, strct)
      | (none, none) => none
  | _ => none

/-- The loop of `Set` that removes the leading duplicate `Ptr` elements: the rest of the chain
and the number of `Elem` calls made on `reflectVal`. -/
def stripPtrs : List reflect.Kind → List reflect.Kind × Nat
  | .Ptr :: .Ptr :: rest => ((stripPtrs (.Ptr :: rest)).1, (stripPtrs (.Ptr :: rest)).2 + 1)
  | chain => (chain, 0)

/-- The closure `wrap` of `Set`. -/
def wrap {V : Type} (strct : Value V) (field : String) (err : Option container.GoError) :
    Option container.GoError :=
  match err with
  | none => none
  | some e => some (container.plainErr
      ("set `" ++ strct.typeString ++ "`.`" ++ field ++ "`: " ++ e.msg))

/-- Source: `Set`. The result is the error and the value of `strct` after the call; `none` is a
panic. In each of the three accepted shapes of the chain the struct sits `depth` calls of `Elem`
below `strct`, and `set` writes to it in place (in the third shape to a copy that is written
back when `set` succeeded). -/
def Set {V : Type} (zero : reflect.GoType → V)
    (convert : V → reflect.GoType → Option V × Option container.GoError) (strct : Value V)
    (field : String) (val : Option V) : Option (Option container.GoError × Value V) :=
  let stripped := stripPtrs (valueToKindChain strct)
  let chain := stripped.1
  let setOn := fun (depth : Nat) =>
    match set zero convert (strct.elems depth) field val with
    | none => none
    | some (none, s) => some (none, strct.assign depth s)
    | some (some err, _) => some (wrap strct field (some err), strct)
  if equalTo chain [.Ptr, .Struct] then setOn (stripped.2 + 1)
  else if isInterfaceOverPointerChain chain then setOn (stripped.2 + 1 + (chain.length - 2))
  else if equalTo chain [.Ptr, .Interface, .Struct] then setOn (stripped.2 + 2)
  else some (some (container.plainErr
    ("invalid parameter, setter.Set expects pointer to struct, " ++ chainString chain ++
      " given")), strct)

/-- Source: `MustSet`; `inr` is the value handed to `panic`. -/
def MustSet {V : Type} (zero : reflect.GoType → V)
    (convert : V → reflect.GoType → Option V × Option container.GoError) (strct : Value V)
    (field : String) (val : Option V) : Option (Value V ⊕ String) :=
  match Set zero convert strct field val with
  | none => none
  | some (none, s) => some (.inl s)
  | some (some err, _) => some (.inr ("cannot set field `" ++ field ++ "`: " ++ err.msg))

/-! ### The struct of the doc comment of `Set` -/

/-- The struct `a` of the example in the doc comment of `Set`: `struct { val int }{}`, with
integers as field values. -/
def exampleStruct : Value Int :=
  .strct ⟨"struct \x7b val int \x7d", "", .Struct, none⟩ [("val", reflect.intType, 0)]

/-- The argument `&a` of that example. -/
def exampleStructPtr : Value Int :=
  .ptr ⟨"*struct \x7b val int \x7d", "", .Ptr, none⟩ exampleStruct

/-- Source: `reflect.Zero` on the types of that example: the zero value of `int`. -/
def exampleZero (_ : reflect.GoType) : Int := 0

/-- Conversion of a non-nil value for that example, where every value is an `int` already. -/
def exampleConvert (v : Int) (_ : reflect.GoType) : Option Int × Option container.GoError :=
  (some v, none)

end setter

namespace exporters

/-! ## Package `exporters`: exporters.go -/

/-- A value handed to an exporter as `interface{}`: `nil`, or a value with its dynamic type.
A number carries the text that `fmt` prints for it (verb `%d`, for a float `%#v`), a string the
text of the verb `%+q`; `seq` is a slice or an array with its elements as `Index(j).Interface()`
yields them, and the text that `%+q` prints for it (read for a `[]byte` only). -/
inductive Value where
  | nil
  | bool (type : reflect.GoType) (b : Bool)
  | num (type : reflect.GoType) (shown : String)
  | str (type : reflect.GoType) (quoted : String)
  | seq (type : reflect.GoType) (items : List Value) (quoted : String)
  | other (type : reflect.GoType)

/-- Source: `reflect.TypeOf`; `none` is the nil type of a nil interface. -/
def Value.type : Value → Option reflect.GoType
  | .nil => none
  | .bool t _ => some t
  | .num t _ => some t
  | .str t _ => some t
  | .seq t _ _ => some t
  | .other t => some t

/-- Rendering of the value under the `%T` verb. -/
def Value.typeString (v : Value) : String :=
  match v.type with
  | none => "<nil>"
  | some t => t.name

/-- The predeclared type `bool`. -/
def boolType : reflect.GoType := ⟨"bool", "", .Bool, none⟩

/-- The predeclared type `string`. -/
def stringType : reflect.GoType := ⟨"string", "", .String, none⟩

/-- The type `[]byte`. -/
def bytesType : reflect.GoType := ⟨"[]uint8", "", .Slice, some ⟨"", .Uint8⟩⟩

/-- The pair `(string, error)` an exporter returns; `none` where the model has no answer: the
recursion of the default exporter ran out of fuel, or an exporter was applied to a value it
does not support and reads what such a value does not have. -/
abbrev Exported := Option (String × Option container.GoError)

/-- Source: interface `SubExporter`. -/
structure SubExporter where
  Export : Value → Exported
  Supports : Value → Bool

/-- Source: `ChainExporter.Export`. -/
def ChainExporter.Export (exporters : List SubExporter) (v : Value) : Exported :=
  match exporters.find? fun e => e.Supports v with
  | some e => e.Export v
  | none => some ("", some (container.plainErr
      ("parameter of type `" ++ v.typeString ++ "` is not supported")))

/-- Source: `BoolExporter.Export`; `v == true` holds for the value `true` of type `bool`. -/
def BoolExporter.Export (v : Value) : Exported :=
  match v with
  | .bool t true => if t = boolType then some ("true", none) else some ("false", none)
  | _ => some ("false", none)

/-- Source: `BoolExporter.Supports`, the type assertion `v.(bool)`. -/
def BoolExporter.Supports (v : Value) : Bool :=
  decide (v.type = some boolType)

/-- Source: `NilExporter.Export`. -/
def NilExporter.Export (_ : Value) : Exported :=
  some ("nil", none)

/-- Source: `NilExporter.Supports`. -/
def NilExporter.Supports (v : Value) : Bool :=
  match v with
  | .nil => true
  | _ => false

/-- Source: `NumericExporter.Export`. -/
def NumericExporter.Export (ExplicitType : Bool) (v : Value) : Exported :=
  match v with
  | .num t sv =>
    if ExplicitType then some (reflect.kindString t.kind ++ "(" ++ sv ++ ")", none)
    else some (sv, none)
  | _ => none

/-- Source: `NumericExporter.Supports`. -/
def NumericExporter.Supports (v : Value) : Bool :=
  match v.type with
  | none => false
  | some t =>
    if t.pkgPath ≠ "" then false
    else match t.kind with
      | .Int | .Int8 | .Int16 | .Int32 | .Int64 | .Uint | .Uint8 | .Uint16 | .Uint32
      | .Uint64 | .Float32 | .Float64 => true
      | _ => false

/-- Source: `StringExporter.Export`. -/
def StringExporter.Export (v : Value) : Exported :=
  match v with
  | .str _ quoted => some (quoted, none)
  | .seq _ _ quoted => some (quoted, none)
  | _ => none

/-- Source: `StringExporter.Supports`, the type assertion `v.(string)`. -/
def StringExporter.Supports (v : Value) : Bool :=
  decide (v.type = some stringType)

/-- Source: `BytesExporter.Export`. -/
def BytesExporter.Export (v : Value) : Exported :=
  match StringExporter.Export v with
  | none => none
  | some (s, _) => some ("[]byte(" ++ s ++ ")", none)

/-- Source: `BytesExporter.Supports`, the type assertion `v.([]byte)`. -/
def BytesExporter.Supports (v : Value) : Bool :=
  decide (v.type = some bytesType)

/-- The loop of the two slice exporters over the elements from index `j` on: the exported
parts, or the index and the error of the first element that fails. -/
def exportParts (exporter : Value → Exported) :
    Nat → List Value → Option (List String ⊕ (Nat × container.GoError))
  | _, [] => some (.inl [])
  | j, v :: vs =>
    match exporter v with
    | none => none
    | some (_, some err) => some (.inr (j, err))
    | some (part, none) =>
      match exportParts exporter (j + 1) vs with
      | none => none
      | some (.inr e) => some (.inr e)
      | some (.inl parts) => some (.inl (part :: parts))

/-- Source: `InterfaceSliceExporter.Export`. -/
def InterfaceSliceExporter.Export (exporter : Value → Exported) (v : Value) : Exported :=
  match v with
  | .seq t items _ =>
    if t.kind = .Slice ∧ items.length = 0 then some ("make([]interface\x7b\x7d, 0)", none)
    else
      match exportParts exporter 0 items with
      | none => none
      | some (.inr (j, err)) => some ("", some (container.plainErr
          ("cannot export elem " ++ toString j ++ " of " ++ reflect.kindString t.kind ++ ": " ++
            err.msg)))
      | some (.inl parts) =>
        let pre := if t.kind = .Array then "[" ++ toString items.length ++ "]interface\x7b\x7d"
          else "[]interface\x7b\x7d"
        some (pre ++ "\x7b" ++ ", ".intercalate parts ++ "\x7d", none)
  | _ => none

/-- Source: `InterfaceSliceExporter.Supports`. -/
def InterfaceSliceExporter.Supports (v : Value) : Bool :=
  match v.type with
  | none => false
  | some t =>
    t.pkgPath = "" && (t.kind = .Slice || t.kind = .Array) &&
      (match t.elem with
        | some e => decide (e.kind = .Interface)
        | none => false)

/-- Source: `PrimitiveTypeSliceExporter.Export`. -/
def PrimitiveTypeSliceExporter.Export (exporter : Value → Exported) (v : Value) : Exported :=
  match v with
  | .seq t items _ =>
    match t.elem with
    | none => none
    | some e =>
      if t.kind = .Slice ∧ items.length = 0 then
        some ("make([]" ++ reflect.kindString e.kind ++ ", 0)", none)
      else
        match exportParts exporter 0 items with
        | none => none
        | some (.inr (i, err)) => some ("", some (container.plainErr
            ("unexpected err when exporting elem " ++ toString i ++ ": " ++ err.msg)))
        | some (.inl parts) =>
          let pre := if t.kind = .Array then "[" ++ toString items.length ++ "]" else "[]"
          some (pre ++ reflect.kindString e.kind ++ "\x7b" ++ ", ".intercalate parts ++ "\x7d", none)
  | _ => none

/-- Source: `PrimitiveTypeSliceExporter.Supports`. -/
def PrimitiveTypeSliceExporter.Supports (v : Value) : Bool :=
  match v.type with
  | none => false
  | some t =>
    if t.kind ≠ .Slice ∧ t.kind ≠ .Array then false
    else match t.elem with
      | none => false
      | some e =>
        if e.pkgPath ≠ "" then false
        else match e.kind with
          | .Bool | .Int | .Int8 | .Int16 | .Int32 | .Int64 | .Uint | .Uint8 | .Uint16
          | .Uint32 | .Uint64 | .Float32 | .Float64 | .String => true
          | _ => false

/-- Source: `NewDefaultExporter`. The two slice exporters hold the chain itself as their
`exporter`, so the chain is defined by recursion on a fuel argument. -/
def NewDefaultExporter : Nat → Value → Exported
  | 0, _ => none
  | n + 1, v => ChainExporter.Export
      [⟨BoolExporter.Export, BoolExporter.Supports⟩,
       ⟨NilExporter.Export, NilExporter.Supports⟩,
       ⟨NumericExporter.Export true, NumericExporter.Supports⟩,
       ⟨StringExporter.Export, StringExporter.Supports⟩,
       ⟨BytesExporter.Export, BytesExporter.Supports⟩,
       ⟨InterfaceSliceExporter.Export (NewDefaultExporter n), InterfaceSliceExporter.Supports⟩,
       ⟨PrimitiveTypeSliceExporter.Export (NewDefaultExporter n),
         PrimitiveTypeSliceExporter.Supports⟩] v

/-- Source: `Export`, the call `defaultExporter.Export(i)`. -/
def Export (fuel : Nat) (i : Value) : Exported :=
  NewDefaultExporter fuel i

/-! ### The values of `exporters_test.go` -/

/-- The type `myString` of the test file. -/
def myString : reflect.GoType :=
  ⟨"exporters.myString", "github.com/gomponents/gontainer-helpers/exporters", .String, none⟩

/-- The type `myInt` of the test file. -/
def myInt : reflect.GoType :=
  ⟨"exporters.myInt", "github.com/gomponents/gontainer-helpers/exporters", .Int, none⟩

/-- The type `myBool` of the test file. -/
def myBool : reflect.GoType :=
  ⟨"exporters.myBool", "github.com/gomponents/gontainer-helpers/exporters", .Bool, none⟩

/-- A named slice type declared next to them: `type myInts []int`. -/
def myInts : reflect.GoType :=
  ⟨"exporters.myInts", "github.com/gomponents/gontainer-helpers/exporters", .Slice,
    some ⟨"", .Int⟩⟩

/-- The value `myInts{1, 2}`. -/
def myIntsValue : Value :=
  .seq myInts [.num reflect.intType "1", .num reflect.intType "2"] "['\\x01' '\\x02']"

end exporters

namespace container

/-! ## The object graphs of `container_test.go` -/

/-- Service values of the test suite. -/
inductive Val where
  | unit
  | absent
  | holder (inner : Val)
  | transaction (id : Nat)
  | userRepo (transaction : Val)
  | itemRepo (transaction : Val)
  | purchaseService (userRepo itemRepo : Val)
  deriving DecidableEq, Repr

/-- Provider that fetches `dep` with `Get`, hands a nested error back unchanged, and
otherwise wraps the dependency (the providers of `company`, `employer`, `management`). -/
def relayProvider (dep : String) : Provider Nat Val :=
  .get dep fun v e =>
    match e with
    | some err => .ret none (some err)
    | none => .ret (some (.holder (v.getD .absent))) none

/-- Container of the test "Given circular dependency", decorator included. -/
def circularContainer : Container Nat Val :=
  (((((NewContainer []).Override "company" ⟨relayProvider "employer", .ScopeShared⟩).Override
    "employer" ⟨relayProvider "company", .ScopeShared⟩).Override
    "management" ⟨relayProvider "company", .ScopeShared⟩).Override
    "db" ⟨.ret (some .unit) none, .ScopeShared⟩).Override
    "holding" ⟨.ret (some .unit) none, .ScopeShared⟩
  |>.RegisterDecorator fun s i =>
    if s = "holding" then
      .get "company" fun _ err =>
        match err with
        | some err => .ret none (some err)
        | none => .ret i none
    else .ret i none

/-- Provider of `transaction` in the test "Given scope": `transactionID++`, then a new
transaction with that number. -/
def transactionProvider : Provider Nat Val :=
  .modify (· + 1) (.read fun n => .ret (some (.transaction n)) none)

/-- Provider of `userRepo`: `c.MustGet("transaction").(*transaction)`. -/
def userRepoProvider : Provider Nat Val :=
  MustGet "transaction" fun (t : Option Val) =>
    match t with
    | some (.transaction n) => .ret (some (.userRepo (.transaction n))) none
    | _ => .panic (.value "interface conversion")

/-- Provider of `itemRepo`: `c.MustGet("transaction").(*transaction)`. -/
def itemRepoProvider : Provider Nat Val :=
  MustGet "transaction" fun (t : Option Val) =>
    match t with
    | some (.transaction n) => .ret (some (.itemRepo (.transaction n))) none
    | _ => .panic (.value "interface conversion")

/-- Provider of `purchaseService`: `MustGet("userRepo")`, then `MustGet("itemRepo")`. -/
def purchaseServiceProvider : Provider Nat Val :=
  MustGet "userRepo" fun (u : Option Val) =>
    match u with
    | some (.userRepo ut) =>
      MustGet "itemRepo" fun (i : Option Val) =>
        match i with
        | some (.itemRepo it) => .ret (some (.purchaseService (.userRepo ut) (.itemRepo it))) none
        | _ => .panic (.value "interface conversion")
    | _ => .panic (.value "interface conversion")

/-- Container built by `newContainer(s)` of the test "Given scope"; the captured variable
is `transactionID`. -/
def scopeContainer (s : Scope) : Container Nat Val :=
  ((((NewContainer []).Override "transaction" ⟨transactionProvider, s⟩).Override
    "userRepo" ⟨userRepoProvider, s⟩).Override
    "itemRepo" ⟨itemRepoProvider, s⟩).Override "purchaseService" ⟨purchaseServiceProvider, s⟩

/-- World of a freshly built container. -/
def World.init {σ α : Type} (c : Container σ α) (env : σ) : World σ α := ⟨c, env, []⟩

/-- Results of `n` successive top-level `Get(id)` calls, with the final world. -/
def getTimes {σ α : Type} (fuel : Nat) (id : String) :
    Nat → World σ α → Option (List (GetResult α) × World σ α)
  | 0, w => some ([], w)
  | n + 1, w =>
    match Get fuel id w with
    | none => none
    | some (r, w') => (getTimes fuel id n w').map fun p => (r :: p.1, p.2)



/-- Parameter provider `return circularContainer.GetParam(d)`. -/
def paramRelay (d : String) : ParamProg Unit Val :=
  .getParam d fun v e => .ret v e

/-- The `circularContainer` of `param_container_test.go`. -/
def circularParamContainer : ParamContainer Unit Val :=
  (((NewParamContainer []).OverrideParam "username" ⟨paramRelay "nickname", false⟩).OverrideParam
    "nickname" ⟨paramRelay "name", false⟩).OverrideParam "name" ⟨paramRelay "username", false⟩

/-- Provider that fetches `dep` with `MustGet` and wraps it. -/
def mustProvider (dep : String) : Provider Nat Val :=
  MustGet dep fun v => .ret (some (.holder (v.getD .absent))) none

/-- Container with the cycle `company -> employer -> company` in which both providers use
`MustGet`, so the nested error surfaces as a panic. -/
def mustCycleContainer : Container Nat Val :=
  ((NewContainer []).Override "company" ⟨mustProvider "employer", .ScopeShared⟩).Override
    "employer" ⟨mustProvider "company", .ScopeShared⟩

/-- World in the middle of a resolution: `employer` is being built for `company`, itself being
built for `management`. -/
def midResolution : World Nat Val :=
  ⟨{ circularContainer with
      circularDeps := ⟨["management", "company", "employer"]⟩
      cacheNestedShared := some [] }, 0, []⟩

/-- Container with a provider that fails (`broken`), and a service (`spoiled`) whose second
decorator fails; the first and the third decorator hand the value on. -/
def failingContainer : Container Nat Val :=
  ((((NewContainer []).Override "broken" ⟨.ret none (some (plainErr "todo")), .ScopeShared⟩).Override
    "spoiled" ⟨.ret (some .unit) none, .ScopeShared⟩).RegisterDecorator
      (fun _ i => .ret i none)).RegisterDecorator
      (fun s i => if s = "spoiled" then .ret none (some (plainErr "bad")) else .ret i none)
  |>.RegisterDecorator fun _ i => .ret i none

/-- Decorator given by a function of the id and the value, without access to the container
(the `Decorator` of the data model: a pure transform). -/
def pureDecorator {σ α : Type} (f : String → Option α → Option α) : Decorator σ α :=
  fun id v => .ret (f id v) none

/-- The value `dn(id, ... d2(id, d1(id, p)) ...)` for the functions `fs = [d1, ..., dn]`. -/
def applyAll {α : Type} (fs : List (String → Option α → Option α)) (id : String)
    (p : Option α) : Option α :=
  fs.foldl (fun acc f => f id acc) p

/-- Trace entries of a run of `k` decorators on `id`, the first at index `i`. -/
def decoratorEvents (id : String) (i k : Nat) : List Event :=
  (List.range' i k).map fun j => .decorator j id

/-- Container with two decorators, registered in the order `markUser`, `markItem`:
they wrap every value into a `userRepo`, then into an `itemRepo`. -/
def decoratedContainer (s : Scope) : Container Nat Val :=
  (((NewContainer []).Override "db" ⟨.ret (some .unit) none, s⟩).RegisterDecorator
    (pureDecorator fun _ v => v.map .userRepo)).RegisterDecorator
    (pureDecorator fun _ v => v.map .itemRepo)

/-- World of `scopeContainer` with scope `ScopeShared` after a first top-level
`Get("transaction")`: the registry holds transaction 1 as the created instance. -/
def cachedTransaction : World Nat Val :=
  ((Get 10 "transaction" (World.init (scopeContainer .ScopeShared) 0)).map fun x => x.2).getD
    (World.init (scopeContainer .ScopeShared) 0)

/-- Container with a provider that panics with the value `p` (`boom`), and a service
(`painted`) on which the only decorator panics with `p` after its provider returned a value. -/
def panickingContainer : Container Nat Val :=
  (((NewContainer []).Override "boom" ⟨.panic (.value "p"), .ScopeShared⟩).Override
    "painted" ⟨.ret (some .unit) none, .ScopeShared⟩).RegisterDecorator
      fun s i => if s = "painted" then .panic (.value "p") else .ret i none

/-- Wrapped container that returns the id itself as the service and records, in its state,
the ids it was asked for. -/
def recordingGet (id : String) (log : List String) : Option (GetResult String × List String) :=
  some ((some id, none), log ++ [id])

/-- Tagged container of the test "Given scenario": `foobar`, `foo` and `bar` tagged `foos`
with the priorities 300, 30 and 500, in that order. -/
def scenarioTagged : TaggedContainer (List String) String :=
  ((((NewTaggedContainer recordingGet).TagService "foobar" "foos" 300).2.TagService
    "foo" "foos" 30).2.TagService "bar" "foos" 500).2

/-- Tagged container in which `first`, then `second`, are tagged `repo` with the same
priority 0. -/
def tiedTagged : TaggedContainer (List String) String :=
  (((NewTaggedContainer recordingGet).TagService "first" "repo" 0).2.TagService
    "second" "repo" 0).2

/-- Wrapped container of the tests of `tagged_container_test.go`: `mockContainer`, whose `Get`
returns the same service and the same error for every id. -/
def mockContainer (service : Option Val) (error : Option GoError) (_ : String) (w : Unit) :
    Option (GetResult Val × Unit) :=
  some ((service, error), w)

/-- Wrapped container that records the ids it is asked for and fails on the id `bad` with the
error `boom`. -/
def failingGet (bad : String) (id : String) (log : List String) :
    Option (GetResult String × List String) :=
  if id = bad then some ((none, some (plainErr "boom")), log ++ [id])
  else some ((some id, none), log ++ [id])

/-- Parameter container of the test on `db.host`, with a provider that returns the value
`unit` together with the error `todo`. -/
def valueWithError : ParamContainer Unit Val :=
  NewParamContainer [("db.host", ⟨.ret (some .unit) (some (plainErr "todo")), false⟩)]

/-- Provider of a parameter that counts its invocations: it increments the captured counter
and returns its new value as a transaction. -/
def countingParam : ParamProg Nat Val :=
  .modify (· + 1) (.read fun n => .ret (some (.transaction n)) none)

/-- Parameter container with the counting provider under `kept` (not disposable) and under
`fresh` (disposable). -/
def countingParams : ParamContainer Nat Val :=
  NewParamContainer [("kept", ⟨countingParam, false⟩), ("fresh", ⟨countingParam, true⟩)]

/-- Container of `TestAtomicContainer_NestedLock`, built by `registerNested`: `foo` yields a
value and the provider of `alias` is `return c.Get("foo")`, where `c` is the container the
closures were given. -/
def nestedContainer : Container Unit Val :=
  ((NewContainer []).Override "foo" ⟨.ret (some .unit) none, .ScopeShared⟩).Override
    "alias" ⟨.get "foo" fun v e => .ret v e, .ScopeShared⟩

/-- Container in which `x` is registered with `ScopeNestedShared` and the provider of `root`
calls `Get("x")`, then `Override("x", ...)` with the same provider and the scope `s`, and
returns what a second `Get("x")` returns. -/
def staleContainer (s : Scope) : Container Nat Val :=
  ((NewContainer []).Override "x" ⟨transactionProvider, .ScopeNestedShared⟩).Override "root"
    ⟨.get "x" fun _ _ => .override "x" transactionProvider s (.get "x" fun v e => .ret v e),
      .ScopeNonShared⟩

/-- Container in which `x` is registered with `ScopeNestedShared`, the only decorator fails on
`x` while the captured counter is 1 (on the first build of `x`), and the provider of `root`
calls `Get("x")` twice and returns what the second call returns. -/
def retryContainer : Container Nat Val :=
  (((NewContainer []).Override "x" ⟨transactionProvider, .ScopeNestedShared⟩).Override "root"
    ⟨.get "x" fun _ _ => .get "x" fun v e => .ret v e, .ScopeNestedShared⟩).RegisterDecorator
    fun s v =>
      if s = "x" then
        .read fun n => if n = 1 then .ret none (some (plainErr "not yet")) else .ret v none
      else .ret v none

/-- World in which the provider of `root`, run by a top-level `Get("root")` on
`staleContainer s`, issues its second `Get("x")`: `root` is under construction, `x` has just
been overridden with the scope `s`, and the nested cache holds the transaction 1 built by the
first `Get("x")`. -/
def staleWorld (s : Scope) : World Nat Val :=
  ⟨{ (staleContainer s).Override "x" ⟨transactionProvider, s⟩ with
      circularDeps := ⟨["root"]⟩
      cacheNestedShared := some [("x", some (.transaction 1))] }, 1,
    [.cacheCreated 1, .provider "root", .provider "x", .built "x"]⟩

/-! ## Predicates used by the statements -/


/-- The closure calls the container only through `Get`, `MustGet` and `Has` (besides using its
captured variables): it never registers, overrides, revokes or removes anything. -/
def Prog.GetOnly {σ α : Type} : Prog σ α → Prop
  | .ret _ _ => True
  | .panic _ => True
  | .get _ k => ∀ v e, (k v e).GetOnly
  | .has _ k => ∀ b, (k b).GetOnly
  | .register _ _ _ _ => False
  | .override _ _ _ _ => False
  | .revoke _ _ => False
  | .remove _ _ => False
  | .registerDecorator _ _ => False
  | .read k => ∀ s, (k s).GetOnly
  | .modify _ k => k.GetOnly

/-- Every provider and decorator of the container is `GetOnly`. -/
def Container.GetOnly {σ α : Type} (c : Container σ α) : Prop :=
  (∀ id m, mapGet c.services id = some m → m.definition.Provider.GetOnly) ∧
    ∀ d ∈ c.decorators, ∀ id v, (d id v).GetOnly

/-- One call of a mutating method of the container, from `c` to `c'`. -/
inductive MutStep {σ α : Type} (c : Container σ α) : Container σ α → Prop where
  | register (id : String) (s : ServiceDefinition σ α) : MutStep c (c.Register id s).2
  | override (id : String) (s : ServiceDefinition σ α) : MutStep c (c.Override id s)
  | revoke (id : String) : MutStep c (c.Revoke id).2
  | remove (id : String) : MutStep c (c.Remove id).2
  | registerDecorator (d : Decorator σ α) : MutStep c (c.RegisterDecorator d)

/-- Lookup in the `cacheNestedShared` map; `none` when the map is nil or has no such key. -/
def Container.cacheGet {σ α : Type} (c : Container σ α) (id : String) : Option (Option α) :=
  c.cacheNestedShared.bind fun cache => mapGet cache id

/-- World in which `Get(id)`, called in `w`, runs the provider: `id` is on the chain and the
`cacheNestedShared` map exists. -/
def World.enter {σ α : Type} (w : World σ α) (id : String) : World σ α :=
  match w.c.cacheNestedShared with
  | none =>
    (w.withC { w.c with circularDeps := (w.c.circularDeps.start id).2, cacheNestedShared := some [] }).log
      (.cacheCreated (w.c.circularDeps.chain.length + 1))
  | some _ => w.withC { w.c with circularDeps := (w.c.circularDeps.start id).2 }

/-- What every run of `Get`, of a closure or of a mutating method keeps, whatever the closures
do: the chain, the existence of the `cacheNestedShared` map, the entries that map already
holds, its content for the ids on the chain; the trace only grows, and a map is created only
when there was none, at depth one more than the chain. -/
structure Frame {σ α : Type} (w w' : World σ α) : Prop where
  chain : w'.c.circularDeps = w.c.circularDeps
  cacheSome : w'.c.cacheNestedShared.isSome = w.c.cacheNestedShared.isSome
  cacheKeep : ∀ x v, w.c.cacheGet x = some v → w'.c.cacheGet x = some v
  onChain : ∀ x ∈ w.c.circularDeps.chain, w'.c.cacheGet x = w.c.cacheGet x
  trace : ∃ evs, w'.trace = w.trace ++ evs ∧
    ∀ n, Event.cacheCreated n ∈ evs →
      w.c.cacheNestedShared = none ∧ n = w.c.circularDeps.chain.length + 1

/-- What a run keeps when no closure of the container calls a mutating method: the closures
stay `GetOnly`, the decorators and every definition stay as they are, and the registry entry
of an id stays as it is when the id is on the chain, when it is already created, or when its
scope is not `ScopeShared`. -/
structure Stable {σ α : Type} (w w' : World σ α) : Prop where
  getOnly : w'.c.GetOnly
  decorators : w'.c.decorators = w.c.decorators
  definitions : ∀ x, (mapGet w'.c.services x).map (fun m => m.definition) =
    (mapGet w.c.services x).map (fun m => m.definition)
  onChain : ∀ x ∈ w.c.circularDeps.chain, mapGet w'.c.services x = mapGet w.c.services x
  created : ∀ x m, mapGet w.c.services x = some m → m.created = true →
    mapGet w'.c.services x = some m
  notShared : ∀ x m, mapGet w.c.services x = some m → m.definition.Scope ≠ .ScopeShared →
    mapGet w'.c.services x = some m

/-- The frame, and stability for a container whose closures are all `GetOnly`. -/
def Keeps {σ α : Type} (w w' : World σ α) : Prop :=
  Frame w w' ∧ (w.c.GetOnly → Stable w w')

/-- The provider asks for `next` with `Get`, after at most reading or assigning its captured
variables, and hands the error of that call back unchanged. -/
inductive Relays {σ α : Type} : Prog σ α → String → Prop where
  | get (next : String) (k : Option α → Option GoError → Prog σ α)
      (h : ∀ v e, ∃ v', k v (some e) = .ret v' (some e)) : Relays (.get next k) next
  | read (k : σ → Prog σ α) (next : String) (h : ∀ s, Relays (k s) next) :
      Relays (.read k) next
  | modify (f : σ → σ) (k : Prog σ α) (next : String) (h : Relays k next) :
      Relays (.modify f k) next

/-- Every id of the list is registered in `sv`, not yet created, with a provider that relays
to the next id of the list; the provider of the last id relays to `idj`. -/
def RelayChain {σ α : Type} (sv : List (String × metaServiceDefinition σ α)) :
    List String → String → Prop
  | [], _ => True
  | x :: rest, idj =>
    (∃ m, mapGet sv x = some m ∧ m.created = false ∧
      Relays m.definition.Provider (rest.headD idj)) ∧ RelayChain sv rest idj

/-- Between `w` and `w'` the instance of `x` is built at most once (the trace gains at most one
`built x`), not at all when `x` is on the chain or already in the nested cache of `w`, and once
it has been built the nested cache of `w'` holds an entry for `x`. -/
def OnceBuilt {σ α : Type} (x : String) (w w' : World σ α) : Prop :=
  ∃ evs, w'.trace = w.trace ++ evs ∧ evs.count (.built x) ≤ 1 ∧
    ((x ∈ w.c.circularDeps.chain ∨ w.c.cacheGet x ≠ none) → evs.count (.built x) = 0) ∧
    (evs.count (.built x) = 1 → w'.c.cacheGet x ≠ none)

/-- State of a nested frame for the counting of the builds of `x`: the closures are `GetOnly`,
the nested cache exists, and `x`, if registered, has scope `ScopeNestedShared`. -/
def NestedInv {σ α : Type} (x : String) (w : World σ α) : Prop :=
  w.c.GetOnly ∧ w.c.cacheNestedShared.isSome = true ∧
    ∀ m, mapGet w.c.services x = some m → m.definition.Scope = .ScopeNestedShared

/-- The relation `Keeps` together with `OnceBuilt x` inside a nested frame. -/
def KeepsOnce {σ α : Type} (x : String) (w w' : World σ α) : Prop :=
  Keeps w w' ∧ (NestedInv x w → OnceBuilt x w w')

/-- Number of registered ids that are not on the chain: the depth that a resolution started
in `w` can still reach. -/
def World.pending {σ α : Type} (w : World σ α) : Nat :=
  ((w.c.services.map Prod.fst).filter fun k => decide (k ∉ w.c.circularDeps.chain)).length

/-- The relation `Keeps`, and the same registered ids when the closures are `GetOnly`. -/
def KeepsKeys {σ α : Type} (w w' : World σ α) : Prop :=
  Keeps w w' ∧ (w.c.GetOnly → w'.c.services.map Prod.fst = w.c.services.map Prod.fst)

/-- The decorators `ds`, run in order on `id`, the first at index `i` on the value `r` in world
`w`, each on the value returned by the one before, all return a nil error and end with the
value `q` in world `w2`. -/
inductive DecoratedBy {σ α : Type}
    (getf : String → World σ α → Option (GetResult α × World σ α)) (id : String) :
    List (Decorator σ α) → Nat → Option α → World σ α → Option α → World σ α → Prop where
  | nil (i : Nat) (r : Option α) (w : World σ α) : DecoratedBy getf id [] i r w r w
  | cons (d : Decorator σ α) (ds : List (Decorator σ α)) (i : Nat) (r r' q : Option α)
      (w w1 w2 : World σ α)
      (hd : runProg getf (d id r) (w.log (.decorator i id)) = some (.returned r' none, w1))
      (hds : DecoratedBy getf id ds (i + 1) r' w1 q w2) :
      DecoratedBy getf id (d :: ds) i r w q w2

/-- Nothing is stored for `id` in world `w`: its registry entry is `m`, the nested cache has no
entry for it, and every `Get(id)` that returns from `w` has invoked the provider of `id`. -/
def NothingStored {σ α : Type} (id : String) (m : metaServiceDefinition σ α) (w : World σ α) :
    Prop :=
  mapGet w.c.services id = some m ∧ w.c.cacheGet id = none ∧
    ∀ k r w', Get k id w = some (r, w') →
      ∃ evs, w'.trace = w.trace ++ evs ∧ Event.provider id ∈ evs

/-- The function `ρ` is an order in which a `range` loop may visit the keys of a map: it
yields the keys it is given, each once, in some order. -/
def IsRange (ρ : List String → List String) : Prop :=
  ∀ l, (ρ l).Perm l

/-- Priority with which `id` is tagged `tag`: the value of `mapping[tag][id]`, if there is
one. -/
def TaggedContainer.priority {W α : Type} (b : TaggedContainer W α) (tag id : String) :
    Option Int :=
  (mapGet b.mapping tag).bind fun m => mapGet m id

/-- The wrapped `get`, called on the ids of the list in order from state `w`, returns a nil
error every time: the services are `rs`, in that order, and the final state is `w'`. -/
inductive Fetched {W α : Type} (get : String → W → Option (GetResult α × W)) :
    List String → W → List (Option α) → W → Prop where
  | nil (w : W) : Fetched get [] w [] w
  | cons (id : String) (ids : List String) (w w1 w2 : W) (r : Option α)
      (rs : List (Option α)) (hget : get id w = some ((r, none), w1))
      (hrest : Fetched get ids w1 rs w2) : Fetched get (id :: ids) w (r :: rs) w2

/-- The chain after `start` has been called on every id of the list, in order. -/
def startAll (c : circularDeps) (ids : List String) : circularDeps :=
  ids.foldl (fun c id => (c.start id).2) c

/-- The chain after `n` calls of `stop`. -/
def stopTimes (c : circularDeps) : Nat → circularDeps
  | 0 => c
  | n + 1 => stopTimes c.stop n

/-- World in which `GetParam(id)`, called in `w`, runs the provider: `id` is on the chain and
the invocation is on the trace. -/
def ParamWorld.enter {σ α : Type} (w : ParamWorld σ α) (id : String) : ParamWorld σ α :=
  { w with
    b := { w.b with circularDeps := (w.b.circularDeps.start id).2 }
    trace := w.trace ++ [.provider id] }

/-- World after the deferred `circularDeps.stop` of `GetParam`. -/
def ParamWorld.leave {σ α : Type} (w : ParamWorld σ α) : ParamWorld σ α :=
  { w with b := { w.b with circularDeps := w.b.circularDeps.stop } }

/-- Only parameters that are not disposable are recorded as created: what `NewParamContainer`
establishes and every method of `ParamContainer` keeps. -/
def ParamContainer.Sound {σ α : Type} (b : ParamContainer σ α) : Prop :=
  ∀ id m, mapGet b.params id = some m → m.created = true → m.definition.Disposable = false

/-- The parameter provider asks for `next` with `GetParam`, after at most reading or assigning
its captured variables, and hands the error of that call on unchanged: it returns it, or it
panics with it as `MustGetParam` does. -/
inductive ParamRelays {σ α : Type} : ParamProg σ α → String → Prop where
  | getParam (next : String) (k : Option α → Option GoError → ParamProg σ α)
      (h : ∀ v e, (∃ v', k v (some e) = .ret v' (some e)) ∨ k v (some e) = .panic (.error e)) :
      ParamRelays (.getParam next k) next
  | read (k : σ → ParamProg σ α) (next : String) (h : ∀ s, ParamRelays (k s) next) :
      ParamRelays (.read k) next
  | modify (f : σ → σ) (k : ParamProg σ α) (next : String) (h : ParamRelays k next) :
      ParamRelays (.modify f k) next

/-- Every id of the list is a parameter of `ps`, not yet created, with a provider that relays
to the next id of the list; the provider of the last id relays to `idj`. -/
def ParamRelayChain {σ α : Type} (ps : List (String × metaParamDefinition σ α)) :
    List String → String → Prop
  | [], _ => True
  | x :: rest, idj =>
    (∃ m, mapGet ps x = some m ∧ m.created = false ∧
      ParamRelays m.definition.Provider (rest.headD idj)) ∧ ParamRelayChain ps rest idj

/-- The closure never calls `Override`, `Revoke` or `Remove` on `id`, and neither does a closure
that it registers. -/
def Prog.Spares {σ α : Type} (id : String) : Prog σ α → Prop
  | .ret _ _ => True
  | .panic _ => True
  | .get _ k => ∀ v e, (k v e).Spares id
  | .has _ k => ∀ b, (k b).Spares id
  | .register _ p _ k => p.Spares id ∧ ∀ e, (k e).Spares id
  | .override x p _ k => x ≠ id ∧ p.Spares id ∧ k.Spares id
  | .revoke x k => x ≠ id ∧ ∀ e, (k e).Spares id
  | .remove x k => x ≠ id ∧ ∀ e, (k e).Spares id
  | .registerDecorator d k => (∀ s v, (d s v).Spares id) ∧ k.Spares id
  | .read k => ∀ s, (k s).Spares id
  | .modify _ k => k.Spares id

/-- No provider and no decorator of the container overrides, revokes or removes `id`. -/
def Container.Spares {σ α : Type} (c : Container σ α) (id : String) : Prop :=
  (∀ x m, mapGet c.services x = some m → m.definition.Provider.Spares id) ∧
    ∀ d ∈ c.decorators, ∀ s v, (d s v).Spares id

/-- The registry holds the created entry `e` for `id`, the nested cache has no entry for `id`,
and no closure of the container overrides, revokes or removes `id`. -/
def Cached {σ α : Type} (id : String) (e : metaServiceDefinition σ α) (w : World σ α) : Prop :=
  w.c.Spares id ∧ mapGet w.c.services id = some e ∧ w.c.cacheGet id = none

/-- World `w'` is reached from `w` by calls on the container among which there is no
`Override`, `Revoke` or `Remove` of `id`: calls of `Get` (of any id, with whatever the closures
do), calls of `Register` and `RegisterDecorator`, calls of `Override`, `Revoke` and `Remove` on
other ids, and assignments to the captured variables; the closures handed to the container do
not override, revoke or remove `id` either. -/
inductive Later {σ α : Type} (id : String) : World σ α → World σ α → Prop where
  | refl (w : World σ α) : Later id w w
  | get (w w1 w2 : World σ α) (n : Nat) (x : String) (r : GetResult α) (h : Later id w w1)
      (hget : Get n x w1 = some (r, w2)) : Later id w w2
  | register (w w1 : World σ α) (x : String) (s : ServiceDefinition σ α) (h : Later id w w1)
      (hs : s.Provider.Spares id) : Later id w (w1.withC (w1.c.Register x s).2)
  | override (w w1 : World σ α) (x : String) (s : ServiceDefinition σ α) (h : Later id w w1)
      (hx : x ≠ id) (hs : s.Provider.Spares id) : Later id w (w1.withC (w1.c.Override x s))
  | revoke (w w1 : World σ α) (x : String) (h : Later id w w1) (hx : x ≠ id) :
      Later id w (w1.withC (w1.c.Revoke x).2)
  | remove (w w1 : World σ α) (x : String) (h : Later id w w1) (hx : x ≠ id) :
      Later id w (w1.withC (w1.c.Remove x).2)
  | registerDecorator (w w1 : World σ α) (d : Decorator σ α) (h : Later id w w1)
      (hd : ∀ s v, (d s v).Spares id) : Later id w (w1.withC (w1.c.RegisterDecorator d))
  | assign (w w1 : World σ α) (f : σ → σ) (h : Later id w w1) :
      Later id w { w1 with env := f w1.env }

/-- Only entries registered with `ScopeShared` are recorded as created: what `NewContainer`
establishes and every method of `Container` keeps. -/
def Container.Sound {σ α : Type} (c : Container σ α) : Prop :=
  ∀ id m, mapGet c.services id = some m → m.created = true →
    m.definition.Scope = .ScopeShared

/-- The parameter provider never calls `OverrideParam` on `id`, and neither does a provider
that it registers. -/
def ParamProg.Spares {σ α : Type} (id : String) : ParamProg σ α → Prop
  | .ret _ _ => True
  | .panic _ => True
  | .getParam _ k => ∀ v e, (k v e).Spares id
  | .hasParam _ k => ∀ b, (k b).Spares id
  | .registerParam _ p _ k => p.Spares id ∧ ∀ e, (k e).Spares id
  | .overrideParam x p _ k => x ≠ id ∧ p.Spares id ∧ k.Spares id
  | .read k => ∀ s, (k s).Spares id
  | .modify _ k => k.Spares id

/-- No provider of the parameter container overrides `id`. -/
def ParamContainer.Spares {σ α : Type} (b : ParamContainer σ α) (id : String) : Prop :=
  ∀ x m, mapGet b.params x = some m → m.definition.Provider.Spares id

/-- World `w'` is reached from `w` by calls on the parameter container among which there is no
`OverrideParam` of `id`: calls of `GetParam` (of any id), calls of `RegisterParam`, calls of
`OverrideParam` on other ids, and assignments to the captured variables; the providers handed
to the container do not override `id` either. -/
inductive ParamLater {σ α : Type} (id : String) : ParamWorld σ α → ParamWorld σ α → Prop where
  | refl (w : ParamWorld σ α) : ParamLater id w w
  | getParam (w w1 w2 : ParamWorld σ α) (n : Nat) (x : String) (r : GetResult α)
      (h : ParamLater id w w1) (hget : GetParam n x w1 = some (r, w2)) : ParamLater id w w2
  | registerParam (w w1 : ParamWorld σ α) (x : String) (d : ParamDefinition σ α)
      (h : ParamLater id w w1) (hd : d.Provider.Spares id) :
      ParamLater id w { w1 with b := (w1.b.RegisterParam x d).2 }
  | overrideParam (w w1 : ParamWorld σ α) (x : String) (d : ParamDefinition σ α)
      (h : ParamLater id w w1) (hx : x ≠ id) (hd : d.Provider.Spares id) :
      ParamLater id w { w1 with b := w1.b.OverrideParam x d }
  | assign (w w1 : ParamWorld σ α) (f : σ → σ) (h : ParamLater id w w1) :
      ParamLater id w { w1 with env := f w1.env }

/-- The parameter container holds the created entry `e` for `id`, and none of its providers
overrides `id`. -/
def ParamCached {σ α : Type} (id : String) (e : metaParamDefinition σ α)
    (w : ParamWorld σ α) : Prop :=
  w.b.Spares id ∧ mapGet w.b.params id = some e

/-! ## Theorems -/

section lemmas

variable {σ α : Type}

/-! ### Maps -/

theorem mapGet_mapSet_self {β : Type} (m : List (String × β)) (k : String) (v : β) :
    mapGet (mapSet m k v) k = some v := by
  induction m with
  | nil => simp [mapSet, mapGet]
  | cons hd tl ih =>
    obtain ⟨k', v'⟩ := hd
    by_cases h : k' = k <;> simp [mapSet, mapGet, h, ih]

theorem mapGet_mapSet_ne {β : Type} (m : List (String × β)) (k k' : String) (v : β)
    (h : k ≠ k') : mapGet (mapSet m k v) k' = mapGet m k' := by
  induction m with
  | nil => simp [mapSet, mapGet, h]
  | cons hd tl ih =>
    obtain ⟨k0, v0⟩ := hd
    by_cases h0 : k0 = k
    · subst h0; simp [mapSet, mapGet, h]
    · by_cases h1 : k0 = k'
      · subst h1; simp [mapSet, mapGet, h0]
      · simp [mapSet, mapGet, h0, h1, ih]

theorem mapGet_mapDelete_self {β : Type} (m : List (String × β)) (k : String) :
    mapGet (mapDelete m k) k = none := by
  induction m with
  | nil => simp [mapDelete, mapGet]
  | cons hd tl ih =>
    obtain ⟨k0, v0⟩ := hd
    by_cases h0 : k0 = k <;> simp [mapDelete, mapGet, h0, ih]

theorem mapGet_mapDelete_ne {β : Type} (m : List (String × β)) (k k' : String)
    (h : k ≠ k') : mapGet (mapDelete m k) k' = mapGet m k' := by
  induction m with
  | nil => simp [mapDelete, mapGet]
  | cons hd tl ih =>
    obtain ⟨k0, v0⟩ := hd
    by_cases h0 : k0 = k
    · subst h0; simp [mapDelete, mapGet, h, ih]
    · by_cases h1 : k0 = k'
      · subst h1; simp [mapDelete, mapGet, h0]
      · simp [mapDelete, mapGet, h0, h1, ih]

/-! ### Worlds -/

@[simp] theorem World.withC_c (w : World σ α) (c : Container σ α) : (w.withC c).c = c := rfl
@[simp] theorem World.withC_env (w : World σ α) (c : Container σ α) : (w.withC c).env = w.env := rfl
@[simp] theorem World.withC_trace (w : World σ α) (c : Container σ α) :
    (w.withC c).trace = w.trace := rfl
@[simp] theorem World.log_c (w : World σ α) (e : Event) : (w.log e).c = w.c := rfl
@[simp] theorem World.log_env (w : World σ α) (e : Event) : (w.log e).env = w.env := rfl
@[simp] theorem World.log_trace (w : World σ α) (e : Event) :
    (w.log e).trace = w.trace ++ [e] := rfl

@[simp] theorem start_fst (c : circularDeps) (id : String) :
    (c.start id).1 = if id ∈ c.chain then c.chain ++ [id] else [] := rfl
@[simp] theorem start_snd (c : circularDeps) (id : String) :
    (c.start id).2 = ⟨c.chain ++ [id]⟩ := rfl
@[simp] theorem stop_start (c : circularDeps) (id : String) : (c.start id).2.stop = c := by
  cases c; simp [circularDeps.stop]

/-- Running a closure relates the initial and the final world by every relation that is
reflexive, transitive, and respected by `getf`, by the mutating methods and by assignments to
the captured variables. -/
theorem runProg_rel (R : World σ α → World σ α → Prop)
    (getf : String → World σ α → Option (GetResult α × World σ α))
    (hrefl : ∀ w, R w w) (htrans : ∀ a b c, R a b → R b c → R a c)
    (hget : ∀ id w r w', getf id w = some (r, w') → R w w')
    (hmut : ∀ w c', MutStep w.c c' → R w (w.withC c'))
    (henv : ∀ (w : World σ α) (f : σ → σ), R w { w with env := f w.env }) :
    ∀ (p : Prog σ α) w o w', runProg getf p w = some (o, w') → R w w' := by
  intro p
  induction p with
  | ret v e => intro w o w' h; simp [runProg] at h; rw [← h.2]; exact hrefl _
  | panic p => intro w o w' h; simp [runProg] at h; rw [← h.2]; exact hrefl _
  | get id k ih =>
    intro w o w' h
    simp only [runProg] at h
    cases hg : getf id w with
    | none => simp [hg] at h
    | some rw1 =>
      obtain ⟨r, w1⟩ := rw1
      simp only [hg] at h
      exact htrans _ _ _ (hget _ _ _ _ hg) (ih _ _ _ _ _ h)
  | has id k ih => intro w o w' h; simp only [runProg] at h; exact ih _ _ _ _ h
  | register id p s k _ ih =>
    intro w o w' h; simp only [runProg] at h
    exact htrans _ _ _ (hmut _ _ (.register id ⟨p, s⟩)) (ih _ _ _ _ h)
  | override id p s k _ ih =>
    intro w o w' h; simp only [runProg] at h
    exact htrans _ _ _ (hmut _ _ (.override id ⟨p, s⟩)) (ih _ _ _ h)
  | revoke id k ih =>
    intro w o w' h; simp only [runProg] at h
    exact htrans _ _ _ (hmut _ _ (.revoke id)) (ih _ _ _ _ h)
  | remove id k ih =>
    intro w o w' h; simp only [runProg] at h
    exact htrans _ _ _ (hmut _ _ (.remove id)) (ih _ _ _ _ h)
  | registerDecorator d k _ ih =>
    intro w o w' h; simp only [runProg] at h
    exact htrans _ _ _ (hmut _ _ (.registerDecorator d)) (ih _ _ _ h)
  | read k ih => intro w o w' h; simp only [runProg] at h; exact ih _ _ _ _ h
  | modify f k ih =>
    intro w o w' h; simp only [runProg] at h
    exact htrans _ _ _ (henv _ _) (ih _ _ _ h)

/-- Variant of `runProg_rel` for closures that call no mutating method. -/
theorem runProg_rel_getOnly (R : World σ α → World σ α → Prop)
    (getf : String → World σ α → Option (GetResult α × World σ α))
    (hrefl : ∀ w, R w w) (htrans : ∀ a b c, R a b → R b c → R a c)
    (hget : ∀ id w r w', getf id w = some (r, w') → R w w')
    (henv : ∀ (w : World σ α) (f : σ → σ), R w { w with env := f w.env }) :
    ∀ (p : Prog σ α), p.GetOnly → ∀ w o w', runProg getf p w = some (o, w') → R w w' := by
  intro p
  induction p with
  | ret v e => intro _ w o w' h; simp [runProg] at h; rw [← h.2]; exact hrefl _
  | panic p => intro _ w o w' h; simp [runProg] at h; rw [← h.2]; exact hrefl _
  | get id k ih =>
    intro hp w o w' h
    simp only [runProg] at h
    cases hg : getf id w with
    | none => simp [hg] at h
    | some rw1 =>
      obtain ⟨r, w1⟩ := rw1
      simp only [hg] at h
      exact htrans _ _ _ (hget _ _ _ _ hg) (ih _ _ (hp _ _) _ _ _ h)
  | has id k ih => intro hp w o w' h; simp only [runProg] at h; exact ih _ (hp _) _ _ _ h
  | register id p s k _ ih => intro hp; exact absurd hp (by simp [Prog.GetOnly])
  | override id p s k _ ih => intro hp; exact absurd hp (by simp [Prog.GetOnly])
  | revoke id k ih => intro hp; exact absurd hp (by simp [Prog.GetOnly])
  | remove id k ih => intro hp; exact absurd hp (by simp [Prog.GetOnly])
  | registerDecorator d k _ ih => intro hp; exact absurd hp (by simp [Prog.GetOnly])
  | read k ih => intro hp w o w' h; simp only [runProg] at h; exact ih _ (hp _) _ _ _ h
  | modify f k ih =>
    intro hp w o w' h; simp only [runProg] at h
    exact htrans _ _ _ (henv _ _) (ih hp _ _ _ h)

/-- The decorator loop relates its initial and final world by every reflexive and transitive
relation respected by the run of each decorator and by the trace entries of the loop. -/
theorem decorateLoop_rel (R : World σ α → World σ α → Prop)
    (getf : String → World σ α → Option (GetResult α × World σ α)) (id : String)
    (hrefl : ∀ w, R w w) (htrans : ∀ a b c, R a b → R b c → R a c)
    (hlog : ∀ (w : World σ α) i, R w (w.log (.decorator i id))) :
    ∀ (ds : List (Decorator σ α)),
      (∀ d ∈ ds, ∀ r w o w', runProg getf (d id r) w = some (o, w') → R w w') →
      ∀ i r w o w', decorateLoop getf id ds i r w = some (o, w') → R w w' := by
  intro ds
  induction ds with
  | nil => intro _ i r w o w' h; simp [decorateLoop] at h; rw [← h.2]; exact hrefl _
  | cons d ds ih =>
    intro hrun i r w o w' h
    simp only [decorateLoop] at h
    cases hd : runProg getf (d id r) (w.log (.decorator i id)) with
    | none => simp [hd] at h
    | some ow1 =>
      obtain ⟨o1, w1⟩ := ow1
      have h1 : R w w1 :=
        htrans _ _ _ (hlog w i) (hrun d (List.mem_cons_self _ _) _ _ _ _ hd)
      simp only [hd] at h
      cases o1 with
      | panicked p => simp at h; rw [← h.2]; exact h1
      | returned r' e =>
        cases e with
        | some e => simp at h; rw [← h.2]; exact h1
        | none =>
          simp only at h
          exact htrans _ _ _ h1
            (ih (fun d hd => hrun d (List.mem_cons_of_mem _ hd)) _ _ _ _ _ h)

/-- World `w`, after `start(id)` and the deferred `stop`, is `w` again. -/
theorem world_stop_start (w : World σ α) (id : String) :
    (w.withC { w.c with circularDeps := (w.c.circularDeps.start id).2 }).withC
      { (w.withC { w.c with circularDeps := (w.c.circularDeps.start id).2 }).c with
        circularDeps := (w.c.circularDeps.start id).2.stop } = w := by
  obtain ⟨⟨s, ⟨ch⟩, d, cn⟩, e, t⟩ := w
  simp [World.withC, circularDeps.stop]

/-- Unfolding of `Get` with one unit of fuel spent: the four early returns leave the world as
it was; otherwise the instance is built in `w.enter id` and the deferred calls run. -/
theorem Get_succ (n : Nat) (id : String) (w : World σ α) :
    Get (n + 1) id w =
      if id ∈ w.c.circularDeps.chain then
        some ((none, some (newCircularDepError (w.c.circularDeps.chain ++ [id]))), w)
      else
        match w.c.cacheGet id with
        | some s => some ((s, none), w)
        | none =>
          match mapGet w.c.services id with
          | none => some ((none, some (plainErr ("service `" ++ id ++ "` does not exist"))), w)
          | some serviceDef =>
            if serviceDef.created then some ((serviceDef.service, none), w)
            else
              (getBuild (Get n) id serviceDef (w.enter id)).map fun r =>
                getDefers id r.1 w.c.cacheNestedShared.isNone r.2 := by
  obtain ⟨⟨sv, ⟨ch⟩, ds, cn⟩, env, tr⟩ := w
  simp only [Get, getBody, circularDeps.start, Container.cacheGet, World.enter, World.withC,
    World.log]
  by_cases hc : id ∈ ch
  · simp [hc, getDefers, World.leave, World.withC, circularDeps.stop]
  · cases cn with
    | none =>
      cases hs : mapGet sv id with
      | none => simp [hc, hs, getDefers, World.leave, World.withC, circularDeps.stop]
      | some m =>
        by_cases hcr : m.created = true
        · simp [hc, hs, hcr, getDefers, World.leave, World.withC, circularDeps.stop]
        · simp only [hc, hs, hcr, if_false, List.length_nil, ne_eq, not_true_eq_false,
            Option.bind, Bool.false_eq_true, List.length_append, List.length_singleton]
          cases hb : getBuild (Get n) id m _ <;> simp [Option.isNone]
    | some cache =>
      cases hg : mapGet cache id with
      | some s => simp [hc, hg, getDefers, World.leave, World.withC, circularDeps.stop]
      | none =>
        cases hs : mapGet sv id with
        | none => simp [hc, hs, hg, getDefers, World.leave, World.withC, circularDeps.stop]
        | some m =>
          by_cases hcr : m.created = true
          · simp [hc, hs, hg, hcr, getDefers, World.leave, World.withC, circularDeps.stop]
          · simp only [hc, hs, hg, hcr, if_false, List.length_nil, ne_eq, not_true_eq_false,
              Option.bind, Bool.false_eq_true]
            cases hb : getBuild (Get n) id m _ <;> simp [Option.isNone]

/-- The build phase of `Get` reaches, from the world in which the provider is invoked, a world
`w2` related to it by every relation respected by the closures it runs; it ends in `w2`, or
in `w2` after `getStore`. -/
theorem getBuild_rel_log (R : World σ α → World σ α → Prop) (A : Prog σ α → Prop)
    (getf : String → World σ α → Option (GetResult α × World σ α)) (id : String)
    (hrefl : ∀ w, R w w) (htrans : ∀ a b c, R a b → R b c → R a c)
    (hlogD : ∀ (w : World σ α) i, R w (w.log (.decorator i id)))
    (hrun : ∀ p, A p → ∀ w o w', runProg getf p w = some (o, w') → R w w')
    (m : metaServiceDefinition σ α) (w0 : World σ α) (hprov : A m.definition.Provider)
    (hdec : ∀ w1, R (w0.log (.provider id)) w1 → ∀ d ∈ w1.c.decorators, ∀ r, A (d id r))
    (exit : Exit α) (w3 : World σ α) (h : getBuild getf id m w0 = some (exit, w3)) :
    ∃ w2, R (w0.log (.provider id)) w2 ∧
      ((w3 = w2 ∧ exit.isFailure = true) ∨ ∃ service, (exit, w3) = getStore id m service w2) := by
  simp only [getBuild] at h
  cases hp : runProg getf m.definition.Provider (w0.log (.provider id)) with
  | none => simp [hp] at h
  | some ow1 =>
    obtain ⟨o1, w1⟩ := ow1
    have h1 : R (w0.log (.provider id)) w1 := hrun _ hprov _ _ _ hp
    simp only [hp] at h
    cases o1 with
    | panicked p => simp at h; exact ⟨w1, h1, Or.inl ⟨h.2.symm, by rw [← h.1]; rfl⟩⟩
    | returned v e =>
      cases e with
      | some e => simp at h; exact ⟨w1, h1, Or.inl ⟨h.2.symm, by rw [← h.1]; rfl⟩⟩
      | none =>
        simp only [decorate] at h
        cases hd : decorateLoop getf id w1.c.decorators 0 v w1 with
        | none => simp [hd] at h
        | some ow2 =>
          obtain ⟨o2, w2⟩ := ow2
          have h2 : R w1 w2 :=
            decorateLoop_rel R getf id hrefl htrans hlogD _
              (fun d hmem r w o w' hr => hrun _ (hdec w1 h1 d hmem r) _ _ _ hr) _ _ _ _ _ hd
          simp only [hd] at h
          cases o2 with
          | panicked p =>
            simp at h; exact ⟨w2, htrans _ _ _ h1 h2, Or.inl ⟨h.2.symm, by rw [← h.1]; rfl⟩⟩
          | returned v2 e2 =>
            cases e2 with
            | some e =>
              simp at h; exact ⟨w2, htrans _ _ _ h1 h2, Or.inl ⟨h.2.symm, by rw [← h.1]; rfl⟩⟩
            | none =>
              simp only [Option.some.injEq] at h
              exact ⟨w2, htrans _ _ _ h1 h2, Or.inr ⟨v2, h.symm⟩⟩

/-- Variant of `getBuild_rel_log` that starts from the world before the provider is logged. -/
theorem getBuild_rel (R : World σ α → World σ α → Prop) (A : Prog σ α → Prop)
    (getf : String → World σ α → Option (GetResult α × World σ α)) (id : String)
    (hrefl : ∀ w, R w w) (htrans : ∀ a b c, R a b → R b c → R a c)
    (hlogP : ∀ (w : World σ α), R w (w.log (.provider id)))
    (hlogD : ∀ (w : World σ α) i, R w (w.log (.decorator i id)))
    (hrun : ∀ p, A p → ∀ w o w', runProg getf p w = some (o, w') → R w w')
    (m : metaServiceDefinition σ α) (w0 : World σ α) (hprov : A m.definition.Provider)
    (hdec : ∀ w1, R w0 w1 → ∀ d ∈ w1.c.decorators, ∀ r, A (d id r))
    (exit : Exit α) (w3 : World σ α) (h : getBuild getf id m w0 = some (exit, w3)) :
    ∃ w2, R w0 w2 ∧
      ((w3 = w2 ∧ exit.isFailure = true) ∨ ∃ service, (exit, w3) = getStore id m service w2) := by
  obtain ⟨w2, h2, h3⟩ := getBuild_rel_log R A getf id hrefl htrans hlogD hrun m w0 hprov
    (fun w1 h1 => hdec w1 (htrans _ _ _ (hlogP w0) h1)) exit w3 h
  exact ⟨w2, htrans _ _ _ (hlogP w0) h2, h3⟩

/-! ### What `Get` keeps for all closures -/

theorem frame_refl (w : World σ α) : Frame w w :=
  ⟨rfl, rfl, fun _ _ h => h, fun _ _ => rfl, [], by simp, by simp⟩

theorem frame_trans (a b c : World σ α) (h1 : Frame a b) (h2 : Frame b c) : Frame a c := by
  obtain ⟨e1, he1, hc1⟩ := h1.trace
  obtain ⟨e2, he2, hc2⟩ := h2.trace
  refine ⟨h2.chain.trans h1.chain, h2.cacheSome.trans h1.cacheSome,
    fun x v h => h2.cacheKeep x v (h1.cacheKeep x v h), fun x hx => ?_, e1 ++ e2, ?_, ?_⟩
  · rw [h2.onChain x (by rw [h1.chain]; exact hx), h1.onChain x hx]
  · rw [he2, he1, List.append_assoc]
  · intro n hn
    rcases List.mem_append.1 hn with hn | hn
    · exact hc1 n hn
    · obtain ⟨hb, hn'⟩ := hc2 n hn
      have hs := h1.cacheSome
      rw [hb] at hs
      refine ⟨?_, by rw [hn', h1.chain]⟩
      cases hw : a.c.cacheNestedShared with
      | none => rfl
      | some x => rw [hw] at hs; simp at hs

theorem frame_of_mut (w : World σ α) (c' : Container σ α) (h : MutStep w.c c') :
    Frame w (w.withC c') := by
  have key : c'.circularDeps = w.c.circularDeps ∧ c'.cacheNestedShared = w.c.cacheNestedShared := by
    cases h with
    | register id s => simp only [Container.Register]; split <;> simp
    | override id s => simp [Container.Override]
    | revoke id => simp only [Container.Revoke]; split <;> simp
    | remove id => simp only [Container.Remove]; split <;> simp
    | registerDecorator d => simp [Container.RegisterDecorator]
  refine ⟨key.1, by simp [key.2], fun x v hx => ?_, fun x _ => ?_, [], by simp, by simp⟩
  · simpa [Container.cacheGet, key.2] using hx
  · simp [Container.cacheGet, key.2]

theorem frame_of_env (w : World σ α) (f : σ → σ) : Frame w { w with env := f w.env } :=
  ⟨rfl, rfl, fun _ _ h => h, fun _ _ => rfl, [], by simp, by simp⟩

theorem frame_of_log (w : World σ α) (e : Event) (he : ∀ n, e ≠ .cacheCreated n) :
    Frame w (w.log e) :=
  ⟨rfl, rfl, fun _ _ h => h, fun _ _ => rfl, [e], by simp, by
    intro n hn
    simp only [List.mem_singleton] at hn
    exact absurd hn.symm (he n)⟩

@[simp] theorem getDefers_snd (id : String) (exit : Exit α) (b : Bool) (w : World σ α) :
    (getDefers id exit b w).2 = w.leave b := by
  cases exit <;> rfl

theorem getStore_circularDeps (id : String) (m : metaServiceDefinition σ α) (s : Option α)
    (w : World σ α) : (getStore id m s w).2.c.circularDeps = w.c.circularDeps := by
  simp only [getStore]
  split_ifs <;> (try split) <;> simp

theorem getStore_decorators (id : String) (m : metaServiceDefinition σ α) (s : Option α)
    (w : World σ α) : (getStore id m s w).2.c.decorators = w.c.decorators := by
  simp only [getStore]
  split_ifs <;> (try split) <;> simp

theorem getStore_env (id : String) (m : metaServiceDefinition σ α) (s : Option α)
    (w : World σ α) : (getStore id m s w).2.env = w.env := by
  simp only [getStore]
  split_ifs <;> (try split) <;> simp

theorem getStore_cache_isSome (id : String) (m : metaServiceDefinition σ α) (s : Option α)
    (w : World σ α) :
    (getStore id m s w).2.c.cacheNestedShared.isSome = w.c.cacheNestedShared.isSome := by
  simp only [getStore]
  split_ifs <;> (try split) <;> simp_all

theorem getStore_cacheGet_ne (id : String) (m : metaServiceDefinition σ α) (s : Option α)
    (w : World σ α) (x : String) (hx : id ≠ x) :
    (getStore id m s w).2.c.cacheGet x = w.c.cacheGet x := by
  simp only [getStore]
  split_ifs <;> (try split) <;> simp_all [Container.cacheGet, mapGet_mapSet_ne]

theorem getStore_services_ne (id : String) (m : metaServiceDefinition σ α) (s : Option α)
    (w : World σ α) (x : String) (hx : id ≠ x) :
    mapGet (getStore id m s w).2.c.services x = mapGet w.c.services x := by
  simp only [getStore]
  split_ifs <;> (try split) <;> simp_all [mapGet_mapSet_ne]

theorem getStore_trace (id : String) (m : metaServiceDefinition σ α) (s : Option α)
    (w : World σ α) :
    (getStore id m s w).2.trace = w.trace ∨ (getStore id m s w).2.trace = w.trace ++ [.built id] := by
  simp only [getStore]
  split_ifs <;> (try split) <;> simp

@[simp] theorem enter_circularDeps (w : World σ α) (id : String) :
    (w.enter id).c.circularDeps = ⟨w.c.circularDeps.chain ++ [id]⟩ := by
  simp only [World.enter]; split <;> simp

@[simp] theorem enter_services (w : World σ α) (id : String) :
    (w.enter id).c.services = w.c.services := by
  simp only [World.enter]; split <;> simp

@[simp] theorem enter_decorators (w : World σ α) (id : String) :
    (w.enter id).c.decorators = w.c.decorators := by
  simp only [World.enter]; split <;> simp

@[simp] theorem enter_env (w : World σ α) (id : String) : (w.enter id).env = w.env := by
  simp only [World.enter]; split <;> simp

@[simp] theorem enter_cache_isSome (w : World σ α) (id : String) :
    (w.enter id).c.cacheNestedShared.isSome = true := by
  simp only [World.enter]; split <;> simp_all

@[simp] theorem enter_cacheGet (w : World σ α) (id x : String) :
    (w.enter id).c.cacheGet x = w.c.cacheGet x := by
  simp only [World.enter]; split <;> simp_all [Container.cacheGet, mapGet]

theorem enter_trace (w : World σ α) (id : String) :
    (w.enter id).trace = w.trace ++
      (if w.c.cacheNestedShared.isNone then [.cacheCreated (w.c.circularDeps.chain.length + 1)]
       else []) := by
  simp only [World.enter]; split <;> simp_all

/-- From the build phase back to the caller: when the closures run in `w.enter id` keep the
frame, so does the whole call of `Get(id)`. -/
theorem frame_of_build (w w2 w3 : World σ α) (id : String) (m : metaServiceDefinition σ α)
    (exit : Exit α) (hid : id ∉ w.c.circularDeps.chain) (hcache : w.c.cacheGet id = none)
    (h2 : Frame (w.enter id) w2)
    (h3 : (w3 = w2 ∧ exit.isFailure = true) ∨ ∃ service, (exit, w3) = getStore id m service w2) :
    Frame w (getDefers id exit w.c.cacheNestedShared.isNone w3).2 := by
  replace h3 : w3 = w2 ∨ ∃ service, w3 = (getStore id m service w2).2 :=
    h3.imp (fun h => h.1) fun ⟨s, hs⟩ => ⟨s, congrArg Prod.snd hs⟩
  have hch : w3.c.circularDeps = ⟨w.c.circularDeps.chain ++ [id]⟩ := by
    rcases h3 with h3 | ⟨s, h3⟩
    · rw [h3, h2.chain, enter_circularDeps]
    · rw [h3, getStore_circularDeps, h2.chain, enter_circularDeps]
  have hsome : w3.c.cacheNestedShared.isSome = true := by
    rcases h3 with h3 | ⟨s, h3⟩
    · rw [h3, h2.cacheSome, enter_cache_isSome]
    · rw [h3, getStore_cache_isSome, h2.cacheSome, enter_cache_isSome]
  have hget : ∀ x, x ≠ id → w3.c.cacheGet x = w2.c.cacheGet x := by
    intro x hx
    rcases h3 with h3 | ⟨s, h3⟩
    · rw [h3]
    · rw [h3, getStore_cacheGet_ne _ _ _ _ _ (Ne.symm hx)]
  have htr : ∃ evs, w3.trace = w2.trace ++ evs ∧ ∀ n, Event.cacheCreated n ∉ evs := by
    rcases h3 with h3 | ⟨s, h3⟩
    · exact ⟨[], by simp [h3], by simp⟩
    · rw [h3]
      rcases getStore_trace id m s w2 with h | h
      · exact ⟨[], by simp [h], by simp⟩
      · exact ⟨[.built id], h, by simp⟩
  obtain ⟨e2, he2, hc2⟩ := h2.trace
  obtain ⟨e3, he3, hc3⟩ := htr
  simp only [getDefers_snd, World.leave]
  cases hw : w.c.cacheNestedShared with
  | none =>
    refine ⟨?_, ?_, ?_, ?_, ?_⟩
    · simp [hch, circularDeps.stop]
    · simp [hw]
    · intro x v hx; simp [Container.cacheGet, hw] at hx
    · intro x _; simp [Container.cacheGet, hw]
    · refine ⟨[.cacheCreated (w.c.circularDeps.chain.length + 1)] ++ e2 ++ e3, ?_, ?_⟩
      · simp [he3, he2, enter_trace, hw]
      · intro n hn
        simp only [List.mem_append, List.mem_singleton] at hn
        rcases hn with (hn | hn) | hn
        · injection hn with hn; exact ⟨hw, hn⟩
        · have := (hc2 n hn).1
          have h' := enter_cache_isSome w id
          rw [this] at h'; simp at h'
        · exact absurd hn (hc3 n)
  | some cache =>
    refine ⟨?_, ?_, ?_, ?_, ?_⟩
    · simp [hch, circularDeps.stop]
    · simp [hw, hsome]
    · intro x v hx
      have hne : x ≠ id := by
        rintro rfl
        rw [hcache] at hx; simp at hx
      simp only [Option.isNone_some, Bool.false_eq_true, if_false, World.withC_c]
      show w3.c.cacheGet x = some v
      rw [hget x hne]
      exact h2.cacheKeep x v (by rw [enter_cacheGet]; exact hx)
    · intro x hx
      have hne : x ≠ id := by
        rintro rfl
        exact hid hx
      simp only [Option.isNone_some, Bool.false_eq_true, if_false, World.withC_c]
      show w3.c.cacheGet x = _
      rw [hget x hne, h2.onChain x (by simp [hx]), enter_cacheGet]
    · refine ⟨e2 ++ e3, ?_, ?_⟩
      · simp [he3, he2, enter_trace, hw]
      · intro n hn
        simp only [List.mem_append] at hn
        rcases hn with hn | hn
        · have := (hc2 n hn).1
          have h' := enter_cache_isSome w id
          rw [this] at h'; simp at h'
        · exact absurd hn (hc3 n)

/-- Every call of `Get` that returns keeps the frame. -/
theorem Get_frame : ∀ (n : Nat) (id : String) (w : World σ α) r w',
    Get n id w = some (r, w') → Frame w w' := by
  intro n
  induction n with
  | zero => intro id w r w' h; simp [Get] at h
  | succ n ih =>
    intro id w r w' h
    rw [Get_succ] at h
    split_ifs at h with hc
    · simp at h; rw [← h.2]; exact frame_refl _
    · split at h
      · simp at h; rw [← h.2]; exact frame_refl _
      · rename_i hcache
        split at h
        · simp at h; rw [← h.2]; exact frame_refl _
        · rename_i m hm
          split_ifs at h with hcr
          · simp at h; rw [← h.2]; exact frame_refl _
          · simp only [Option.map_eq_some'] at h
            obtain ⟨⟨exit, w3⟩, hb, hd⟩ := h
            obtain ⟨w2, h2, h3⟩ :=
              getBuild_rel Frame (fun _ => True) (Get n) id frame_refl frame_trans
                (fun w => frame_of_log w _ (by simp)) (fun w i => frame_of_log w _ (by simp))
                (fun p _ => runProg_rel Frame (Get n) frame_refl frame_trans ih frame_of_mut
                  frame_of_env p)
                m (w.enter id) trivial (fun _ _ _ _ _ => trivial) exit w3 hb
            have := frame_of_build w w2 w3 id m exit hc hcache h2 h3
            simp only at hd
            rw [hd] at this
            exact this

/-! ### More fuel never changes a result -/

theorem runProg_mono (getf getf' : String → World σ α → Option (GetResult α × World σ α))
    (hg : ∀ id w r, getf id w = some r → getf' id w = some r) :
    ∀ (p : Prog σ α) w r, runProg getf p w = some r → runProg getf' p w = some r := by
  intro p
  induction p with
  | ret v e => intro w r h; simpa [runProg] using h
  | panic p => intro w r h; simpa [runProg] using h
  | get id k ih =>
    intro w r h
    simp only [runProg] at h ⊢
    cases hgw : getf id w with
    | none => simp [hgw] at h
    | some rw1 =>
      rw [hg _ _ _ hgw]
      simp only [hgw] at h
      exact ih _ _ _ _ h
  | has id k ih => intro w r h; simp only [runProg] at h ⊢; exact ih _ _ _ h
  | register id p s k _ ih => intro w r h; simp only [runProg] at h ⊢; exact ih _ _ _ h
  | override id p s k _ ih => intro w r h; simp only [runProg] at h ⊢; exact ih _ _ h
  | revoke id k ih => intro w r h; simp only [runProg] at h ⊢; exact ih _ _ _ h
  | remove id k ih => intro w r h; simp only [runProg] at h ⊢; exact ih _ _ _ h
  | registerDecorator d k _ ih => intro w r h; simp only [runProg] at h ⊢; exact ih _ _ h
  | read k ih => intro w r h; simp only [runProg] at h ⊢; exact ih _ _ _ h
  | modify f k ih => intro w r h; simp only [runProg] at h ⊢; exact ih _ _ h

theorem decorateLoop_mono (getf getf' : String → World σ α → Option (GetResult α × World σ α))
    (hg : ∀ id w r, getf id w = some r → getf' id w = some r) (id : String) :
    ∀ (ds : List (Decorator σ α)) i v w r,
      decorateLoop getf id ds i v w = some r → decorateLoop getf' id ds i v w = some r := by
  intro ds
  induction ds with
  | nil => intro i v w r h; simpa [decorateLoop] using h
  | cons d ds ih =>
    intro i v w r h
    simp only [decorateLoop] at h ⊢
    cases hd : runProg getf (d id v) (w.log (.decorator i id)) with
    | none => simp [hd] at h
    | some ow1 =>
      rw [runProg_mono getf getf' hg _ _ _ hd]
      simp only [hd] at h
      obtain ⟨o1, w1⟩ := ow1
      cases o1 with
      | panicked p => exact h
      | returned v' e =>
        cases e with
        | some e => exact h
        | none => exact ih _ _ _ _ h

theorem getBuild_mono (getf getf' : String → World σ α → Option (GetResult α × World σ α))
    (hg : ∀ id w r, getf id w = some r → getf' id w = some r) (id : String)
    (m : metaServiceDefinition σ α) (w : World σ α) (r : Exit α × World σ α)
    (h : getBuild getf id m w = some r) : getBuild getf' id m w = some r := by
  simp only [getBuild] at h ⊢
  cases hp : runProg getf m.definition.Provider (w.log (.provider id)) with
  | none => simp [hp] at h
  | some ow1 =>
    rw [runProg_mono getf getf' hg _ _ _ hp]
    simp only [hp] at h
    obtain ⟨o1, w1⟩ := ow1
    cases o1 with
    | panicked p => exact h
    | returned v e =>
      cases e with
      | some e => exact h
      | none =>
        simp only [decorate] at h ⊢
        cases hd : decorateLoop getf id w1.c.decorators 0 v w1 with
        | none => simp [hd] at h
        | some ow2 =>
          rw [decorateLoop_mono getf getf' hg id _ _ _ _ _ hd]
          simp only [hd] at h
          exact h

theorem Get_mono_succ : ∀ (n : Nat) (id : String) (w : World σ α) r,
    Get n id w = some r → Get (n + 1) id w = some r := by
  intro n
  induction n with
  | zero => intro id w r h; simp [Get] at h
  | succ n ih =>
    intro id w r h
    rw [Get_succ] at h ⊢
    split_ifs at h ⊢ with hc
    · exact h
    · split at h
      · exact h
      · split at h
        · exact h
        · split_ifs at h ⊢ with hcr
          · exact h
          · simp only [Option.map_eq_some'] at h ⊢
            obtain ⟨b, hb, hd⟩ := h
            exact ⟨b, getBuild_mono (Get n) (Get (n + 1)) ih _ _ _ _ hb, hd⟩

/-- A result of `Get` obtained with some fuel is obtained with any larger fuel. -/
theorem Get_mono (n k : Nat) (hnk : n ≤ k) (id : String) (w : World σ α)
    (r : GetResult α × World σ α) (h : Get n id w = some r) : Get k id w = some r := by
  induction k with
  | zero =>
    have : n = 0 := by omega
    subst this; exact h
  | succ k ih =>
    rcases Nat.eq_or_lt_of_le hnk with h1 | h1
    · subst h1; exact h
    · exact Get_mono_succ k id w r (ih (by omega))

/-! ### What `Get` keeps when the closures only call `Get` -/

theorem stable_refl (w : World σ α) (h : w.c.GetOnly) : Stable w w :=
  ⟨h, rfl, fun _ => rfl, fun _ _ => rfl, fun _ _ h _ => h, fun _ _ h _ => h⟩

theorem keeps_refl (w : World σ α) : Keeps w w := ⟨frame_refl w, stable_refl w⟩

theorem keeps_trans (a b c : World σ α) (h1 : Keeps a b) (h2 : Keeps b c) : Keeps a c := by
  refine ⟨frame_trans _ _ _ h1.1 h2.1, fun ha => ?_⟩
  have s1 := h1.2 ha
  have s2 := h2.2 s1.getOnly
  refine ⟨s2.getOnly, s2.decorators.trans s1.decorators,
    fun x => (s2.definitions x).trans (s1.definitions x), fun x hx => ?_,
    fun x m hm hc => s2.created x m (s1.created x m hm hc) hc,
    fun x m hm hc => s2.notShared x m (s1.notShared x m hm hc) hc⟩
  rw [s2.onChain x (by rw [h1.1.chain]; exact hx), s1.onChain x hx]

theorem keeps_of_env (w : World σ α) (f : σ → σ) : Keeps w { w with env := f w.env } :=
  ⟨frame_of_env w f, fun h => ⟨h, rfl, fun _ => rfl, fun _ _ => rfl, fun _ _ h _ => h,
    fun _ _ h _ => h⟩⟩

theorem keeps_of_log (w : World σ α) (e : Event) (he : ∀ n, e ≠ .cacheCreated n) :
    Keeps w (w.log e) :=
  ⟨frame_of_log w e he, fun h => ⟨h, rfl, fun _ => rfl, fun _ _ => rfl, fun _ _ h _ => h,
    fun _ _ h _ => h⟩⟩

theorem enter_getOnly (w : World σ α) (id : String) (h : w.c.GetOnly) :
    (w.enter id).c.GetOnly := by
  simpa [Container.GetOnly] using h

/-- The registry entry written by `getStore`, if any. -/
theorem getStore_services_self (id : String) (m : metaServiceDefinition σ α) (s : Option α)
    (w : World σ α) :
    mapGet (getStore id m s w).2.c.services id =
      if m.definition.Scope = .ScopeShared then some { m with created := true, service := s }
      else mapGet w.c.services id := by
  simp only [getStore]
  split_ifs <;> (try split) <;> simp_all [mapGet_mapSet_self]

/-- From the build phase back to the caller, for stability. -/
theorem stable_of_build (w w2 w3 : World σ α) (id : String) (m : metaServiceDefinition σ α)
    (exit : Exit α) (hid : id ∉ w.c.circularDeps.chain) (hm : mapGet w.c.services id = some m)
    (hcr : m.created = false) (hw : w.c.GetOnly) (h2 : Stable (w.enter id) w2)
    (h3 : (w3 = w2 ∧ exit.isFailure = true) ∨ ∃ service, (exit, w3) = getStore id m service w2) :
    Stable w (getDefers id exit w.c.cacheNestedShared.isNone w3).2 := by
  replace h3 : w3 = w2 ∨ ∃ service, w3 = (getStore id m service w2).2 :=
    h3.imp (fun h => h.1) fun ⟨s, hs⟩ => ⟨s, congrArg Prod.snd hs⟩
  have hdec : w3.c.decorators = w.c.decorators := by
    rcases h3 with h3 | ⟨s, h3⟩
    · rw [h3, h2.decorators, enter_decorators]
    · rw [h3, getStore_decorators, h2.decorators, enter_decorators]
  have hne : ∀ x, x ≠ id → mapGet w3.c.services x = mapGet w2.c.services x := by
    intro x hx
    rcases h3 with h3 | ⟨s, h3⟩
    · rw [h3]
    · rw [h3, getStore_services_ne _ _ _ _ _ (Ne.symm hx)]
  have hself : (mapGet w3.c.services id).map (fun m => m.definition) = some m.definition ∧
      (m.definition.Scope ≠ .ScopeShared → mapGet w3.c.services id = some m) := by
    have e2 : mapGet w2.c.services id = some m := by
      rw [h2.onChain id (by simp), enter_services, hm]
    rcases h3 with h3 | ⟨s, h3⟩
    · rw [h3, e2]; simp
    · rw [h3, getStore_services_self]
      split_ifs with hs
      · simp [hs]
      · simp [e2]
  have hsv : (getDefers id exit w.c.cacheNestedShared.isNone w3).2.c.services = w3.c.services := by
    simp only [getDefers_snd, World.leave]; split_ifs <;> simp
  have hdc : (getDefers id exit w.c.cacheNestedShared.isNone w3).2.c.decorators =
      w3.c.decorators := by
    simp only [getDefers_snd, World.leave]; split_ifs <;> simp
  have hdefs : ∀ x, (mapGet w3.c.services x).map (fun m => m.definition) =
      (mapGet w.c.services x).map (fun m => m.definition) := by
    intro x
    by_cases hx : x = id
    · subst hx; rw [hself.1, hm]; rfl
    · rw [hne x hx, h2.definitions x, enter_services]
  refine ⟨?_, ?_, ?_, ?_, ?_, ?_⟩
  · refine ⟨fun x mx hx => ?_, fun d hd => ?_⟩
    · rw [hsv] at hx
      have hd := hdefs x
      rw [hx] at hd
      cases hwx : mapGet w.c.services x with
      | none => rw [hwx] at hd; simp at hd
      | some m0 =>
        rw [hwx] at hd
        simp only [Option.map_some', Option.some.injEq] at hd
        rw [hd]
        exact hw.1 x m0 hwx
    · rw [hdc, hdec] at hd
      exact hw.2 d hd
  · rw [hdc, hdec]
  · intro x; rw [hsv]; exact hdefs x
  · intro x hx
    have hxid : x ≠ id := by rintro rfl; exact hid hx
    rw [hsv, hne x hxid, h2.onChain x (by simp [hx]), enter_services]
  · intro x mx hx hc
    have hxid : x ≠ id := by
      rintro rfl
      rw [hm] at hx
      injection hx with hx
      rw [hx] at hcr
      rw [hcr] at hc
      exact absurd hc (by simp)
    rw [hsv, hne x hxid]
    exact h2.created x mx (by rw [enter_services]; exact hx) hc
  · intro x mx hx hs
    rw [hsv]
    by_cases hxid : x = id
    · subst hxid
      rw [hm] at hx
      injection hx with hx
      subst hx
      exact hself.2 hs
    · rw [hne x hxid]
      exact h2.notShared x mx (by rw [enter_services]; exact hx) hs

/-- Every call of `Get` that returns keeps the frame and, for `GetOnly` closures, stability. -/
theorem Get_keeps : ∀ (n : Nat) (id : String) (w : World σ α) r w',
    Get n id w = some (r, w') → Keeps w w' := by
  intro n
  induction n with
  | zero => intro id w r w' h; simp [Get] at h
  | succ n ih =>
    intro id w r w' h
    refine ⟨Get_frame _ _ _ _ _ h, fun hw => ?_⟩
    rw [Get_succ] at h
    split_ifs at h with hc
    · simp at h; rw [← h.2]; exact stable_refl _ hw
    · split at h
      · simp at h; rw [← h.2]; exact stable_refl _ hw
      · split at h
        · simp at h; rw [← h.2]; exact stable_refl _ hw
        · rename_i m hm
          split_ifs at h with hcr
          · simp at h; rw [← h.2]; exact stable_refl _ hw
          · simp only [Option.map_eq_some'] at h
            obtain ⟨⟨exit, w3⟩, hb, hd⟩ := h
            obtain ⟨w2, h2, h3⟩ :=
              getBuild_rel Keeps Prog.GetOnly (Get n) id keeps_refl keeps_trans
                (fun w => keeps_of_log w _ (by simp)) (fun w i => keeps_of_log w _ (by simp))
                (fun p hp => runProg_rel_getOnly Keeps (Get n) keeps_refl keeps_trans ih
                  keeps_of_env p hp)
                m (w.enter id) (hw.1 id m hm)
                (fun w1 h1 d hd r => (h1.2 (enter_getOnly w id hw)).getOnly.2 d hd id r)
                exit w3 hb
            have := stable_of_build w w2 w3 id m exit hc hm (by simpa using hcr) hw
              (h2.2 (enter_getOnly w id hw)) h3
            simp only at hd
            rw [hd] at this
            exact this

/-! ### `GetParam` and the chain -/

/-- Running a parameter provider relates the initial and the final world by every reflexive
and transitive relation respected by `getf`, by `RegisterParam` and `OverrideParam`, and by
assignments to the captured variables. -/
theorem runParamProg_rel (R : ParamWorld σ α → ParamWorld σ α → Prop)
    (getf : String → ParamWorld σ α → Option (GetResult α × ParamWorld σ α))
    (hrefl : ∀ w, R w w) (htrans : ∀ a b c, R a b → R b c → R a c)
    (hget : ∀ id w r w', getf id w = some (r, w') → R w w')
    (hreg : ∀ (w : ParamWorld σ α) id d, R w { w with b := (w.b.RegisterParam id d).2 })
    (hovr : ∀ (w : ParamWorld σ α) id d, R w { w with b := w.b.OverrideParam id d })
    (henv : ∀ (w : ParamWorld σ α) (f : σ → σ), R w { w with env := f w.env }) :
    ∀ (p : ParamProg σ α) w o w', runParamProg getf p w = some (o, w') → R w w' := by
  intro p
  induction p with
  | ret v e => intro w o w' h; simp [runParamProg] at h; rw [← h.2]; exact hrefl _
  | panic p => intro w o w' h; simp [runParamProg] at h; rw [← h.2]; exact hrefl _
  | getParam id k ih =>
    intro w o w' h
    simp only [runParamProg] at h
    cases hg : getf id w with
    | none => simp [hg] at h
    | some rw1 =>
      obtain ⟨r, w1⟩ := rw1
      simp only [hg] at h
      exact htrans _ _ _ (hget _ _ _ _ hg) (ih _ _ _ _ _ h)
  | hasParam id k ih => intro w o w' h; simp only [runParamProg] at h; exact ih _ _ _ _ h
  | registerParam id p d k _ ih =>
    intro w o w' h; simp only [runParamProg] at h
    exact htrans _ _ _ (hreg _ _ _) (ih _ _ _ _ h)
  | overrideParam id p d k _ ih =>
    intro w o w' h; simp only [runParamProg] at h
    exact htrans _ _ _ (hovr _ _ _) (ih _ _ _ h)
  | read k ih => intro w o w' h; simp only [runParamProg] at h; exact ih _ _ _ _ h
  | modify f k ih =>
    intro w o w' h; simp only [runParamProg] at h
    exact htrans _ _ _ (henv _ _) (ih _ _ _ h)

/-- The body of `GetParam` keeps the chain when the nested calls do. -/
theorem getParamBody_chain
    (getf : String → ParamWorld σ α → Option (GetResult α × ParamWorld σ α))
    (hget : ∀ id w r w', getf id w = some (r, w') → w'.b.circularDeps = w.b.circularDeps)
    (id : String) (deps : List String) (w : ParamWorld σ α) (exit : Exit α)
    (w' : ParamWorld σ α) (h : getParamBody getf id deps w = some (exit, w')) :
    w'.b.circularDeps = w.b.circularDeps := by
  have hrun : ∀ (p : ParamProg σ α) w o w', runParamProg getf p w = some (o, w') →
      w'.b.circularDeps = w.b.circularDeps :=
    runParamProg_rel (fun w w' => w'.b.circularDeps = w.b.circularDeps) getf (fun _ => rfl)
      (fun _ _ _ h1 h2 => h2.trans h1) hget
      (fun w id d => by simp only [ParamContainer.RegisterParam]; split <;> rfl)
      (fun _ _ _ => rfl) (fun _ _ => rfl)
  simp only [getParamBody] at h
  by_cases hd : deps.length ≠ 0
  · rw [if_pos hd] at h
    simp at h; rw [← h.2]
  · rw [if_neg hd] at h
    cases hm : mapGet w.b.params id with
    | none => simp [hm] at h; rw [← h.2]
    | some m =>
      simp only [hm] at h
      by_cases hcr : m.created = true
      · simp [hcr] at h; rw [← h.2]
      · simp only [hcr] at h
        cases hp : runParamProg getf m.definition.Provider
            { w with trace := w.trace ++ [.provider id] } with
        | none => simp [hp] at h
        | some ow1 =>
          obtain ⟨o1, w1⟩ := ow1
          have h1 : w1.b.circularDeps = w.b.circularDeps := by
            have := hrun _ _ _ _ hp
            simpa using this
          simp only [hp] at h
          cases o1 with
          | panicked p => simp at h; rw [← h.2, h1]
          | returned v e =>
            cases e with
            | some e => simp at h; rw [← h.2, h1]
            | none =>
              by_cases hdis : m.definition.Disposable = true
              · simp [hdis] at h; rw [← h.2, h1]
              · simp [hdis] at h; rw [← h.2]; exact h1

/-- Every call of `GetParam` that returns leaves the chain as it found it. -/
theorem GetParam_chain : ∀ (n : Nat) (id : String) (w : ParamWorld σ α) r w',
    GetParam n id w = some (r, w') → w'.b.circularDeps = w.b.circularDeps := by
  intro n
  induction n with
  | zero => intro id w r w' h; simp [GetParam] at h
  | succ n ih =>
    intro id w r w' h
    simp only [GetParam] at h
    split at h
    · simp at h
    · rename_i exit w1 hb
      have h1 := getParamBody_chain (GetParam n) ih _ _ _ _ _ hb
      simp only [Option.some.injEq] at h
      have h2 : (getParamDefers id exit w1).2.b.circularDeps = w1.b.circularDeps.stop := by
        simp only [getParamDefers]
        split
        · rfl
        · split_ifs <;> rfl
        · rfl
      have h3 : w' = (getParamDefers id exit w1).2 := by rw [h]
      rw [h3, h2, h1]
      exact stop_start _ _

theorem getStore_cacheGet_of_ne_nested (id : String) (m : metaServiceDefinition σ α)
    (s : Option α) (w : World σ α) (x : String) (h : m.definition.Scope ≠ .ScopeNestedShared) :
    (getStore id m s w).2.c.cacheGet x = w.c.cacheGet x := by
  simp only [getStore]
  split_ifs <;> simp_all [Container.cacheGet]

/-- A created entry that is neither on the chain nor shadowed by the nested cache is returned
as it is, and the world does not change. -/
theorem Get_created (n : Nat) (id : String) (w : World σ α) (m : metaServiceDefinition σ α)
    (hm : mapGet w.c.services id = some m) (hcr : m.created = true)
    (hcache : w.c.cacheGet id = none) (hid : id ∉ w.c.circularDeps.chain) :
    Get (n + 1) id w = some ((m.service, none), w) := by
  rw [Get_succ]; simp [hid, hcache, hm, hcr]

theorem getTimes_created (k : Nat) (id : String) (w : World σ α)
    (m : metaServiceDefinition σ α) (hm : mapGet w.c.services id = some m)
    (hcr : m.created = true) (hcache : w.c.cacheGet id = none)
    (hid : id ∉ w.c.circularDeps.chain) (N : Nat) :
    getTimes (k + 1) id N w = some (List.replicate N (m.service, none), w) := by
  induction N with
  | zero => simp [getTimes]
  | succ N ih => simp [getTimes, Get_created k id w m hm hcr hcache hid, ih, List.replicate_succ]

/-- A failed exit makes `Get` return a non-nil error. -/
theorem getDefers_of_failure (id : String) (exit : Exit α) (b : Bool) (w : World σ α)
    (h : exit.isFailure = true) : (getDefers id exit b w).1.2 ≠ none := by
  cases exit with
  | returned s e =>
    cases e with
    | none => simp [Exit.isFailure] at h
    | some e => simp [getDefers]
  | panicking s r => simp [getDefers]

/-- The exit and the returned value of a `getStore` that does not panic. -/
theorem getStore_fst (id : String) (m : metaServiceDefinition σ α) (s : Option α)
    (w : World σ α) (h : (getStore id m s w).1.isFailure = false) :
    (getStore id m s w).1 = .returned s none := by
  simp only [getStore] at h ⊢
  split_ifs at h ⊢ <;> (try split at h) <;> simp_all [Exit.isFailure]

/-- A successful `Get` of an id registered with `ScopeShared` leaves the entry created with
the returned value, and leaves the nested cache without an entry for the id. -/
theorem Get_shared_stores (n : Nat) (id : String) (w : World σ α)
    (m : metaServiceDefinition σ α) (v : Option α) (w1 : World σ α)
    (hm : mapGet w.c.services id = some m) (hs : m.definition.Scope = .ScopeShared)
    (hcache : w.c.cacheGet id = none) (hget : Get n id w = some ((v, none), w1)) :
    mapGet w1.c.services id = some ⟨m.definition, v, true⟩ ∧ w1.c.cacheGet id = none := by
  cases n with
  | zero => simp [Get] at hget
  | succ n =>
    rw [Get_succ] at hget
    split_ifs at hget with hc
    · simp at hget
    · simp only [hcache, hm] at hget
      split_ifs at hget with hcr
      · simp only [Option.some.injEq, Prod.mk.injEq, and_true] at hget
        obtain ⟨hv, hw⟩ := hget
        subst hw
        refine ⟨?_, hcache⟩
        rw [hm, ← hv, ← hcr]
      · simp only [Option.map_eq_some'] at hget
        obtain ⟨⟨exit, w3⟩, hb, hd⟩ := hget
        simp only at hd
        obtain ⟨w2, h2, h3⟩ :=
          getBuild_rel Frame (fun _ => True) (Get n) id frame_refl frame_trans
            (fun w => frame_of_log w _ (by simp)) (fun w i => frame_of_log w _ (by simp))
            (fun p _ => runProg_rel Frame (Get n) frame_refl frame_trans (Get_frame n)
              frame_of_mut frame_of_env p)
            m (w.enter id) trivial (fun _ _ _ _ _ => trivial) exit w3 hb
        have hc2 : w2.c.cacheGet id = none := by
          rw [h2.onChain id (by simp), enter_cacheGet, hcache]
        have hw1 : w1 = (getDefers id exit w.c.cacheNestedShared.isNone w3).2 := by rw [hd]
        have hr : (getDefers id exit w.c.cacheNestedShared.isNone w3).1 = (v, none) := by rw [hd]
        rcases h3 with ⟨_, hf⟩ | ⟨s, h3⟩
        · exact absurd (by rw [hr]) (getDefers_of_failure id exit _ w3 hf)
        · have hex : exit = (getStore id m s w2).1 := congrArg Prod.fst h3
          have hw3 : w3 = (getStore id m s w2).2 := congrArg Prod.snd h3
          have hnf : (getStore id m s w2).1.isFailure = false := by
            cases hf : (getStore id m s w2).1.isFailure with
            | false => rfl
            | true =>
              rw [← hex] at hf
              exact absurd (by rw [hr]) (getDefers_of_failure id exit _ w3 hf)
          have hv : v = s := by
            rw [hex, getStore_fst _ _ _ _ hnf] at hr
            simp only [getDefers, Prod.mk.injEq] at hr
            exact hr.1.symm
          have hsv : w1.c.services = w3.c.services := by
            rw [hw1]; simp only [getDefers_snd, World.leave]; split_ifs <;> simp
          have hcg : w3.c.cacheGet id = none := by
            rw [hw3, getStore_cacheGet_of_ne_nested _ _ _ _ _ (by simp [hs])]; exact hc2
          refine ⟨?_, ?_⟩
          · rw [hsv, hw3, getStore_services_self, if_pos hs, hv]
          · rw [hw1]; simp only [getDefers_snd, World.leave]
            split_ifs
            · simp [Container.cacheGet]
            · simpa [Container.cacheGet] using hcg

@[simp] theorem leave_services (w : World σ α) (b : Bool) :
    (w.leave b).c.services = w.c.services := by
  simp only [World.leave]; split_ifs <;> simp

@[simp] theorem leave_decorators (w : World σ α) (b : Bool) :
    (w.leave b).c.decorators = w.c.decorators := by
  simp only [World.leave]; split_ifs <;> simp

@[simp] theorem leave_env (w : World σ α) (b : Bool) : (w.leave b).env = w.env := by
  simp only [World.leave]; split_ifs <;> simp

@[simp] theorem leave_trace (w : World σ α) (b : Bool) : (w.leave b).trace = w.trace := by
  simp only [World.leave]; split_ifs <;> simp

@[simp] theorem leave_circularDeps (w : World σ α) (b : Bool) :
    (w.leave b).c.circularDeps = w.c.circularDeps.stop := by
  simp only [World.leave]; split_ifs <;> simp

theorem leave_cacheGet (w : World σ α) (b : Bool) (x : String) :
    (w.leave b).c.cacheGet x = if b then none else w.c.cacheGet x := by
  simp only [World.leave]; split_ifs <;> simp [Container.cacheGet]

/-- Unfolding of `Get(id)` when it has to build the instance. -/
theorem Get_build (n : Nat) (id : String) (w : World σ α) (m : metaServiceDefinition σ α)
    (hm : mapGet w.c.services id = some m) (hcr : m.created = false)
    (hid : id ∉ w.c.circularDeps.chain) (hcache : w.c.cacheGet id = none) :
    Get (n + 1) id w =
      (getBuild (Get n) id m (w.enter id)).map fun r =>
        getDefers id r.1 w.c.cacheNestedShared.isNone r.2 := by
  rw [Get_succ]; simp [hid, hcache, hm, hcr]

/-- A call of `Get(id)` that has to build the instance and returns has invoked the provider of
`id`; the nested cache has no entry for `id` when the provider and the decorators are done. -/
theorem Get_build_frame (n : Nat) (id : String) (w : World σ α)
    (m : metaServiceDefinition σ α) (r : GetResult α) (w' : World σ α)
    (hm : mapGet w.c.services id = some m) (hcr : m.created = false)
    (hid : id ∉ w.c.circularDeps.chain) (hcache : w.c.cacheGet id = none)
    (hget : Get n id w = some (r, w')) :
    ∃ k exit w2 w3, n = k + 1 ∧ Frame ((w.enter id).log (.provider id)) w2 ∧
      ((w3 = w2 ∧ exit.isFailure = true) ∨ ∃ service, (exit, w3) = getStore id m service w2) ∧
      getBuild (Get k) id m (w.enter id) = some (exit, w3) ∧
      (r, w') = getDefers id exit w.c.cacheNestedShared.isNone w3 ∧
      w2.c.cacheGet id = none ∧
      ∃ evs, w'.trace = w.trace ++ evs ∧ Event.provider id ∈ evs := by
  cases n with
  | zero => simp [Get] at hget
  | succ k =>
    rw [Get_build k id w m hm hcr hid hcache] at hget
    simp only [Option.map_eq_some'] at hget
    obtain ⟨⟨exit, w3⟩, hb, hd⟩ := hget
    simp only at hd
    obtain ⟨w2, h2, h3⟩ :=
      getBuild_rel_log Frame (fun _ => True) (Get k) id frame_refl frame_trans
        (fun w i => frame_of_log w _ (by simp))
        (fun p _ => runProg_rel Frame (Get k) frame_refl frame_trans (Get_frame k)
          frame_of_mut frame_of_env p)
        m (w.enter id) trivial (fun _ _ _ _ _ => trivial) exit w3 hb
    refine ⟨k, exit, w2, w3, rfl, h2, h3, hb, hd.symm, ?_, ?_⟩
    · rw [h2.onChain id (by simp)]
      simp [hcache, Container.cacheGet]
      simpa [Container.cacheGet] using (enter_cacheGet w id id).trans hcache
    · obtain ⟨e2, he2, _⟩ := h2.trace
      have hw' : w' = w3.leave w.c.cacheNestedShared.isNone := by
        have := congrArg Prod.snd hd
        simpa using this.symm
      have ht3 : ∃ e3, w3.trace = w2.trace ++ e3 := by
        rcases h3 with ⟨h3, _⟩ | ⟨s, h3⟩
        · exact ⟨[], by simp [h3]⟩
        · have hw3 : w3 = (getStore id m s w2).2 := congrArg Prod.snd h3
          rcases getStore_trace id m s w2 with h | h
          · exact ⟨[], by rw [hw3, h]; simp⟩
          · exact ⟨[.built id], by rw [hw3, h]⟩
      obtain ⟨e3, he3⟩ := ht3
      refine ⟨(if w.c.cacheNestedShared.isNone then
          [.cacheCreated (w.c.circularDeps.chain.length + 1)] else []) ++
          [.provider id] ++ e2 ++ e3, ?_, by simp⟩
      rw [hw', leave_trace, he3, he2]
      simp [enter_trace]

/-- A call of `Get(id)` for an id whose scope is not `ScopeNestedShared` puts no entry for
`id` into the nested cache. -/
theorem Get_cacheGet_self (n : Nat) (id : String) (w : World σ α)
    (m : metaServiceDefinition σ α) (r : GetResult α) (w' : World σ α)
    (hm : mapGet w.c.services id = some m) (hs : m.definition.Scope ≠ .ScopeNestedShared)
    (hcache : w.c.cacheGet id = none) (hget : Get n id w = some (r, w')) :
    w'.c.cacheGet id = none := by
  by_cases hid : id ∈ w.c.circularDeps.chain
  · rw [(Get_frame n id w r w' hget).onChain id hid]; exact hcache
  · by_cases hcr : m.created = true
    · cases n with
      | zero => simp [Get] at hget
      | succ k =>
        rw [Get_created k id w m hm hcr hcache hid] at hget
        simp only [Option.some.injEq, Prod.mk.injEq] at hget
        rw [← hget.2]; exact hcache
    · obtain ⟨k, exit, w2, w3, _, _, h3, _, hd, hc2, _⟩ :=
        Get_build_frame n id w m r w' hm (by simpa using hcr) hid hcache hget
      have hw' : w' = w3.leave w.c.cacheNestedShared.isNone := by
        have := congrArg Prod.snd hd
        simpa using this
      rw [hw', leave_cacheGet]
      split_ifs
      · rfl
      · rcases h3 with ⟨h3, _⟩ | ⟨s, h3⟩
        · rw [h3]; exact hc2
        · have hw3 : w3 = (getStore id m s w2).2 := congrArg Prod.snd h3
          rw [hw3, getStore_cacheGet_of_ne_nested _ _ _ _ _ hs]; exact hc2

/-- A call of `Get` that succeeds was not stopped by the cycle check. -/
theorem not_mem_chain_of_ok (n : Nat) (id : String) (w : World σ α) (v : Option α)
    (w1 : World σ α) (h : Get n id w = some ((v, none), w1)) : id ∉ w.c.circularDeps.chain := by
  cases n with
  | zero => simp [Get] at h
  | succ n =>
    intro hc
    rw [Get_succ, if_pos hc] at h
    simp at h

/-- In the test graph with `ScopeShared`, every resolution of the root carries transaction 1. -/
theorem scopeShared_repeat (N : Nat) :
    (getTimes 10 "purchaseService" (N + 1) (World.init (scopeContainer .ScopeShared) 0)).map
        (fun p => p.1) =
      some (List.replicate (N + 1)
        (some (Val.purchaseService (.userRepo (.transaction 1)) (.itemRepo (.transaction 1))),
          none)) := by
  have h1 : (Get 10 "purchaseService" (World.init (scopeContainer .ScopeShared) 0)).isSome = true := by
    decide
  have hx := (Option.some_get h1).symm
  generalize (Get 10 "purchaseService" (World.init (scopeContainer .ScopeShared) 0)).get h1 = x at hx
  obtain ⟨r, w1⟩ := x
  have hr : r = (some (Val.purchaseService (.userRepo (.transaction 1)) (.itemRepo (.transaction 1))),
      none) := by
    have : (Get 10 "purchaseService" (World.init (scopeContainer .ScopeShared) 0)).map (fun p => p.1) =
        some (some (Val.purchaseService (.userRepo (.transaction 1)) (.itemRepo (.transaction 1))),
          none) := by decide
    rw [hx] at this
    simpa using this
  subst hr
  obtain ⟨hs1, hs2⟩ := Get_shared_stores 10 "purchaseService"
    (World.init (scopeContainer .ScopeShared) 0) _ _ _ rfl rfl rfl hx
  have hch : "purchaseService" ∉ w1.c.circularDeps.chain := by
    rw [(Get_frame _ _ _ _ _ hx).chain]
    simp [World.init, scopeContainer, Container.Override, NewContainer, newCircularDeps]
  simp only [getTimes, hx, getTimes_created 9 "purchaseService" w1 _ hs1 rfl hs2 hch N]
  simp [List.replicate_succ]

theorem scopeNonShared_step (e : Nat) (t : List Event) :
    ∃ t', Get 10 "purchaseService" ⟨scopeContainer .ScopeNonShared, e, t⟩ =
      some ((some (Val.purchaseService (.userRepo (.transaction (e + 1)))
        (.itemRepo (.transaction (e + 2)))), none), ⟨scopeContainer .ScopeNonShared, e + 2, t'⟩) :=
  ⟨_, rfl⟩

/-- In the test graph with `ScopeNonShared`, the `k`-th resolution of the root (counted from
0) carries the transactions `2k+1` and `2k+2`. -/
theorem scopeNonShared_times (N : Nat) : ∀ (e : Nat) (t : List Event),
    (getTimes 10 "purchaseService" N ⟨scopeContainer .ScopeNonShared, e, t⟩).map (fun p => p.1) =
      some ((List.range N).map fun k =>
        (some (Val.purchaseService (.userRepo (.transaction (e + 2 * k + 1)))
          (.itemRepo (.transaction (e + 2 * k + 2)))), none)) := by
  induction N with
  | zero => intro e t; simp [getTimes]
  | succ N ih =>
    intro e t
    obtain ⟨t', h⟩ := scopeNonShared_step e t
    have ih' := ih (e + 2) t'
    simp only [getTimes, h, Option.map_map]
    rw [List.range_succ_eq_map]
    cases hg : getTimes 10 "purchaseService" N ⟨scopeContainer .ScopeNonShared, e + 2, t'⟩ with
    | none => rw [hg] at ih'; simp at ih'
    | some p =>
      rw [hg] at ih'
      simp only [Option.map_some', Option.some.injEq] at ih'
      simp only [Option.map_some', Function.comp, Option.some.injEq, List.map_cons, List.map_map,
        ih']
      refine congrArg₂ _ rfl (List.map_congr_left fun k _ => ?_)
      simp only [Function.comp, Nat.succ_eq_add_one]
      have e1 : e + 2 + 2 * k + 1 = e + 2 * (k + 1) + 1 := by omega
      have e2 : e + 2 + 2 * k + 2 = e + 2 * (k + 1) + 2 := by omega
      rw [e1, e2]

/-- An error returned by `Get` comes from a failed exit of its body. -/
theorem failure_of_getDefers_err (id : String) (exit : Exit α) (b : Bool) (w : World σ α)
    (h : (getDefers id exit b w).1.2 ≠ none) : exit.isFailure = true := by
  cases exit with
  | returned s e =>
    cases e with
    | none => simp [getDefers] at h
    | some e => rfl
  | panicking s r => rfl

/-- When `getStore` panics it has stored nothing. -/
theorem getStore_of_failure (id : String) (m : metaServiceDefinition σ α) (s : Option α)
    (w : World σ α) (h : (getStore id m s w).1.isFailure = true) : (getStore id m s w).2 = w := by
  by_cases h1 : m.definition.Scope = .ScopeNestedShared
  · have h2 : m.definition.Scope ≠ .ScopeShared := by rw [h1]; simp
    cases hc : w.c.cacheNestedShared with
    | none => simp [getStore, h1, hc]
    | some cache => simp [getStore, h1, hc, Exit.isFailure] at h
  · by_cases h2 : m.definition.Scope = .ScopeShared
    · simp [getStore, h1, h2, Exit.isFailure] at h
    · simp [getStore, h1, h2, Exit.isFailure] at h

/-- A `Get(id)` that had to build the instance, with closures that call no mutating method,
and returned an error has stored nothing for `id`: the registry entry is as it was, the nested
cache has no entry for `id`, so the next `Get(id)` that returns has invoked the provider
again. -/
theorem Get_failed_nothing_stored (n : Nat) (id : String) (w : World σ α)
    (m : metaServiceDefinition σ α) (v : Option α) (e : GoError) (w' : World σ α)
    (hm : mapGet w.c.services id = some m) (hcr : m.created = false)
    (hid : id ∉ w.c.circularDeps.chain) (hcache : w.c.cacheGet id = none)
    (hG : w.c.GetOnly) (hget : Get n id w = some ((v, some e), w')) :
    mapGet w'.c.services id = some m ∧ w'.c.cacheGet id = none ∧
    ∀ k r w'', Get k id w' = some (r, w'') →
      ∃ evs, w''.trace = w'.trace ++ evs ∧ Event.provider id ∈ evs := by
  obtain ⟨k, exit, w2f, w3, hn, hf2, _, hb, hd, hc2, _⟩ :=
    Get_build_frame n id w m _ w' hm hcr hid hcache hget
  obtain ⟨w2, h2, h3⟩ :=
    getBuild_rel_log Keeps Prog.GetOnly (Get k) id keeps_refl keeps_trans
      (fun w i => keeps_of_log w _ (by simp))
      (fun p hp => runProg_rel_getOnly Keeps (Get k) keeps_refl keeps_trans (Get_keeps k)
        keeps_of_env p hp)
      m (w.enter id) (hG.1 id m hm)
      (fun w1 h1 d hd r => (h1.2 (enter_getOnly w id hG)).getOnly.2 d hd id r)
      exit w3 hb
  have hfail : exit.isFailure = true :=
    failure_of_getDefers_err id exit w.c.cacheNestedShared.isNone w3 (by rw [← hd]; simp)
  have hw3 : w3 = w2 := by
    rcases h3 with ⟨h3, _⟩ | ⟨s, h3⟩
    · exact h3
    · have hex : exit = (getStore id m s w2).1 := congrArg Prod.fst h3
      have := congrArg Prod.snd h3
      rw [hex] at hfail
      simpa [getStore_of_failure id m s w2 hfail] using this
  have hw' : w' = w3.leave w.c.cacheNestedShared.isNone := by
    have := congrArg Prod.snd hd
    simpa using this
  have hst := h2.2 (by simpa [Container.GetOnly] using hG)
  have hent : mapGet w'.c.services id = some m := by
    rw [hw', leave_services, hw3, hst.onChain id (by simp)]
    simpa using hm
  have hcg : w'.c.cacheGet id = none := by
    rw [hw', leave_cacheGet]
    split_ifs
    · rfl
    · rw [hw3, h2.1.onChain id (by simp)]
      simpa [Container.cacheGet] using (enter_cacheGet w id id).trans hcache
  have hch : id ∉ w'.c.circularDeps.chain := by
    rw [(Get_frame n id w _ w' hget).chain]; exact hid
  refine ⟨hent, hcg, fun k r w'' hk => ?_⟩
  obtain ⟨_, _, _, _, _, _, _, _, _, _, hev⟩ :=
    Get_build_frame k id w' m r w'' hent hcr hch hcg hk
  exact hev

/-- The decorator loop over `pre ++ rest`, when the decorators of `pre` all succeed, goes on
with `rest` on the value and in the world `pre` ended with. -/
theorem decorateLoop_append (getf : String → World σ α → Option (GetResult α × World σ α))
    (id : String) (rest : List (Decorator σ α)) :
    ∀ (pre : List (Decorator σ α)) (i : Nat) (r : Option α) (w : World σ α) (q : Option α)
      (w2 : World σ α), decorateLoop getf id pre i r w = some (.returned q none, w2) →
      decorateLoop getf id (pre ++ rest) i r w = decorateLoop getf id rest (i + pre.length) q w2 := by
  intro pre
  induction pre with
  | nil =>
    intro i r w q w2 h
    simp only [decorateLoop, Option.some.injEq, Prod.mk.injEq, Outcome.returned.injEq,
      and_true] at h
    simp [h.1, h.2]
  | cons d ds ih =>
    intro i r w q w2 h
    simp only [decorateLoop, List.cons_append] at h ⊢
    cases hd : runProg getf (d id r) (w.log (.decorator i id)) with
    | none => simp [hd] at h
    | some ow1 =>
      obtain ⟨o1, w1⟩ := ow1
      simp only [hd] at h ⊢
      cases o1 with
      | panicked p => simp at h
      | returned r' e =>
        cases e with
        | some e => simp at h
        | none =>
          simp only at h ⊢
          have := ih _ _ _ _ _ h
          simp only [List.append_eq] at this ⊢
          rw [this]
          simp [Nat.add_assoc, Nat.add_comm 1]

/-- The decorator loop over pure decorators returns the composed value and only adds the
trace entries of the decorators. -/
theorem decorateLoop_pure (getf : String → World σ α → Option (GetResult α × World σ α))
    (id : String) : ∀ (fs : List (String → Option α → Option α)) (i : Nat) (r : Option α)
      (w : World σ α),
      decorateLoop getf id (fs.map pureDecorator) i r w =
        some (.returned (applyAll fs id r) none,
          { w with trace := w.trace ++ decoratorEvents id i fs.length }) := by
  intro fs
  induction fs with
  | nil => intro i r w; simp [decorateLoop, applyAll, decoratorEvents]
  | cons f fs ih =>
    intro i r w
    simp only [List.map_cons, decorateLoop, pureDecorator, runProg]
    have := ih (i + 1) (f id r) (w.log (.decorator i id))
    simp only [pureDecorator] at this
    rw [this]
    simp [applyAll, decoratorEvents, World.log, List.range'_succ]

/-- A relaying provider returns the error of its nested call, and leaves the container as
that call leaves it. -/
theorem relays_run (getf : String → World σ α → Option (GetResult α × World σ α))
    (c : Container σ α) (next : String) (E : GoError)
    (hget : ∀ w1 : World σ α, w1.c = c →
      ∃ v w2, getf next w1 = some ((v, some E), w2) ∧ w2.c = c) :
    ∀ (p : Prog σ α), Relays p next → ∀ w : World σ α, w.c = c →
      ∃ v' w2, runProg getf p w = some (.returned v' (some E), w2) ∧ w2.c = c := by
  intro p hr
  induction hr with
  | get next k h =>
    intro w hw
    obtain ⟨v, w2, hg, hc⟩ := hget w hw
    obtain ⟨v', hk⟩ := h v E
    exact ⟨v', w2, by simp [runProg, hg, hk], hc⟩
  | read k next _ ih =>
    intro w hw
    obtain ⟨v', w2, h, hc⟩ := ih w.env hget w hw
    exact ⟨v', w2, by simpa [runProg] using h, hc⟩
  | modify f k next _ ih =>
    intro w hw
    obtain ⟨v', w2, h, hc⟩ := ih hget { w with env := f w.env } hw
    exact ⟨v', w2, by simpa [runProg] using h, hc⟩

/-- Leaving a frame whose container is the one `enter` set up gives the caller's container
back. -/
theorem leave_of_enter (w w2 : World σ α) (id : String) (h : w2.c = (w.enter id).c) :
    (w2.leave w.c.cacheNestedShared.isNone).c = w.c := by
  obtain ⟨⟨sv, ⟨ch⟩, ds, cn⟩, env, tr⟩ := w
  obtain ⟨c2, env2, tr2⟩ := w2
  simp only at h
  subst h
  cases cn <;> simp [World.leave, World.enter, World.withC, World.log, circularDeps.start,
    circularDeps.stop]

/-- Descent along a chain of relaying providers that closes a cycle: the frame of `x`,
entered with the chain `pre`, returns the raw circular-dependency error, with the text of
the top-level frame added when `pre` is empty, and leaves the container as it found it. -/
theorem cycle_descent (idj : String) : ∀ (post pre : List String) (x : String) (w : World σ α),
    w.c.circularDeps.chain = pre → (pre ++ x :: post).Nodup → idj ∈ pre ++ x :: post →
    RelayChain w.c.services (x :: post) idj → (∀ y ∈ x :: post, w.c.cacheGet y = none) →
    ∃ w', Get (post.length + 2) x w =
        some ((none, some (if pre = [] then
          plainErr (errorMsg "create" x (circularDepMsg (x :: post ++ [idj])))
          else newCircularDepError (pre ++ x :: post ++ [idj]))), w') ∧ w'.c = w.c := by
  intro post
  induction post with
  | nil =>
    intro pre x w hch hnd hj hrc hcg
    obtain ⟨⟨m, hm, hcr, hrel⟩, _⟩ := hrc
    have hid : x ∉ w.c.circularDeps.chain := by
      rw [hch]; intro hx
      have := List.nodup_append.1 hnd
      exact this.2.2 hx (by simp)
    have hnext : ∀ w1 : World σ α, w1.c = ((w.enter x).log (.provider x)).c →
        ∃ v w2, Get 1 idj w1 = some ((v, some (newCircularDepError (pre ++ [x] ++ [idj]))), w2) ∧
          w2.c = ((w.enter x).log (.provider x)).c := by
      intro w1 hw1
      have hmem : idj ∈ w1.c.circularDeps.chain := by
        rw [hw1]; simpa [hch] using hj
      refine ⟨none, w1, ?_, hw1⟩
      rw [Get_succ, if_pos hmem, hw1]
      simp [hch]
    obtain ⟨v', w2, hrun, hc2⟩ := relays_run (Get 1) _ idj _ hnext _ hrel _ rfl
    refine ⟨w2.leave w.c.cacheNestedShared.isNone, ?_, leave_of_enter w w2 x (by simpa using hc2)⟩
    rw [show ([] : List String).length + 2 = 1 + 1 from rfl,
      Get_build 1 x w m hm hcr hid (hcg x (by simp))]
    simp only [getBuild, hrun, Option.map_some', getDefers, decorateErr, hc2, World.log_c,
      enter_circularDeps, hch, newCircularDepError, List.length_append, List.length_singleton]
    by_cases hpre : pre = []
    · subst hpre; simp
    · have : pre.length + 1 ≠ 1 := by
        have := List.length_pos.2 hpre
        omega
      simp [hpre, this]
  | cons y post ih =>
    intro pre x w hch hnd hj hrc hcg
    obtain ⟨⟨m, hm, hcr, hrel⟩, hrest⟩ := hrc
    have hid : x ∉ w.c.circularDeps.chain := by
      rw [hch]; intro hx
      have := List.nodup_append.1 hnd
      exact this.2.2 hx (by simp)
    have hnext : ∀ w1 : World σ α, w1.c = ((w.enter x).log (.provider x)).c →
        ∃ v w2, Get (post.length + 2) y w1 =
            some ((v, some (newCircularDepError (pre ++ x :: y :: post ++ [idj]))), w2) ∧
          w2.c = ((w.enter x).log (.provider x)).c := by
      intro w1 hw1
      obtain ⟨w', hg, hc'⟩ := ih (pre ++ [x]) y w1 (by rw [hw1]; simp [hch])
        (by simpa using hnd) (by simpa using hj) (by rw [hw1]; simpa using hrest)
        (by
          intro z hz
          rw [Container.cacheGet, hw1]
          have := hcg z (List.mem_cons_of_mem _ hz)
          simpa [Container.cacheGet] using (enter_cacheGet w x z).trans this)
      refine ⟨none, w', ?_, hc'.trans hw1⟩
      rw [hg]; simp
    obtain ⟨v', w2, hrun, hc2⟩ := relays_run (Get (post.length + 2)) _ y _ hnext _ hrel _ rfl
    refine ⟨w2.leave w.c.cacheNestedShared.isNone, ?_, leave_of_enter w w2 x (by simpa using hc2)⟩
    rw [show (y :: post).length + 2 = (post.length + 2) + 1 by simp,
      Get_build (post.length + 2) x w m hm hcr hid (hcg x (by simp))]
    simp only [getBuild, hrun, Option.map_some', getDefers, decorateErr, hc2, World.log_c,
      enter_circularDeps, hch, newCircularDepError, List.length_append, List.length_singleton]
    by_cases hpre : pre = []
    · subst hpre; simp
    · have : pre.length + 1 ≠ 1 := by
        have := List.length_pos.2 hpre
        omega
      simp [hpre, this]

/-- The text of the error of the top-level frame for a circular dependency. -/
theorem errorMsg_create_circular (id0 : String) (l : List String) :
    errorMsg "create" id0 (circularDepMsg l) =
      "cannot create service `" ++ id0 ++ "`: circular dependency: " ++ " -> ".intercalate l := by
  have e1 : ("cannot " ++ "create" ++ " service `" : String) = "cannot create service `" := by
    decide
  have e2 : ("`: " ++ "circular dependency: " : String) = "`: circular dependency: " := by
    decide
  simp only [errorMsg, circularDepMsg]
  rw [e1, String.append_assoc _ "`: " _, ← String.append_assoc "`: " _ _, e2,
    ← String.append_assoc]

/-! ### At most one build of a `ScopeNestedShared` id per top-level call -/

theorem nestedInv_of_keeps (x : String) (w w' : World σ α) (hk : Keeps w w')
    (h : NestedInv x w) : NestedInv x w' := by
  have hs := hk.2 h.1
  refine ⟨hs.getOnly, by rw [hk.1.cacheSome]; exact h.2.1, fun m' hm' => ?_⟩
  have hd := hs.definitions x
  rw [hm'] at hd
  cases hw : mapGet w.c.services x with
  | none => rw [hw] at hd; simp at hd
  | some m =>
    rw [hw] at hd
    simp only [Option.map_some', Option.some.injEq] at hd
    rw [hd]; exact h.2.2 m hw

theorem onceBuilt_refl (x : String) (w : World σ α) : OnceBuilt x w w :=
  ⟨[], by simp, by simp, by simp, by simp⟩

theorem keepsOnce_refl (x : String) (w : World σ α) : KeepsOnce x w w :=
  ⟨keeps_refl w, fun _ => onceBuilt_refl x w⟩

theorem onceBuilt_trans (x : String) (a b c : World σ α) (hf1 : Frame a b) (hf2 : Frame b c)
    (h1 : OnceBuilt x a b) (h2 : OnceBuilt x b c) : OnceBuilt x a c := by
  obtain ⟨e1, he1, hle1, hz1, hc1⟩ := h1
  obtain ⟨e2, he2, hle2, hz2, hc2⟩ := h2
  have hkeep : b.c.cacheGet x ≠ none → c.c.cacheGet x ≠ none := by
    intro hb
    cases hv : b.c.cacheGet x with
    | none => exact absurd hv hb
    | some v => rw [hf2.cacheKeep x v hv]; simp
  refine ⟨e1 ++ e2, by rw [he2, he1, List.append_assoc], ?_, ?_, ?_⟩
  · rw [List.count_append]
    by_cases h : e1.count (.built x) = 1
    · have := hz2 (Or.inr (hc1 h)); omega
    · omega
  · intro h
    rw [List.count_append, hz1 h, hz2]
    rcases h with h | h
    · left; rw [hf1.chain]; exact h
    · right
      cases hv : a.c.cacheGet x with
      | none => exact absurd hv h
      | some v => rw [hf1.cacheKeep x v hv]; simp
  · intro h
    rw [List.count_append] at h
    by_cases h' : e2.count (.built x) = 1
    · exact hc2 h'
    · exact hkeep (hc1 (by omega))

theorem keepsOnce_trans (x : String) (a b c : World σ α) (h1 : KeepsOnce x a b)
    (h2 : KeepsOnce x b c) : KeepsOnce x a c :=
  ⟨keeps_trans a b c h1.1 h2.1, fun ha =>
    onceBuilt_trans x a b c h1.1.1 h2.1.1 (h1.2 ha) (h2.2 (nestedInv_of_keeps x a b h1.1 ha))⟩

theorem keepsOnce_of_env (x : String) (w : World σ α) (f : σ → σ) :
    KeepsOnce x w { w with env := f w.env } :=
  ⟨keeps_of_env w f, fun _ => ⟨[], by simp, by simp, by simp, by simp⟩⟩

theorem keepsOnce_of_log (x : String) (w : World σ α) (e : Event)
    (he : ∀ n, e ≠ .cacheCreated n) (hb : e ≠ .built x) : KeepsOnce x w (w.log e) := by
  have hcount : [e].count (.built x) = 0 := by
    simp [List.count_cons, Ne.symm hb]
  exact ⟨keeps_of_log w e he, fun _ => ⟨[e], by simp, by omega, fun _ => hcount, by omega⟩⟩

/-- The entry put into the nested cache by `getStore` for scope `ScopeNestedShared`. -/
theorem getStore_cacheGet_nested (id : String) (m : metaServiceDefinition σ α) (s : Option α)
    (w : World σ α) (hs : m.definition.Scope = .ScopeNestedShared)
    (hc : w.c.cacheNestedShared.isSome = true) :
    (getStore id m s w).2.c.cacheGet id = some s ∧
      (getStore id m s w).1 = .returned s none := by
  obtain ⟨cache, hc⟩ := Option.isSome_iff_exists.1 hc
  simp [getStore, hs, hc, Container.cacheGet, mapGet_mapSet_self]

/-- The builds of `x` counted over the build phase of a frame for `id`, relative to the
caller's world. -/
theorem onceBuilt_of_build (x id : String) (w w2 w3 : World σ α)
    (m : metaServiceDefinition σ α) (exit : Exit α) (hid : id ∉ w.c.circularDeps.chain)
    (hcache : w.c.cacheGet id = none) (hm : mapGet w.c.services id = some m)
    (hinv : NestedInv x (w.enter id)) (hf : Frame (w.enter id) w2)
    (hO : OnceBuilt x (w.enter id) w2)
    (h3 : (w3 = w2 ∧ exit.isFailure = true) ∨ ∃ service, (exit, w3) = getStore id m service w2) :
    ∃ evs, w3.trace = (w.enter id).trace ++ evs ∧ evs.count (.built x) ≤ 1 ∧
      ((x ∈ w.c.circularDeps.chain ∨ w.c.cacheGet x ≠ none) → evs.count (.built x) = 0) ∧
      (evs.count (.built x) = 1 → w3.c.cacheGet x ≠ none) := by
  obtain ⟨e2, he2, hle, hz, hc⟩ := hO
  have hz' : (x ∈ w.c.circularDeps.chain ∨ w.c.cacheGet x ≠ none) → e2.count (.built x) = 0 := by
    intro h
    apply hz
    rcases h with h | h
    · left; simp [h]
    · right; rw [enter_cacheGet]; exact h
  rcases h3 with ⟨h3, _⟩ | ⟨s, h3⟩
  · subst h3
    exact ⟨e2, he2, hle, hz', hc⟩
  · have hw3 : w3 = (getStore id m s w2).2 := congrArg Prod.snd h3
    have hsome : w2.c.cacheNestedShared.isSome = true := by rw [hf.cacheSome]; simp
    by_cases hx : id = x
    · subst hx
      have h0 : e2.count (.built id) = 0 := hz (Or.inl (by simp))
      have hcg : w3.c.cacheGet id ≠ none := by
        rw [hw3, (getStore_cacheGet_nested id m s w2
          (hinv.2.2 m (by rw [enter_services]; exact hm)) hsome).1]
        simp
      rcases getStore_trace id m s w2 with ht | ht
      · exact ⟨e2, by rw [hw3, ht, he2], hle, fun _ => h0, fun _ => hcg⟩
      · refine ⟨e2 ++ [.built id], by rw [hw3, ht, he2, List.append_assoc], ?_, ?_, fun _ => hcg⟩
        · rw [List.count_append, h0]; simp
        · intro h
          rcases h with h | h
          · exact absurd h hid
          · exact absurd hcache h
    · have hcg : w3.c.cacheGet x = w2.c.cacheGet x := by
        rw [hw3, getStore_cacheGet_ne _ _ _ _ _ hx]
      have hb : ([Event.built id] : List Event).count (.built x) = 0 := by
        simp [List.count_cons]
        exact fun h => hx h
      rcases getStore_trace id m s w2 with ht | ht
      · exact ⟨e2, by rw [hw3, ht, he2], hle, hz', fun h => by rw [hcg]; exact hc h⟩
      · refine ⟨e2 ++ [.built id], by rw [hw3, ht, he2, List.append_assoc], ?_, ?_, ?_⟩
        · rw [List.count_append, hb]; exact hle
        · intro h; rw [List.count_append, hb, hz' h]
        · intro h
          rw [List.count_append, hb] at h
          rw [hcg]; exact hc h

/-- Every call of `Get` that returns satisfies `KeepsOnce x`. -/
theorem Get_keepsOnce (x : String) : ∀ (n : Nat) (id : String) (w : World σ α) r w',
    Get n id w = some (r, w') → KeepsOnce x w w' := by
  intro n
  induction n with
  | zero => intro id w r w' h; simp [Get] at h
  | succ n ih =>
    intro id w r w' h
    refine ⟨Get_keeps _ _ _ _ _ h, fun hinv => ?_⟩
    rw [Get_succ] at h
    split_ifs at h with hc
    · simp at h; rw [← h.2]; exact onceBuilt_refl x w
    · split at h
      · simp at h; rw [← h.2]; exact onceBuilt_refl x w
      · rename_i hcache
        split at h
        · simp at h; rw [← h.2]; exact onceBuilt_refl x w
        · rename_i m hm
          split_ifs at h with hcr
          · simp at h; rw [← h.2]; exact onceBuilt_refl x w
          · simp only [Option.map_eq_some'] at h
            obtain ⟨⟨exit, w3⟩, hb, hd⟩ := h
            simp only at hd
            have hinv0 : NestedInv x (w.enter id) :=
              ⟨enter_getOnly w id hinv.1, by simp, fun m hm => hinv.2.2 m (by simpa using hm)⟩
            obtain ⟨w2, h2, h3⟩ :=
              getBuild_rel (KeepsOnce x) Prog.GetOnly (Get n) id (keepsOnce_refl x)
                (keepsOnce_trans x)
                (fun w => keepsOnce_of_log x w _ (by simp) (by simp))
                (fun w i => keepsOnce_of_log x w _ (by simp) (by simp))
                (fun p hp => runProg_rel_getOnly (KeepsOnce x) (Get n) (keepsOnce_refl x)
                  (keepsOnce_trans x) ih (keepsOnce_of_env x) p hp)
                m (w.enter id) (hinv.1.1 id m hm)
                (fun w1 h1 d hd r => (h1.1.2 hinv0.1).getOnly.2 d hd id r)
                exit w3 hb
            obtain ⟨evs, he, hle, hz, hcg⟩ :=
              onceBuilt_of_build x id w w2 w3 m exit hc hcache hm hinv0 h2.1.1 (h2.2 hinv0) h3
            have hw' : w' = w3.leave w.c.cacheNestedShared.isNone := by
              have := congrArg Prod.snd hd
              simpa using this.symm
            have hnone : w.c.cacheNestedShared.isNone = false := by
              have := hinv.2.1
              cases hcn : w.c.cacheNestedShared with
              | none => rw [hcn] at this; simp at this
              | some c => rfl
            refine ⟨evs, ?_, hle, hz, fun h1 => ?_⟩
            · rw [hw', leave_trace, he, enter_trace, hnone]; simp
            · rw [hw', leave_cacheGet, hnone]; simpa using hcg h1

/-- During a top-level `Get` on a container whose closures are `GetOnly`, an id registered
with `ScopeNestedShared` is built at most once. -/
theorem Get_top_once (x : String) (n : Nat) (id : String) (w : World σ α) (r : GetResult α)
    (w' : World σ α) (hG : w.c.GetOnly) (hcn : w.c.cacheNestedShared = none)
    (hx : ∀ m, mapGet w.c.services x = some m → m.definition.Scope = .ScopeNestedShared)
    (h : Get n id w = some (r, w')) :
    ∃ evs, w'.trace = w.trace ++ evs ∧ evs.count (.built x) ≤ 1 := by
  cases n with
  | zero => simp [Get] at h
  | succ n =>
    rw [Get_succ] at h
    split_ifs at h with hc
    · simp at h; rw [← h.2]; exact ⟨[], by simp, by simp⟩
    · split at h
      · simp at h; rw [← h.2]; exact ⟨[], by simp, by simp⟩
      · rename_i hcache
        split at h
        · simp at h; rw [← h.2]; exact ⟨[], by simp, by simp⟩
        · rename_i m hm
          split_ifs at h with hcr
          · simp at h; rw [← h.2]; exact ⟨[], by simp, by simp⟩
          · simp only [Option.map_eq_some'] at h
            obtain ⟨⟨exit, w3⟩, hb, hd⟩ := h
            simp only at hd
            have hinv0 : NestedInv x (w.enter id) :=
              ⟨enter_getOnly w id hG, by simp, fun m hm => hx m (by simpa using hm)⟩
            obtain ⟨w2, h2, h3⟩ :=
              getBuild_rel (KeepsOnce x) Prog.GetOnly (Get n) id (keepsOnce_refl x)
                (keepsOnce_trans x)
                (fun w => keepsOnce_of_log x w _ (by simp) (by simp))
                (fun w i => keepsOnce_of_log x w _ (by simp) (by simp))
                (fun p hp => runProg_rel_getOnly (KeepsOnce x) (Get n) (keepsOnce_refl x)
                  (keepsOnce_trans x) (Get_keepsOnce x n) (keepsOnce_of_env x) p hp)
                m (w.enter id) (hG.1 id m hm)
                (fun w1 h1 d hd r => (h1.1.2 hinv0.1).getOnly.2 d hd id r)
                exit w3 hb
            obtain ⟨evs, he, hle, _, _⟩ :=
              onceBuilt_of_build x id w w2 w3 m exit hc hcache hm hinv0 h2.1.1 (h2.2 hinv0) h3
            have hw' : w' = w3.leave w.c.cacheNestedShared.isNone := by
              have := congrArg Prod.snd hd
              simpa using this.symm
            refine ⟨[.cacheCreated (w.c.circularDeps.chain.length + 1)] ++ evs, ?_, ?_⟩
            · rw [hw', leave_trace, he, enter_trace, hcn]; simp
            · rw [List.count_append]
              simpa [List.count_cons] using hle

/-- A nested `Get(x)` of an id registered with `ScopeNestedShared` that succeeds leaves the
returned instance in the nested cache. -/
theorem Get_nested_caches (x : String) (k : Nat) (wn : World σ α)
    (m : metaServiceDefinition σ α) (v : Option α) (wn' : World σ α)
    (hm : mapGet wn.c.services x = some m) (hs : m.definition.Scope = .ScopeNestedShared)
    (hcr : m.created = false) (hsome : wn.c.cacheNestedShared.isSome = true)
    (hget : Get k x wn = some ((v, none), wn')) : wn'.c.cacheGet x = some v := by
  have hid := not_mem_chain_of_ok k x wn v wn' hget
  cases hcg : wn.c.cacheGet x with
  | some s =>
    cases k with
    | zero => simp [Get] at hget
    | succ k =>
      rw [Get_succ] at hget
      simp only [hid, if_false, hcg, Option.some.injEq, Prod.mk.injEq, and_true] at hget
      rw [← hget.2, hcg, hget.1]
  | none =>
    obtain ⟨k', exit, w2, w3, _, hf, h3, _, hd, _, _⟩ :=
      Get_build_frame k x wn m _ wn' hm hcr hid hcg hget
    have hr : (getDefers x exit wn.c.cacheNestedShared.isNone w3).1 = (v, none) := by rw [← hd]
    have hw' : wn' = w3.leave wn.c.cacheNestedShared.isNone := by
      have := congrArg Prod.snd hd
      simpa using this
    have hnone : wn.c.cacheNestedShared.isNone = false := by
      cases hcn : wn.c.cacheNestedShared with
      | none => rw [hcn] at hsome; simp at hsome
      | some c => rfl
    rcases h3 with ⟨_, hfail⟩ | ⟨s, h3⟩
    · exact absurd (by rw [hr]) (getDefers_of_failure x exit _ w3 hfail)
    · have hex : exit = (getStore x m s w2).1 := congrArg Prod.fst h3
      have hw3 : w3 = (getStore x m s w2).2 := congrArg Prod.snd h3
      have h2some : w2.c.cacheNestedShared.isSome = true := by rw [hf.cacheSome]; simp
      obtain ⟨hc3, he3⟩ := getStore_cacheGet_nested x m s w2 hs h2some
      rw [hex, he3] at hr
      simp only [getDefers, Prod.mk.injEq, and_true] at hr
      rw [hw', leave_cacheGet, hnone, hw3, hc3, hr]
      simp

theorem scopeNestedShared_step (e : Nat) (t : List Event) :
    ∃ t', Get 10 "purchaseService" ⟨scopeContainer .ScopeNestedShared, e, t⟩ =
      some ((some (Val.purchaseService (.userRepo (.transaction (e + 1)))
        (.itemRepo (.transaction (e + 1)))), none),
        ⟨scopeContainer .ScopeNestedShared, e + 1, t'⟩) :=
  ⟨_, rfl⟩

/-- In the test graph with `ScopeNestedShared`, the `i`-th resolution of the root (counted
from 1) carries transaction `i` in both repositories. -/
theorem scopeNestedShared_times (N : Nat) : ∀ (e : Nat) (t : List Event),
    (getTimes 10 "purchaseService" N ⟨scopeContainer .ScopeNestedShared, e, t⟩).map
        (fun p => p.1) =
      some ((List.range N).map fun k =>
        (some (Val.purchaseService (.userRepo (.transaction (e + k + 1)))
          (.itemRepo (.transaction (e + k + 1)))), none)) := by
  induction N with
  | zero => intro e t; simp [getTimes]
  | succ N ih =>
    intro e t
    obtain ⟨t', h⟩ := scopeNestedShared_step e t
    have ih' := ih (e + 1) t'
    simp only [getTimes, h, Option.map_map]
    rw [List.range_succ_eq_map]
    cases hg : getTimes 10 "purchaseService" N ⟨scopeContainer .ScopeNestedShared, e + 1, t'⟩ with
    | none => rw [hg] at ih'; simp at ih'
    | some p =>
      rw [hg] at ih'
      simp only [Option.map_some', Option.some.injEq] at ih'
      simp only [Option.map_some', Function.comp, Option.some.injEq, List.map_cons, List.map_map,
        ih']
      refine congrArg₂ _ rfl (List.map_congr_left fun k _ => ?_)
      simp only [Function.comp, Nat.succ_eq_add_one]
      have e1 : e + 1 + k + 1 = e + (k + 1) + 1 := by omega
      rw [e1]

theorem getOnly_mustGet (id : String) (k : Option α → Prog σ α) (h : ∀ v, (k v).GetOnly) :
    (MustGet id k).GetOnly := by
  intro v e
  cases e with
  | none => exact h v
  | some e => simp [Prog.GetOnly]

/-- The providers of the test graph call the container only through `MustGet`. -/
theorem scopeContainer_getOnly (s : Scope) : (scopeContainer s).GetOnly := by
  have htx : transactionProvider.GetOnly := by simp [transactionProvider, Prog.GetOnly]
  have hur : userRepoProvider.GetOnly := by
    apply getOnly_mustGet
    intro v
    split <;> simp [Prog.GetOnly]
  have hir : itemRepoProvider.GetOnly := by
    apply getOnly_mustGet
    intro v
    split <;> simp [Prog.GetOnly]
  have hps : purchaseServiceProvider.GetOnly := by
    apply getOnly_mustGet
    intro v
    split
    · apply getOnly_mustGet
      intro v'
      split <;> simp [Prog.GetOnly]
    · simp [Prog.GetOnly]
  refine ⟨fun id m hm => ?_, fun d hd => by
    simp [scopeContainer, Container.Override, NewContainer] at hd⟩
  simp only [scopeContainer, Container.Override, NewContainer, List.foldl_nil, mapSet,
    mapGet] at hm
  split_ifs at hm
  · injection hm with hm; subst hm; exact htx
  · injection hm with hm; subst hm; exact hur
  · injection hm with hm; subst hm; exact hir
  · injection hm with hm; subst hm; exact hps

/-! ### `Get` returns: the cycle check bounds the depth of a resolution -/

theorem mapSet_keys {β : Type} (m : List (String × β)) (k : String) (v v0 : β)
    (h : mapGet m k = some v0) : (mapSet m k v).map Prod.fst = m.map Prod.fst := by
  induction m with
  | nil => simp [mapGet] at h
  | cons hd tl ih =>
    obtain ⟨k', v'⟩ := hd
    by_cases hk : k' = k
    · subst hk; simp [mapSet]
    · simp only [mapGet, hk, if_false] at h
      simp [mapSet, hk, ih h]

theorem mem_keys_of_mapGet {β : Type} (m : List (String × β)) (k : String) (v : β)
    (h : mapGet m k = some v) : k ∈ m.map Prod.fst := by
  induction m with
  | nil => simp [mapGet] at h
  | cons hd tl ih =>
    obtain ⟨k', v'⟩ := hd
    by_cases hk : k' = k
    · subst hk; simp
    · simp only [mapGet, hk, if_false] at h
      simp [ih h]

theorem getStore_keys (id : String) (m m0 : metaServiceDefinition σ α) (s : Option α)
    (w : World σ α) (h : mapGet w.c.services id = some m0) :
    (getStore id m s w).2.c.services.map Prod.fst = w.c.services.map Prod.fst := by
  simp only [getStore]
  split_ifs <;> (try split) <;> simp [mapSet_keys _ _ _ _ h]

theorem keepsKeys_refl (w : World σ α) : KeepsKeys w w := ⟨keeps_refl w, fun _ => rfl⟩

theorem keepsKeys_trans (a b c : World σ α) (h1 : KeepsKeys a b) (h2 : KeepsKeys b c) :
    KeepsKeys a c :=
  ⟨keeps_trans a b c h1.1 h2.1, fun ha =>
    (h2.2 (h1.1.2 ha).getOnly).trans (h1.2 ha)⟩

theorem keepsKeys_of_env (w : World σ α) (f : σ → σ) : KeepsKeys w { w with env := f w.env } :=
  ⟨keeps_of_env w f, fun _ => rfl⟩

theorem keepsKeys_of_log (w : World σ α) (e : Event) (he : ∀ n, e ≠ .cacheCreated n) :
    KeepsKeys w (w.log e) :=
  ⟨keeps_of_log w e he, fun _ => rfl⟩

/-- Every call of `Get` that returns satisfies `KeepsKeys`. -/
theorem Get_keepsKeys : ∀ (n : Nat) (id : String) (w : World σ α) r w',
    Get n id w = some (r, w') → KeepsKeys w w' := by
  intro n
  induction n with
  | zero => intro id w r w' h; simp [Get] at h
  | succ n ih =>
    intro id w r w' h
    refine ⟨Get_keeps _ _ _ _ _ h, fun hG => ?_⟩
    rw [Get_succ] at h
    split_ifs at h with hc
    · simp at h; rw [← h.2]
    · split at h
      · simp at h; rw [← h.2]
      · split at h
        · simp at h; rw [← h.2]
        · rename_i m hm
          split_ifs at h with hcr
          · simp at h; rw [← h.2]
          · simp only [Option.map_eq_some'] at h
            obtain ⟨⟨exit, w3⟩, hb, hd⟩ := h
            simp only at hd
            have hG0 := enter_getOnly w id hG
            obtain ⟨w2, h2, h3⟩ :=
              getBuild_rel KeepsKeys Prog.GetOnly (Get n) id keepsKeys_refl keepsKeys_trans
                (fun w => keepsKeys_of_log w _ (by simp))
                (fun w i => keepsKeys_of_log w _ (by simp))
                (fun p hp => runProg_rel_getOnly KeepsKeys (Get n) keepsKeys_refl
                  keepsKeys_trans ih keepsKeys_of_env p hp)
                m (w.enter id) (hG.1 id m hm)
                (fun w1 h1 d hd r => (h1.1.2 hG0).getOnly.2 d hd id r)
                exit w3 hb
            have hw' : w' = w3.leave w.c.cacheNestedShared.isNone := by
              have := congrArg Prod.snd hd
              simpa using this.symm
            have hk2 : w2.c.services.map Prod.fst = w.c.services.map Prod.fst := by
              rw [h2.2 hG0, enter_services]
            have hm2 : mapGet w2.c.services id = some m := by
              rw [(h2.1.2 hG0).onChain id (by simp), enter_services, hm]
            rw [hw', leave_services]
            rcases h3 with ⟨h3, _⟩ | ⟨s, h3⟩
            · rw [h3, hk2]
            · have hw3 : w3 = (getStore id m s w2).2 := congrArg Prod.snd h3
              rw [hw3, getStore_keys id m m s w2 hm2, hk2]

/-- Running a `GetOnly` closure returns when every call of `getf` does. -/
theorem runProg_total (P : World σ α → Prop)
    (getf : String → World σ α → Option (GetResult α × World σ α))
    (hget : ∀ id w, P w → ∃ r w', getf id w = some (r, w') ∧ P w')
    (henv : ∀ (w : World σ α) (f : σ → σ), P w → P { w with env := f w.env }) :
    ∀ (p : Prog σ α), p.GetOnly → ∀ w, P w → ∃ o w', runProg getf p w = some (o, w') ∧ P w' := by
  intro p
  induction p with
  | ret v e => intro _ w hw; exact ⟨_, _, rfl, hw⟩
  | panic p => intro _ w hw; exact ⟨_, _, rfl, hw⟩
  | get id k ih =>
    intro hp w hw
    obtain ⟨r, w1, hg, hw1⟩ := hget id w hw
    obtain ⟨o, w', h, hw'⟩ := ih r.1 r.2 (hp _ _) w1 hw1
    exact ⟨o, w', by simp [runProg, hg, h], hw'⟩
  | has id k ih =>
    intro hp w hw
    obtain ⟨o, w', h, hw'⟩ := ih _ (hp _) w hw
    exact ⟨o, w', by simpa [runProg] using h, hw'⟩
  | register id p s k _ ih => intro hp; exact absurd hp (by simp [Prog.GetOnly])
  | override id p s k _ ih => intro hp; exact absurd hp (by simp [Prog.GetOnly])
  | revoke id k ih => intro hp; exact absurd hp (by simp [Prog.GetOnly])
  | remove id k ih => intro hp; exact absurd hp (by simp [Prog.GetOnly])
  | registerDecorator d k _ ih => intro hp; exact absurd hp (by simp [Prog.GetOnly])
  | read k ih =>
    intro hp w hw
    obtain ⟨o, w', h, hw'⟩ := ih _ (hp _) w hw
    exact ⟨o, w', by simpa [runProg] using h, hw'⟩
  | modify f k ih =>
    intro hp w hw
    obtain ⟨o, w', h, hw'⟩ := ih hp _ (henv w f hw)
    exact ⟨o, w', by simpa [runProg] using h, hw'⟩

/-- The decorator loop over `GetOnly` decorators returns when every call of `getf` does. -/
theorem decorateLoop_total (P : World σ α → Prop)
    (getf : String → World σ α → Option (GetResult α × World σ α)) (id : String)
    (hget : ∀ id w, P w → ∃ r w', getf id w = some (r, w') ∧ P w')
    (henv : ∀ (w : World σ α) (f : σ → σ), P w → P { w with env := f w.env })
    (hlog : ∀ (w : World σ α) i, P w → P (w.log (.decorator i id))) :
    ∀ (ds : List (Decorator σ α)), (∀ d ∈ ds, ∀ r, (d id r).GetOnly) →
      ∀ i r w, P w → ∃ o w', decorateLoop getf id ds i r w = some (o, w') ∧ P w' := by
  intro ds
  induction ds with
  | nil => intro _ i r w hw; exact ⟨_, _, rfl, hw⟩
  | cons d ds ih =>
    intro hds i r w hw
    obtain ⟨o1, w1, h1, hw1⟩ :=
      runProg_total P getf hget henv (d id r) (hds d (List.mem_cons_self _ _) r) _ (hlog w i hw)
    cases o1 with
    | panicked p => exact ⟨.panicked p, w1, by simp [decorateLoop, h1], hw1⟩
    | returned r' e =>
      cases e with
      | some e => exact ⟨.returned r' (some e), w1, by simp [decorateLoop, h1], hw1⟩
      | none =>
        obtain ⟨o, w', h, hw'⟩ :=
          ih (fun d hd => hds d (List.mem_cons_of_mem _ hd)) (i + 1) r' w1 hw1
        exact ⟨o, w', by simp [decorateLoop, h1, h], hw'⟩

/-- Putting a registered id that is not on the chain onto the chain lowers `pending`. -/
theorem filter_not_mem_lt (l ch : List String) (id : String) (hl : id ∈ l) (hc : id ∉ ch) :
    (l.filter fun k => decide (k ∉ ch ++ [id])).length <
      (l.filter fun k => decide (k ∉ ch)).length := by
  induction l with
  | nil => simp at hl
  | cons a t ih =>
    have hle : (t.filter fun k => decide (k ∉ ch ++ [id])).length ≤
        (t.filter fun k => decide (k ∉ ch)).length := by
      apply List.Sublist.length_le
      apply List.monotone_filter_right
      intro k hk
      simp only [List.mem_append, List.mem_singleton, not_or, decide_eq_true_eq] at hk ⊢
      exact hk.1
    simp only [List.filter_cons]
    split_ifs with h1 h2 h2
    · simp only [List.mem_append, List.mem_singleton, not_or, decide_eq_true_eq] at h1
      have ht : id ∈ t := by
        rcases List.mem_cons.1 hl with h | h
        · exact absurd h.symm h1.2
        · exact h
      have := ih ht
      simp only [List.length_cons]; omega
    · simp only [List.mem_append, List.mem_singleton, not_or, decide_eq_true_eq] at h1 h2
      exact absurd h1.1 h2
    · simp only [List.length_cons]; omega
    · simp only [List.mem_append, List.mem_singleton, not_or, decide_eq_true_eq, not_and,
        not_not] at h1 h2
      have ha : a ≠ id := fun h => hc (h ▸ h2)
      have ht : id ∈ t := by
        rcases List.mem_cons.1 hl with h | h
        · exact absurd h.symm ha
        · exact h
      exact ih ht

/-- With closures that call no mutating method, `Get` returns as soon as the fuel exceeds the
number of registered ids that are not on the chain. -/
theorem Get_total : ∀ (N : Nat) (id : String) (w : World σ α), w.c.GetOnly → w.pending < N →
    ∃ r w', Get N id w = some (r, w') := by
  intro N
  induction N with
  | zero => intro id w _ h; omega
  | succ N ih =>
    intro id w hG hp
    rw [Get_succ]
    split_ifs with hc
    · exact ⟨_, _, rfl⟩
    · split
      · exact ⟨_, _, rfl⟩
      · split
        · exact ⟨_, _, rfl⟩
        · rename_i m hm
          split_ifs with hcr
          · exact ⟨_, _, rfl⟩
          · have hP : ∀ id' (w1 : World σ α), (w1.c.GetOnly ∧ w1.pending < N) →
                ∃ r w', Get N id' w1 = some (r, w') ∧ (w'.c.GetOnly ∧ w'.pending < N) := by
              intro id' w1 hw1
              obtain ⟨r, w', hg⟩ := ih id' w1 hw1.1 hw1.2
              have hk := Get_keepsKeys N id' w1 r w' hg
              refine ⟨r, w', hg, (hk.1.2 hw1.1).getOnly, ?_⟩
              have : w'.pending = w1.pending := by
                simp only [World.pending, hk.2 hw1.1, hk.1.1.chain]
              rw [this]; exact hw1.2
            have hP0 : ((w.enter id).log (.provider id)).c.GetOnly ∧
                ((w.enter id).log (.provider id)).pending < N := by
              refine ⟨enter_getOnly w id hG, ?_⟩
              have := filter_not_mem_lt (w.c.services.map Prod.fst) w.c.circularDeps.chain id
                (mem_keys_of_mapGet _ _ _ hm) hc
              simp only [World.pending, World.log_c, enter_services, enter_circularDeps] at hp ⊢
              omega
            obtain ⟨o1, w1, h1, hw1⟩ :=
              runProg_total _ (Get N) hP (fun w f h => h) _ (hG.1 id m hm) _ hP0
            simp only [getBuild, h1]
            cases o1 with
            | panicked p => exact ⟨_, _, rfl⟩
            | returned v e =>
              cases e with
              | some e => exact ⟨_, _, rfl⟩
              | none =>
                obtain ⟨o2, w2, h2, _⟩ :=
                  decorateLoop_total _ (Get N) id hP (fun w f h => h) (fun w i h => h)
                    w1.c.decorators (fun d hd r => hw1.1.2 d hd id r) 0 v w1 hw1
                simp only [decorate, h2]
                cases o2 with
                | panicked p => exact ⟨_, _, rfl⟩
                | returned v2 e2 =>
                  cases e2 with
                  | some e => exact ⟨_, _, rfl⟩
                  | none => exact ⟨_, _, rfl⟩

/-- With closures that call no mutating method, `Get` returns whenever the fuel exceeds the
number of registered ids. -/
theorem Get_returns (fuel : Nat) (id : String) (w : World σ α) (hG : w.c.GetOnly)
    (h : w.c.services.length < fuel) : ∃ r w', Get fuel id w = some (r, w') := by
  apply Get_total fuel id w hG
  have : w.pending ≤ w.c.services.length := by
    simp only [World.pending]
    exact (List.length_filter_le _ _).trans (by simp)
  omega

/-- A successful chain of decorator runs is what the decorator loop computes. -/
theorem decorateLoop_of_decoratedBy
    (getf : String → World σ α → Option (GetResult α × World σ α)) (id : String)
    (ds : List (Decorator σ α)) (i : Nat) (r : Option α) (w : World σ α) (q : Option α)
    (w2 : World σ α) (h : DecoratedBy getf id ds i r w q w2) :
    decorateLoop getf id ds i r w = some (.returned q none, w2) := by
  induction h with
  | nil i r w => rfl
  | cons d ds i r r' q w w1 w2 hd _ ih => simp [decorateLoop, hd, ih]

/-- Pure decorators form a successful chain ending with the composed value. -/
theorem decoratedBy_pure (getf : String → World σ α → Option (GetResult α × World σ α))
    (id : String) : ∀ (fs : List (String → Option α → Option α)) (i : Nat) (r : Option α)
      (w : World σ α),
      DecoratedBy getf id (fs.map pureDecorator) i r w (applyAll fs id r)
        { w with trace := w.trace ++ decoratorEvents id i fs.length } := by
  intro fs
  induction fs with
  | nil =>
    intro i r w
    have : ({ w with trace := w.trace ++ decoratorEvents id i ([] : List
        (String → Option α → Option α)).length } : World σ α) = w := by
      simp [decoratorEvents]
    rw [this]
    exact .nil i r w
  | cons f fs ih =>
    intro i r w
    have h := ih (i + 1) (f id r) (w.log (.decorator i id))
    have e : ({ w.log (.decorator i id) with
        trace := (w.log (.decorator i id)).trace ++ decoratorEvents id (i + 1) fs.length } :
          World σ α) =
        { w with trace := w.trace ++ decoratorEvents id i (f :: fs).length } := by
      simp [decoratorEvents, World.log, List.range'_succ]
    rw [e] at h
    exact .cons (pureDecorator f) _ i r (f id r) _ w _ _ rfl h

/-- The ways in which the build phase of `Get` ends: a returned error with a nil service, a
panic of the provider, a panic of a decorator (the named result `service` then holds what the
provider returned), or `getStore`. -/
theorem getBuild_exit (getf : String → World σ α → Option (GetResult α × World σ α))
    (id : String) (m : metaServiceDefinition σ α) (w0 : World σ α) (exit : Exit α)
    (w3 : World σ α) (h : getBuild getf id m w0 = some (exit, w3)) :
    (∃ e, exit = .returned none (some e)) ∨ (∃ p, exit = .panicking none p) ∨
    (∃ s w1 p,
      runProg getf m.definition.Provider (w0.log (.provider id)) = some (.returned s none, w1) ∧
      decorate getf id s w1 = some (.panicked p, w3) ∧ exit = .panicking s p) ∨
    (∃ s w1 s2 w2,
      runProg getf m.definition.Provider (w0.log (.provider id)) = some (.returned s none, w1) ∧
      decorate getf id s w1 = some (.returned s2 none, w2) ∧
      (exit, w3) = getStore id m s2 w2) := by
  simp only [getBuild] at h
  cases hp : runProg getf m.definition.Provider (w0.log (.provider id)) with
  | none => simp [hp] at h
  | some ow1 =>
    obtain ⟨o1, w1⟩ := ow1
    simp only [hp] at h
    cases o1 with
    | panicked p => simp at h; exact Or.inr (Or.inl ⟨p, h.1.symm⟩)
    | returned v e =>
      cases e with
      | some e => simp at h; exact Or.inl ⟨_, h.1.symm⟩
      | none =>
        cases hd : decorate getf id v w1 with
        | none => simp [hd] at h
        | some ow2 =>
          obtain ⟨o2, w2⟩ := ow2
          simp only [hd] at h
          cases o2 with
          | panicked p =>
            simp at h
            exact Or.inr (Or.inr (Or.inl ⟨v, w1, p, rfl, by rw [← h.2]; exact hd, h.1.symm⟩))
          | returned v2 e2 =>
            cases e2 with
            | some e => simp at h; exact Or.inl ⟨_, h.1.symm⟩
            | none =>
              simp only [Option.some.injEq] at h
              exact Or.inr (Or.inr (Or.inr ⟨v, w1, v2, w2, rfl, hd, h.symm⟩))

/-- With the `cacheNestedShared` map in place, `getStore` returns the service. -/
theorem getStore_returns (id : String) (m : metaServiceDefinition σ α) (s : Option α)
    (w : World σ α) (h : w.c.cacheNestedShared.isSome = true) :
    (getStore id m s w).1 = .returned s none := by
  simp only [getStore]
  split_ifs <;> (try split) <;> simp_all

/-- When `Get(id)` returns a service together with an error, a decorator has panicked on the
value `s` that the provider returned, and the service is `s`. -/
theorem Get_service_with_error (n : Nat) (id : String) (w : World σ α) (r : GetResult α)
    (w' : World σ α) (hget : Get n id w = some (r, w')) (herr : r.2 ≠ none) :
    r.1 = none ∨
    ∃ k m s p w1 w2, n = k + 1 ∧ mapGet w.c.services id = some m ∧
      runProg (Get k) m.definition.Provider ((w.enter id).log (.provider id)) =
        some (.returned s none, w1) ∧
      decorate (Get k) id s w1 = some (.panicked p, w2) ∧
      r = (s, some (plainErr (errorMsg "create" id p.format))) := by
  cases n with
  | zero => simp [Get] at hget
  | succ k =>
    rw [Get_succ] at hget
    split_ifs at hget with hc
    · simp at hget; left; rw [← hget.1]
    · split at hget
      · simp at hget; rw [← hget.1] at herr; simp at herr
      · split at hget
        · simp at hget; left; rw [← hget.1]
        · rename_i m hm
          split_ifs at hget with hcr
          · simp at hget; rw [← hget.1] at herr; simp at herr
          · simp only [Option.map_eq_some'] at hget
            obtain ⟨⟨exit, w3⟩, hb, hd⟩ := hget
            simp only at hd
            have hr : r = (getDefers id exit w.c.cacheNestedShared.isNone w3).1 := by rw [hd]
            rcases getBuild_exit (Get k) id m (w.enter id) exit w3 hb with
              ⟨e, he⟩ | ⟨p, he⟩ | ⟨s, w1, p, hp, hdec, he⟩ | ⟨s, w1, s2, w2, hp, hdec, he⟩
            · left; rw [hr, he]; rfl
            · left; rw [hr, he]; rfl
            · right
              exact ⟨k, m, s, p, w1, w3, rfl, hm, hp, hdec, by rw [hr, he]; rfl⟩
            · exfalso
              have f1 : Frame ((w.enter id).log (.provider id)) w1 :=
                runProg_rel Frame (Get k) frame_refl frame_trans (Get_frame k) frame_of_mut
                  frame_of_env _ _ _ _ hp
              have f2 : Frame w1 w2 :=
                decorateLoop_rel Frame (Get k) id frame_refl frame_trans
                  (fun w i => frame_of_log w _ (by simp)) _
                  (fun d _ r w o w' hrun =>
                    runProg_rel Frame (Get k) frame_refl frame_trans (Get_frame k) frame_of_mut
                      frame_of_env _ _ _ _ hrun) _ _ _ _ _ hdec
              have hs : w2.c.cacheNestedShared.isSome = true := by
                rw [f2.cacheSome, f1.cacheSome]; simp
              have hex : exit = (getStore id m s2 w2).1 := congrArg Prod.fst he
              rw [getStore_returns id m s2 w2 hs] at hex
              rw [hr, hex] at herr
              simp [getDefers] at herr

/-! ### Registering, overriding, revoking, removing -/

/-- An id that is registered but not created, not on the chain and not in the nested cache
has nothing stored: the next `Get` of it invokes the provider. -/
theorem nothingStored_fresh (id : String) (m : metaServiceDefinition σ α) (w : World σ α)
    (hm : mapGet w.c.services id = some m) (hcr : m.created = false)
    (hid : id ∉ w.c.circularDeps.chain) (hcache : w.c.cacheGet id = none) :
    NothingStored id m w := by
  refine ⟨hm, hcache, fun k r w' hk => ?_⟩
  obtain ⟨_, _, _, _, _, _, _, _, _, _, hev⟩ :=
    Get_build_frame k id w m r w' hm hcr hid hcache hk
  exact hev

/-- The text of the error of `Revoke` on an id that is not registered. -/
theorem errMsg_revoke (id : String) :
    errMsgServiceDoesNotExist "revoke" id =
      "cannot revoke service `" ++ id ++ "`, because it does not exist" := by
  have e1 : ("cannot " ++ "revoke" ++ " service `" : String) = "cannot revoke service `" := by
    decide
  simp only [errMsgServiceDoesNotExist]
  rw [e1]

/-- The text of the error of `Remove` on an id that is not registered. -/
theorem errMsg_remove (id : String) :
    errMsgServiceDoesNotExist "remove" id =
      "cannot remove service `" ++ id ++ "`, because it does not exist" := by
  have e1 : ("cannot " ++ "remove" ++ " service `" : String) = "cannot remove service `" := by
    decide
  simp only [errMsgServiceDoesNotExist]
  rw [e1]

/-- The deferred calls of `GetParam` leave the trace as it is. -/
theorem getParamDefers_trace (id : String) (exit : Exit α) (w : ParamWorld σ α) :
    (getParamDefers id exit w).2.trace = w.trace := by
  simp only [getParamDefers]
  split
  · rfl
  · split_ifs <;> rfl
  · rfl

/-- The body of `GetParam` only appends to the trace when the nested calls do, and it appends
the invocation of the provider when it has to run it. -/
theorem getParamBody_trace
    (getf : String → ParamWorld σ α → Option (GetResult α × ParamWorld σ α))
    (hget : ∀ id w r w', getf id w = some (r, w') → ∃ evs, w'.trace = w.trace ++ evs)
    (id : String) (deps : List String) (w : ParamWorld σ α) (exit : Exit α)
    (w' : ParamWorld σ α) (h : getParamBody getf id deps w = some (exit, w')) :
    ∃ evs, w'.trace = w.trace ++ evs ∧
      (deps.length = 0 → ∀ m, mapGet w.b.params id = some m → m.created = false →
        Event.provider id ∈ evs) := by
  have hrun : ∀ (p : ParamProg σ α) w o w', runParamProg getf p w = some (o, w') →
      ∃ evs, w'.trace = w.trace ++ evs :=
    runParamProg_rel (fun w w' => ∃ evs, w'.trace = w.trace ++ evs) getf
      (fun _ => ⟨[], by simp⟩)
      (fun _ _ _ h1 h2 => by
        obtain ⟨e1, h1⟩ := h1
        obtain ⟨e2, h2⟩ := h2
        exact ⟨e1 ++ e2, by rw [h2, h1, List.append_assoc]⟩)
      hget (fun _ _ _ => ⟨[], by simp⟩) (fun _ _ _ => ⟨[], by simp⟩) (fun _ _ => ⟨[], by simp⟩)
  simp only [getParamBody] at h
  by_cases hd : deps.length ≠ 0
  · rw [if_pos hd] at h
    simp at h; rw [← h.2]
    exact ⟨[], by simp, fun h0 => absurd h0 hd⟩
  · rw [if_neg hd] at h
    cases hm : mapGet w.b.params id with
    | none => simp [hm] at h; rw [← h.2]; exact ⟨[], by simp, fun _ m hm' => by simp at hm'⟩
    | some m =>
      simp only [hm] at h
      by_cases hcr : m.created = true
      · simp [hcr] at h; rw [← h.2]
        refine ⟨[], by simp, fun _ m' hm' hc' => ?_⟩
        simp only [Option.some.injEq] at hm'
        rw [← hm', hcr] at hc'
        simp at hc'
      · simp only [hcr] at h
        cases hp : runParamProg getf m.definition.Provider
            { w with trace := w.trace ++ [.provider id] } with
        | none => simp [hp] at h
        | some ow1 =>
          obtain ⟨o1, w1⟩ := ow1
          obtain ⟨e1, h1⟩ := hrun _ _ _ _ hp
          simp only at h1
          have key : ∀ w2 : ParamWorld σ α, w2.trace = w1.trace →
              ∃ evs, w2.trace = w.trace ++ evs ∧
                (deps.length = 0 → ∀ m', some m = some m' → m'.created = false →
                  Event.provider id ∈ evs) := fun w2 h2 =>
            ⟨[.provider id] ++ e1, by rw [h2, h1, List.append_assoc], fun _ _ _ _ => by simp⟩
          simp only [hp] at h
          cases o1 with
          | panicked p => simp at h; rw [← h.2]; exact key _ rfl
          | returned v e =>
            cases e with
            | some e => simp at h; rw [← h.2]; exact key _ rfl
            | none =>
              by_cases hdis : m.definition.Disposable = true
              · simp [hdis] at h; rw [← h.2]; exact key _ rfl
              · simp [hdis] at h; rw [← h.2]; exact key _ rfl

/-- Every call of `GetParam` that returns only appends to the trace. -/
theorem GetParam_trace : ∀ (n : Nat) (id : String) (w : ParamWorld σ α) r w',
    GetParam n id w = some (r, w') → ∃ evs, w'.trace = w.trace ++ evs := by
  intro n
  induction n with
  | zero => intro id w r w' h; simp [GetParam] at h
  | succ n ih =>
    intro id w r w' h
    simp only [GetParam] at h
    split at h
    · simp at h
    · rename_i exit w1 hb
      obtain ⟨evs, h1, _⟩ := getParamBody_trace (GetParam n) ih _ _ _ _ _ hb
      simp only [Option.some.injEq] at h
      have h3 : w' = (getParamDefers id exit w1).2 := by rw [h]
      exact ⟨evs, by rw [h3, getParamDefers_trace, h1]⟩

/-- A call of `GetParam(id)` that returns, for an id that is registered, not created and not
on the chain, has invoked the provider of `id`. -/
theorem GetParam_invokes (n : Nat) (id : String) (w : ParamWorld σ α)
    (m : metaParamDefinition σ α) (r : GetResult α) (w' : ParamWorld σ α)
    (hm : mapGet w.b.params id = some m) (hcr : m.created = false)
    (hid : id ∉ w.b.circularDeps.chain) (h : GetParam n id w = some (r, w')) :
    ∃ evs, w'.trace = w.trace ++ evs ∧ Event.provider id ∈ evs := by
  cases n with
  | zero => simp [GetParam] at h
  | succ n =>
    simp only [GetParam] at h
    split at h
    · simp at h
    · rename_i exit w1 hb
      obtain ⟨evs, h1, h2⟩ := getParamBody_trace (GetParam n) (GetParam_trace n) _ _ _ _ _ hb
      simp only [Option.some.injEq] at h
      have h3 : w' = (getParamDefers id exit w1).2 := by rw [h]
      exact ⟨evs, by rw [h3, getParamDefers_trace, h1], h2 (by simp [hid]) m hm hcr⟩

/-! ### Listing the ids -/

/-- The comparison of `sortStrings` is the order of strings. -/
theorem strLE_iff (a b : String) : a.data ≤ b.data ↔ a ≤ b :=
  String.le_iff_toList_le.symm

/-- The function `sortStrings` is insertion sort for the order of strings. -/
theorem sortStrings_eq (l : List String) :
    sortStrings l = l.insertionSort (fun a b : String => a ≤ b) := by
  induction l with
  | nil => rfl
  | cons x xs ih =>
    simp only [sortStrings, List.insertionSort] at ih ⊢
    rw [ih]
    generalize List.insertionSort (fun a b : String => a ≤ b) xs = ys
    induction ys with
    | nil => rfl
    | cons y ys ih2 =>
      simp only [List.orderedInsert]
      by_cases h : x ≤ y
      · rw [if_pos h, if_pos ((strLE_iff x y).2 h)]
      · rw [if_neg h, if_neg (fun h' => h ((strLE_iff x y).1 h')), ih2]

theorem sortStrings_perm (l : List String) : (sortStrings l).Perm l := by
  rw [sortStrings_eq]; exact List.perm_insertionSort _ l

theorem sortStrings_sorted (l : List String) : (sortStrings l).Sorted (· ≤ ·) := by
  rw [sortStrings_eq]; exact List.sorted_insertionSort _ l

/-- The result of `sortStrings` does not depend on the order of its input. -/
theorem sortStrings_congr (l1 l2 : List String) (h : l1.Perm l2) :
    sortStrings l1 = sortStrings l2 :=
  List.eq_of_perm_of_sorted ((sortStrings_perm l1).trans (h.trans (sortStrings_perm l2).symm))
    (sortStrings_sorted l1) (sortStrings_sorted l2)

theorem mem_keys_iff {β : Type} (m : List (String × β)) (k : String) :
    k ∈ m.map Prod.fst ↔ (mapGet m k).isSome = true := by
  induction m with
  | nil => simp [mapGet]
  | cons hd tl ih =>
    obtain ⟨k0, v0⟩ := hd
    by_cases h : k0 = k
    · simp [mapGet, h]
    · simp only [List.map_cons, List.mem_cons, mapGet, if_neg h, ← ih]
      constructor
      · rintro (h1 | h1)
        · exact absurd h1.symm h
        · exact h1
      · exact Or.inr

/-- The keys of a map are the keys under which it holds a value. -/
theorem mem_mapKeys {β : Type} (m : List (String × β)) (k : String) :
    k ∈ mapKeys m ↔ (mapGet m k).isSome = true := by
  simp only [mapKeys, List.mem_dedup, mem_keys_iff]

theorem nodup_mapKeys {β : Type} (m : List (String × β)) : (mapKeys m).Nodup :=
  List.nodup_dedup _

/-- Sorting the keys of a map in any order of visit: the result lists exactly the keys, each
once, in strictly ascending order, and does not depend on the order of visit or on the order
of the entries. -/
theorem sorted_keys {β γ : Type} (m : List (String × β)) (m' : List (String × γ))
    (ρ ρ' : List String → List String) (hρ : IsRange ρ) (hρ' : IsRange ρ') :
    (∀ id, id ∈ sortStrings (ρ (mapKeys m)) ↔ (mapGet m id).isSome = true) ∧
    (sortStrings (ρ (mapKeys m))).Sorted (· < ·) ∧
    (∀ id, (sortStrings (ρ (mapKeys m))).count id = if (mapGet m id).isSome then 1 else 0) ∧
    ((∀ id, (mapGet m' id).isSome = (mapGet m id).isSome) →
      sortStrings (ρ' (mapKeys m')) = sortStrings (ρ (mapKeys m))) := by
  have hp : (sortStrings (ρ (mapKeys m))).Perm (mapKeys m) :=
    (sortStrings_perm _).trans (hρ _)
  have hmem : ∀ id, id ∈ sortStrings (ρ (mapKeys m)) ↔ (mapGet m id).isSome = true :=
    fun id => (hp.mem_iff).trans (mem_mapKeys m id)
  have hnd : (sortStrings (ρ (mapKeys m))).Nodup := hp.nodup_iff.2 (nodup_mapKeys m)
  refine ⟨hmem, (sortStrings_sorted _).lt_of_le hnd, fun id => ?_, fun h => ?_⟩
  · rw [List.count_eq_of_nodup hnd]
    by_cases h : (mapGet m id).isSome = true
    · rw [if_pos ((hmem id).2 h), if_pos h]
    · rw [if_neg (fun h' => h ((hmem id).1 h')), if_neg h]
  · apply sortStrings_congr
    refine (hρ' _).trans (((List.perm_ext_iff_of_nodup (nodup_mapKeys m')
      (nodup_mapKeys m)).2 fun id => ?_).trans (hρ _).symm)
    rw [mem_mapKeys, mem_mapKeys, h id]

/-! ### Tagged services -/

/-- The priority of an id is its entry in the map of the tag. -/
theorem priority_eq {W : Type} (b : TaggedContainer W α) (tag id : String) :
    b.priority tag id = mapGet ((mapGet b.mapping tag).getD []) id := by
  simp only [TaggedContainer.priority]
  cases mapGet b.mapping tag <;> simp [mapGet]

/-- Pairing every visited key with its value keeps the keys, in the order of the visit. -/
theorem filterMap_entries_fst (tm : List (String × Int)) :
    ∀ l : List String, (∀ id ∈ l, (mapGet tm id).isSome = true) →
      (l.filterMap fun id => (mapGet tm id).map fun p => (id, p)).map Prod.fst = l := by
  intro l
  induction l with
  | nil => intro _; rfl
  | cons x xs ih =>
    intro h
    have hx := h x (List.mem_cons_self _ _)
    obtain ⟨p, hp⟩ := Option.isSome_iff_exists.1 hx
    rw [List.filterMap_cons, hp]
    simp only [Option.map_some', List.map_cons]
    rw [ih fun id hid => h id (List.mem_cons_of_mem _ hid)]

/-- Every pair collected by the loop of `getIDsByTag` is an entry of the map. -/
theorem mem_filterMap_entries (tm : List (String × Int)) (l : List String) (a : String × Int)
    (h : a ∈ l.filterMap fun id => (mapGet tm id).map fun p => (id, p)) :
    a.1 ∈ l ∧ mapGet tm a.1 = some a.2 := by
  simp only [List.mem_filterMap, Option.map_eq_some'] at h
  obtain ⟨id, hid, p, hp, rfl⟩ := h
  exact ⟨hid, hp⟩

theorem sortByPriority_perm (l : List (String × Int)) : (sortByPriority l).Perm l :=
  List.perm_insertionSort _ l

theorem sortByPriority_sorted (l : List (String × Int)) :
    (sortByPriority l).Sorted fun a b => a.2 ≥ b.2 :=
  haveI : IsTotal (String × Int) (fun a b => a.2 ≥ b.2) := ⟨fun a b => le_total b.2 a.2⟩
  haveI : IsTrans (String × Int) (fun a b => a.2 ≥ b.2) := ⟨fun _ _ _ h1 h2 => le_trans h2 h1⟩
  List.sorted_insertionSort _ l

/-- When `ρ` is an order of visit, `getIDsByTag` returns the keys of the map of the tag, in
some order. -/
theorem getIDsByTag_perm {W : Type} (b : TaggedContainer W α) (tag : String)
    (ρ : List String → List String) (hρ : IsRange ρ) :
    (b.getIDsByTag ρ tag).Perm (mapKeys ((mapGet b.mapping tag).getD [])) := by
  simp only [TaggedContainer.getIDsByTag]
  refine ((sortByPriority_perm _).map Prod.fst).trans ?_
  rw [filterMap_entries_fst]
  · exact hρ _
  · intro id hid
    exact (mem_mapKeys _ id).1 ((hρ _).mem_iff.1 hid)

/-- Two lists with equal images under a function that is injective on their elements are
equal. -/
theorem eq_of_map_eq {γ δ : Type} (g : γ → δ) :
    ∀ l1 l2 : List γ, (∀ a ∈ l1, ∀ b ∈ l2, g a = g b → a = b) →
      l1.map g = l2.map g → l1 = l2 := by
  intro l1
  induction l1 with
  | nil => intro l2 _ h; cases l2 <;> simp_all
  | cons a l1 ih =>
    intro l2 hinj h
    cases l2 with
    | nil => simp at h
    | cons b l2 =>
      simp only [List.map_cons, List.cons.injEq] at h
      rw [hinj a (List.mem_cons_self _ _) b (List.mem_cons_self _ _) h.1]
      rw [ih l2 (fun x hx y hy => hinj x (List.mem_cons_of_mem _ hx) y
        (List.mem_cons_of_mem _ hy)) h.2]

/-- When the ids of a tag have pairwise different priorities, the result of `getIDsByTag`
does not depend on the order in which the map is visited. -/
theorem getIDsByTag_unique {W : Type} (b : TaggedContainer W α) (tag : String)
    (ρ ρ' : List String → List String) (hρ : IsRange ρ) (hρ' : IsRange ρ')
    (hnd : ((mapKeys ((mapGet b.mapping tag).getD [])).map (b.priority tag)).Nodup) :
    b.getIDsByTag ρ' tag = b.getIDsByTag ρ tag := by
  simp only [TaggedContainer.getIDsByTag]
  congr 1
  generalize htm : (mapGet b.mapping tag).getD [] = tm at hnd
  have hperm : ((ρ' (mapKeys tm)).filterMap fun id => (mapGet tm id).map fun p => (id, p)).Perm
      ((ρ (mapKeys tm)).filterMap fun id => (mapGet tm id).map fun p => (id, p)) :=
    ((hρ' _).trans (hρ _).symm).filterMap _
  have hs : ((sortByPriority ((ρ' (mapKeys tm)).filterMap fun id =>
        (mapGet tm id).map fun p => (id, p))).map Prod.snd) =
      ((sortByPriority ((ρ (mapKeys tm)).filterMap fun id =>
        (mapGet tm id).map fun p => (id, p))).map Prod.snd) := by
    refine List.eq_of_perm_of_sorted (r := fun x y : Int => x ≥ y)
      ((((sortByPriority_perm _).trans hperm).trans (sortByPriority_perm _).symm).map _) ?_ ?_
    · exact (List.pairwise_map).2 (sortByPriority_sorted _)
    · exact (List.pairwise_map).2 (sortByPriority_sorted _)
  refine eq_of_map_eq Prod.snd _ _ (fun x hx y hy hxy => ?_) hs
  obtain ⟨hx1, hx2⟩ := mem_filterMap_entries tm _ x ((sortByPriority_perm _).mem_iff.1 hx)
  obtain ⟨hy1, hy2⟩ := mem_filterMap_entries tm _ y ((sortByPriority_perm _).mem_iff.1 hy)
  have hkx : x.1 ∈ mapKeys tm := (hρ' _).mem_iff.1 hx1
  have hky : y.1 ∈ mapKeys tm := (hρ _).mem_iff.1 hy1
  have h1 : b.priority tag x.1 = b.priority tag y.1 := by
    rw [priority_eq, priority_eq, htm, hx2, hy2, hxy]
  exact Prod.ext (List.inj_on_of_nodup_map hnd hkx hky h1) hxy

/-- Assigning to index `i` of a slice: the elements up to index `i`. -/
theorem take_succ_set {γ : Type} (a : γ) :
    ∀ (l : List γ) (i : Nat), i < l.length → (l.set i a).take (i + 1) = l.take i ++ [a] := by
  intro l
  induction l with
  | nil => intro i h; simp at h
  | cons x xs ih =>
    intro i h
    cases i with
    | zero => simp
    | succ i =>
      simp only [List.length_cons, Nat.add_lt_add_iff_right] at h
      simp [ih i h]

/-- Assigning to index `i` of a slice: the elements after index `i`. -/
theorem drop_succ_set {γ : Type} (a : γ) :
    ∀ (l : List γ) (i k : Nat), (l.set i a).drop (i + 1 + k) = l.drop (i + 1 + k) := by
  intro l
  induction l with
  | nil => intro i k; simp
  | cons x xs ih =>
    intro i k
    cases i with
    | zero => simp [Nat.add_comm 1 k]
    | succ i =>
      have e : i + 1 + 1 + k = (i + 1 + k) + 1 := by omega
      rw [e]
      simp only [List.set_cons_succ, List.drop_succ_cons]
      exact ih i k

/-- The loop of `GetByTag` over a wrapped container that records the ids it is asked for, when
`result` has room for them: it fetches every id, in order. -/
theorem getByTagLoop_recording (tag : String) :
    ∀ (ids : List String) (i : Nat) (result : List (Option String)) (log : List String),
      i + ids.length ≤ result.length →
      getByTagLoop recordingGet tag ids i result log =
        some (.returned (some (result.take i ++ ids.map some ++ result.drop (i + ids.length)))
          none, log ++ ids) := by
  intro ids
  induction ids with
  | nil => intro i result log _; simp [getByTagLoop]
  | cons x xs ih =>
    intro i result log h
    simp only [List.length_cons] at h
    have hi : i < result.length := by omega
    simp only [getByTagLoop, recordingGet, if_pos hi]
    rw [ih (i + 1) (result.set i (some x)) (log ++ [x]) (by simp; omega)]
    have e2 : i + (xs.length + 1) = i + 1 + xs.length := by omega
    rw [take_succ_set _ _ _ hi, drop_succ_set, List.length_cons, e2]
    simp

/-! ### `GetByTag` -/

/-- The loop of `GetByTag` when every call of the wrapped `get` succeeds and `result` has room:
the services are stored from index `i` on, in order. -/
theorem getByTagLoop_fetched {W : Type} (get : String → W → Option (GetResult α × W))
    (tag : String) (ids : List String) (w : W) (rs : List (Option α)) (w' : W)
    (h : Fetched get ids w rs w') :
    ∀ (i : Nat) (result : List (Option α)), i + ids.length ≤ result.length →
      getByTagLoop get tag ids i result w =
        some (.returned (some (result.take i ++ rs ++ result.drop (i + ids.length))) none,
          w') := by
  induction h with
  | nil w => intro i result _; simp [getByTagLoop]
  | cons id ids w w1 w2 r rs hget _ ih =>
    intro i result hle
    simp only [List.length_cons] at hle
    have hi : i < result.length := by omega
    simp only [getByTagLoop, hget, if_pos hi]
    rw [ih (i + 1) (result.set i r) (by simp; omega)]
    have e2 : i + (ids.length + 1) = i + 1 + ids.length := by omega
    rw [take_succ_set _ _ _ hi, drop_succ_set, List.length_cons, e2]
    simp

/-- The loop of `GetByTag` when the calls of `get` on `pre` succeed and the call on `x` returns
the error `e`: the loop returns at once, whatever ids follow. -/
theorem getByTagLoop_failed {W : Type} (get : String → W → Option (GetResult α × W))
    (tag : String) (pre : List String) (w : W) (rs : List (Option α)) (w1 : W)
    (h : Fetched get pre w rs w1) (x : String) (post : List String) (v : Option α)
    (e : GoError) (w2 : W) (hx : get x w1 = some ((v, some e), w2)) :
    ∀ (i : Nat) (result : List (Option α)), i + pre.length ≤ result.length →
      getByTagLoop get tag (pre ++ x :: post) i result w =
        some (.returned none
          (some (plainErr ("cannot get services by tag `" ++ tag ++ "`: " ++ e.msg))), w2) := by
  induction h with
  | nil w => intro i result _; simp [getByTagLoop, hx]
  | cons id ids w w1 w2 r rs hget _ ih =>
    intro i result hle
    simp only [List.length_cons] at hle
    have hi : i < result.length := by omega
    simp only [List.cons_append, getByTagLoop, hget, if_pos hi]
    exact ih hx (i + 1) (result.set i r) (by simp; omega)

/-- The loop of `GetByTag` returns, without a panic, when the wrapped `get` always returns and
`result` has room. -/
theorem getByTagLoop_returns {W : Type} (get : String → W → Option (GetResult α × W))
    (tag : String) (hget : ∀ id w, (get id w).isSome = true) :
    ∀ (ids : List String) (i : Nat) (result : List (Option α)) (w : W),
      i + ids.length ≤ result.length →
      ∃ r e w', getByTagLoop get tag ids i result w = some (.returned r e, w') := by
  intro ids
  induction ids with
  | nil => intro i result w _; exact ⟨_, _, _, rfl⟩
  | cons x xs ih =>
    intro i result w hle
    simp only [List.length_cons] at hle
    have hi : i < result.length := by omega
    obtain ⟨⟨⟨r, e⟩, w1⟩, hx⟩ := Option.isSome_iff_exists.1 (hget x w)
    cases e with
    | some e =>
      exact ⟨none,
        some (plainErr ("cannot get services by tag `" ++ tag ++ "`: " ++ e.msg)), w1,
        by simp [getByTagLoop, hx]⟩
    | none =>
      obtain ⟨r', e', w', h'⟩ := ih (i + 1) (result.set i r) w1 (by simp; omega)
      exact ⟨r', e', w', by simp [getByTagLoop, hx, hi, h']⟩

/-- The two calls of `getIDsByTag` in `GetByTag` return lists of the same length. -/
theorem getIDsByTag_length {W : Type} (b : TaggedContainer W α) (tag : String)
    (ρ1 ρ2 : List String → List String) (hρ1 : IsRange ρ1) (hρ2 : IsRange ρ2) :
    (b.getIDsByTag ρ1 tag).length = (b.getIDsByTag ρ2 tag).length :=
  ((getIDsByTag_perm b tag ρ1 hρ1).trans (getIDsByTag_perm b tag ρ2 hρ2).symm).length_eq

theorem fetched_length {W : Type} (get : String → W → Option (GetResult α × W))
    (ids : List String) (w : W) (rs : List (Option α)) (w' : W) (h : Fetched get ids w rs w') :
    rs.length = ids.length := by
  induction h with
  | nil w => rfl
  | cons id ids w w1 w2 r rs _ _ ih => simp [ih]

/-! ### Tagging -/

/-- The priorities after the assignment `mapping[tag][id] = p` of `TagService` and
`OverrideTagService`, the map of the tag being created when it is missing. -/
theorem priority_assign (m : List (String × List (String × Int))) (tag id : String) (p : Int)
    (t x : String) :
    (mapGet (mapSet (if (mapGet m tag).isSome then m else mapSet m tag []) tag
        (mapSet ((mapGet (if (mapGet m tag).isSome then m else mapSet m tag []) tag).getD [])
          id p)) t).bind (fun inner => mapGet inner x) =
      if t = tag ∧ x = id then some p else (mapGet m t).bind fun inner => mapGet inner x := by
  by_cases hm : (mapGet m tag).isSome = true
  · simp only [hm, if_true]
    obtain ⟨inner, hin⟩ := Option.isSome_iff_exists.1 hm
    by_cases ht : t = tag
    · subst ht
      rw [mapGet_mapSet_self, hin]
      simp only [Option.some_bind, true_and, Option.getD_some]
      by_cases hx : x = id
      · subst hx
        rw [mapGet_mapSet_self, if_pos rfl]
      · rw [mapGet_mapSet_ne _ _ _ _ (Ne.symm hx), if_neg hx]
    · rw [mapGet_mapSet_ne _ _ _ _ (Ne.symm ht), if_neg (fun h => ht h.1)]
  · simp only [hm, Bool.false_eq_true, if_false]
    have hnone : mapGet m tag = none := by simpa using hm
    by_cases ht : t = tag
    · subst ht
      rw [mapGet_mapSet_self, mapGet_mapSet_self, hnone]
      simp only [Option.some_bind, true_and, Option.getD_some, Option.none_bind]
      by_cases hx : x = id
      · subst hx
        rw [mapGet_mapSet_self, if_pos rfl]
      · rw [mapGet_mapSet_ne _ _ _ _ (Ne.symm hx), if_neg hx]
        rfl
    · rw [mapGet_mapSet_ne _ _ _ _ (Ne.symm ht), mapGet_mapSet_ne _ _ _ _ (Ne.symm ht),
        if_neg (fun h => ht h.1)]

/-! ### `circularDeps` -/

theorem startAll_chain (ids : List String) :
    ∀ c : circularDeps, (startAll c ids).chain = c.chain ++ ids := by
  induction ids with
  | nil => intro c; simp [startAll]
  | cons x xs ih =>
    intro c
    have := ih (c.start x).2
    simp only [startAll, List.foldl_cons] at this ⊢
    rw [this]
    simp

/-- As many calls of `stop` as ids were appended to the chain remove them. -/
theorem stopTimes_append (l : List String) :
    ∀ ids : List String, stopTimes ⟨l ++ ids⟩ ids.length = ⟨l⟩ := by
  intro ids
  induction ids using List.reverseRecOn with
  | nil => simp [stopTimes]
  | append_singleton xs x ih =>
    simp only [List.length_append, List.length_singleton, stopTimes, circularDeps.stop]
    rw [← List.append_assoc, List.dropLast_concat]
    exact ih

/-! ### Parameters: caching, failures -/

@[simp] theorem getParamDefers_snd (id : String) (exit : Exit α) (w : ParamWorld σ α) :
    (getParamDefers id exit w).2 = w.leave := by
  simp only [getParamDefers, ParamWorld.leave]
  split
  · rfl
  · split_ifs <;> rfl
  · rfl

/-- A panic of the body of `GetParam` ends in a non-nil error. -/
theorem getParamDefers_panicking (id : String) (param : Option α) (p : Payload)
    (w : ParamWorld σ α) :
    ∃ e, (getParamDefers id (.panicking param p) w).1 = (param, some e) := by
  cases p with
  | error f =>
    simp only [getParamDefers]
    split_ifs <;> exact ⟨_, rfl⟩
  | value s => exact ⟨_, rfl⟩

/-- Unfolding of `GetParam` with one unit of fuel spent. -/
theorem GetParam_succ (n : Nat) (id : String) (w : ParamWorld σ α) :
    GetParam (n + 1) id w =
      if id ∈ w.b.circularDeps.chain then
        some ((none, some (newCircularDepError (w.b.circularDeps.chain ++ [id]))), w)
      else
        match mapGet w.b.params id with
        | none => some ((none, some (plainErr ("parameter `" ++ id ++ "` does not exist"))), w)
        | some paramDef =>
          if paramDef.created then some ((paramDef.param, none), w)
          else
            match runParamProg (GetParam n) paramDef.definition.Provider (w.enter id) with
            | none => none
            | some (.panicked p, w1) => some (getParamDefers id (.panicking none p) w1)
            | some (.returned param (some err), w1) =>
              some (getParamDefers id (.panicking param (.error err)) w1)
            | some (.returned param none, w1) =>
              if paramDef.definition.Disposable then some ((param, none), w1.leave)
              else
                some ((param, none),
                  ParamWorld.leave { w1 with b := { w1.b with params :=
                    (mapSet w1.b.params id { paramDef with created := true, param := param }) } }) := by
  obtain ⟨⟨ps, ⟨ch⟩⟩, env, tr⟩ := w
  simp only [GetParam, getParamBody, circularDeps.start, ParamWorld.enter]
  by_cases hc : id ∈ ch
  · simp [hc, getParamDefers, circularDeps.stop]
  · cases hs : mapGet ps id with
    | none => simp [hc, hs, getParamDefers, circularDeps.stop]
    | some m =>
      by_cases hcr : m.created = true
      · simp [hc, hs, hcr, getParamDefers, circularDeps.stop]
      · simp only [hc, hs, hcr, if_false, List.length_nil, ne_eq, not_true_eq_false,
          Bool.false_eq_true]
        cases hp : runParamProg (GetParam n) m.definition.Provider _ with
        | none => simp
        | some ow1 =>
          obtain ⟨o, w1⟩ := ow1
          cases o with
          | panicked p => simp
          | returned v e =>
            cases e with
            | some e => simp
            | none =>
              by_cases hd : m.definition.Disposable = true
              · simp [hd, getParamDefers, ParamWorld.leave]
              · simp [hd, getParamDefers, ParamWorld.leave]

/-- Assigning an entry that is not created keeps the container sound. -/
theorem sound_mapSet (b : ParamContainer σ α) (id : String) (d : ParamDefinition σ α)
    (h : b.Sound) :
    ({ b with params := mapSet b.params id ⟨d, none, false⟩ } : ParamContainer σ α).Sound := by
  intro x m hx hcr
  by_cases hxi : id = x
  · subst hxi
    rw [mapGet_mapSet_self] at hx
    simp only [Option.some.injEq] at hx
    rw [← hx] at hcr
    simp at hcr
  · rw [mapGet_mapSet_ne _ _ _ _ hxi] at hx
    exact h x m hx hcr

theorem NewParamContainer_sound (defs : List (String × ParamDefinition σ α)) :
    (NewParamContainer defs : ParamContainer σ α).Sound := by
  have key : ∀ (defs : List (String × ParamDefinition σ α))
      (ps : List (String × metaParamDefinition σ α)),
      (⟨ps, newCircularDeps⟩ : ParamContainer σ α).Sound →
      (⟨defs.foldl (fun m d => mapSet m d.1 ⟨d.2, none, false⟩) ps, newCircularDeps⟩ :
        ParamContainer σ α).Sound := by
    intro defs
    induction defs with
    | nil => intro ps h; exact h
    | cons d ds ih =>
      intro ps h
      exact ih _ (sound_mapSet ⟨ps, newCircularDeps⟩ d.1 d.2 h)
  exact key defs [] (fun _ _ h => by simp [mapGet] at h)

theorem RegisterParam_sound (b : ParamContainer σ α) (id : String) (d : ParamDefinition σ α)
    (h : b.Sound) : (b.RegisterParam id d).2.Sound := by
  simp only [ParamContainer.RegisterParam]
  split_ifs
  · exact h
  · exact sound_mapSet b id d h

theorem OverrideParam_sound (b : ParamContainer σ α) (id : String) (d : ParamDefinition σ α)
    (h : b.Sound) : (b.OverrideParam id d).Sound :=
  sound_mapSet b id d h

/-- Every call of `GetParam` that returns keeps the container sound. -/
theorem GetParam_sound : ∀ (n : Nat) (id : String) (w : ParamWorld σ α) r w',
    GetParam n id w = some (r, w') → w.b.Sound → w'.b.Sound := by
  intro n
  induction n with
  | zero => intro id w r w' h; simp [GetParam] at h
  | succ n ih =>
    intro id w r w' h hs
    have hrun : ∀ (p : ParamProg σ α) w o w', runParamProg (GetParam n) p w = some (o, w') →
        w.b.Sound → w'.b.Sound :=
      runParamProg_rel (fun w w' => w.b.Sound → w'.b.Sound) (GetParam n) (fun _ h => h)
        (fun _ _ _ h1 h2 h => h2 (h1 h)) ih
        (fun w id d h => RegisterParam_sound w.b id d h)
        (fun w id d h => OverrideParam_sound w.b id d h) (fun _ _ h => h)
    rw [GetParam_succ] at h
    by_cases hc : id ∈ w.b.circularDeps.chain
    · rw [if_pos hc] at h; simp at h; rw [← h.2]; exact hs
    · rw [if_neg hc] at h
      cases hm : mapGet w.b.params id with
      | none => simp only [hm] at h; simp at h; rw [← h.2]; exact hs
      | some m =>
        simp only [hm] at h
        by_cases hcr : m.created = true
        · rw [if_pos hcr] at h; simp at h; rw [← h.2]; exact hs
        · rw [if_neg hcr] at h
          have hs0 : (w.enter id).b.Sound := fun x mx hx hc => hs x mx hx hc
          cases hp : runParamProg (GetParam n) m.definition.Provider (w.enter id) with
          | none => simp [hp] at h
          | some ow1 =>
            obtain ⟨o, w1⟩ := ow1
            have h1 := hrun _ _ _ _ hp hs0
            have hl : w1.leave.b.Sound := fun x mx hx hc => h1 x mx hx hc
            simp only [hp] at h
            cases o with
            | panicked p =>
              simp only [Option.some.injEq] at h
              have hw : w' = w1.leave := by simpa using (congrArg Prod.snd h).symm
              rw [hw]; exact hl
            | returned v e =>
              cases e with
              | some e =>
                simp only [Option.some.injEq] at h
                have hw : w' = w1.leave := by simpa using (congrArg Prod.snd h).symm
                rw [hw]; exact hl
              | none =>
                simp only at h
                by_cases hd : m.definition.Disposable = true
                · rw [if_pos hd] at h
                  simp only [Option.some.injEq, Prod.mk.injEq] at h
                  rw [← h.2]; exact hl
                · rw [if_neg hd] at h
                  simp only [Option.some.injEq, Prod.mk.injEq] at h
                  rw [← h.2]
                  intro x mx hx hc
                  simp only [ParamWorld.leave] at hx
                  by_cases hxi : id = x
                  · subst hxi
                    rw [mapGet_mapSet_self] at hx
                    simp only [Option.some.injEq] at hx
                    rw [← hx]
                    simpa using hd
                  · rw [mapGet_mapSet_ne _ _ _ _ hxi] at hx
                    exact h1 x mx hx hc

/-- A parameter that is created is returned as it is stored, with the world unchanged. -/
theorem GetParam_created (n : Nat) (id : String) (w : ParamWorld σ α)
    (m : metaParamDefinition σ α) (hm : mapGet w.b.params id = some m)
    (hcr : m.created = true) (hid : id ∉ w.b.circularDeps.chain) :
    GetParam (n + 1) id w = some ((m.param, none), w) := by
  rw [GetParam_succ]; simp [hid, hm, hcr]

/-- A successful `GetParam` of a parameter that is not disposable leaves it created, with the
returned value. -/
theorem GetParam_stores (n : Nat) (id : String) (w : ParamWorld σ α)
    (m : metaParamDefinition σ α) (v : Option α) (w1 : ParamWorld σ α)
    (hm : mapGet w.b.params id = some m) (hd : m.definition.Disposable = false)
    (hget : GetParam n id w = some ((v, none), w1)) :
    mapGet w1.b.params id = some ⟨m.definition, v, true⟩ := by
  cases n with
  | zero => simp [GetParam] at hget
  | succ n =>
    rw [GetParam_succ] at hget
    by_cases hc : id ∈ w.b.circularDeps.chain
    · rw [if_pos hc] at hget; simp at hget
    · rw [if_neg hc] at hget
      simp only [hm] at hget
      by_cases hcr : m.created = true
      · rw [if_pos hcr] at hget
        simp only [Option.some.injEq, Prod.mk.injEq, and_true] at hget
        rw [← hget.2, hm, ← hget.1, ← hcr]
      · rw [if_neg hcr] at hget
        cases hp : runParamProg (GetParam n) m.definition.Provider (w.enter id) with
        | none => simp [hp] at hget
        | some ow2 =>
          obtain ⟨o, w2⟩ := ow2
          simp only [hp] at hget
          cases o with
          | panicked p =>
            obtain ⟨e, he⟩ := getParamDefers_panicking id none p w2
            simp only [Option.some.injEq] at hget
            rw [hget] at he
            simp at he
          | returned v2 e2 =>
            cases e2 with
            | some e2 =>
              obtain ⟨e, he⟩ := getParamDefers_panicking id v2 (.error e2) w2
              simp only [Option.some.injEq] at hget
              rw [hget] at he
              simp at he
            | none =>
              simp only [hd, Bool.false_eq_true, if_false, Option.some.injEq, Prod.mk.injEq,
                and_true] at hget
              rw [← hget.2, ← hget.1]
              simp only [ParamWorld.leave]
              exact mapGet_mapSet_self _ _ _

/-! ### Parameters: circular dependencies -/

/-- A relaying parameter provider ends with the error of the nested call, returned or as a
panic, and the container is what the nested call left. -/
theorem paramRelays_run
    (getf : String → ParamWorld σ α → Option (GetResult α × ParamWorld σ α))
    (b : ParamContainer σ α) (next : String) (E : GoError)
    (hget : ∀ w1 : ParamWorld σ α, w1.b = b →
      ∃ v w2, getf next w1 = some ((v, some E), w2) ∧ w2.b = b) :
    ∀ (p : ParamProg σ α), ParamRelays p next → ∀ w : ParamWorld σ α, w.b = b →
      ∃ w2, ((∃ v', runParamProg getf p w = some (.returned v' (some E), w2)) ∨
          runParamProg getf p w = some (.panicked (.error E), w2)) ∧ w2.b = b := by
  intro p hr
  induction hr with
  | getParam next k h =>
    intro w hw
    obtain ⟨v, w2, hg, hc⟩ := hget w hw
    rcases h v E with ⟨v', hk⟩ | hk
    · exact ⟨w2, Or.inl ⟨v', by simp [runParamProg, hg, hk]⟩, hc⟩
    · exact ⟨w2, Or.inr (by simp [runParamProg, hg, hk]), hc⟩
  | read k next _ ih =>
    intro w hw
    obtain ⟨w2, h, hc⟩ := ih w.env hget w hw
    exact ⟨w2, by simpa [runParamProg] using h, hc⟩
  | modify f k next _ ih =>
    intro w hw
    obtain ⟨w2, h, hc⟩ := ih hget { w with env := f w.env } hw
    exact ⟨w2, by simpa [runParamProg] using h, hc⟩

/-- Leaving the frame of `GetParam(id)` with the container `enter` set up gives the caller's
container back. -/
theorem paramLeave_of_enter (w w2 : ParamWorld σ α) (id : String)
    (h : w2.b = (w.enter id).b) : w2.leave.b = w.b := by
  obtain ⟨⟨ps, ⟨ch⟩⟩, env, tr⟩ := w
  obtain ⟨b2, env2, tr2⟩ := w2
  simp only at h
  subst h
  simp [ParamWorld.leave, ParamWorld.enter, circularDeps.start, circularDeps.stop]

/-- What the deferred calls of `GetParam` make of a circular-dependency error that the
provider handed on, by the length of the chain after `stop`. -/
theorem getParamDefers_final (id : String) (param : Option α) (deps : List String)
    (w : ParamWorld σ α) :
    (getParamDefers id (.panicking param (.error (newCircularDepError deps))) w).1 =
      (param, some (if w.b.circularDeps.chain.dropLast = [] then
        plainErr (paramErrorMsg id (circularDepMsg deps)) else newCircularDepError deps)) := by
  simp only [getParamDefers, newCircularDepError, circularDeps.stop, if_true]
  by_cases h : w.b.circularDeps.chain.dropLast = []
  · simp [h]
  · have : w.b.circularDeps.chain.dropLast.length ≠ 0 := fun h0 =>
      h (List.length_eq_zero.1 h0)
    rw [if_neg this, if_neg h]

/-- Descent along a chain of relaying parameter providers that closes a cycle: the frame of
`x`, entered with the chain `pre`, returns the raw circular-dependency error, with the text of
the outermost frame added when `pre` is empty, and leaves the container as it found it. -/
theorem param_cycle_descent (idj : String) :
    ∀ (post pre : List String) (x : String) (w : ParamWorld σ α) (n : Nat),
    w.b.circularDeps.chain = pre → (pre ++ x :: post).Nodup → idj ∈ pre ++ x :: post →
    ParamRelayChain w.b.params (x :: post) idj → post.length + 2 ≤ n →
    ∃ v w', GetParam n x w =
        some ((v, some (if pre = [] then
          plainErr (paramErrorMsg x (circularDepMsg (x :: post ++ [idj])))
          else newCircularDepError (pre ++ x :: post ++ [idj]))), w') ∧ w'.b = w.b := by
  intro post
  induction post with
  | nil =>
    intro pre x w n hch hnd hj hrc hn
    obtain ⟨k, rfl⟩ : ∃ k, n = k + 2 := ⟨n - 2, by simp at hn; omega⟩
    obtain ⟨⟨m, hm, hcr, hrel⟩, _⟩ := hrc
    have hid : x ∉ w.b.circularDeps.chain := by
      rw [hch]; intro hx
      have := List.nodup_append.1 hnd
      exact this.2.2 hx (by simp)
    have hnext : ∀ w1 : ParamWorld σ α, w1.b = (w.enter x).b →
        ∃ v w2, GetParam (k + 1) idj w1 =
            some ((v, some (newCircularDepError (pre ++ [x] ++ [idj]))), w2) ∧
          w2.b = (w.enter x).b := by
      intro w1 hw1
      have hmem : idj ∈ w1.b.circularDeps.chain := by
        rw [hw1]; simpa [ParamWorld.enter, hch] using hj
      refine ⟨none, w1, ?_, hw1⟩
      rw [GetParam_succ, if_pos hmem, hw1]
      simp [ParamWorld.enter, hch]
    obtain ⟨w2, hrun, hc2⟩ := paramRelays_run (GetParam (k + 1)) _ idj _ hnext _ hrel _ rfl
    have hdl : w2.b.circularDeps.chain.dropLast = pre := by
      rw [hc2]; simp [ParamWorld.enter, hch]
    have hres : ∀ param, (getParamDefers x
        (.panicking param (.error (newCircularDepError (pre ++ [x] ++ [idj])))) w2) =
        ((param, some (if pre = [] then
          plainErr (paramErrorMsg x (circularDepMsg (x :: [] ++ [idj])))
          else newCircularDepError (pre ++ x :: [] ++ [idj]))), w2.leave) := by
      intro param
      apply Prod.ext
      · rw [getParamDefers_final, hdl]
        by_cases hpre : pre = []
        · subst hpre; simp
        · simp [hpre]
      · simp
    rw [GetParam_succ, if_neg hid]
    simp only [hm, hcr, Bool.false_eq_true, if_false]
    rcases hrun with ⟨v', hrun⟩ | hrun
    · exact ⟨v', w2.leave, by rw [hrun]; simp only; rw [hres],
        paramLeave_of_enter w w2 x hc2⟩
    · exact ⟨none, w2.leave, by rw [hrun]; simp only; rw [hres],
        paramLeave_of_enter w w2 x hc2⟩
  | cons y post ih =>
    intro pre x w n hch hnd hj hrc hn
    obtain ⟨k, rfl⟩ : ∃ k, n = k + 1 := ⟨n - 1, by simp at hn; omega⟩
    obtain ⟨⟨m, hm, hcr, hrel⟩, hrest⟩ := hrc
    have hid : x ∉ w.b.circularDeps.chain := by
      rw [hch]; intro hx
      have := List.nodup_append.1 hnd
      exact this.2.2 hx (by simp)
    have hnext : ∀ w1 : ParamWorld σ α, w1.b = (w.enter x).b →
        ∃ v w2, GetParam k y w1 =
            some ((v, some (newCircularDepError (pre ++ x :: y :: post ++ [idj]))), w2) ∧
          w2.b = (w.enter x).b := by
      intro w1 hw1
      obtain ⟨v, w', hg, hc'⟩ := ih (pre ++ [x]) y w1 k
        (by rw [hw1]; simp [ParamWorld.enter, hch])
        (by simpa using hnd) (by simpa using hj)
        (by rw [hw1]; simpa [ParamWorld.enter] using hrest)
        (by simp at hn ⊢; omega)
      refine ⟨v, w', ?_, hc'.trans hw1⟩
      rw [hg]; simp
    obtain ⟨w2, hrun, hc2⟩ := paramRelays_run (GetParam k) _ y _ hnext _ hrel _ rfl
    have hdl : w2.b.circularDeps.chain.dropLast = pre := by
      rw [hc2]; simp [ParamWorld.enter, hch]
    have hres : ∀ param, (getParamDefers x
        (.panicking param (.error (newCircularDepError (pre ++ x :: y :: post ++ [idj])))) w2) =
        ((param, some (if pre = [] then
          plainErr (paramErrorMsg x (circularDepMsg (x :: (y :: post) ++ [idj])))
          else newCircularDepError (pre ++ x :: (y :: post) ++ [idj]))), w2.leave) := by
      intro param
      apply Prod.ext
      · rw [getParamDefers_final, hdl]
        by_cases hpre : pre = []
        · subst hpre; simp
        · simp [hpre]
      · simp
    rw [GetParam_succ, if_neg hid]
    simp only [hm, hcr, Bool.false_eq_true, if_false]
    rcases hrun with ⟨v', hrun⟩ | hrun
    · exact ⟨v', w2.leave, by rw [hrun]; simp only; rw [hres],
        paramLeave_of_enter w w2 x hc2⟩
    · exact ⟨none, w2.leave, by rw [hrun]; simp only; rw [hres],
        paramLeave_of_enter w w2 x hc2⟩

/-- The text of the error of the outermost frame of `GetParam` for a circular dependency. -/
theorem paramErrorMsg_circular (id0 : String) (l : List String) :
    paramErrorMsg id0 (circularDepMsg l) =
      "cannot get parameter `" ++ id0 ++ "`: circular dependency: " ++ " -> ".intercalate l := by
  have e2 : ("`: " ++ "circular dependency: " : String) = "`: circular dependency: " := by
    decide
  simp only [paramErrorMsg, circularDepMsg]
  rw [String.append_assoc _ "`: " _, ← String.append_assoc "`: " _ _, e2,
    ← String.append_assoc]

/-! ### The facades -/

/-- On a free mutex a facade method locks, runs the wrapped call while the mutex is held,
and unlocks. -/
theorem withLock_free {S R : Type} (op : Mutex → Option (R × S)) :
    withLock ⟨false⟩ op = (op ⟨true⟩).map fun x => (x.1, x.2, ⟨false⟩) := by
  simp only [withLock, Mutex.Lock, Bool.false_eq_true, if_false, Mutex.Unlock]
  cases op ⟨true⟩ <;> rfl

/-- On a held mutex a facade method never returns. -/
theorem withLock_held {S R : Type} (op : Mutex → Option (R × S)) :
    withLock ⟨true⟩ op = none := rfl

/-- Unfolding of `getStep` when it has to build the instance. -/
theorem getStep_build (getf : String → World σ α → Option (GetResult α × World σ α))
    (id : String) (w : World σ α) (m : metaServiceDefinition σ α)
    (hm : mapGet w.c.services id = some m) (hcr : m.created = false)
    (hid : id ∉ w.c.circularDeps.chain) (hcache : w.c.cacheGet id = none) :
    getStep getf id w =
      (getBuild getf id m (w.enter id)).map fun r =>
        getDefers id r.1 w.c.cacheNestedShared.isNone r.2 := by
  obtain ⟨⟨sv, ⟨ch⟩, ds, cn⟩, env, tr⟩ := w
  simp only [Container.cacheGet] at hcache
  simp only at hm hid
  simp only [getStep, getBody, circularDeps.start, World.enter, World.withC, World.log]
  cases cn with
  | none =>
    simp only [hid, hm, hcr, if_false, List.length_nil, ne_eq, not_true_eq_false,
      Option.bind, Bool.false_eq_true, List.length_append, List.length_singleton]
    cases hb : getBuild getf id m _ <;> simp [Option.isNone]
  | some cache =>
    have hg : mapGet cache id = none := by simpa using hcache
    simp only [hid, hm, hg, hcr, if_false, List.length_nil, ne_eq, not_true_eq_false,
      Option.bind, Bool.false_eq_true]
    cases hb : getBuild getf id m _ <;> simp [Option.isNone]

/-- The methods of `AtomicTaggedContainer` that call themselves never return, whatever the
state of the mutex. -/
theorem atomicTagged_never {W γ : Type} (a : AtomicTaggedContainer W γ) (id tag : String)
    (p : Int) (s : W) (n : Nat) :
    AtomicTaggedContainer.GetByTag n tag a s = none ∧
    AtomicTaggedContainer.MustGetByTag n tag a s = none ∧
    AtomicTaggedContainer.TagService n id tag p a = none ∧
    AtomicTaggedContainer.OverrideTagService n id tag p a = none := by
  obtain ⟨t, ⟨l⟩⟩ := a
  cases n with
  | zero => exact ⟨rfl, rfl, rfl, rfl⟩
  | succ n =>
    cases l with
    | true => exact ⟨rfl, rfl, rfl, rfl⟩
    | false =>
      cases n with
      | zero => exact ⟨rfl, rfl, rfl, rfl⟩
      | succ n => exact ⟨rfl, rfl, rfl, rfl⟩

/-! ### A created parameter stays -/

theorem paramCached_register (id : String) (e : metaParamDefinition σ α)
    (w : ParamWorld σ α) (x : String) (d : ParamDefinition σ α) (hd : d.Provider.Spares id)
    (h : ParamCached id e w) :
    ParamCached id e { w with b := (w.b.RegisterParam x d).2 } := by
  simp only [ParamContainer.RegisterParam]
  split_ifs with hx
  · exact h
  · have hne : x ≠ id := by
      rintro rfl
      simp [ParamContainer.HasParam, h.2] at hx
    refine ⟨fun y m hy => ?_, ?_⟩
    · by_cases hxy : x = y
      · subst hxy
        simp only [mapGet_mapSet_self, Option.some.injEq] at hy
        rw [← hy]; exact hd
      · rw [mapGet_mapSet_ne _ _ _ _ hxy] at hy
        exact h.1 y m hy
    · show mapGet (mapSet w.b.params x _) id = some e
      rw [mapGet_mapSet_ne _ _ _ _ hne]; exact h.2

theorem paramCached_override (id : String) (e : metaParamDefinition σ α)
    (w : ParamWorld σ α) (x : String) (d : ParamDefinition σ α) (hx : x ≠ id)
    (hd : d.Provider.Spares id) (h : ParamCached id e w) :
    ParamCached id e { w with b := w.b.OverrideParam x d } := by
  refine ⟨fun y m hy => ?_, ?_⟩
  · simp only [ParamContainer.OverrideParam] at hy
    by_cases hxy : x = y
    · subst hxy
      simp only [mapGet_mapSet_self, Option.some.injEq] at hy
      rw [← hy]; exact hd
    · rw [mapGet_mapSet_ne _ _ _ _ hxy] at hy
      exact h.1 y m hy
  · show mapGet (mapSet w.b.params x _) id = some e
    rw [mapGet_mapSet_ne _ _ _ _ hx]; exact h.2

/-- Running a provider that does not override `id` keeps the created entry of `id`. -/
theorem runParamProg_cached (id : String) (e : metaParamDefinition σ α)
    (getf : String → ParamWorld σ α → Option (GetResult α × ParamWorld σ α))
    (hget : ∀ x w r w', getf x w = some (r, w') → ParamCached id e w → ParamCached id e w') :
    ∀ (p : ParamProg σ α), p.Spares id → ∀ w o w', runParamProg getf p w = some (o, w') →
      ParamCached id e w → ParamCached id e w' := by
  intro p
  induction p with
  | ret v e => intro _ w o w' h hc; simp [runParamProg] at h; rw [← h.2]; exact hc
  | panic p => intro _ w o w' h hc; simp [runParamProg] at h; rw [← h.2]; exact hc
  | getParam x k ih =>
    intro hp w o w' h hc
    simp only [runParamProg] at h
    cases hg : getf x w with
    | none => simp [hg] at h
    | some rw1 =>
      obtain ⟨r, w1⟩ := rw1
      simp only [hg] at h
      exact ih _ _ (hp _ _) _ _ _ h (hget _ _ _ _ hg hc)
  | hasParam x k ih =>
    intro hp w o w' h hc; simp only [runParamProg] at h; exact ih _ (hp _) _ _ _ h hc
  | registerParam x p d k _ ih =>
    intro hp w o w' h hc
    simp only [runParamProg] at h
    exact ih _ (hp.2 _) _ _ _ h (paramCached_register id e w x ⟨p, d⟩ hp.1 hc)
  | overrideParam x p d k _ ih =>
    intro hp w o w' h hc
    simp only [runParamProg] at h
    exact ih hp.2.2 _ _ _ h (paramCached_override id e w x ⟨p, d⟩ hp.1 hp.2.1 hc)
  | read k ih =>
    intro hp w o w' h hc; simp only [runParamProg] at h; exact ih _ (hp _) _ _ _ h hc
  | modify f k ih =>
    intro hp w o w' h hc; simp only [runParamProg] at h; exact ih hp _ _ _ h hc

/-- Every call of `GetParam` that returns keeps the created entry of `id`, when no provider
overrides `id`. -/
theorem GetParam_cached (id : String) (e : metaParamDefinition σ α) (he : e.created = true) :
    ∀ (n : Nat) (x : String) (w : ParamWorld σ α) r w',
      GetParam n x w = some (r, w') → ParamCached id e w → ParamCached id e w' := by
  intro n
  induction n with
  | zero => intro x w r w' h; simp [GetParam] at h
  | succ n ih =>
    intro x w r w' h hs
    rw [GetParam_succ] at h
    by_cases hc : x ∈ w.b.circularDeps.chain
    · rw [if_pos hc] at h; simp at h; rw [← h.2]; exact hs
    · rw [if_neg hc] at h
      cases hm : mapGet w.b.params x with
      | none => simp only [hm] at h; simp at h; rw [← h.2]; exact hs
      | some m =>
        simp only [hm] at h
        by_cases hcr : m.created = true
        · rw [if_pos hcr] at h; simp at h; rw [← h.2]; exact hs
        · rw [if_neg hcr] at h
          have hne : x ≠ id := by
            rintro rfl
            rw [hs.2] at hm
            simp only [Option.some.injEq] at hm
            rw [← hm] at hcr
            exact hcr he
          have hs0 : ParamCached id e (w.enter x) := ⟨fun y my hy => hs.1 y my hy, hs.2⟩
          cases hp : runParamProg (GetParam n) m.definition.Provider (w.enter x) with
          | none => simp [hp] at h
          | some ow1 =>
            obtain ⟨o, w1⟩ := ow1
            have h1 := runParamProg_cached id e (GetParam n) ih _ (hs.1 x m hm) _ _ _ hp hs0
            have hl : ParamCached id e w1.leave := ⟨fun y my hy => h1.1 y my hy, h1.2⟩
            simp only [hp] at h
            cases o with
            | panicked p =>
              simp only [Option.some.injEq] at h
              have hw : w' = w1.leave := by simpa using (congrArg Prod.snd h).symm
              rw [hw]; exact hl
            | returned v e' =>
              cases e' with
              | some e' =>
                simp only [Option.some.injEq] at h
                have hw : w' = w1.leave := by simpa using (congrArg Prod.snd h).symm
                rw [hw]; exact hl
              | none =>
                simp only at h
                by_cases hd : m.definition.Disposable = true
                · rw [if_pos hd] at h
                  simp only [Option.some.injEq, Prod.mk.injEq] at h
                  rw [← h.2]; exact hl
                · rw [if_neg hd] at h
                  simp only [Option.some.injEq, Prod.mk.injEq] at h
                  rw [← h.2]
                  refine ⟨fun y my hy => ?_, ?_⟩
                  · simp only [ParamWorld.leave] at hy
                    by_cases hxy : x = y
                    · subst hxy
                      rw [mapGet_mapSet_self] at hy
                      simp only [Option.some.injEq] at hy
                      rw [← hy]
                      exact hs.1 x m hm
                    · rw [mapGet_mapSet_ne _ _ _ _ hxy] at hy
                      exact h1.1 y my hy
                  · simp only [ParamWorld.leave]
                    rw [mapGet_mapSet_ne _ _ _ _ hne]
                    exact h1.2

/-- Calls that are not an `OverrideParam` of `id` keep the created entry of `id` and the
chain. -/
theorem paramLater_cached (id : String) (e : metaParamDefinition σ α) (he : e.created = true)
    (w w' : ParamWorld σ α) (h : ParamLater id w w') (hc : ParamCached id e w) :
    ParamCached id e w' ∧ w'.b.circularDeps = w.b.circularDeps := by
  induction h with
  | refl => exact ⟨hc, rfl⟩
  | getParam w1 w2 n x r _ hget ih =>
    exact ⟨GetParam_cached id e he n x w1 r w2 hget ih.1,
      (GetParam_chain n x w1 r w2 hget).trans ih.2⟩
  | registerParam w1 x d _ hd ih =>
    refine ⟨paramCached_register id e w1 x d hd ih.1, ?_⟩
    rw [← ih.2]
    simp only [ParamContainer.RegisterParam]
    split_ifs <;> rfl
  | overrideParam w1 x d _ hx hd ih =>
    exact ⟨paramCached_override id e w1 x d hx hd ih.1, ih.2⟩
  | assign w1 f _ ih => exact ih

/-! ### A created service stays -/

theorem cached_register (id : String) (e : metaServiceDefinition σ α) (w : World σ α)
    (x : String) (s : ServiceDefinition σ α) (hs : s.Provider.Spares id)
    (h : Cached id e w) : Cached id e (w.withC (w.c.Register x s).2) := by
  simp only [Container.Register]
  split_ifs with hx
  · exact h
  · have hne : x ≠ id := by
      rintro rfl
      simp [Container.Has, h.2.1] at hx
    refine ⟨⟨fun y m hy => ?_, h.1.2⟩, ?_, h.2.2⟩
    · simp only [World.withC_c] at hy
      by_cases hxy : x = y
      · subst hxy
        simp only [mapGet_mapSet_self, Option.some.injEq] at hy
        rw [← hy]; exact hs
      · rw [mapGet_mapSet_ne _ _ _ _ hxy] at hy
        exact h.1.1 y m hy
    · show mapGet (mapSet w.c.services x _) id = some e
      rw [mapGet_mapSet_ne _ _ _ _ hne]; exact h.2.1

theorem cached_override (id : String) (e : metaServiceDefinition σ α) (w : World σ α)
    (x : String) (s : ServiceDefinition σ α) (hx : x ≠ id) (hs : s.Provider.Spares id)
    (h : Cached id e w) : Cached id e (w.withC (w.c.Override x s)) := by
  refine ⟨⟨fun y m hy => ?_, h.1.2⟩, ?_, h.2.2⟩
  · simp only [World.withC_c, Container.Override] at hy
    by_cases hxy : x = y
    · subst hxy
      simp only [mapGet_mapSet_self, Option.some.injEq] at hy
      rw [← hy]; exact hs
    · rw [mapGet_mapSet_ne _ _ _ _ hxy] at hy
      exact h.1.1 y m hy
  · show mapGet (mapSet w.c.services x _) id = some e
    rw [mapGet_mapSet_ne _ _ _ _ hx]; exact h.2.1

theorem cached_revoke (id : String) (e : metaServiceDefinition σ α) (w : World σ α)
    (x : String) (hx : x ≠ id) (h : Cached id e w) :
    Cached id e (w.withC (w.c.Revoke x).2) := by
  simp only [Container.Revoke]
  cases hm : mapGet w.c.services x with
  | none => exact h
  | some cp =>
    refine ⟨⟨fun y m hy => ?_, h.1.2⟩, ?_, h.2.2⟩
    · simp only [World.withC_c] at hy
      by_cases hxy : x = y
      · subst hxy
        simp only [mapGet_mapSet_self, Option.some.injEq] at hy
        rw [← hy]; exact h.1.1 x cp hm
      · rw [mapGet_mapSet_ne _ _ _ _ hxy] at hy
        exact h.1.1 y m hy
    · show mapGet (mapSet w.c.services x _) id = some e
      rw [mapGet_mapSet_ne _ _ _ _ hx]; exact h.2.1

theorem cached_remove (id : String) (e : metaServiceDefinition σ α) (w : World σ α)
    (x : String) (hx : x ≠ id) (h : Cached id e w) :
    Cached id e (w.withC (w.c.Remove x).2) := by
  simp only [Container.Remove]
  split_ifs with hh
  · refine ⟨⟨fun y m hy => ?_, h.1.2⟩, ?_, h.2.2⟩
    · simp only [World.withC_c] at hy
      by_cases hxy : x = y
      · subst hxy
        rw [mapGet_mapDelete_self] at hy
        exact absurd hy (by simp)
      · rw [mapGet_mapDelete_ne _ _ _ hxy] at hy
        exact h.1.1 y m hy
    · show mapGet (mapDelete w.c.services x) id = some e
      rw [mapGet_mapDelete_ne _ _ _ hx]; exact h.2.1
  · exact h

theorem cached_registerDecorator (id : String) (e : metaServiceDefinition σ α)
    (w : World σ α) (d : Decorator σ α) (hd : ∀ s v, (d s v).Spares id) (h : Cached id e w) :
    Cached id e (w.withC (w.c.RegisterDecorator d)) := by
  refine ⟨⟨h.1.1, fun d' hd' => ?_⟩, h.2.1, h.2.2⟩
  simp only [World.withC_c, Container.RegisterDecorator, List.mem_append,
    List.mem_singleton] at hd'
  rcases hd' with hd' | hd'
  · exact h.1.2 d' hd'
  · rw [hd']; exact hd

/-- Running a closure that does not override, revoke or remove `id` keeps the created entry of
`id`. -/
theorem runProg_cached (id : String) (e : metaServiceDefinition σ α)
    (getf : String → World σ α → Option (GetResult α × World σ α))
    (hget : ∀ x w r w', getf x w = some (r, w') → Cached id e w → Cached id e w') :
    ∀ (p : Prog σ α), p.Spares id → ∀ w o w', runProg getf p w = some (o, w') →
      Cached id e w → Cached id e w' := by
  intro p
  induction p with
  | ret v e => intro _ w o w' h hc; simp [runProg] at h; rw [← h.2]; exact hc
  | panic p => intro _ w o w' h hc; simp [runProg] at h; rw [← h.2]; exact hc
  | get x k ih =>
    intro hp w o w' h hc
    simp only [runProg] at h
    cases hg : getf x w with
    | none => simp [hg] at h
    | some rw1 =>
      obtain ⟨r, w1⟩ := rw1
      simp only [hg] at h
      exact ih _ _ (hp _ _) _ _ _ h (hget _ _ _ _ hg hc)
  | has x k ih =>
    intro hp w o w' h hc; simp only [runProg] at h; exact ih _ (hp _) _ _ _ h hc
  | register x p s k _ ih =>
    intro hp w o w' h hc
    simp only [runProg] at h
    exact ih _ (hp.2 _) _ _ _ h (cached_register id e w x ⟨p, s⟩ hp.1 hc)
  | override x p s k _ ih =>
    intro hp w o w' h hc
    simp only [runProg] at h
    exact ih hp.2.2 _ _ _ h (cached_override id e w x ⟨p, s⟩ hp.1 hp.2.1 hc)
  | revoke x k ih =>
    intro hp w o w' h hc
    simp only [runProg] at h
    exact ih _ (hp.2 _) _ _ _ h (cached_revoke id e w x hp.1 hc)
  | remove x k ih =>
    intro hp w o w' h hc
    simp only [runProg] at h
    exact ih _ (hp.2 _) _ _ _ h (cached_remove id e w x hp.1 hc)
  | registerDecorator d k _ ih =>
    intro hp w o w' h hc
    simp only [runProg] at h
    exact ih hp.2 _ _ _ h (cached_registerDecorator id e w d hp.1 hc)
  | read k ih =>
    intro hp w o w' h hc; simp only [runProg] at h; exact ih _ (hp _) _ _ _ h hc
  | modify f k ih =>
    intro hp w o w' h hc; simp only [runProg] at h; exact ih hp _ _ _ h hc

/-- Every call of `Get` that returns keeps the created entry of `id`, when no closure
overrides, revokes or removes `id`. -/
theorem Get_cached (id : String) (e : metaServiceDefinition σ α) (he : e.created = true) :
    ∀ (n : Nat) (x : String) (w : World σ α) r w',
      Get n x w = some (r, w') → Cached id e w → Cached id e w' := by
  intro n
  induction n with
  | zero => intro x w r w' h; simp [Get] at h
  | succ n ih =>
    intro x w r w' h hC
    rw [Get_succ] at h
    split_ifs at h with hc
    · simp at h; rw [← h.2]; exact hC
    · split at h
      · simp at h; rw [← h.2]; exact hC
      · split at h
        · simp at h; rw [← h.2]; exact hC
        · rename_i m hm
          split_ifs at h with hcr
          · simp at h; rw [← h.2]; exact hC
          · simp only [Option.map_eq_some'] at h
            obtain ⟨⟨exit, w3⟩, hb, hd⟩ := h
            have hne : x ≠ id := by
              rintro rfl
              rw [hC.2.1] at hm
              simp only [Option.some.injEq] at hm
              rw [← hm] at hcr
              exact hcr he
            have hE : Cached id e (w.enter x) := by
              refine ⟨⟨fun y my hy => hC.1.1 y my (by simpa using hy), fun d hd' => ?_⟩, ?_, ?_⟩
              · exact hC.1.2 d (by simpa using hd')
              · simpa using hC.2.1
              · simpa using hC.2.2
            obtain ⟨w2, h2, h3⟩ :=
              getBuild_rel (fun a b => Cached id e a → Cached id e b) (Prog.Spares id) (Get n) x
                (fun _ h => h) (fun _ _ _ h1 h2 h => h2 (h1 h))
                (fun _ h => h) (fun _ _ h => h)
                (fun p hp w o w' hr => runProg_cached id e (Get n) ih p hp w o w' hr)
                m (w.enter x) (hC.1.1 x m hm)
                (fun w1 h1 d hd' r => (h1 hE).1.2 d hd' x r)
                exit w3 hb
            have hC2 := h2 hE
            have hC3 : Cached id e w3 := by
              rcases h3 with ⟨h3, _⟩ | ⟨s, h3⟩
              · rw [h3]; exact hC2
              · have h3' : w3 = (getStore x m s w2).2 := congrArg Prod.snd h3
                rw [h3']
                refine ⟨⟨fun y my hy => ?_, fun d hd' => ?_⟩, ?_, ?_⟩
                · by_cases hxy : x = y
                  · subst hxy
                    rw [getStore_services_self] at hy
                    split_ifs at hy
                    · simp only [Option.some.injEq] at hy
                      rw [← hy]; exact hC.1.1 x m hm
                    · exact hC2.1.1 x my hy
                  · rw [getStore_services_ne _ _ _ _ _ hxy] at hy
                    exact hC2.1.1 y my hy
                · rw [getStore_decorators] at hd'
                  exact hC2.1.2 d hd'
                · rw [getStore_services_ne _ _ _ _ _ hne]; exact hC2.2.1
                · rw [getStore_cacheGet_ne _ _ _ _ _ hne]; exact hC2.2.2
            have hw : w' = w3.leave w.c.cacheNestedShared.isNone := by
              simpa using (congrArg Prod.snd hd).symm
            rw [hw]
            refine ⟨⟨fun y my hy => hC3.1.1 y my (by simpa using hy), fun d hd' => ?_⟩, ?_, ?_⟩
            · exact hC3.1.2 d (by simpa using hd')
            · simpa using hC3.2.1
            · rw [leave_cacheGet]; split_ifs
              · rfl
              · exact hC3.2.2

/-- Calls that are not an `Override`, `Revoke` or `Remove` of `id` keep the created entry of
`id` and the chain. -/
theorem later_cached (id : String) (e : metaServiceDefinition σ α) (he : e.created = true)
    (w w' : World σ α) (h : Later id w w') (hc : Cached id e w) :
    Cached id e w' ∧ w'.c.circularDeps = w.c.circularDeps := by
  induction h with
  | refl => exact ⟨hc, rfl⟩
  | get w1 w2 n x r _ hget ih =>
    exact ⟨Get_cached id e he n x w1 r w2 hget ih.1,
      (Get_frame n x w1 r w2 hget).chain.trans ih.2⟩
  | register w1 x s _ hs ih =>
    refine ⟨cached_register id e w1 x s hs ih.1, ?_⟩
    rw [← ih.2]
    simp only [Container.Register]
    split_ifs <;> rfl
  | override w1 x s _ hx hs ih => exact ⟨cached_override id e w1 x s hx hs ih.1, ih.2⟩
  | revoke w1 x _ hx ih =>
    refine ⟨cached_revoke id e w1 x hx ih.1, ?_⟩
    rw [← ih.2]
    simp only [Container.Revoke]
    split <;> rfl
  | remove w1 x _ hx ih =>
    refine ⟨cached_remove id e w1 x hx ih.1, ?_⟩
    rw [← ih.2]
    simp only [Container.Remove]
    split_ifs <;> rfl
  | registerDecorator w1 d _ hd ih =>
    exact ⟨cached_registerDecorator id e w1 d hd ih.1, ih.2⟩
  | assign w1 f _ ih => exact ih

/-- A closure that only calls `Get` overrides, revokes and removes nothing. -/
theorem spares_of_getOnly (id : String) : ∀ (p : Prog σ α), p.GetOnly → p.Spares id := by
  intro p
  induction p with
  | ret v e => intro _; trivial
  | panic p => intro _; trivial
  | get x k ih => intro h v e; exact ih v e (h v e)
  | has x k ih => intro h b; exact ih b (h b)
  | register x p s k _ _ => intro h; exact absurd h (by simp [Prog.GetOnly])
  | override x p s k _ _ => intro h; exact absurd h (by simp [Prog.GetOnly])
  | revoke x k _ => intro h; exact absurd h (by simp [Prog.GetOnly])
  | remove x k _ => intro h; exact absurd h (by simp [Prog.GetOnly])
  | registerDecorator d k _ _ => intro h; exact absurd h (by simp [Prog.GetOnly])
  | read k ih => intro h s; exact ih s (h s)
  | modify f k ih => intro h; exact ih h

theorem container_spares_of_getOnly (c : Container σ α) (id : String) (h : c.GetOnly) :
    c.Spares id :=
  ⟨fun x m hx => spares_of_getOnly id _ (h.1 x m hx),
    fun d hd s v => spares_of_getOnly id _ (h.2 d hd s v)⟩

/-! ### Only `ScopeShared` entries are created -/

theorem sound_set_fresh (c : Container σ α) (x : String) (s : ServiceDefinition σ α)
    (svc : Option α) (h : c.Sound) :
    ({ c with services := mapSet c.services x ⟨s, svc, false⟩ } : Container σ α).Sound := by
  intro y m hy hcr
  by_cases hxy : x = y
  · subst hxy
    rw [mapGet_mapSet_self] at hy
    simp only [Option.some.injEq] at hy
    rw [← hy] at hcr
    simp at hcr
  · rw [mapGet_mapSet_ne _ _ _ _ hxy] at hy
    exact h y m hy hcr

theorem NewContainer_sound (defs : List (String × ServiceDefinition σ α)) :
    (NewContainer defs : Container σ α).Sound := by
  have key : ∀ (defs : List (String × ServiceDefinition σ α))
      (sv : List (String × metaServiceDefinition σ α)),
      (⟨sv, newCircularDeps, [], none⟩ : Container σ α).Sound →
      (⟨defs.foldl (fun m d => mapSet m d.1 ⟨d.2, none, false⟩) sv, newCircularDeps, [],
        none⟩ : Container σ α).Sound := by
    intro defs
    induction defs with
    | nil => intro sv h; exact h
    | cons d ds ih =>
      intro sv h
      exact ih _ (sound_set_fresh ⟨sv, newCircularDeps, [], none⟩ d.1 d.2 none h)
  exact key defs [] (fun _ _ h => by simp [mapGet] at h)

theorem mutStep_sound (c c' : Container σ α) (h : c.Sound) (hs : MutStep c c') : c'.Sound := by
  cases hs with
  | register x s =>
    simp only [Container.Register]
    split_ifs
    · exact h
    · exact sound_set_fresh c x s none h
  | override x s => exact sound_set_fresh c x s none h
  | revoke x =>
    simp only [Container.Revoke]
    cases hm : mapGet c.services x with
    | none => exact h
    | some cp => exact sound_set_fresh c x cp.definition none h
  | remove x =>
    simp only [Container.Remove]
    split_ifs
    · intro y m hy hcr
      by_cases hxy : x = y
      · subst hxy
        simp only [mapGet_mapDelete_self] at hy
        exact absurd hy (by simp)
      · simp only [mapGet_mapDelete_ne _ _ _ hxy] at hy
        exact h y m hy hcr
    · exact h
  | registerDecorator d => exact h

/-- Every call of `Get` that returns keeps the container sound, whatever the closures do. -/
theorem Get_sound : ∀ (n : Nat) (x : String) (w : World σ α) r w',
    Get n x w = some (r, w') → w.c.Sound → w'.c.Sound := by
  intro n
  induction n with
  | zero => intro x w r w' h; simp [Get] at h
  | succ n ih =>
    intro x w r w' h hS
    rw [Get_succ] at h
    split_ifs at h with hc
    · simp at h; rw [← h.2]; exact hS
    · split at h
      · simp at h; rw [← h.2]; exact hS
      · split at h
        · simp at h; rw [← h.2]; exact hS
        · rename_i m hm
          split_ifs at h with hcr
          · simp at h; rw [← h.2]; exact hS
          · simp only [Option.map_eq_some'] at h
            obtain ⟨⟨exit, w3⟩, hb, hd⟩ := h
            have hE : (w.enter x).c.Sound := fun y my hy hcy => hS y my (by simpa using hy) hcy
            obtain ⟨w2, h2, h3⟩ :=
              getBuild_rel (fun a b => a.c.Sound → b.c.Sound) (fun _ => True) (Get n) x
                (fun _ h => h) (fun _ _ _ h1 h2 h => h2 (h1 h))
                (fun _ h => h) (fun _ _ h => h)
                (fun p _ => runProg_rel (fun a b => a.c.Sound → b.c.Sound) (Get n)
                  (fun _ h => h) (fun _ _ _ h1 h2 h => h2 (h1 h)) ih
                  (fun w c' hm' hw => mutStep_sound w.c c' hw hm') (fun _ _ h => h) p)
                m (w.enter x) trivial (fun _ _ _ _ _ => trivial) exit w3 hb
            have hS2 := h2 hE
            have hS3 : w3.c.Sound := by
              rcases h3 with ⟨h3, _⟩ | ⟨s, h3⟩
              · rw [h3]; exact hS2
              · have h3' : w3 = (getStore x m s w2).2 := congrArg Prod.snd h3
                rw [h3']
                intro y my hy hcy
                by_cases hxy : x = y
                · subst hxy
                  rw [getStore_services_self] at hy
                  split_ifs at hy with hsc
                  · simp only [Option.some.injEq] at hy
                    rw [← hy]; exact hsc
                  · exact hS2 x my hy hcy
                · rw [getStore_services_ne _ _ _ _ _ hxy] at hy
                  exact hS2 y my hy hcy
            have hw : w' = w3.leave w.c.cacheNestedShared.isNone := by
              simpa using (congrArg Prod.snd hd).symm
            rw [hw]
            exact fun y my hy hcy => hS3 y my (by simpa using hy) hcy

theorem scopeContainer_sound (s : Scope) : (scopeContainer s).Sound :=
  mutStep_sound _ _ (mutStep_sound _ _ (mutStep_sound _ _ (mutStep_sound _ _
    (NewContainer_sound []) (.override "transaction" ⟨transactionProvider, s⟩))
    (.override "userRepo" ⟨userRepoProvider, s⟩)) (.override "itemRepo" ⟨itemRepoProvider, s⟩))
    (.override "purchaseService" ⟨purchaseServiceProvider, s⟩)

/-! ### Ties between tagged services -/

/-- When every id tagged `tag` has the same priority, `getIDsByTag` lists the ids in the order
in which the `range` loop visits them. -/
theorem getIDsByTag_all_tied {W : Type} (b : TaggedContainer W α) (tag : String)
    (ρ : List String → List String) (hρ : IsRange ρ) (p0 : Int)
    (hall : ∀ id p, b.priority tag id = some p → p = p0) :
    b.getIDsByTag ρ tag = ρ (mapKeys ((mapGet b.mapping tag).getD [])) := by
  simp only [TaggedContainer.getIDsByTag]
  have hs : sortByPriority ((ρ (mapKeys ((mapGet b.mapping tag).getD []))).filterMap fun id =>
        (mapGet ((mapGet b.mapping tag).getD []) id).map fun p => (id, p)) =
      (ρ (mapKeys ((mapGet b.mapping tag).getD []))).filterMap fun id =>
        (mapGet ((mapGet b.mapping tag).getD []) id).map fun p => (id, p) := by
    apply List.Sorted.insertionSort_eq
    apply List.pairwise_of_forall_mem_list
    intro a ha c hc
    have key : ∀ a : String × Int, a ∈ (ρ (mapKeys ((mapGet b.mapping tag).getD []))).filterMap
        (fun id => (mapGet ((mapGet b.mapping tag).getD []) id).map fun p => (id, p)) →
        a.2 = p0 := by
      intro a ha
      simp only [List.mem_filterMap, Option.map_eq_some'] at ha
      obtain ⟨id, _, p, hp, rfl⟩ := ha
      exact hall id p (by rw [priority_eq]; exact hp)
    show a.2 ≥ c.2
    rw [key a ha, key c hc]
  rw [hs, filterMap_entries_fst]
  intro id hid
  exact (mem_mapKeys _ id).1 ((hρ _).mem_iff.1 hid)

end lemmas

/-! ## The claims -/

/-- C1: let `id` be registered with `ScopeShared` and let `Get(id)` return `v` with a nil
error. When the call was not answered from the nested cache, the registry entry of `id` is
created with `v`; from then on, after any calls on the container among which there is no
`Override`, `Revoke` or `Remove` of `id` (made by the caller or by the closures), the entry is
still there and every `Get(id)` returns `v` with a nil error and leaves the world as it is,
ghost trace included: neither the provider nor a decorator runs, and `N` calls in a row return
`v` `N` times; in the test graph every resolution of `purchaseService` carries transaction 1 in
both repositories. When the call was answered from the nested cache, which `Get` consults
before it reads the registry, nothing is stored: in `staleContainer`, whose provider of `root`
overrides `x` with `ScopeShared` between two calls of `Get("x")`, the second of them finds
`x` registered with `ScopeShared` and returns the transaction 1 left in the nested cache, and
the next top-level `Get("x")` invokes the provider and returns transaction 2. -/
theorem C1_shared_cached_unless_stale {σ α : Type} (n : Nat) (id : String) (w : World σ α)
    (m : metaServiceDefinition σ α) (v : Option α) (w1 : World σ α)
    (hm : mapGet w.c.services id = some m) (hs : m.definition.Scope = .ScopeShared)
    (hget : Get n id w = some ((v, none), w1)) :
    (w.c.cacheGet id = none →
      mapGet w1.c.services id = some ⟨m.definition, v, true⟩ ∧
      ∀ w2, w1.c.Spares id → Later id w1 w2 →
        mapGet w2.c.services id = some ⟨m.definition, v, true⟩ ∧
        ∀ k N, Get (k + 1) id w2 = some ((v, none), w2) ∧
          getTimes (k + 1) id N w2 = some (List.replicate N (v, none), w2)) ∧
    (∀ s, w.c.cacheGet id = some s → v = s ∧ w1 = w) ∧
    (∀ N, (getTimes 10 "purchaseService" (N + 1)
        (World.init (scopeContainer .ScopeShared) 0)).map (fun p => p.1) =
      some (List.replicate (N + 1)
        (some (Val.purchaseService (.userRepo (.transaction 1)) (.itemRepo (.transaction 1))),
          none))) ∧
    runProg (Get 9)
        (.get "x" fun _ _ =>
          .override "x" transactionProvider .ScopeShared (.get "x" fun v e => .ret v e))
        (((World.init (staleContainer .ScopeShared) 0).enter "root").log (.provider "root")) =
      runProg (Get 9) (.get "x" fun v e => .ret v e) (staleWorld .ScopeShared) ∧
    (mapGet (staleWorld .ScopeShared).c.services "x").map
        (fun m => (m.definition.Scope, m.service, m.created)) =
      some (.ScopeShared, none, false) ∧
    (∀ k, Get (k + 1) "x" (staleWorld .ScopeShared) =
      some ((some (.transaction 1), none), staleWorld .ScopeShared)) ∧
    (Get 10 "root" (World.init (staleContainer .ScopeShared) 0)).map
        (fun x => (x.1, (mapGet x.2.c.services "x").map
          fun m => (m.definition.Scope, m.service, m.created))) =
      some ((some (.transaction 1), none), some (.ScopeShared, none, false)) ∧
    ((Get 10 "root" (World.init (staleContainer .ScopeShared) 0)).bind
        fun x => Get 10 "x" x.2).map (fun x => (x.1, x.2.trace)) =
      some ((some (.transaction 2), none),
        [.cacheCreated 1, .provider "root", .provider "x", .built "x", .built "root",
          .cacheCreated 1, .provider "x", .built "x"]) := by
  have hid : id ∉ w.c.circularDeps.chain := not_mem_chain_of_ok n id w v w1 hget
  refine ⟨fun hcache => ?_, fun s hs' => ?_, scopeShared_repeat, rfl, by decide, fun k => ?_,
    by decide, by decide⟩
  · obtain ⟨h1, h2⟩ := Get_shared_stores n id w m v w1 hm hs hcache hget
    have hch : id ∉ w1.c.circularDeps.chain := by
      rw [(Get_frame _ _ _ _ _ hget).chain]; exact hid
    refine ⟨h1, fun w2 hsp hl => ?_⟩
    obtain ⟨hc2, hchain⟩ := later_cached id _ rfl w1 w2 hl ⟨hsp, h1, h2⟩
    have hch2 : id ∉ w2.c.circularDeps.chain := by rw [hchain]; exact hch
    exact ⟨hc2.2.1, fun k N => ⟨Get_created k id w2 _ hc2.2.1 rfl hc2.2.2 hch2,
      getTimes_created k id w2 _ hc2.2.1 rfl hc2.2.2 hch2 N⟩⟩
  · cases n with
    | zero => simp [Get] at hget
    | succ n =>
      rw [Get_succ, if_neg hid] at hget
      simp only [hs', Option.some.injEq, Prod.mk.injEq] at hget
      exact ⟨hget.1.1.symm, hget.2.symm⟩
  · rw [Get_succ]
    rfl

/-- Witness of C1 on the test graph: the first `Get("purchaseService")` succeeds, and every
further one returns the same instance without changing the world, also after a
`Get("transaction")` and after any other calls that do not override, revoke or remove
`purchaseService`. -/
theorem C1_shared_cached_unless_stale_witness :
    ∃ w1 : World Nat Val,
      Get 10 "purchaseService" (World.init (scopeContainer .ScopeShared) 0) =
        some ((some (.purchaseService (.userRepo (.transaction 1)) (.itemRepo (.transaction 1))),
          none), w1) ∧
      ∀ w2, Later "purchaseService" w1 w2 → ∀ k, Get (k + 1) "purchaseService" w2 =
        some ((some (.purchaseService (.userRepo (.transaction 1)) (.itemRepo (.transaction 1))),
          none), w2) :=
  have h1 : (Get 10 "purchaseService" (World.init (scopeContainer .ScopeShared) 0)).isSome = true := by
    decide
  have hx : Get 10 "purchaseService" (World.init (scopeContainer .ScopeShared) 0) =
      some ((some (.purchaseService (.userRepo (.transaction 1)) (.itemRepo (.transaction 1))),
        none), ((Get 10 "purchaseService" (World.init (scopeContainer .ScopeShared) 0)).get h1).2) :=
    rfl
  have hG := ((Get_keeps 10 "purchaseService" _ _ _ hx).2 (scopeContainer_getOnly _)).getOnly
  ⟨_, hx, fun w2 hl k => (((C1_shared_cached_unless_stale 10 "purchaseService"
    (World.init (scopeContainer .ScopeShared) 0) _ _ _ rfl rfl hx).1 rfl).2 w2
    (container_spares_of_getOnly _ _ hG) hl).2 k 0 |>.1⟩

/-- Counterexample of C2: in `retryContainer` every closure calls the container only through
`Get`, and `x` is registered with `ScopeNestedShared`. Its provider cannot fail: it increments
the counter and returns the transaction with that number. During the one top-level
`Get("root")` the provider of `x` is invoked twice and runs to success both times (the counter
ends at 2), because the decorator fails the first build of `x` and the provider of `root` asks
for `x` again; the call returns transaction 2. -/
theorem C2_counterexample :
    retryContainer.GetOnly ∧
    (mapGet retryContainer.services "x").map (fun m => (m.definition.Scope, m.created)) =
      some (.ScopeNestedShared, false) ∧
    (∀ (getf : String → World Nat Val → Option (GetResult Val × World Nat Val))
      (w : World Nat Val),
      runProg getf transactionProvider w =
        some (.returned (some (.transaction (w.env + 1))) none, { w with env := w.env + 1 })) ∧
    (Get 10 "root" (World.init retryContainer 0)).map (fun x => (x.1, x.2.env, x.2.trace)) =
      some ((some (.transaction 2), none), 2,
        [.cacheCreated 1, .provider "root", .provider "x", .decorator 0 "x", .provider "x",
          .decorator 0 "x", .built "x", .decorator 0 "root", .built "root"]) ∧
    ((Get 10 "root" (World.init retryContainer 0)).map
      fun x => x.2.trace.count (.provider "x")) = some 2 := by
  refine ⟨⟨fun id m hm => ?_, fun d hd id v => ?_⟩, by decide, fun _ _ => rfl, by decide,
    by decide⟩
  · simp only [retryContainer, Container.RegisterDecorator, Container.Override, NewContainer,
      List.foldl_nil, mapSet, mapGet] at hm
    split_ifs at hm
    · injection hm with hm; subst hm; simp [transactionProvider, Prog.GetOnly]
    · injection hm with hm; subst hm; simp [Prog.GetOnly]
  · simp only [retryContainer, Container.RegisterDecorator, Container.Override, NewContainer,
      List.nil_append, List.mem_singleton] at hd
    subst hd
    by_cases hx : id = "x"
    · simp only [hx, if_true, Prog.GetOnly]
      intro s
      split_ifs <;> trivial
    · simp [hx, Prog.GetOnly]

/-- C2, amended: on a container whose providers and decorators call it only through
`Get`/`MustGet`, during one top-level `Get` (entered with an empty chain and no nested cache)
at most one build of an id `x` registered with `ScopeNestedShared` completes: `Get(x)` reaches
its final return with a new instance, after the provider and every decorator returned a nil
error, at most once (the provider alone may run to success again after a build that a
decorator failed). Inside the call, a nested `Get(x)` that succeeds leaves the returned
instance in the nested cache; an instance held by the nested cache is what every `Get(x)` not
closing a cycle returns, without running any closure, and it stays there through every
further nested call. When the top-level call returns the nested cache is gone and the entry
of `x` is still not created, so a later top-level `Get(x)` that returns has invoked the
provider again. Every such call returns as soon as the fuel exceeds the number of registered
ids. In the test graph the `i`-th top-level `Get("purchaseService")` (`i = 1, 2, 3, ...`)
gives both repositories the transaction numbered `i`. -/
theorem C2_nestedShared_once_per_call {σ α : Type} (n : Nat) (id x : String) (w : World σ α)
    (mx : metaServiceDefinition σ α) (r : GetResult α) (w' : World σ α)
    (hG : w.c.GetOnly) (hchain : w.c.circularDeps.chain = [])
    (hcache : w.c.cacheNestedShared = none) (hx : mapGet w.c.services x = some mx)
    (hs : mx.definition.Scope = .ScopeNestedShared) (hcr : mx.created = false)
    (hget : Get n id w = some (r, w')) :
    (∃ evs, w'.trace = w.trace ++ evs ∧ evs.count (.built x) ≤ 1) ∧
    (∀ (wn : World σ α) (m : metaServiceDefinition σ α) (k : Nat) (v : Option α)
      (wn' : World σ α), mapGet wn.c.services x = some m →
      m.definition.Scope = .ScopeNestedShared → m.created = false →
      wn.c.cacheNestedShared.isSome = true → Get k x wn = some ((v, none), wn') →
      wn'.c.cacheGet x = some v) ∧
    (∀ (wn : World σ α) (v : Option α), wn.c.cacheGet x = some v →
      (x ∉ wn.c.circularDeps.chain → ∀ k, Get (k + 1) x wn = some ((v, none), wn)) ∧
      ∀ k y ry wn', Get k y wn = some (ry, wn') → wn'.c.cacheGet x = some v) ∧
    w'.c.cacheNestedShared = none ∧ mapGet w'.c.services x = some mx ∧
    (∀ k r2 w2, Get k x w' = some (r2, w2) →
      ∃ evs, w2.trace = w'.trace ++ evs ∧ Event.provider x ∈ evs) ∧
    (∀ fuel y, w.c.services.length < fuel → ∃ r2 w2, Get fuel y w = some (r2, w2)) ∧
    ∀ N, (getTimes 10 "purchaseService" N
        (World.init (scopeContainer .ScopeNestedShared) 0)).map (fun p => p.1) =
      some ((List.range N).map fun i =>
        (some (Val.purchaseService (.userRepo (.transaction (i + 1)))
          (.itemRepo (.transaction (i + 1)))), none)) := by
  have hk := Get_keeps n id w r w' hget
  have hcn' : w'.c.cacheNestedShared = none := by
    have := hk.1.cacheSome
    rw [hcache] at this
    cases hw : w'.c.cacheNestedShared with
    | none => rfl
    | some c => rw [hw] at this; simp at this
  have hx' : mapGet w'.c.services x = some mx :=
    (hk.2 hG).notShared x mx hx (by simp [hs])
  refine ⟨?_, ?_, ?_, hcn', hx', ?_, fun fuel y hf => Get_returns fuel y w hG hf, ?_⟩
  · exact Get_top_once x n id w r w' hG hcache
      (fun m hm => by rw [hx] at hm; injection hm with hm; rw [← hm]; exact hs) hget
  · intro wn m k v wn' hm hs' hcr' hsome hg
    exact Get_nested_caches x k wn m v wn' hm hs' hcr' hsome hg
  · intro wn v hv
    refine ⟨fun hid k => ?_, fun k y ry wn' hg => (Get_frame k y wn ry wn' hg).cacheKeep x v hv⟩
    rw [Get_succ]; simp [hid, hv]
  · intro k r2 w2 hg
    obtain ⟨_, _, _, _, _, _, _, _, _, _, hev⟩ :=
      Get_build_frame k x w' mx r2 w2 hx' hcr (by rw [hk.1.chain, hchain]; simp)
        (by simp [Container.cacheGet, hcn']) hg
    exact hev
  · intro N
    have := scopeNestedShared_times N 0 []
    simpa [World.init] using this

/-- Witness of C2: the first top-level `Get("purchaseService")` of the test graph with
`ScopeNestedShared` builds `transaction` at most once, and returns without a nested cache. -/
theorem C2_nestedShared_once_per_call_witness :
    ∃ x : GetResult Val × World Nat Val,
      Get 10 "purchaseService" (World.init (scopeContainer .ScopeNestedShared) 0) = some x ∧
      (∃ evs, x.2.trace = (World.init (scopeContainer .ScopeNestedShared) 0).trace ++ evs ∧
        evs.count (.built "transaction") ≤ 1) ∧
      x.2.c.cacheNestedShared = none :=
  have h1 : (Get 10 "purchaseService"
      (World.init (scopeContainer .ScopeNestedShared) 0)).isSome = true := by decide
  have hG : (World.init (scopeContainer .ScopeNestedShared) 0).c.GetOnly :=
    scopeContainer_getOnly _
  have h := C2_nestedShared_once_per_call 10 "purchaseService" "transaction"
    (World.init (scopeContainer .ScopeNestedShared) 0) _ _ _ hG rfl rfl rfl rfl rfl
    (Option.some_get h1).symm
  ⟨_, (Option.some_get h1).symm, h.1, h.2.2.2.1⟩

/-- C3: let `id` be registered with `ScopeNonShared` and not part of a cycle, in a container
that records only `ScopeShared` entries as created (`NewContainer` gives such a container and
every method keeps it so, whatever the closures do); then the entry of `id` is not created.
When the nested cache has no entry for `id`, a `Get(id)` that returns has invoked the provider
of `id`, leaves no entry for `id` in the nested cache and, when the closures call no mutating
method, leaves the registry entry of `id` exactly as it was; with such closures the call does
return as soon as the fuel exceeds the number of registered ids; in the test graph the `k`-th
top-level `Get("purchaseService")` (`k = 0, 1, 2, ...`) gives `userRepo` transaction `2k+1`
and `itemRepo` transaction `2k+2`. When the nested cache holds an entry for `id`, which `Get`
consults before it reads the registry, `Get(id)` returns that entry and leaves the world as it
is: the provider is not invoked. In `staleContainer`, whose provider of `root` overrides `x`
with `ScopeNonShared` between two calls of `Get("x")`, the second of them finds `x`
registered with `ScopeNonShared` and returns the transaction 1 left in the nested cache; the
provider of `x` runs once during `Get("root")`. -/
theorem C3_nonShared_rebuilt_unless_stale {σ α : Type} (n : Nat) (id : String)
    (w : World σ α) (m : metaServiceDefinition σ α) (r : GetResult α) (w' : World σ α)
    (hm : mapGet w.c.services id = some m) (hs : m.definition.Scope = .ScopeNonShared)
    (hid : id ∉ w.c.circularDeps.chain) (hsound : w.c.Sound)
    (hget : Get n id w = some (r, w')) :
    m.created = false ∧
    (w.c.cacheGet id = none →
      (∃ evs, w'.trace = w.trace ++ evs ∧ Event.provider id ∈ evs) ∧
      w'.c.cacheGet id = none ∧ (w.c.GetOnly → mapGet w'.c.services id = some m)) ∧
    (∀ s, w.c.cacheGet id = some s → r = (s, none) ∧ w' = w) ∧
    w'.c.Sound ∧
    (w.c.GetOnly → ∀ fuel, w.c.services.length < fuel → ∃ r2 w2, Get fuel id w = some (r2, w2)) ∧
    (∀ defs : List (String × ServiceDefinition σ α), (NewContainer defs).Sound) ∧
    (∀ c c' : Container σ α, c.Sound → MutStep c c' → c'.Sound) ∧
    (∀ N, (getTimes 10 "purchaseService" N
        (World.init (scopeContainer .ScopeNonShared) 0)).map (fun p => p.1) =
      some ((List.range N).map fun k =>
        (some (Val.purchaseService (.userRepo (.transaction (2 * k + 1)))
          (.itemRepo (.transaction (2 * k + 2)))), none))) ∧
    runProg (Get 9)
        (.get "x" fun _ _ =>
          .override "x" transactionProvider .ScopeNonShared (.get "x" fun v e => .ret v e))
        (((World.init (staleContainer .ScopeNonShared) 0).enter "root").log
          (.provider "root")) =
      runProg (Get 9) (.get "x" fun v e => .ret v e) (staleWorld .ScopeNonShared) ∧
    (mapGet (staleWorld .ScopeNonShared).c.services "x").map
        (fun m => (m.definition.Scope, m.service, m.created)) =
      some (.ScopeNonShared, none, false) ∧
    (∀ k, Get (k + 1) "x" (staleWorld .ScopeNonShared) =
      some ((some (.transaction 1), none), staleWorld .ScopeNonShared)) ∧
    (Get 10 "root" (World.init (staleContainer .ScopeNonShared) 0)).map
        (fun x => (x.1, x.2.env, x.2.trace)) =
      some ((some (.transaction 1), none), 1,
        [.cacheCreated 1, .provider "root", .provider "x", .built "x", .built "root"]) := by
  have hcr : m.created = false := by
    cases hc : m.created with
    | false => rfl
    | true => have := hsound id m hm hc; rw [hs] at this; simp at this
  refine ⟨hcr, fun hcache => ?_, fun s hs' => ?_, Get_sound n id w r w' hget hsound,
    fun hG fuel hf => Get_returns fuel id w hG hf, NewContainer_sound,
    fun c c' h hst => mutStep_sound c c' h hst, fun N => ?_, rfl, by decide, fun k => ?_,
    by decide⟩
  · obtain ⟨_, _, _, _, _, _, _, _, _, _, hev⟩ :=
      Get_build_frame n id w m r w' hm hcr hid hcache hget
    exact ⟨hev, Get_cacheGet_self n id w m r w' hm (by simp [hs]) hcache hget, fun hG =>
      ((Get_keeps n id w r w' hget).2 hG).notShared id m hm (by simp [hs])⟩
  · cases n with
    | zero => simp [Get] at hget
    | succ n =>
      rw [Get_succ, if_neg hid] at hget
      simp only [hs', Option.some.injEq, Prod.mk.injEq] at hget
      exact ⟨by rw [← hget.1], hget.2.symm⟩
  · have := scopeNonShared_times N 0 []
    simpa [World.init] using this
  · rw [Get_succ]
    rfl

/-- Witness of C3: `Get("transaction")` in the test graph with `ScopeNonShared` returns, has
invoked the provider, and leaves the entry and the nested cache as they were. -/
theorem C3_nonShared_rebuilt_unless_stale_witness :
    ∃ x : GetResult Val × World Nat Val,
      Get 10 "transaction" (World.init (scopeContainer .ScopeNonShared) 0) = some x ∧
      (∃ evs, x.2.trace = (World.init (scopeContainer .ScopeNonShared) 0).trace ++ evs ∧
        Event.provider "transaction" ∈ evs) ∧
      x.2.c.cacheGet "transaction" = none ∧
      mapGet x.2.c.services "transaction" =
        some ⟨⟨transactionProvider, .ScopeNonShared⟩, none, false⟩ :=
  have h1 : (Get 10 "transaction"
      (World.init (scopeContainer .ScopeNonShared) 0)).isSome = true := by decide
  have h := (C3_nonShared_rebuilt_unless_stale 10 "transaction"
    (World.init (scopeContainer .ScopeNonShared) 0) _ _ _ rfl rfl (by decide)
    (scopeContainer_sound _)
    (Option.some_get h1).symm).2.1 rfl
  ⟨_, (Option.some_get h1).symm, h.1, h.2.1, h.2.2 (scopeContainer_getOnly _)⟩

/-- C4: let `id0, id1, ..., idk` be distinct registered ids, not yet created, such that the
provider of each asks for the next one with `Get` and hands the nested error back unchanged,
and the provider of `idk` asks for `idj`, one of them. Then a top-level `Get(id0)` (empty
chain, no nested cache), given at least `k + 2` units of fuel, returns a nil service and the
error whose text is `cannot create service id0: circular dependency: id0 -> ... -> idk -> idj`
(`id0` in backticks), and leaves the container as it was. -/
theorem C4_cycle_error_chain {σ α : Type} (id0 : String) (rest : List String) (idj : String)
    (w : World σ α) (fuel : Nat) (hchain : w.c.circularDeps.chain = [])
    (hcache : w.c.cacheNestedShared = none) (hnodup : (id0 :: rest).Nodup)
    (hj : idj ∈ id0 :: rest) (hrel : RelayChain w.c.services (id0 :: rest) idj)
    (hfuel : rest.length + 2 ≤ fuel) :
    ∃ w', Get fuel id0 w =
        some ((none, some (plainErr ("cannot create service `" ++ id0 ++
          "`: circular dependency: " ++ " -> ".intercalate (id0 :: rest ++ [idj])))), w') ∧
      w'.c = w.c := by
  obtain ⟨w', h, hc⟩ := cycle_descent idj rest [] id0 w hchain (by simpa using hnodup)
    (by simpa using hj) hrel (fun y _ => by simp [Container.cacheGet, hcache])
  refine ⟨w', ?_, hc⟩
  have := Get_mono _ fuel hfuel id0 w _ h
  rw [this, ← errorMsg_create_circular]
  simp

/-- Witness of C4: `company -> employer -> company` in the test container. -/
theorem C4_cycle_error_chain_witness :
    (Get 4 "company" (World.init circularContainer 0)).map (fun x => x.1) =
      some (none, some (plainErr
        "cannot create service `company`: circular dependency: company -> employer -> company")) :=
  (C4_cycle_error_chain "company" ["employer"] "company" (World.init circularContainer 0) 4
    rfl rfl (by decide) (by decide)
    ⟨⟨_, rfl, rfl, Relays.get _ _ fun _ _ => ⟨none, rfl⟩⟩,
      ⟨_, rfl, rfl, Relays.get _ _ fun _ _ => ⟨none, rfl⟩⟩, trivial⟩
    (by decide)).elim fun _ h => congrArg (Option.map fun x => x.1) h.1

/-- C5: every call of `Container.Get` and of `ParamContainer.GetParam` that returns, whether
with a value, with an error or after recovering a panic of a closure, leaves the chain of the
cycle tracker exactly as it found it. In the test container the chain is empty after
`Get("management")` failed with a circular dependency, and the following `Get("db")` of an
unrelated id succeeds and leaves the chain empty too. A new container has an empty chain, and
no mutating method touches it. -/
theorem C5_chain_restored {σ α τ β : Type} (n : Nat) (id : String) (w : World σ α)
    (r : GetResult α) (w' : World σ α) (k : Nat) (pid : String) (pw : ParamWorld τ β)
    (pr : GetResult β) (pw' : ParamWorld τ β)
    (hGet : Get n id w = some (r, w')) (hParam : GetParam k pid pw = some (pr, pw')) :
    w'.c.circularDeps.chain = w.c.circularDeps.chain ∧
    pw'.b.circularDeps.chain = pw.b.circularDeps.chain ∧
    (Get 10 "management" (World.init circularContainer 0)).map
        (fun x => (x.1, x.2.c.circularDeps.chain)) =
      some ((none, some (plainErr (errorMsg "create" "management"
        (circularDepMsg ["management", "company", "employer", "company"])))), []) ∧
    ((Get 10 "management" (World.init circularContainer 0)).bind fun x => Get 10 "db" x.2).map
        (fun x => (x.1, x.2.c.circularDeps.chain)) =
      some ((some Val.unit, none), []) ∧
    (∀ defs, (NewContainer defs : Container σ α).circularDeps.chain = []) ∧
    ∀ c c' : Container σ α, MutStep c c' → c'.circularDeps = c.circularDeps := by
  have hmut : ∀ c c' : Container σ α, MutStep c c' → c'.circularDeps = c.circularDeps := by
    intro c c' hm
    cases hm with
    | register id s => simp only [Container.Register]; split <;> simp
    | override id s => simp [Container.Override]
    | revoke id => simp only [Container.Revoke]; split <;> simp
    | remove id => simp only [Container.Remove]; split <;> simp
    | registerDecorator d => simp [Container.RegisterDecorator]
  refine ⟨?_, ?_, by decide, by decide, fun _ => rfl, hmut⟩
  · rw [(Get_frame n id w r w' hGet).chain]
  · rw [GetParam_chain k pid pw pr pw' hParam]

/-- Witness of C5: the failing `Get("management")` of the test and the failing
`GetParam("nickname")` of the parameter test both return and leave the chain as it was. -/
theorem C5_chain_restored_witness :
    ∃ (x : GetResult Val × World Nat Val) (px : GetResult Val × ParamWorld Unit Val),
      Get 10 "management" (World.init circularContainer 0) = some x ∧
      GetParam 10 "nickname" ⟨circularParamContainer, (), []⟩ = some px ∧
      x.2.c.circularDeps.chain = (World.init circularContainer 0).c.circularDeps.chain ∧
      px.2.b.circularDeps.chain = circularParamContainer.circularDeps.chain :=
  have h1 : (Get 10 "management" (World.init circularContainer 0)).isSome = true := by decide
  have h2 : (GetParam 10 "nickname"
      (⟨circularParamContainer, (), []⟩ : ParamWorld Unit Val)).isSome = true := by decide
  have h := C5_chain_restored 10 "management" (World.init circularContainer 0) _ _ 10 "nickname"
    (⟨circularParamContainer, (), []⟩ : ParamWorld Unit Val) _ _
    (Option.some_get h1).symm (Option.some_get h2).symm
  ⟨_, _, (Option.some_get h1).symm, (Option.some_get h2).symm, h.1, h.2.1⟩

/-- C6, the failing input: with `company -> employer -> company` wired through `MustGet`, the
nested circular-dependency error surfaces as a panic and every frame that recovers it adds its
own contextual text, so the top-level message carries two of them. -/
theorem C6_mustGet_wraps_twice :
    (Get 10 "company" (World.init mustCycleContainer 0)).map (fun x => x.1) =
      some (none, some (plainErr
        "cannot create service `company`: cannot create service `employer`: circular dependency: company -> employer -> company")) := by
  decide

/-- C7 as stated fails: in the test container the chain rendered for `Get("management")` starts
with `management` and ends with `company`. -/
theorem C7_counterexample :
    ∃ deps : List String,
      (Get 10 "management" (World.init circularContainer 0)).map (fun x => x.1) =
        some (none, some (plainErr (errorMsg "create" "management" (circularDepMsg deps)))) ∧
      deps.head? ≠ deps.getLast? :=
  ⟨["management", "company", "employer", "company"], by decide, by decide⟩

/-- C7, amended: when `Get(id)` detects a circular dependency (`id` is already on the chain), it
returns a nil service and the error rendering the live chain followed by `id`, and leaves the
world as it was. The last element of the rendered chain is the repeated id, which also occurs
before the last position; the first element is the first id of the live chain (the id of the
top-level call), so both ends coincide exactly when the cycle closes on that id. -/
theorem C7_chain_ends_with_repeated_id {σ α : Type} (n : Nat) (id : String) (w : World σ α)
    (h : id ∈ w.c.circularDeps.chain) :
    Get (n + 1) id w =
      some ((none, some (newCircularDepError (w.c.circularDeps.chain ++ [id]))), w) ∧
    (w.c.circularDeps.chain ++ [id]).getLast? = some id ∧
    id ∈ (w.c.circularDeps.chain ++ [id]).dropLast ∧
    (w.c.circularDeps.chain ++ [id]).head? = w.c.circularDeps.chain.head? ∧
    ((w.c.circularDeps.chain ++ [id]).head? = (w.c.circularDeps.chain ++ [id]).getLast? ↔
      w.c.circularDeps.chain.head? = some id) := by
  have hne : w.c.circularDeps.chain ≠ [] := List.ne_nil_of_mem h
  have hhead : (w.c.circularDeps.chain ++ [id]).head? = w.c.circularDeps.chain.head? := by
    cases hc : w.c.circularDeps.chain with
    | nil => exact absurd hc hne
    | cons a t => simp
  refine ⟨by rw [Get_succ, if_pos h], by simp, by simpa using h, hhead, ?_⟩
  rw [hhead]; simp

/-- Witness of C7 (amended): `Get("company")` issued while `management`, `company` and
`employer` are under construction. -/
theorem C7_chain_ends_with_repeated_id_witness :
    Get 1 "company" midResolution =
      some ((none, some (newCircularDepError ["management", "company", "employer", "company"])),
        midResolution) :=
  (C7_chain_ends_with_repeated_id 0 "company" midResolution (by decide)).1

/-- C8: a call of `Get` entered while there is no `cacheNestedShared` map (every top-level
call) returns with no map again, on every exit, so no entry of the map is visible afterwards;
during the call the map is created only by a frame whose `start` made the chain one longer
than the caller found it (length 1 for a top-level call). A call entered while the map exists
(every nested frame) neither creates a map nor discards the existing one, and keeps the
entries it holds. A new container has no map, and no mutating method creates one. -/
theorem C8_nested_cache_lifetime {σ α : Type} (n : Nat) (id : String) (w : World σ α)
    (r : GetResult α) (w' : World σ α) (h : Get n id w = some (r, w')) :
    (w.c.cacheNestedShared = none →
      w'.c.cacheNestedShared = none ∧ (∀ x, w'.c.cacheGet x = none) ∧
      ∃ evs, w'.trace = w.trace ++ evs ∧
        ∀ d, Event.cacheCreated d ∈ evs → d = w.c.circularDeps.chain.length + 1) ∧
    (∀ cache, w.c.cacheNestedShared = some cache →
      (∃ cache', w'.c.cacheNestedShared = some cache' ∧
        ∀ x v, mapGet cache x = some v → mapGet cache' x = some v) ∧
      ∃ evs, w'.trace = w.trace ++ evs ∧ ∀ d, Event.cacheCreated d ∉ evs) ∧
    (∀ defs, (NewContainer defs : Container σ α).cacheNestedShared = none) ∧
    ∀ c c' : Container σ α, MutStep c c' → c'.cacheNestedShared = c.cacheNestedShared := by
  have hf := Get_frame n id w r w' h
  obtain ⟨evs, he, hc⟩ := hf.trace
  have hmut : ∀ c c' : Container σ α, MutStep c c' →
      c'.cacheNestedShared = c.cacheNestedShared := by
    intro c c' hm
    cases hm with
    | register id s => simp only [Container.Register]; split <;> simp
    | override id s => simp [Container.Override]
    | revoke id => simp only [Container.Revoke]; split <;> simp
    | remove id => simp only [Container.Remove]; split <;> simp
    | registerDecorator d => simp [Container.RegisterDecorator]
  refine ⟨fun hn => ?_, fun cache hs => ?_, fun _ => rfl, hmut⟩
  · have h1 : w'.c.cacheNestedShared = none := by
      have := hf.cacheSome
      rw [hn] at this
      cases hw : w'.c.cacheNestedShared with
      | none => rfl
      | some x => rw [hw] at this; simp at this
    exact ⟨h1, fun x => by simp [Container.cacheGet, h1], evs, he, fun d hd => (hc d hd).2⟩
  · have h1 := hf.cacheSome
    rw [hs] at h1
    cases hw : w'.c.cacheNestedShared with
    | none => rw [hw] at h1; simp at h1
    | some cache' =>
      refine ⟨⟨cache', rfl, fun x v hx => ?_⟩, evs, he, fun d hd => ?_⟩
      · have := hf.cacheKeep x v (by simp [Container.cacheGet, hs, hx])
        simpa [Container.cacheGet, hw] using this
      · have := (hc d hd).1
        rw [hs] at this; simp at this

/-- Witness of C8 on the test graph with `ScopeNestedShared`: the top-level call returns
without the map, and the map was created at depth 1 only. -/
theorem C8_nested_cache_lifetime_witness :
    ∃ x : GetResult Val × World Nat Val,
      Get 10 "purchaseService" (World.init (scopeContainer .ScopeNestedShared) 0) = some x ∧
      x.2.c.cacheNestedShared = none ∧
      ∃ evs, x.2.trace = (World.init (scopeContainer .ScopeNestedShared) 0).trace ++ evs ∧
        ∀ d, Event.cacheCreated d ∈ evs →
          d = (World.init (scopeContainer .ScopeNestedShared) 0).c.circularDeps.chain.length + 1 :=
  have h1 : (Get 10 "purchaseService"
      (World.init (scopeContainer .ScopeNestedShared) 0)).isSome = true := by decide
  have h := (C8_nested_cache_lifetime 10 "purchaseService"
    (World.init (scopeContainer .ScopeNestedShared) 0) _ _ (Option.some_get h1).symm).1 rfl
  ⟨_, (Option.some_get h1).symm, h.1, h.2.2⟩

/-- C9: let `Get(id)` have to build the instance, let the provider return `p` with a nil
error, and let the decorators registered at that moment, run in the order of registration,
each on the value returned by the one before, return nil errors and end with `q`. Then
`Get(id)` returns `q` with a nil error and stores `q` according to the scope: in the registry
entry for `ScopeShared`, in the nested cache for `ScopeNestedShared`, nowhere for
`ScopeNonShared`. For decorators that are pure transforms `d1, ..., dn` the chain exists and
`q` is `dn(id, ... d2(id, d1(id, p)) ...)`; with no decorator it is `p`. The list of
decorators is the list of the `RegisterDecorator` calls in their order. -/
theorem C9_decorators_in_order {σ α : Type} (n : Nat) (id : String) (w : World σ α)
    (m : metaServiceDefinition σ α) (p q : Option α) (w1 w2 : World σ α)
    (hm : mapGet w.c.services id = some m) (hcr : m.created = false)
    (hid : id ∉ w.c.circularDeps.chain) (hcache : w.c.cacheGet id = none)
    (hp : runProg (Get n) m.definition.Provider ((w.enter id).log (.provider id)) =
      some (.returned p none, w1))
    (hds : DecoratedBy (Get n) id w1.c.decorators 0 p w1 q w2) :
    (∃ w3 : World σ α,
      Get (n + 1) id w = some ((q, none), w3.leave w.c.cacheNestedShared.isNone) ∧
      w3.trace = w2.trace ++ [.built id] ∧
      (m.definition.Scope = .ScopeShared →
        mapGet (w3.leave w.c.cacheNestedShared.isNone).c.services id =
          some ⟨m.definition, q, true⟩) ∧
      (m.definition.Scope = .ScopeNestedShared → w3.c.cacheGet id = some q) ∧
      (m.definition.Scope = .ScopeNonShared →
        w3.c.services = w2.c.services ∧ w3.c.cacheNestedShared = w2.c.cacheNestedShared)) ∧
    (∀ fs : List (String → Option α → Option α), w1.c.decorators = fs.map pureDecorator →
      q = applyAll fs id p ∧
      w2 = { w1 with trace := w1.trace ++ decoratorEvents id 0 fs.length }) ∧
    applyAll [] id p = p ∧
    ∀ (c : Container σ α) (d : Decorator σ α),
      (c.RegisterDecorator d).decorators = c.decorators ++ [d] := by
  have hloop := decorateLoop_of_decoratedBy (Get n) id _ _ _ _ _ _ hds
  have hrun : ∀ (p : Prog σ α) w o w', runProg (Get n) p w = some (o, w') → Frame w w' :=
    runProg_rel Frame (Get n) frame_refl frame_trans (Get_frame n) frame_of_mut frame_of_env
  have hfr1 : Frame ((w.enter id).log (.provider id)) w1 := hrun _ _ _ _ hp
  have hfr2 : Frame w1 w2 :=
    decorateLoop_rel Frame (Get n) id frame_refl frame_trans
      (fun w i => frame_of_log w _ (by simp)) _ (fun d _ r w o w' h => hrun _ _ _ _ h)
      _ _ _ _ _ hloop
  have hsome : w2.c.cacheNestedShared.isSome = true := by
    rw [hfr2.cacheSome, hfr1.cacheSome]; simp
  obtain ⟨cache, hc⟩ := Option.isSome_iff_exists.1 hsome
  refine ⟨⟨(getStore id m q w2).2, ?_, ?_, ?_, ?_, ?_⟩, ?_, rfl, fun _ _ => rfl⟩
  · rw [Get_build n id w m hm hcr hid hcache]
    simp only [getBuild, hp, decorate, hloop, Option.map_some', Option.some.injEq]
    by_cases hs : m.definition.Scope = .ScopeNestedShared
    · simp [getStore, hs, hc, getDefers]
    · simp [getStore, hs, getDefers]
  · by_cases hs : m.definition.Scope = .ScopeNestedShared
    · simp [getStore, hs, hc]
    · by_cases hs2 : m.definition.Scope = .ScopeShared <;> simp [getStore, hs, hs2]
  · intro hs
    rw [leave_services, getStore_services_self, if_pos hs]
  · intro hs
    simp [getStore, hs, hc, Container.cacheGet, mapGet_mapSet_self]
  · intro hs
    simp [getStore, hs]
  · intro fs hfs
    have h2 := decorateLoop_pure (Get n) id fs 0 p w1
    rw [hfs] at hloop
    rw [hloop] at h2
    simp only [Option.some.injEq, Prod.mk.injEq, Outcome.returned.injEq, and_true] at h2
    exact h2

/-- Witness of C9: with the decorators `markUser`, `markItem` registered in that order,
`Get("db")` returns the provider's value wrapped by `markUser` first and `markItem` second. -/
theorem C9_decorators_in_order_witness :
    (Get 11 "db" (World.init (decoratedContainer .ScopeShared) 0)).map (fun x => x.1) =
      some (some (.itemRepo (.userRepo .unit)), none) :=
  have hch := decoratedBy_pure (Get 10) "db"
    [fun (_ : String) (v : Option Val) => v.map Val.userRepo,
      fun (_ : String) (v : Option Val) => v.map Val.itemRepo] 0 (some Val.unit)
    (((World.init (decoratedContainer .ScopeShared) 0).enter "db").log (.provider "db"))
  (C9_decorators_in_order 10 "db" (World.init (decoratedContainer .ScopeShared) 0) _
    (some Val.unit) _ _ _ rfl rfl (by decide) rfl rfl hch).1.elim
    fun _ h => congrArg (Option.map fun x => x.1) h.1

/-- C10: let `Get(id)` have to build the instance (entry `m` not created, `id` neither on the
chain nor in the nested cache). When the provider returns an error `e` that is not a circular
dependency, `Get(id)` returns a nil service and the error `cannot create service id: e` (the id
in backticks), in the world the provider left. When the provider succeeds, the decorators
before `d` succeed and `d` returns such an error `e`, `Get(id)` returns a nil service and the
error `cannot decorate service id: e`, in the world `d` left: no later decorator runs. In both
cases, when the closures call no mutating method, nothing is stored for `id`: its entry stays
`m`, not created, and the next `Get(id)` invokes the provider again. -/
theorem C10_failure_wrapped_nothing_cached {σ α : Type} (n : Nat) (id : String)
    (w : World σ α) (m : metaServiceDefinition σ α) (hm : mapGet w.c.services id = some m)
    (hcr : m.created = false) (hid : id ∉ w.c.circularDeps.chain)
    (hcache : w.c.cacheGet id = none) :
    (∀ v e w1,
      runProg (Get n) m.definition.Provider ((w.enter id).log (.provider id)) =
        some (.returned v (some e), w1) →
      e.isFinalErr = false →
      Get (n + 1) id w = some ((none, some (plainErr (errorMsg "create" id e.msg))),
        w1.leave w.c.cacheNestedShared.isNone) ∧
      (w.c.GetOnly → NothingStored id m (w1.leave w.c.cacheNestedShared.isNone))) ∧
    (∀ p w1 pre d post q w2 q' e w3,
      runProg (Get n) m.definition.Provider ((w.enter id).log (.provider id)) =
        some (.returned p none, w1) →
      w1.c.decorators = pre ++ d :: post →
      decorateLoop (Get n) id pre 0 p w1 = some (.returned q none, w2) →
      runProg (Get n) (d id q) (w2.log (.decorator pre.length id)) =
        some (.returned q' (some e), w3) →
      e.isFinalErr = false →
      Get (n + 1) id w = some ((none, some (plainErr (errorMsg "decorate" id e.msg))),
        w3.leave w.c.cacheNestedShared.isNone) ∧
      (w3.leave w.c.cacheNestedShared.isNone).trace = w3.trace ∧
      (w.c.GetOnly → NothingStored id m (w3.leave w.c.cacheNestedShared.isNone))) := by
  refine ⟨fun v e w1 hp he => ?_, fun p w1 pre d post q w2 q' e w3 hp hds hpre hd he => ?_⟩
  · have hget : Get (n + 1) id w = some ((none, some (plainErr (errorMsg "create" id e.msg))),
        w1.leave w.c.cacheNestedShared.isNone) := by
      rw [Get_build n id w m hm hcr hid hcache]
      simp [getBuild, hp, decorateErr, he, getDefers]
    exact ⟨hget, fun hG => Get_failed_nothing_stored _ id w m _ _ _ hm hcr hid hcache hG hget⟩
  · have hget : Get (n + 1) id w = some ((none, some (plainErr (errorMsg "decorate" id e.msg))),
        w3.leave w.c.cacheNestedShared.isNone) := by
      rw [Get_build n id w m hm hcr hid hcache]
      have hloop : decorateLoop (Get n) id (pre ++ d :: post) 0 p w1 =
          some (.returned q' (some e), w3) := by
        rw [decorateLoop_append (Get n) id (d :: post) pre 0 p w1 q w2 hpre]
        simp [decorateLoop, hd]
      simp [getBuild, hp, decorate, hds, hloop, decorateErr, he, getDefers]
    exact ⟨hget, leave_trace _ _,
      fun hG => Get_failed_nothing_stored _ id w m _ _ _ hm hcr hid hcache hG hget⟩

/-- Witness of C10: in `failingContainer`, `Get("broken")` reports the provider's error `todo`
and `Get("spoiled")` the error `bad` of the second decorator. -/
theorem C10_failure_wrapped_nothing_cached_witness :
    (Get 11 "broken" (World.init failingContainer 0)).map (fun x => x.1) =
      some (none, some (plainErr "cannot create service `broken`: todo")) ∧
    (Get 11 "spoiled" (World.init failingContainer 0)).map (fun x => x.1) =
      some (none, some (plainErr "cannot decorate service `spoiled`: bad")) :=
  ⟨congrArg (Option.map fun x => x.1)
      ((C10_failure_wrapped_nothing_cached 10 "broken" (World.init failingContainer 0) _
        rfl rfl (by decide) rfl).1 none (plainErr "todo") _ rfl rfl).1,
    congrArg (Option.map fun x => x.1)
      ((C10_failure_wrapped_nothing_cached 10 "spoiled" (World.init failingContainer 0) _
        rfl rfl (by decide) rfl).2 (some .unit) _ [fun _ i => .ret i none]
        (fun s i => if s = "spoiled" then .ret none (some (plainErr "bad")) else .ret i none)
        [fun _ i => .ret i none] (some .unit) _ none (plainErr "bad") _ rfl rfl rfl rfl rfl).1⟩

/-- C11: let `Get(id)` have to build the instance (entry `m` not created, `id` neither on the
chain nor in the nested cache). When the provider panics with `p`, `Get(id)` returns normally,
with a nil service and the error `cannot create service id: p` (the id in backticks). When the
provider returns a value `s`, the decorators before `d` succeed and `d` panics with `p`,
`Get(id)` returns normally as well, but its error is again `cannot create service id: p`, not
`cannot decorate service id: p`, and the service it returns is `s`. -/
theorem C11_panic_reported_as_create {σ α : Type} (n : Nat) (id : String) (w : World σ α)
    (m : metaServiceDefinition σ α) (hm : mapGet w.c.services id = some m)
    (hcr : m.created = false) (hid : id ∉ w.c.circularDeps.chain)
    (hcache : w.c.cacheGet id = none) :
    (∀ p w1,
      runProg (Get n) m.definition.Provider ((w.enter id).log (.provider id)) =
        some (.panicked p, w1) →
      Get (n + 1) id w = some ((none, some (plainErr (errorMsg "create" id p.format))),
        w1.leave w.c.cacheNestedShared.isNone)) ∧
    (∀ s w1 pre d post q w2 p w3,
      runProg (Get n) m.definition.Provider ((w.enter id).log (.provider id)) =
        some (.returned s none, w1) →
      w1.c.decorators = pre ++ d :: post →
      decorateLoop (Get n) id pre 0 s w1 = some (.returned q none, w2) →
      runProg (Get n) (d id q) (w2.log (.decorator pre.length id)) = some (.panicked p, w3) →
      Get (n + 1) id w = some ((s, some (plainErr (errorMsg "create" id p.format))),
        w3.leave w.c.cacheNestedShared.isNone) ∧
      errorMsg "create" id p.format ≠ errorMsg "decorate" id p.format) := by
  refine ⟨fun p w1 hp => ?_, fun s w1 pre d post q w2 p w3 hp hds hpre hd => ⟨?_, ?_⟩⟩
  · rw [Get_build n id w m hm hcr hid hcache]
    simp [getBuild, hp, getDefers]
  · rw [Get_build n id w m hm hcr hid hcache]
    have hloop : decorateLoop (Get n) id (pre ++ d :: post) 0 s w1 =
        some (.panicked p, w3) := by
      rw [decorateLoop_append (Get n) id (d :: post) pre 0 s w1 q w2 hpre]
      simp [decorateLoop, hd]
    simp [getBuild, hp, decorate, hds, hloop, getDefers]
  · intro h
    have h2 := congrArg String.data h
    simp [errorMsg, String.data_append] at h2

/-- Witness of C11: in `panickingContainer`, `Get("boom")` reports the panic of the provider
and `Get("painted")` the panic of the decorator, both as `cannot create service`. -/
theorem C11_panic_reported_as_create_witness :
    (Get 11 "boom" (World.init panickingContainer 0)).map (fun x => x.1) =
      some (none, some (plainErr "cannot create service `boom`: p")) ∧
    (Get 11 "painted" (World.init panickingContainer 0)).map (fun x => x.1) =
      some (some .unit, some (plainErr "cannot create service `painted`: p")) :=
  ⟨congrArg (Option.map fun x => x.1)
      ((C11_panic_reported_as_create 10 "boom" (World.init panickingContainer 0) _
        rfl rfl (by decide) rfl).1 (.value "p") _ rfl),
    congrArg (Option.map fun x => x.1)
      ((C11_panic_reported_as_create 10 "painted" (World.init panickingContainer 0) _
        rfl rfl (by decide) rfl).2 (some .unit) _ []
        (fun s i => if s = "painted" then .panic (.value "p") else .ret i none)
        [] (some .unit) _ (.value "p") _ rfl rfl rfl rfl).1⟩

/-- C12: when `Get(id)` returns a non-nil error, the service it returns is nil for every cause
but one: when a decorator panicked on the value `s` that the provider of `id` had returned,
`Get(id)` returns `s` itself together with the error `cannot create service id: p`. -/
theorem C12_service_kept_on_decorator_panic {σ α : Type} (n : Nat) (id : String)
    (w : World σ α) (r : GetResult α) (w' : World σ α) (hget : Get n id w = some (r, w'))
    (herr : r.2 ≠ none) :
    r.1 = none ∨
    ∃ k m s p w1 w2, n = k + 1 ∧ mapGet w.c.services id = some m ∧
      runProg (Get k) m.definition.Provider ((w.enter id).log (.provider id)) =
        some (.returned s none, w1) ∧
      decorate (Get k) id s w1 = some (.panicked p, w2) ∧
      r = (s, some (plainErr (errorMsg "create" id p.format))) :=
  Get_service_with_error n id w r w' hget herr

/-- Witness of C12: in `panickingContainer`, whose decorator panics on `painted`,
`Get("painted")` returns the value of the provider together with an error. -/
theorem C12_service_kept_on_decorator_panic_witness :
    ∃ w1 : World Nat Val,
      Get 11 "painted" (World.init panickingContainer 0) =
        some ((some .unit, some (plainErr "cannot create service `painted`: p")), w1) ∧
      ((some Val.unit) = none ∨
        ∃ k m s p w1 w2, 11 = k + 1 ∧
          mapGet (World.init panickingContainer 0).c.services "painted" = some m ∧
          runProg (Get k) m.definition.Provider
            (((World.init panickingContainer 0).enter "painted").log (.provider "painted")) =
            some (.returned s none, w1) ∧
          decorate (Get k) "painted" s w1 = some (.panicked p, w2) ∧
          ((some Val.unit, some (plainErr "cannot create service `painted`: p")) :
              GetResult Val) =
            (s, some (plainErr (errorMsg "create" "painted" p.format)))) :=
  have h1 : (Get 11 "painted" (World.init panickingContainer 0)).isSome = true := by decide
  have hx : Get 11 "painted" (World.init panickingContainer 0) =
      some ((some .unit, some (plainErr "cannot create service `painted`: p")),
        ((Get 11 "painted" (World.init panickingContainer 0)).get h1).2) := rfl
  ⟨_, hx, C12_service_kept_on_decorator_panic 11 "painted" (World.init panickingContainer 0)
    _ _ hx (by simp)⟩

/-- C13: for every container and every id that is not registered, a top-level `Get(id)` (empty
chain, no nested cache) returns, with any fuel, a nil service and the plain error
`service id does not exist` (the id in backticks), in the world in which it was called: the
registry and the trace (no provider, no decorator invoked) are what they were. -/
theorem C13_unknown_id_not_found {σ α : Type} (n : Nat) (id : String) (w : World σ α)
    (hhas : w.c.Has id = false) (hchain : w.c.circularDeps.chain = [])
    (hcache : w.c.cacheNestedShared = none) :
    Get (n + 1) id w =
      some ((none, some (plainErr ("service `" ++ id ++ "` does not exist"))), w) := by
  have hm : mapGet w.c.services id = none := by
    simpa [Container.Has] using hhas
  rw [Get_succ]
  simp [hchain, Container.cacheGet, hcache, hm]

/-- Witness of C13: on the empty container of the test "MustGet and Override",
`Get("svc-0")` fails with `service svc-0 does not exist`. -/
theorem C13_unknown_id_not_found_witness :
    Get 1 "svc-0" (World.init (NewContainer ([] : List (String × ServiceDefinition Nat Val))) 0) =
      some ((none, some (plainErr "service `svc-0` does not exist")),
        World.init (NewContainer []) 0) :=
  C13_unknown_id_not_found 0 "svc-0" (World.init (NewContainer []) 0) rfl rfl rfl

/-- C14: `Register(id, def)` returns an error exactly when `Has(id)` held. In that case the
error is `service id is already registered` (the id in backticks) and the container is
unchanged. Otherwise it returns nil, the entry of `id` becomes `def`, not created and with no
instance, no other entry, no decorator, and neither the chain nor the nested cache changes;
called from a closure, it changes nothing but the container (the trace gains no provider
invocation). `RegisterParam` does the same on a `ParamContainer`, with the error
`parameter id already exists`. -/
theorem C14_register_only_when_absent {σ α τ β : Type} (c : Container σ α) (id : String)
    (s : ServiceDefinition σ α) (b : ParamContainer τ β) (d : ParamDefinition τ β) :
    (((c.Register id s).1 ≠ none ↔ c.Has id = true) ∧
      (c.Has id = true →
        c.Register id s =
          (some (plainErr ("service `" ++ id ++ "` is already registered")), c)) ∧
      (c.Has id = false →
        (c.Register id s).1 = none ∧
        mapGet (c.Register id s).2.services id = some ⟨s, none, false⟩ ∧
        (∀ x, x ≠ id → mapGet (c.Register id s).2.services x = mapGet c.services x) ∧
        (c.Register id s).2.decorators = c.decorators ∧
        (c.Register id s).2.circularDeps = c.circularDeps ∧
        (c.Register id s).2.cacheNestedShared = c.cacheNestedShared) ∧
      ∀ (getf : String → World σ α → Option (GetResult α × World σ α)) (w : World σ α),
        w.c = c →
        runProg getf (.register id s.Provider s.Scope fun e => .ret none e) w =
          some (.returned none (c.Register id s).1, w.withC (c.Register id s).2) ∧
        (w.withC (c.Register id s).2).trace = w.trace ∧
        (w.withC (c.Register id s).2).env = w.env) ∧
    (((b.RegisterParam id d).1 ≠ none ↔ b.HasParam id = true) ∧
      (b.HasParam id = true →
        b.RegisterParam id d =
          (some (plainErr ("parameter `" ++ id ++ "` already exists")), b)) ∧
      (b.HasParam id = false →
        (b.RegisterParam id d).1 = none ∧
        mapGet (b.RegisterParam id d).2.params id = some ⟨d, none, false⟩ ∧
        (∀ x, x ≠ id → mapGet (b.RegisterParam id d).2.params x = mapGet b.params x) ∧
        (b.RegisterParam id d).2.circularDeps = b.circularDeps)) := by
  refine ⟨⟨?_, ?_, ?_, ?_⟩, ?_, ?_, ?_⟩
  · by_cases h : c.Has id = true <;> simp [Container.Register, h]
  · intro h; simp [Container.Register, h]
  · intro h
    have e : c.Register id s =
        (none, { c with services := mapSet c.services id ⟨s, none, false⟩ }) := by
      simp [Container.Register, h]
    rw [e]
    exact ⟨rfl, mapGet_mapSet_self _ _ _, fun x hx => mapGet_mapSet_ne _ _ _ _ (Ne.symm hx),
      rfl, rfl, rfl⟩
  · intro getf w hw
    subst hw
    exact ⟨rfl, rfl, rfl⟩
  · by_cases h : b.HasParam id = true <;> simp [ParamContainer.RegisterParam, h]
  · intro h; simp [ParamContainer.RegisterParam, h]
  · intro h
    have e : b.RegisterParam id d =
        (none, { b with params := mapSet b.params id ⟨d, none, false⟩ }) := by
      simp [ParamContainer.RegisterParam, h]
    rw [e]
    exact ⟨rfl, mapGet_mapSet_self _ _ _, fun x hx => mapGet_mapSet_ne _ _ _ _ (Ne.symm hx),
      rfl⟩

/-- Witness of C14: `transaction` is registered in `scopeContainer`, so registering it again
fails and changes nothing; `db` is not registered in the empty container; `name` is a
parameter of `circularParamContainer`. -/
theorem C14_register_only_when_absent_witness :
    (scopeContainer .ScopeShared).Register "transaction" ⟨.ret none none, .ScopeShared⟩ =
      (some (plainErr "service `transaction` is already registered"),
        scopeContainer .ScopeShared) ∧
    ((NewContainer ([] : List (String × ServiceDefinition Nat Val))).Register "db"
      ⟨.ret (some .unit) none, .ScopeShared⟩).1 = none ∧
    circularParamContainer.RegisterParam "name" ⟨.ret none none, false⟩ =
      (some (plainErr "parameter `name` already exists"), circularParamContainer) :=
  ⟨(C14_register_only_when_absent (scopeContainer .ScopeShared) "transaction"
      ⟨.ret none none, .ScopeShared⟩ circularParamContainer ⟨.ret none none, false⟩).1.2.1
      (by decide),
    ((C14_register_only_when_absent
      (NewContainer ([] : List (String × ServiceDefinition Nat Val))) "db"
      ⟨.ret (some .unit) none, .ScopeShared⟩ circularParamContainer
      ⟨.ret none none, false⟩).1.2.2.1 (by decide)).1,
    (C14_register_only_when_absent (scopeContainer .ScopeShared) "name"
      ⟨.ret none none, .ScopeShared⟩ circularParamContainer
      ⟨.ret none none, false⟩).2.2.1 (by decide)⟩

/-- C15: `Override(id, def)` has no error result, and whether or not `id` was registered:
afterwards `Has(id)` holds, the entry of `id` is `def`, not created and with no instance (an
instance cached under `ScopeShared` is dropped), and no other entry, no decorator, and neither
the chain nor the nested cache changes; so a top-level `Get(id)` (empty chain, no nested cache)
on the new container runs the build phase on that entry, and when it returns it has invoked
the provider of `id`. `OverrideParam` does the same on a `ParamContainer`. -/
theorem C15_override_always_replaces {σ α τ β : Type} (c : Container σ α) (id : String)
    (s : ServiceDefinition σ α) (b : ParamContainer τ β) (d : ParamDefinition τ β) :
    ((c.Override id s).Has id = true ∧
      mapGet (c.Override id s).services id = some ⟨s, none, false⟩ ∧
      (∀ x, x ≠ id → mapGet (c.Override id s).services x = mapGet c.services x) ∧
      (c.Override id s).decorators = c.decorators ∧
      (c.Override id s).circularDeps = c.circularDeps ∧
      (c.Override id s).cacheNestedShared = c.cacheNestedShared ∧
      ∀ w : World σ α, w.c = c.Override id s → w.c.circularDeps.chain = [] →
        w.c.cacheNestedShared = none →
        NothingStored id ⟨s, none, false⟩ w ∧
        ∀ n, Get (n + 1) id w =
          (getBuild (Get n) id ⟨s, none, false⟩ (w.enter id)).map fun r =>
            getDefers id r.1 true r.2) ∧
    ((b.OverrideParam id d).HasParam id = true ∧
      mapGet (b.OverrideParam id d).params id = some ⟨d, none, false⟩ ∧
      (∀ x, x ≠ id → mapGet (b.OverrideParam id d).params x = mapGet b.params x) ∧
      (b.OverrideParam id d).circularDeps = b.circularDeps ∧
      ∀ w : ParamWorld τ β, w.b = b.OverrideParam id d → w.b.circularDeps.chain = [] →
        ∀ n r w', GetParam n id w = some (r, w') →
          ∃ evs, w'.trace = w.trace ++ evs ∧ Event.provider id ∈ evs) := by
  have e1 : mapGet (c.Override id s).services id = some ⟨s, none, false⟩ :=
    mapGet_mapSet_self _ _ _
  have e2 : mapGet (b.OverrideParam id d).params id = some ⟨d, none, false⟩ :=
    mapGet_mapSet_self _ _ _
  refine ⟨⟨by simp [Container.Has, e1], e1,
      fun x hx => mapGet_mapSet_ne _ _ _ _ (Ne.symm hx), rfl, rfl, rfl, fun w hw hch hca => ?_⟩,
    by simp [ParamContainer.HasParam, e2], e2,
    fun x hx => mapGet_mapSet_ne _ _ _ _ (Ne.symm hx), rfl, fun w hw hch n r w' hget => ?_⟩
  · have hm : mapGet w.c.services id = some ⟨s, none, false⟩ := by rw [hw]; exact e1
    have hid : id ∉ w.c.circularDeps.chain := by simp [hch]
    have hcg : w.c.cacheGet id = none := by simp [Container.cacheGet, hca]
    refine ⟨nothingStored_fresh id _ w hm rfl hid hcg, fun n => ?_⟩
    rw [Get_build n id w _ hm rfl hid hcg, hca]
    rfl
  · have hm : mapGet w.b.params id = some ⟨d, none, false⟩ := by rw [hw]; exact e2
    exact GetParam_invokes n id w _ r w' hm rfl (by simp [hch]) hget

/-- Witness of C15: in `cachedTransaction` the registry holds transaction 1 and `Get` returns
it; after `Override` with the same definition the next top-level `Get("transaction")` invokes
the provider, which yields transaction 2. -/
theorem C15_override_always_replaces_witness :
    (Get 10 "transaction" cachedTransaction).map (fun x => x.1) =
      some (some (.transaction 1), none) ∧
    (Get 10 "transaction" (cachedTransaction.withC
      (cachedTransaction.c.Override "transaction" ⟨transactionProvider, .ScopeShared⟩))).map
        (fun x => x.1) = some (some (.transaction 2), none) ∧
    NothingStored "transaction" ⟨⟨transactionProvider, .ScopeShared⟩, none, false⟩
      (cachedTransaction.withC
        (cachedTransaction.c.Override "transaction" ⟨transactionProvider, .ScopeShared⟩)) :=
  ⟨by decide, by decide,
    ((C15_override_always_replaces cachedTransaction.c "transaction"
      ⟨transactionProvider, .ScopeShared⟩ circularParamContainer
      ⟨.ret none none, false⟩).1.2.2.2.2.2.2 _ rfl (by decide) (by decide)).1⟩

/-- C16: `Revoke(id)` on a registered id returns nil and keeps the recipe while clearing the
instance and the created flag: the entry `cp` becomes `cp.definition`, not created and with no
instance, so `Has(id)` stays true, and a top-level `Get(id)` (empty chain, no nested cache) on
the new container runs the build phase on that entry and, when it returns, has invoked the
provider of `id`. On an id that is not registered it returns the error
`cannot revoke service id, because it does not exist` (the id in backticks) and the container is
unchanged. In both cases no other entry, no decorator, and neither the chain nor the nested
cache changes. -/
theorem C16_revoke_clears_instance {σ α : Type} (c : Container σ α) (id : String) :
    (∀ cp, mapGet c.services id = some cp →
      (c.Revoke id).1 = none ∧
      mapGet (c.Revoke id).2.services id = some ⟨cp.definition, none, false⟩ ∧
      (c.Revoke id).2.Has id = true ∧
      ∀ w : World σ α, w.c = (c.Revoke id).2 → w.c.circularDeps.chain = [] →
        w.c.cacheNestedShared = none →
        NothingStored id ⟨cp.definition, none, false⟩ w ∧
        ∀ n, Get (n + 1) id w =
          (getBuild (Get n) id ⟨cp.definition, none, false⟩ (w.enter id)).map fun r =>
            getDefers id r.1 true r.2) ∧
    (c.Has id = false →
      c.Revoke id =
        (some (plainErr ("cannot revoke service `" ++ id ++ "`, because it does not exist")),
          c)) ∧
    (∀ x, x ≠ id → mapGet (c.Revoke id).2.services x = mapGet c.services x) ∧
    (c.Revoke id).2.decorators = c.decorators ∧
    (c.Revoke id).2.circularDeps = c.circularDeps ∧
    (c.Revoke id).2.cacheNestedShared = c.cacheNestedShared := by
  refine ⟨fun cp hcp => ?_, fun h => ?_, fun x hx => ?_, ?_, ?_, ?_⟩
  · have e : c.Revoke id =
        (none, { c with services := mapSet c.services id ⟨cp.definition, none, false⟩ }) := by
      simp [Container.Revoke, hcp]
    have e1 : mapGet (c.Revoke id).2.services id = some ⟨cp.definition, none, false⟩ := by
      rw [e]; exact mapGet_mapSet_self _ _ _
    refine ⟨by rw [e], e1, by simp [Container.Has, e1], fun w hw hch hca => ?_⟩
    have hm : mapGet w.c.services id = some ⟨cp.definition, none, false⟩ := by rw [hw]; exact e1
    have hid : id ∉ w.c.circularDeps.chain := by simp [hch]
    have hcg : w.c.cacheGet id = none := by simp [Container.cacheGet, hca]
    refine ⟨nothingStored_fresh id _ w hm rfl hid hcg, fun n => ?_⟩
    rw [Get_build n id w _ hm rfl hid hcg, hca]
    rfl
  · have hm : mapGet c.services id = none := by simpa [Container.Has] using h
    simp [Container.Revoke, hm, errMsg_revoke]
  · cases hm : mapGet c.services id with
    | none => simp [Container.Revoke, hm]
    | some cp =>
      simp only [Container.Revoke, hm]
      exact mapGet_mapSet_ne _ _ _ _ (Ne.symm hx)
  · cases hm : mapGet c.services id <;> simp [Container.Revoke, hm]
  · cases hm : mapGet c.services id <;> simp [Container.Revoke, hm]
  · cases hm : mapGet c.services id <;> simp [Container.Revoke, hm]

/-- Witness of C16: in `cachedTransaction` the registry holds transaction 1; after
`Revoke("transaction")` the next top-level `Get("transaction")` invokes the provider, which
yields transaction 2; `Revoke("db")` fails, `db` not being registered. -/
theorem C16_revoke_clears_instance_witness :
    (Get 10 "transaction" cachedTransaction).map (fun x => x.1) =
      some (some (.transaction 1), none) ∧
    (cachedTransaction.c.Revoke "transaction").1 = none ∧
    (Get 10 "transaction" (cachedTransaction.withC
      (cachedTransaction.c.Revoke "transaction").2)).map (fun x => x.1) =
        some (some (.transaction 2), none) ∧
    NothingStored "transaction" ⟨⟨transactionProvider, .ScopeShared⟩, none, false⟩
      (cachedTransaction.withC (cachedTransaction.c.Revoke "transaction").2) ∧
    cachedTransaction.c.Revoke "db" =
      (some (plainErr "cannot revoke service `db`, because it does not exist"),
        cachedTransaction.c) :=
  ⟨by decide,
    ((C16_revoke_clears_instance cachedTransaction.c "transaction").1
      ⟨⟨transactionProvider, .ScopeShared⟩, some (.transaction 1), true⟩ rfl).1,
    by decide,
    (((C16_revoke_clears_instance cachedTransaction.c "transaction").1
      ⟨⟨transactionProvider, .ScopeShared⟩, some (.transaction 1), true⟩ rfl).2.2.2 _ rfl
      (by decide) (by decide)).1,
    (C16_revoke_clears_instance cachedTransaction.c "db").2.1 (by decide)⟩

/-- C17: `Remove(id)` on a registered id returns nil and deletes the entry: afterwards
`Has(id)` is false, `GetAllServiceIDs` does not list `id` (whatever the order of its `range`
loop), a top-level `Get(id)` (empty chain, no nested cache) on the new container fails with
`service id does not exist` (the id in backticks) and leaves the world as it is, and no other
entry, no decorator, and neither the chain nor the nested cache changes. On an id that is not
registered it returns the error `cannot remove service id, because it does not exist` and the
container is unchanged. -/
theorem C17_remove_deletes {σ α : Type} (c : Container σ α) (id : String) :
    (c.Has id = true →
      (c.Remove id).1 = none ∧
      (c.Remove id).2.Has id = false ∧
      (∀ ρ, IsRange ρ → id ∉ (c.Remove id).2.GetAllServiceIDs ρ) ∧
      (∀ (w : World σ α) n, w.c = (c.Remove id).2 → w.c.circularDeps.chain = [] →
        w.c.cacheNestedShared = none →
        Get (n + 1) id w =
          some ((none, some (plainErr ("service `" ++ id ++ "` does not exist"))), w)) ∧
      (∀ x, x ≠ id → mapGet (c.Remove id).2.services x = mapGet c.services x) ∧
      (c.Remove id).2.decorators = c.decorators ∧
      (c.Remove id).2.circularDeps = c.circularDeps ∧
      (c.Remove id).2.cacheNestedShared = c.cacheNestedShared) ∧
    (c.Has id = false →
      c.Remove id =
        (some (plainErr ("cannot remove service `" ++ id ++ "`, because it does not exist")),
          c)) := by
  refine ⟨fun h => ?_, fun h => ?_⟩
  · have e : c.Remove id = (none, { c with services := mapDelete c.services id }) := by
      simp [Container.Remove, h]
    have e1 : mapGet (c.Remove id).2.services id = none := by
      rw [e]; exact mapGet_mapDelete_self _ _
    refine ⟨by rw [e], by simp [Container.Has, e1], fun ρ hρ hmem => ?_,
      fun w n hw hch hca => ?_, fun x hx => ?_, by rw [e], by rw [e], by rw [e]⟩
    · have := ((sorted_keys (c.Remove id).2.services (c.Remove id).2.services ρ ρ hρ hρ).1
        id).1 hmem
      rw [e1] at this
      simp at this
    · have hm : mapGet w.c.services id = none := by rw [hw]; exact e1
      rw [Get_succ]
      simp [hch, Container.cacheGet, hca, hm]
    · rw [e]; exact mapGet_mapDelete_ne _ _ _ (Ne.symm hx)
  · simp [Container.Remove, h, errMsg_remove]

/-- Witness of C17: removing `transaction` from `scopeContainer` leaves the three other ids,
and `Get("transaction")` then fails; removing `db`, which is not registered, is an error. -/
theorem C17_remove_deletes_witness :
    ((scopeContainer .ScopeShared).Remove "transaction").2.GetAllServiceIDs List.reverse =
      ["itemRepo", "purchaseService", "userRepo"] ∧
    Get 1 "transaction" (World.init ((scopeContainer .ScopeShared).Remove "transaction").2 0) =
      some ((none, some (plainErr "service `transaction` does not exist")),
        World.init ((scopeContainer .ScopeShared).Remove "transaction").2 0) ∧
    (scopeContainer .ScopeShared).Remove "db" =
      (some (plainErr "cannot remove service `db`, because it does not exist"),
        scopeContainer .ScopeShared) :=
  ⟨by decide,
    ((C17_remove_deletes (scopeContainer .ScopeShared) "transaction").1 (by decide)).2.2.2.1
      (World.init ((scopeContainer .ScopeShared).Remove "transaction").2 0) 0 rfl rfl rfl,
    (C17_remove_deletes (scopeContainer .ScopeShared) "db").2 (by decide)⟩

/-- C18: `GetAllServiceIDs` lists exactly the registered ids, each once, in strictly ascending
order of strings, whatever the order `ρ` in which its `range` loop visits the map; so two calls
on the same container return equal lists, and so do calls on any two containers with the same
registered ids, in whatever order they were registered. A call of `Has` from a closure goes on
in the world in which it was made. `GetAllParamIDs` and `HasParam` do the same on a
`ParamContainer`. -/
theorem C18_ids_sorted_each_once {σ α τ β : Type} (c c' : Container σ α)
    (b b' : ParamContainer τ β) (ρ ρ' : List String → List String) (hρ : IsRange ρ)
    (hρ' : IsRange ρ') :
    ((∀ id, id ∈ c.GetAllServiceIDs ρ ↔ c.Has id = true) ∧
      (c.GetAllServiceIDs ρ).Sorted (· < ·) ∧
      (∀ id, (c.GetAllServiceIDs ρ).count id = if c.Has id then 1 else 0) ∧
      c.GetAllServiceIDs ρ' = c.GetAllServiceIDs ρ ∧
      ((∀ id, c'.Has id = c.Has id) → c'.GetAllServiceIDs ρ' = c.GetAllServiceIDs ρ) ∧
      ∀ (getf : String → World σ α → Option (GetResult α × World σ α)) (w : World σ α) id k,
        runProg getf (.has id k) w = runProg getf (k (w.c.Has id)) w) ∧
    ((∀ id, id ∈ b.GetAllParamIDs ρ ↔ b.HasParam id = true) ∧
      (b.GetAllParamIDs ρ).Sorted (· < ·) ∧
      (∀ id, (b.GetAllParamIDs ρ).count id = if b.HasParam id then 1 else 0) ∧
      b.GetAllParamIDs ρ' = b.GetAllParamIDs ρ ∧
      ((∀ id, b'.HasParam id = b.HasParam id) → b'.GetAllParamIDs ρ' = b.GetAllParamIDs ρ) ∧
      ∀ (getf : String → ParamWorld τ β → Option (GetResult β × ParamWorld τ β))
        (w : ParamWorld τ β) id k,
        runParamProg getf (.hasParam id k) w = runParamProg getf (k (w.b.HasParam id)) w) := by
  have h1 := sorted_keys c.services c'.services ρ ρ' hρ hρ'
  have h2 := sorted_keys c.services c.services ρ ρ' hρ hρ'
  have h3 := sorted_keys b.params b'.params ρ ρ' hρ hρ'
  have h4 := sorted_keys b.params b.params ρ ρ' hρ hρ'
  exact ⟨⟨h1.1, h1.2.1, h1.2.2.1, h2.2.2.2 fun _ => rfl, h1.2.2.2, fun _ _ _ _ => rfl⟩,
    h3.1, h3.2.1, h3.2.2.1, h4.2.2.2 fun _ => rfl, h3.2.2.2, fun _ _ _ _ => rfl⟩

/-- Witness of C18: the four ids of `scopeContainer`, registered in the order `transaction`,
`userRepo`, `itemRepo`, `purchaseService`, are listed in ascending order, whether the map is
visited in that order or in the reverse order. -/
theorem C18_ids_sorted_each_once_witness :
    (scopeContainer .ScopeShared).GetAllServiceIDs id =
      ["itemRepo", "purchaseService", "transaction", "userRepo"] ∧
    (scopeContainer .ScopeShared).GetAllServiceIDs List.reverse =
      (scopeContainer .ScopeShared).GetAllServiceIDs id ∧
    circularParamContainer.GetAllParamIDs List.reverse = circularParamContainer.GetAllParamIDs id :=
  ⟨by decide,
    (C18_ids_sorted_each_once (scopeContainer .ScopeShared) (scopeContainer .ScopeShared)
      circularParamContainer circularParamContainer id List.reverse (fun _ => List.Perm.refl _)
      List.reverse_perm).1.2.2.2.1,
    (C18_ids_sorted_each_once (scopeContainer .ScopeShared) (scopeContainer .ScopeShared)
      circularParamContainer circularParamContainer id List.reverse (fun _ => List.Perm.refl _)
      List.reverse_perm).2.2.2.2.1⟩

/-- C19: for every tagged container, every tag and every order `ρ` in which the `range` loop
visits the map of the tag: the ids of `getIDsByTag` are exactly the ids tagged with the tag,
each once, and their priorities never increase along the list. `GetByTag` fetches exactly
these ids, in that order: over a wrapped container that records the ids it is asked for, it
returns one service per id and the record is the list of `getIDsByTag`. When the priorities
are pairwise different the list does not depend on `ρ`; in the scenario of the test
(`foobar` 300, `foo` 30, `bar` 500) it is `bar`, `foobar`, `foo`. -/
theorem C19_ids_by_descending_priority {W α : Type} (b : TaggedContainer W α) (tag : String)
    (ρ ρ1 : List String → List String) (hρ : IsRange ρ) (hρ1 : IsRange ρ1) :
    (∀ id, id ∈ b.getIDsByTag ρ tag ↔ b.IsTaggedBy id tag = true) ∧
    (b.getIDsByTag ρ tag).Nodup ∧
    (∃ ps : List Int,
      (b.getIDsByTag ρ tag).map (b.priority tag) = ps.map some ∧ ps.Sorted (· ≥ ·)) ∧
    (∀ log, (⟨recordingGet, b.mapping⟩ : TaggedContainer (List String) String).GetByTag
        ρ1 ρ tag log =
      some (.returned (some ((b.getIDsByTag ρ tag).map some)) none,
        log ++ b.getIDsByTag ρ tag)) ∧
    (((mapKeys ((mapGet b.mapping tag).getD [])).map (b.priority tag)).Nodup →
      b.getIDsByTag ρ1 tag = b.getIDsByTag ρ tag) ∧
    scenarioTagged.getIDsByTag ρ "foos" = ["bar", "foobar", "foo"] := by
  have hp := getIDsByTag_perm b tag ρ hρ
  refine ⟨fun id => ?_, hp.nodup_iff.2 (nodup_mapKeys _), ?_, fun log => ?_, fun hnd => ?_, ?_⟩
  · rw [hp.mem_iff, mem_mapKeys, ← priority_eq]
    rfl
  · refine ⟨(sortByPriority ((ρ (mapKeys ((mapGet b.mapping tag).getD []))).filterMap fun id =>
      (mapGet ((mapGet b.mapping tag).getD []) id).map fun p => (id, p))).map Prod.snd,
      ?_, (List.pairwise_map).2 (sortByPriority_sorted _)⟩
    simp only [TaggedContainer.getIDsByTag, List.map_map]
    refine List.map_congr_left fun a ha => ?_
    have := mem_filterMap_entries _ _ a ((sortByPriority_perm _).mem_iff.1 ha)
    simp only [Function.comp, priority_eq, this.2]
  · have hl : (b.getIDsByTag ρ1 tag).length = (b.getIDsByTag ρ tag).length :=
      ((getIDsByTag_perm b tag ρ1 hρ1).trans hp.symm).length_eq
    have e : (⟨recordingGet, b.mapping⟩ : TaggedContainer (List String) String).GetByTag
        ρ1 ρ tag log =
        getByTagLoop recordingGet tag (b.getIDsByTag ρ tag) 0
          (List.replicate (b.getIDsByTag ρ1 tag).length none) log := rfl
    rw [e, getByTagLoop_recording tag _ 0 _ log (by simp [hl])]
    simp [hl]
  · exact getIDsByTag_unique b tag ρ ρ1 hρ hρ1 hnd
  · rw [getIDsByTag_unique scenarioTagged "foos" id ρ (fun _ => List.Perm.refl _) hρ
      (by decide)]
    decide

/-- Witness of C19: the scenario of the test, its map visited in the reverse order of the
tagging. -/
theorem C19_ids_by_descending_priority_witness :
    scenarioTagged.getIDsByTag List.reverse "foos" = ["bar", "foobar", "foo"] ∧
    scenarioTagged.GetByTag id List.reverse "foos" [] =
      some (.returned (some [some "bar", some "foobar", some "foo"]) none,
        ["bar", "foobar", "foo"]) :=
  ⟨(C19_ids_by_descending_priority scenarioTagged "foos" List.reverse id List.reverse_perm
      fun _ => List.Perm.refl _).2.2.2.2.2,
    (C19_ids_by_descending_priority scenarioTagged "foos" List.reverse id List.reverse_perm
      fun _ => List.Perm.refl _).2.2.2.1 []⟩

/-- C20: `getIDsByTag` fills its slice by ranging over the map of the tag and then sorts it
with a stable sort, so ids tagged with equal priority come out in the order in which the
`range` loop visits them, and `GetByTag` fetches them in that order: when `x` is visited before
`y` and both have the same priority, `x` comes before `y`; when all ids of the tag have the
same priority the list is the order of the visit itself. The order of tagging is not
recorded. On `tiedTagged`, where `first` was tagged before `second` with the same priority,
`GetByTag("repo")` returns the two services in the order in which the loop visits the two
keys, whichever that is; when it visits `second` first, which Go allows, the result is
`second`, `first`. -/
theorem C20_ties_follow_range_order {W α : Type} (b : TaggedContainer W α) (tag : String)
    (ρ1 ρ2 : List String → List String) (hρ1 : IsRange ρ1) (hρ2 : IsRange ρ2) (w : W) :
    (∀ x y p, List.Sublist [x, y] (ρ2 (mapKeys ((mapGet b.mapping tag).getD []))) →
      b.priority tag x = some p → b.priority tag y = some p →
      List.Sublist [x, y] (b.getIDsByTag ρ2 tag)) ∧
    (∀ p0, (∀ id p, b.priority tag id = some p → p = p0) →
      b.getIDsByTag ρ2 tag = ρ2 (mapKeys ((mapGet b.mapping tag).getD []))) ∧
    (∀ rs w', Fetched b.container (b.getIDsByTag ρ2 tag) w rs w' →
      b.GetByTag ρ1 ρ2 tag w = some (.returned (some rs) none, w')) ∧
    tiedTagged = (((NewTaggedContainer recordingGet).TagService "first" "repo" 0).2.TagService
      "second" "repo" 0).2 ∧
    tiedTagged.GetByTag ρ1 ρ2 "repo" [] =
      some (.returned (some ((ρ2 ["first", "second"]).map some)) none,
        ρ2 ["first", "second"]) ∧
    tiedTagged.GetByTag id List.reverse "repo" [] =
      some (.returned (some [some "second", some "first"]) none, ["second", "first"]) := by
  have hloop : ∀ (b : TaggedContainer W α) (rs : List (Option α)) (w' : W),
      Fetched b.container (b.getIDsByTag ρ2 tag) w rs w' →
      b.GetByTag ρ1 ρ2 tag w = some (.returned (some rs) none, w') := by
    intro b rs w' hf
    simp only [TaggedContainer.GetByTag]
    rw [getByTagLoop_fetched b.container tag _ w rs w' hf 0 _
      (by simp [getIDsByTag_length b tag ρ1 ρ2 hρ1 hρ2])]
    simp [getIDsByTag_length b tag ρ1 ρ2 hρ1 hρ2]
  refine ⟨fun x y p hvisit hx hy => ?_, fun p0 hall => getIDsByTag_all_tied b tag ρ2 hρ2 p0 hall,
    hloop b, rfl, ?_, rfl⟩
  · rw [priority_eq] at hx hy
    simp only [TaggedContainer.getIDsByTag]
    have h1 : List.Sublist [(x, p), (y, p)]
        ((ρ2 (mapKeys ((mapGet b.mapping tag).getD []))).filterMap fun id =>
          (mapGet ((mapGet b.mapping tag).getD []) id).map fun p => (id, p)) := by
      have := hvisit.filterMap fun id =>
        (mapGet ((mapGet b.mapping tag).getD []) id).map fun p => (id, p)
      simpa [List.filterMap_cons, hx, hy] using this
    have h2 := List.pair_sublist_insertionSort (r := fun a b : String × Int => a.2 ≥ b.2)
      (a := (x, p)) (b := (y, p)) (le_refl p) h1
    exact h2.map Prod.fst
  · have hids : tiedTagged.getIDsByTag ρ2 "repo" = ρ2 ["first", "second"] := by
      rw [getIDsByTag_all_tied tiedTagged "repo" ρ2 hρ2 0]
      · rfl
      · intro id p hp
        rw [priority_eq] at hp
        have hm : (mapGet tiedTagged.mapping "repo").getD [] = [("first", 0), ("second", 0)] := by
          decide
        rw [hm] at hp
        simp only [mapGet] at hp
        split_ifs at hp <;> simp_all
    have hlen : (tiedTagged.getIDsByTag ρ1 "repo").length = (ρ2 ["first", "second"]).length := by
      rw [getIDsByTag_length tiedTagged "repo" ρ1 ρ2 hρ1 hρ2, hids]
    simp only [TaggedContainer.GetByTag, hids]
    have hc : tiedTagged.container = recordingGet := rfl
    rw [hc, getByTagLoop_recording "repo" _ 0 _ [] (by simp [hlen])]
    simp [hlen]

/-- Witness of C20: on `tiedTagged`, with the map of `repo` visited in the reverse of the order
of tagging, `GetByTag("repo")` returns `second`, then `first`. -/
theorem C20_ties_follow_range_order_witness :
    IsRange id ∧ IsRange List.reverse ∧
    tiedTagged.GetByTag id List.reverse "repo" [] =
      some (.returned (some [some "second", some "first"]) none, ["second", "first"]) :=
  ⟨fun _ => List.Perm.refl _, List.reverse_perm,
    (C20_ties_follow_range_order tiedTagged "repo" id List.reverse (fun _ => List.Perm.refl _)
      List.reverse_perm []).2.2.2.2.1⟩

/-- C21: let `ρ1` and `ρ2` be the orders of the two `range` loops of `GetByTag(tag)`, and let
`ids` be the list of `getIDsByTag` for `ρ2`. When the wrapped `Get`, called on `ids` in order,
succeeds every time, `GetByTag` returns the services in that order with a nil error, in the
state the last call left. When no id is tagged `tag` it returns the empty, non-nil list with a
nil error and calls nothing. When the calls on the ids before `x` succeed and the call on `x`
returns the error `e`, it returns a nil list and the error
`cannot get services by tag tag: e` (the tag in backticks), in the state the call on `x` left:
no later id is fetched. When the wrapped `Get` always returns, `GetByTag` returns without a
panic. -/
theorem C21_getByTag_in_order {W α : Type} (b : TaggedContainer W α) (tag : String)
    (ρ1 ρ2 : List String → List String) (hρ1 : IsRange ρ1) (hρ2 : IsRange ρ2) (w : W) :
    (∀ rs w', Fetched b.container (b.getIDsByTag ρ2 tag) w rs w' →
      b.GetByTag ρ1 ρ2 tag w = some (.returned (some rs) none, w')) ∧
    ((∀ id, b.IsTaggedBy id tag = false) →
      b.GetByTag ρ1 ρ2 tag w = some (.returned (some []) none, w)) ∧
    (∀ pre x post rs w1 v e w2, b.getIDsByTag ρ2 tag = pre ++ x :: post →
      Fetched b.container pre w rs w1 → b.container x w1 = some ((v, some e), w2) →
      b.GetByTag ρ1 ρ2 tag w =
        some (.returned none
          (some (plainErr ("cannot get services by tag `" ++ tag ++ "`: " ++ e.msg))), w2)) ∧
    ((∀ id w, (b.container id w).isSome = true) →
      ∃ r e w', b.GetByTag ρ1 ρ2 tag w = some (.returned r e, w')) := by
  have hl := getIDsByTag_length b tag ρ1 ρ2 hρ1 hρ2
  have hfet : ∀ rs w', Fetched b.container (b.getIDsByTag ρ2 tag) w rs w' →
      b.GetByTag ρ1 ρ2 tag w = some (.returned (some rs) none, w') := by
    intro rs w' h
    simp only [TaggedContainer.GetByTag]
    rw [getByTagLoop_fetched b.container tag _ w rs w' h 0 _ (by simp [hl])]
    simp [hl]
  refine ⟨hfet, fun hno => ?_, fun pre x post rs w1 v e w2 hids hpre hx => ?_, fun hget => ?_⟩
  · have hnil : b.getIDsByTag ρ2 tag = [] := by
      apply List.eq_nil_iff_forall_not_mem.2
      intro id hid
      have h1 : b.IsTaggedBy id tag = true := by
        have hp := getIDsByTag_perm b tag ρ2 hρ2
        rw [hp.mem_iff, mem_mapKeys, ← priority_eq] at hid
        exact hid
      rw [hno id] at h1
      exact absurd h1 (by simp)
    apply hfet
    rw [hnil]
    exact .nil w
  · simp only [TaggedContainer.GetByTag]
    rw [hids]
    exact getByTagLoop_failed b.container tag pre w rs w1 hpre x post v e w2 hx 0 _
      (by simp [hl, hids])
  · simp only [TaggedContainer.GetByTag]
    exact getByTagLoop_returns b.container tag hget _ 0 _ w (by simp [hl])

/-- Witness of C21: the scenario of the test fetches `bar`, `foobar`, `foo`; the tag `logger`,
with which nothing is tagged, gives the empty list; over the `mockContainer` that fails,
`GetByTag("db")` gives the error of the test "Parent container returns error". -/
theorem C21_getByTag_in_order_witness :
    scenarioTagged.GetByTag id List.reverse "foos" [] =
      some (.returned (some [some "bar", some "foobar", some "foo"]) none,
        ["bar", "foobar", "foo"]) ∧
    scenarioTagged.GetByTag id List.reverse "logger" [] = some (.returned (some []) none, []) ∧
    ((NewTaggedContainer (mockContainer none (some (plainErr "service does not exist")))
      ).OverrideTagService "mysql" "db" 0).GetByTag id List.reverse "db" () =
      some (.returned none
        (some (plainErr "cannot get services by tag `db`: service does not exist")), ()) :=
  ⟨(C21_getByTag_in_order scenarioTagged "foos" id List.reverse (fun _ => List.Perm.refl _)
      List.reverse_perm []).1 _ _
      (.cons "bar" _ [] _ _ (some "bar") _ rfl
        (.cons "foobar" _ _ _ _ (some "foobar") _ rfl
          (.cons "foo" _ _ _ _ (some "foo") _ rfl (.nil _)))),
    (C21_getByTag_in_order scenarioTagged "logger" id List.reverse (fun _ => List.Perm.refl _)
      List.reverse_perm []).2.1 (fun _ => rfl),
    (C21_getByTag_in_order
      ((NewTaggedContainer (mockContainer none (some (plainErr "service does not exist")))
        ).OverrideTagService "mysql" "db" 0) "db" id List.reverse
      (fun _ => List.Perm.refl _) List.reverse_perm ()).2.2.1 [] "mysql" [] [] () none
      (plainErr "service does not exist") () rfl (.nil _) rfl⟩

/-- C22: `TagService(id, tag, p)` returns an error exactly when `IsTaggedBy(id, tag)` held; the
error is `service id is already tagged as tag` (both in backticks) and the tagged container is
unchanged, so the stored priority stays. Otherwise it returns nil and `(tag, id)` is tagged
with priority `p`. `OverrideTagService(id, tag, p)` always leaves `(tag, id)` tagged with
priority `p`. Neither changes the priority or the presence of any other pair, nor the wrapped
container; `IsTaggedBy` is a function of the mapping: the pair is tagged when it has a
priority. -/
theorem C22_tagService_only_when_untagged {W α : Type} (b : TaggedContainer W α)
    (id tag : String) (p : Int) :
    ((b.TagService id tag p).1 ≠ none ↔ b.IsTaggedBy id tag = true) ∧
    (b.IsTaggedBy id tag = true →
      b.TagService id tag p =
        (some (plainErr ("service `" ++ id ++ "` is already tagged as `" ++ tag ++ "`")), b)) ∧
    (b.IsTaggedBy id tag = false →
      (b.TagService id tag p).1 = none ∧
      (b.TagService id tag p).2.IsTaggedBy id tag = true ∧
      (b.TagService id tag p).2.priority tag id = some p) ∧
    ((b.OverrideTagService id tag p).IsTaggedBy id tag = true ∧
      (b.OverrideTagService id tag p).priority tag id = some p) ∧
    (∀ t x, ¬ (t = tag ∧ x = id) →
      (b.TagService id tag p).2.priority t x = b.priority t x ∧
      (b.TagService id tag p).2.IsTaggedBy x t = b.IsTaggedBy x t ∧
      (b.OverrideTagService id tag p).priority t x = b.priority t x ∧
      (b.OverrideTagService id tag p).IsTaggedBy x t = b.IsTaggedBy x t) ∧
    (b.TagService id tag p).2.container = b.container ∧
    (b.OverrideTagService id tag p).container = b.container ∧
    (∀ t x, b.IsTaggedBy x t = (b.priority t x).isSome) := by
  have hovr : ∀ t x, (b.OverrideTagService id tag p).priority t x =
      if t = tag ∧ x = id then some p else b.priority t x := fun t x =>
    priority_assign b.mapping tag id p t x
  have herr : b.IsTaggedBy id tag = true →
      b.TagService id tag p =
        (some (plainErr ("service `" ++ id ++ "` is already tagged as `" ++ tag ++ "`")),
          b) := by
    intro h
    have hm : (mapGet b.mapping tag).isSome = true := by
      simp only [TaggedContainer.IsTaggedBy] at h
      cases hx : mapGet b.mapping tag with
      | none => rw [hx] at h; simp at h
      | some _ => rfl
    have h' : ((mapGet b.mapping tag).bind fun m => mapGet m id).isSome = true := h
    simp only [TaggedContainer.TagService, hm, if_true, h']
  have hok : b.IsTaggedBy id tag = false →
      b.TagService id tag p = (none, b.OverrideTagService id tag p) := by
    intro h
    have h1 : ((mapGet (if (mapGet b.mapping tag).isSome then b.mapping
        else mapSet b.mapping tag []) tag).bind fun m => mapGet m id).isSome = false := by
      by_cases hm : (mapGet b.mapping tag).isSome = true
      · rw [if_pos hm]; exact h
      · rw [if_neg hm, mapGet_mapSet_self]; simp [mapGet]
    simp only [TaggedContainer.TagService, h1, Bool.false_eq_true, if_false,
      TaggedContainer.OverrideTagService]
  have htag : ∀ t x, (b.TagService id tag p).2.priority t x =
      if b.IsTaggedBy id tag then b.priority t x
      else if t = tag ∧ x = id then some p else b.priority t x := by
    intro t x
    by_cases h : b.IsTaggedBy id tag = true
    · rw [herr h, if_pos h]
    · have h' : b.IsTaggedBy id tag = false := by simpa using h
      rw [hok h', if_neg h]
      exact hovr t x
  refine ⟨?_, herr, fun h => ?_, ?_, fun t x hne => ?_, ?_, rfl, fun _ _ => rfl⟩
  · by_cases h : b.IsTaggedBy id tag = true
    · simp [herr h, h]
    · have h' : b.IsTaggedBy id tag = false := by simpa using h
      simp [hok h', h']
  · have hp : (b.TagService id tag p).2.priority tag id = some p := by
      rw [htag, h]; simp
    refine ⟨by rw [hok h], ?_, hp⟩
    show ((b.TagService id tag p).2.priority tag id).isSome = true
    rw [hp]; rfl
  · have hp := hovr tag id
    rw [if_pos ⟨rfl, rfl⟩] at hp
    refine ⟨?_, hp⟩
    show ((b.OverrideTagService id tag p).priority tag id).isSome = true
    rw [hp]; rfl
  · have h1 : (b.TagService id tag p).2.priority t x = b.priority t x := by
      rw [htag, if_neg hne]; simp
    have h2 : (b.OverrideTagService id tag p).priority t x = b.priority t x := by
      rw [hovr, if_neg hne]
    refine ⟨h1, ?_, h2, ?_⟩
    · show ((b.TagService id tag p).2.priority t x).isSome = (b.priority t x).isSome
      rw [h1]
    · show ((b.OverrideTagService id tag p).priority t x).isSome = (b.priority t x).isSome
      rw [h2]
  · by_cases h : b.IsTaggedBy id tag = true
    · rw [herr h]
    · have h' : b.IsTaggedBy id tag = false := by simpa using h
      rw [hok h']; rfl

/-- Witness of C22: the test "Service already tagged": the first `TagService("cmd",
"commandHelp", 100)` succeeds, the second, with another priority, fails and the priority stays
100. -/
theorem C22_tagService_only_when_untagged_witness :
    ((NewTaggedContainer recordingGet).TagService "cmd" "commandHelp" 100).1 = none ∧
    ((NewTaggedContainer recordingGet).TagService "cmd" "commandHelp" 100).2.TagService
        "cmd" "commandHelp" 7 =
      (some (plainErr "service `cmd` is already tagged as `commandHelp`"),
        ((NewTaggedContainer recordingGet).TagService "cmd" "commandHelp" 100).2) ∧
    ((NewTaggedContainer recordingGet).TagService "cmd" "commandHelp" 100).2.priority
      "commandHelp" "cmd" = some 100 :=
  ⟨((C22_tagService_only_when_untagged (NewTaggedContainer recordingGet) "cmd" "commandHelp"
      100).2.2.1 (by decide)).1,
    (C22_tagService_only_when_untagged
      ((NewTaggedContainer recordingGet).TagService "cmd" "commandHelp" 100).2 "cmd"
      "commandHelp" 7).2.1 (by decide),
    ((C22_tagService_only_when_untagged (NewTaggedContainer recordingGet) "cmd" "commandHelp"
      100).2.2.1 (by decide)).2.2⟩

/-- C23: on a free mutex, every method of `AtomicContainer` and of `AtomicParamContainer`
returns (or panics with) what the method of the wrapped component returns, leaves the wrapped
component in the state that method leaves it in, and leaves the mutex free; when the wrapped
method does not return, neither does the facade. So does `AtomicTaggedContainer.IsTaggedBy`.
The four other methods of `AtomicTaggedContainer` never return, with any fuel and even on a
free mutex, while the methods of the wrapped `TaggedContainer` return: the first
`TagService("cmd", "commandHelp", 100)` of the test returns nil on the wrapped container. -/
theorem C23_facades_forward_but_tagged {σ α τ β W γ : Type} (w : World σ α)
    (pw : ParamWorld τ β) (t : TaggedContainer W γ) (s : W) (fuel : Nat) (id tag : String)
    (sd : ServiceDefinition σ α) (d : Decorator σ α) (pd : ParamDefinition τ β)
    (ρ : List String → List String) (p : Int) :
    (AtomicContainer.Get (fun _ => Get fuel) id ⟨w, ⟨false⟩⟩ =
        (Get fuel id w).map (fun x => (x.1, ⟨x.2, ⟨false⟩⟩)) ∧
      AtomicContainer.MustGet fuel id ⟨w, ⟨false⟩⟩ =
        (Container.MustGet fuel id w).map (fun x => (x.1, ⟨x.2, ⟨false⟩⟩)) ∧
      AtomicContainer.Register id sd ⟨w, ⟨false⟩⟩ =
        some ((w.c.Register id sd).1, ⟨w.withC (w.c.Register id sd).2, ⟨false⟩⟩) ∧
      AtomicContainer.Override id sd ⟨w, ⟨false⟩⟩ =
        some ((), ⟨w.withC (w.c.Override id sd), ⟨false⟩⟩) ∧
      AtomicContainer.Has id ⟨w, ⟨false⟩⟩ = some (w.c.Has id, ⟨w, ⟨false⟩⟩) ∧
      AtomicContainer.GetAllServiceIDs ρ ⟨w, ⟨false⟩⟩ =
        some (w.c.GetAllServiceIDs ρ, ⟨w, ⟨false⟩⟩) ∧
      AtomicContainer.RegisterDecorator d ⟨w, ⟨false⟩⟩ =
        some ((), ⟨w.withC (w.c.RegisterDecorator d), ⟨false⟩⟩) ∧
      AtomicContainer.Revoke id ⟨w, ⟨false⟩⟩ =
        some ((w.c.Revoke id).1, ⟨w.withC (w.c.Revoke id).2, ⟨false⟩⟩) ∧
      AtomicContainer.MustRevoke id ⟨w, ⟨false⟩⟩ =
        some ((w.c.MustRevoke id).1, ⟨w.withC (w.c.MustRevoke id).2, ⟨false⟩⟩) ∧
      AtomicContainer.Remove id ⟨w, ⟨false⟩⟩ =
        some ((w.c.Remove id).1, ⟨w.withC (w.c.Remove id).2, ⟨false⟩⟩) ∧
      AtomicContainer.MustRemove id ⟨w, ⟨false⟩⟩ =
        some ((w.c.MustRemove id).1, ⟨w.withC (w.c.MustRemove id).2, ⟨false⟩⟩)) ∧
    (AtomicParamContainer.GetParam fuel id ⟨pw, ⟨false⟩⟩ =
        (GetParam fuel id pw).map (fun x => (x.1, ⟨x.2, ⟨false⟩⟩)) ∧
      AtomicParamContainer.MustGetParam fuel id ⟨pw, ⟨false⟩⟩ =
        (ParamContainer.MustGetParam fuel id pw).map (fun x => (x.1, ⟨x.2, ⟨false⟩⟩)) ∧
      AtomicParamContainer.RegisterParam id pd ⟨pw, ⟨false⟩⟩ =
        some ((pw.b.RegisterParam id pd).1,
          ⟨{ pw with b := (pw.b.RegisterParam id pd).2 }, ⟨false⟩⟩) ∧
      AtomicParamContainer.OverrideParam id pd ⟨pw, ⟨false⟩⟩ =
        some ((), ⟨{ pw with b := pw.b.OverrideParam id pd }, ⟨false⟩⟩) ∧
      AtomicParamContainer.HasParam id ⟨pw, ⟨false⟩⟩ =
        some (pw.b.HasParam id, ⟨pw, ⟨false⟩⟩) ∧
      AtomicParamContainer.GetAllParamIDs ρ ⟨pw, ⟨false⟩⟩ =
        some (pw.b.GetAllParamIDs ρ, ⟨pw, ⟨false⟩⟩)) ∧
    (AtomicTaggedContainer.IsTaggedBy id tag ⟨t, ⟨false⟩⟩ =
        some (t.IsTaggedBy id tag, ⟨t, ⟨false⟩⟩) ∧
      AtomicTaggedContainer.GetByTag fuel tag ⟨t, ⟨false⟩⟩ s = none ∧
      AtomicTaggedContainer.MustGetByTag fuel tag ⟨t, ⟨false⟩⟩ s = none ∧
      AtomicTaggedContainer.TagService fuel id tag p ⟨t, ⟨false⟩⟩ = none ∧
      AtomicTaggedContainer.OverrideTagService fuel id tag p ⟨t, ⟨false⟩⟩ = none) ∧
    ((NewTaggedContainer recordingGet).TagService "cmd" "commandHelp" 100).1 = none ∧
    AtomicTaggedContainer.TagService fuel "cmd" "commandHelp" 100
      (NewAtomicTaggedContainer (NewTaggedContainer recordingGet)) = none := by
  refine ⟨⟨?_, ?_, rfl, rfl, rfl, rfl, rfl, rfl, rfl, rfl, rfl⟩,
    ⟨?_, ?_, rfl, rfl, rfl, rfl⟩, ⟨rfl, ?_⟩, rfl, ?_⟩
  · simp only [AtomicContainer.Get, withLock_free]
    cases Get fuel id w <;> rfl
  · simp only [AtomicContainer.MustGet, withLock_free]
    cases Container.MustGet fuel id w <;> rfl
  · simp only [AtomicParamContainer.GetParam, withLock_free]
    cases GetParam fuel id pw <;> rfl
  · simp only [AtomicParamContainer.MustGetParam, withLock_free]
    cases ParamContainer.MustGetParam fuel id pw <;> rfl
  · exact atomicTagged_never ⟨t, ⟨false⟩⟩ id tag p s fuel
  · exact (atomicTagged_never _ "cmd" "commandHelp" 100 ([] : List String) fuel).2.2.1

/-- C24: let `id` be registered and not created on the container wrapped by a fresh
`AtomicContainer`, with a provider that begins by calling `Get(dep)`, and let the call be a
top-level one. When the closures were given the facade, so that the provider calls `Get` on the
facade, `Get(id)` on the facade never returns, with any fuel: the nested call finds the mutex
held. When the closures were given the wrapped container, `Get(id)` on the facade returns what
`Get(id)` of the wrapped container returns, and frees the mutex; on the container of the test
`Get("alias")` then returns the instance of `foo` with a nil error. -/
theorem C24_nested_call_never_returns {σ α : Type} (w : World σ α) (id dep : String)
    (m : metaServiceDefinition σ α) (k : Option α → Option GoError → Prog σ α)
    (hm : mapGet w.c.services id = some m) (hcr : m.created = false)
    (hp : m.definition.Provider = .get dep k) (hchain : w.c.circularDeps.chain = [])
    (hcache : w.c.cacheNestedShared = none) :
    (∀ fuel, AtomicContainer.Get (nestedGet fuel) id (NewAtomicContainer w) = none) ∧
    (∀ fuel, AtomicContainer.Get (fun _ => Get fuel) id (NewAtomicContainer w) =
      (Get fuel id w).map fun x => (x.1, ⟨x.2, ⟨false⟩⟩)) ∧
    ∀ n, ∃ w', AtomicContainer.Get (fun _ => Get (n + 2)) "alias"
        (NewAtomicContainer (World.init nestedContainer ())) =
      some ((some .unit, none), ⟨w', ⟨false⟩⟩) := by
  refine ⟨fun fuel => ?_, fun fuel => ?_, fun n => ?_⟩
  · simp only [AtomicContainer.Get, NewAtomicContainer, withLock_free]
    cases fuel with
    | zero => rfl
    | succ n =>
      simp only [nestedGet]
      rw [getStep_build _ id w m hm hcr (by simp [hchain])
        (by simp [Container.cacheGet, hcache])]
      simp [getBuild, hp, runProg, AtomicContainer.Get, withLock_held]
  · simp only [AtomicContainer.Get, NewAtomicContainer, withLock_free]
    cases Get fuel id w <;> rfl
  · have h1 : (Get 2 "alias" (World.init nestedContainer ())).isSome = true := by decide
    have hx : Get 2 "alias" (World.init nestedContainer ()) =
        some ((some .unit, none), ((Get 2 "alias" (World.init nestedContainer ())).get h1).2) :=
      rfl
    have hn := Get_mono 2 (n + 2) (by omega) "alias" (World.init nestedContainer ()) _ hx
    refine ⟨((Get 2 "alias" (World.init nestedContainer ())).get h1).2, ?_⟩
    simp only [AtomicContainer.Get, NewAtomicContainer, withLock_free, hn]
    rfl

/-- Witness of C24: the two runs of `TestAtomicContainer_NestedLock` on `alias`. -/
theorem C24_nested_call_never_returns_witness :
    (∀ fuel, AtomicContainer.Get (nestedGet fuel) "alias"
      (NewAtomicContainer (World.init nestedContainer ())) = none) ∧
    ∃ w', AtomicContainer.Get (fun _ => Get 2) "alias"
        (NewAtomicContainer (World.init nestedContainer ())) =
      some ((some .unit, none), ⟨w', ⟨false⟩⟩) :=
  ⟨(C24_nested_call_never_returns (World.init nestedContainer ()) "alias" "foo" _
      (fun v e => .ret v e) rfl rfl rfl rfl rfl).1,
    (C24_nested_call_never_returns (World.init nestedContainer ()) "alias" "foo" _
      (fun v e => .ret v e) rfl rfl rfl rfl rfl).2.2 0⟩

/-- C25: let `id` be a parameter with entry `m`, not under construction. When it is not
disposable, a `GetParam(id)` that succeeds with the value `v` leaves the entry created with
`v`; from then on, after any calls on the container among which there is no
`OverrideParam(id)` (calls of `GetParam` of any id, `RegisterParam`, `OverrideParam` of other
ids, made by the caller or by the providers), the entry is still there and every
`GetParam(id)` returns `v` with a nil error and leaves the world as it is, ghost trace
included: no provider is invoked. After an `OverrideParam(id)` the entry is reset, and a
`GetParam(id)` that returns has invoked the provider. When the parameter is disposable, in a
container that records only parameters that are not disposable as created
(`NewParamContainer` gives such a container and every method keeps it so), the entry is not
created, every `GetParam(id)` that returns has invoked the provider, and after a provider run
that returns `v` with a nil error the call returns `v` in the world the provider left, with
only the chain popped: nothing is stored. -/
theorem C25_disposable_decides_caching {σ α : Type} (n : Nat) (id : String)
    (w : ParamWorld σ α) (m : metaParamDefinition σ α)
    (hm : mapGet w.b.params id = some m) (hid : id ∉ w.b.circularDeps.chain) :
    (m.definition.Disposable = false →
      ∀ v w1, GetParam n id w = some ((v, none), w1) →
        mapGet w1.b.params id = some ⟨m.definition, v, true⟩ ∧
        ∀ w2, w1.b.Spares id → ParamLater id w1 w2 →
          mapGet w2.b.params id = some ⟨m.definition, v, true⟩ ∧
          (∀ k, GetParam (k + 1) id w2 = some ((v, none), w2)) ∧
          ∀ d k r w3, GetParam k id { w2 with b := w2.b.OverrideParam id d } = some (r, w3) →
            ∃ evs, w3.trace = w2.trace ++ evs ∧ Event.provider id ∈ evs) ∧
    (m.definition.Disposable = true → w.b.Sound →
      m.created = false ∧
      (∀ r w', GetParam n id w = some (r, w') →
        (∃ evs, w'.trace = w.trace ++ evs ∧ Event.provider id ∈ evs) ∧ w'.b.Sound) ∧
      ∀ v w1, runParamProg (GetParam n) m.definition.Provider (w.enter id) =
          some (.returned v none, w1) →
        GetParam (n + 1) id w = some ((v, none), w1.leave) ∧
        w1.leave.b.params = w1.b.params ∧ w1.leave.env = w1.env ∧
        w1.leave.trace = w1.trace) := by
  refine ⟨fun hd v w1 hget => ?_, fun hd hs => ?_⟩
  · have hst := GetParam_stores n id w m v w1 hm hd hget
    have hch : id ∉ w1.b.circularDeps.chain := by
      rw [GetParam_chain n id w _ w1 hget]; exact hid
    refine ⟨hst, fun w2 hsp hl => ?_⟩
    obtain ⟨hc2, hchain⟩ := paramLater_cached id _ rfl w1 w2 hl ⟨hsp, hst⟩
    have hch2 : id ∉ w2.b.circularDeps.chain := by rw [hchain]; exact hch
    refine ⟨hc2.2, fun k => GetParam_created k id w2 _ hc2.2 rfl hch2, fun d k r w3 hg => ?_⟩
    exact GetParam_invokes k id { w2 with b := w2.b.OverrideParam id d } ⟨d, none, false⟩ r w3
      (by simp [ParamContainer.OverrideParam, mapGet_mapSet_self]) rfl hch2 hg
  · have hcr : m.created = false := by
      cases hc : m.created with
      | false => rfl
      | true => have := hs id m hm hc; rw [hd] at this; simp at this
    refine ⟨hcr, fun r w' hget => ⟨GetParam_invokes n id w m r w' hm hcr hid hget,
      GetParam_sound n id w r w' hget hs⟩, fun v w1 hp => ⟨?_, rfl, rfl, rfl⟩⟩
    rw [GetParam_succ]
    simp [hid, hm, hcr, hp, hd]

/-- Witness of C25: in `countingParams`, `kept` is not disposable: the first `GetParam` yields
transaction 1, and so does every `GetParam("kept")` after a `GetParam("fresh")` and after any
other calls that do not override `kept`; `fresh` is disposable: the first `GetParam` yields
transaction 1 and stores nothing, and the second yields transaction 2. -/
theorem C25_disposable_decides_caching_witness :
    (∃ w1 : ParamWorld Nat Val,
      GetParam 5 "kept" ⟨countingParams, 0, []⟩ = some ((some (.transaction 1), none), w1) ∧
      (∃ w2, GetParam 5 "fresh" w1 = some ((some (.transaction 2), none), w2) ∧
        GetParam 5 "kept" w2 = some ((some (.transaction 1), none), w2)) ∧
      ∀ w2, ParamLater "kept" w1 w2 →
        ∀ k, GetParam (k + 1) "kept" w2 = some ((some (.transaction 1), none), w2)) ∧
    GetParam 5 "fresh" ⟨countingParams, 0, []⟩ =
      some ((some (.transaction 1), none), ⟨countingParams, 1, [.provider "fresh"]⟩) ∧
    (GetParam 5 "fresh" ⟨countingParams, 1, [.provider "fresh"]⟩).map (fun x => x.1) =
      some (some (.transaction 2), none) :=
  have hx : GetParam 5 "kept" (⟨countingParams, 0, []⟩ : ParamWorld Nat Val) =
      some ((some (.transaction 1), none),
        ⟨⟨[("kept", ⟨⟨countingParam, false⟩, some (.transaction 1), true⟩),
          ("fresh", ⟨⟨countingParam, true⟩, none, false⟩)], ⟨[]⟩⟩, 1, [.provider "kept"]⟩) := rfl
  have hsp : (⟨[("kept", ⟨⟨countingParam, false⟩, some (Val.transaction 1), true⟩),
      ("fresh", ⟨⟨countingParam, true⟩, none, false⟩)], ⟨[]⟩⟩ :
        ParamContainer Nat Val).Spares "kept" := by
    intro y my hy
    simp only [mapGet] at hy
    split_ifs at hy <;> cases hy <;> simp [countingParam, ParamProg.Spares]
  have h := ((C25_disposable_decides_caching 5 "kept" ⟨countingParams, 0, []⟩ _ rfl
    (by decide)).1 rfl _ _ hx).2
  have hf : GetParam 5 "fresh"
      (⟨⟨[("kept", ⟨⟨countingParam, false⟩, some (.transaction 1), true⟩),
          ("fresh", ⟨⟨countingParam, true⟩, none, false⟩)], ⟨[]⟩⟩, 1, [.provider "kept"]⟩ :
        ParamWorld Nat Val) =
      some ((some (.transaction 2), none),
        ⟨⟨[("kept", ⟨⟨countingParam, false⟩, some (.transaction 1), true⟩),
          ("fresh", ⟨⟨countingParam, true⟩, none, false⟩)], ⟨[]⟩⟩, 2,
          [.provider "kept", .provider "fresh"]⟩) := rfl
  ⟨⟨_, hx, ⟨_, hf, (h _ hsp (.getParam _ _ _ 5 "fresh" _ (.refl _) hf)).2.1 4⟩,
      fun w2 hl => (h w2 hsp hl).2.1⟩,
    ((C25_disposable_decides_caching 4 "fresh" ⟨countingParams, 0, []⟩ _ rfl
      (by decide)).2 rfl (NewParamContainer_sound _)).2.2 (some (.transaction 1))
      ⟨⟨countingParams.params, ⟨["fresh"]⟩⟩, 1, [.provider "fresh"]⟩ rfl |>.1,
    by decide⟩

/-- C26: within one `ParamContainer`, let `x, post...` be distinct parameters, not yet created
and not on the chain `pre`, such that the provider of each asks for the next one with
`GetParam` and hands the nested error on (returned, or as the panic of `MustGetParam`), and
the provider of the last asks for `idj`, which is under construction (on `pre` or among them).
Then `GetParam(x)`, given at least one unit of fuel per frame and one more, returns the error
of the cycle: raw, `circular dependency: pre... -> x -> ... -> idj`, when it is an inner frame
(`pre` not empty), and with the one prefix `cannot get parameter x: ` (`x` in backticks) when
it is the outermost frame (`pre` empty); the container is left as it was. -/
theorem C26_param_cycle_error {σ α : Type} (pre : List String) (x : String)
    (post : List String) (idj : String) (w : ParamWorld σ α) (fuel : Nat)
    (hchain : w.b.circularDeps.chain = pre) (hnodup : (pre ++ x :: post).Nodup)
    (hj : idj ∈ pre ++ x :: post) (hrel : ParamRelayChain w.b.params (x :: post) idj)
    (hfuel : post.length + 2 ≤ fuel) :
    ∃ v w', GetParam fuel x w =
        some ((v, some (if pre = [] then
          plainErr ("cannot get parameter `" ++ x ++ "`: circular dependency: " ++
            " -> ".intercalate (x :: post ++ [idj]))
          else ⟨"circular dependency: " ++ " -> ".intercalate (pre ++ x :: post ++ [idj]),
            true⟩)), w') ∧
      w'.b = w.b := by
  obtain ⟨v, w', h, hb⟩ := param_cycle_descent idj post pre x w fuel hchain hnodup hj hrel hfuel
  refine ⟨v, w', ?_, hb⟩
  rw [h, paramErrorMsg_circular]
  rfl

/-- Witness of C26: with `username -> nickname -> name -> username` in the container of the
test, `GetParam("nickname")` fails with the chain `nickname -> name -> username -> nickname`
under one prefix. -/
theorem C26_param_cycle_error_witness :
    (GetParam 4 "nickname" ⟨circularParamContainer, (), []⟩).map (fun x => x.1.2) =
      some (some (plainErr
        "cannot get parameter `nickname`: circular dependency: nickname -> name -> username -> nickname")) :=
  (C26_param_cycle_error [] "nickname" ["name", "username"] "nickname"
    ⟨circularParamContainer, (), []⟩ 4 rfl (by decide) (by decide)
    ⟨⟨_, rfl, rfl, ParamRelays.getParam _ _ fun _ _ => Or.inl ⟨_, rfl⟩⟩,
      ⟨_, rfl, rfl, ParamRelays.getParam _ _ fun _ _ => Or.inl ⟨_, rfl⟩⟩,
      ⟨_, rfl, rfl, ParamRelays.getParam _ _ fun _ _ => Or.inl ⟨_, rfl⟩⟩, trivial⟩
    (by decide)).elim fun _ h => h.elim fun _ h =>
      congrArg (Option.map fun x => x.1.2) h.1

/-- C27: when `GetParam(id)` returns a non-nil error, the value it returns is nil for every
cause but one: when the provider of `id` returned a value `v` together with its error, the
call returns `v` itself together with the error. -/
theorem C27_value_kept_with_provider_error {σ α : Type} (n : Nat) (id : String)
    (w : ParamWorld σ α) (r : GetResult α) (w' : ParamWorld σ α)
    (hget : GetParam n id w = some (r, w')) (herr : r.2 ≠ none) :
    r.1 = none ∨
    ∃ k m v e w1, n = k + 1 ∧ mapGet w.b.params id = some m ∧ m.created = false ∧
      runParamProg (GetParam k) m.definition.Provider (w.enter id) =
        some (.returned v (some e), w1) ∧
      r.1 = v := by
  cases n with
  | zero => simp [GetParam] at hget
  | succ k =>
    rw [GetParam_succ] at hget
    by_cases hc : id ∈ w.b.circularDeps.chain
    · rw [if_pos hc] at hget; simp at hget; left; rw [← hget.1]
    · rw [if_neg hc] at hget
      cases hm : mapGet w.b.params id with
      | none => simp only [hm] at hget; simp at hget; left; rw [← hget.1]
      | some m =>
        simp only [hm] at hget
        by_cases hcr : m.created = true
        · rw [if_pos hcr] at hget; simp at hget; rw [← hget.1] at herr; simp at herr
        · rw [if_neg hcr] at hget
          cases hp : runParamProg (GetParam k) m.definition.Provider (w.enter id) with
          | none => simp [hp] at hget
          | some ow1 =>
            obtain ⟨o, w1⟩ := ow1
            simp only [hp] at hget
            cases o with
            | panicked p =>
              obtain ⟨e, he⟩ := getParamDefers_panicking id none p w1
              simp only [Option.some.injEq] at hget
              rw [hget] at he
              left
              exact congrArg Prod.fst he
            | returned v e =>
              cases e with
              | some e =>
                obtain ⟨e', he⟩ := getParamDefers_panicking id v (.error e) w1
                simp only [Option.some.injEq] at hget
                rw [hget] at he
                right
                exact ⟨k, m, v, e, w1, rfl, rfl, by simpa using hcr, hp,
                  congrArg Prod.fst he⟩
              | none =>
                by_cases hd : m.definition.Disposable = true
                · simp [hd] at hget; rw [← hget.1] at herr; simp at herr
                · simp [hd] at hget; rw [← hget.1] at herr; simp at herr

/-- Witness of C27: in `valueWithError` the provider of `db.host` returns the value `unit`
together with the error `todo`, and `GetParam("db.host")` returns both. -/
theorem C27_value_kept_with_provider_error_witness :
    ∃ w1 : ParamWorld Unit Val,
      GetParam 2 "db.host" ⟨valueWithError, (), []⟩ =
        some ((some .unit, some (plainErr "cannot get parameter `db.host`: todo")), w1) ∧
      ((some Val.unit) = none ∨
        ∃ k m v e w1, 2 = k + 1 ∧
          mapGet (⟨valueWithError, (), []⟩ : ParamWorld Unit Val).b.params "db.host" = some m ∧
          m.created = false ∧
          runParamProg (GetParam k) m.definition.Provider
            ((⟨valueWithError, (), []⟩ : ParamWorld Unit Val).enter "db.host") =
            some (.returned v (some e), w1) ∧
          (some Val.unit) = v) :=
  have h1 : (GetParam 2 "db.host" (⟨valueWithError, (), []⟩ : ParamWorld Unit Val)).isSome =
      true := by decide
  have hx : GetParam 2 "db.host" (⟨valueWithError, (), []⟩ : ParamWorld Unit Val) =
      some ((some .unit, some (plainErr "cannot get parameter `db.host`: todo")),
        ((GetParam 2 "db.host" (⟨valueWithError, (), []⟩ : ParamWorld Unit Val)).get h1).2) :=
    rfl
  ⟨_, hx, C27_value_kept_with_provider_error 2 "db.host" ⟨valueWithError, (), []⟩ _ _ hx
    (by simp)⟩

/-- C30: `start(id)` always appends `id` to the live chain; it returns the nil (empty) list
when `id` was not in the chain, and the previous chain with `id` appended when it was; with the
chain `app`, `storage`, `db`, `start("storage")` returns `app`, `storage`, `db`, `storage`.
`stop` removes exactly the last element, so calls of `start` on any list of ids followed by as
many calls of `stop` leave the chain as it was. -/
theorem C30_start_appends_stop_pops (c : circularDeps) (id : String) (ids : List String) :
    (c.start id).2.chain = c.chain ++ [id] ∧
    (id ∉ c.chain → (c.start id).1 = []) ∧
    (id ∈ c.chain → (c.start id).1 = c.chain ++ [id]) ∧
    ((⟨["app", "storage", "db"]⟩ : circularDeps).start "storage").1 =
      ["app", "storage", "db", "storage"] ∧
    (c.start id).2.stop = c ∧
    (∀ x, (⟨c.chain ++ [x]⟩ : circularDeps).stop.chain = c.chain) ∧
    stopTimes (startAll c ids) ids.length = c := by
  refine ⟨rfl, fun h => by simp [h], fun h => by simp [h], by decide, stop_start c id,
    fun x => by simp [circularDeps.stop], ?_⟩
  have h : startAll c ids = ⟨c.chain ++ ids⟩ := by
    have := startAll_chain ids c
    cases hs : startAll c ids
    rw [hs] at this
    simp only at this
    rw [this]
  rw [h]
  exact stopTimes_append c.chain ids

/-- Witness of C30: the two runs of `Test_newCircularDeps`: `foo` and `bar` are started and
stopped; `app`, `storage`, `db` are started, `start("storage")` reports the cycle, and four
calls of `stop` empty the chain. -/
theorem C30_start_appends_stop_pops_witness :
    (newCircularDeps.start "foo").1 = [] ∧
    ((newCircularDeps.start "foo").2.start "bar").1 = [] ∧
    stopTimes (startAll newCircularDeps ["foo", "bar"]) 2 = newCircularDeps ∧
    ((startAll newCircularDeps ["app", "storage", "db"]).start "storage").1 =
      ["app", "storage", "db", "storage"] ∧
    stopTimes (startAll newCircularDeps ["app", "storage", "db", "storage"]) 4 =
      newCircularDeps :=
  ⟨(C30_start_appends_stop_pops newCircularDeps "foo" []).2.1 (by decide),
    (C30_start_appends_stop_pops (newCircularDeps.start "foo").2 "bar" []).2.1 (by decide),
    (C30_start_appends_stop_pops newCircularDeps "foo" ["foo", "bar"]).2.2.2.2.2.2,
    (C30_start_appends_stop_pops (startAll newCircularDeps ["app", "storage", "db"]) "storage"
      []).2.2.1 (by decide),
    (C30_start_appends_stop_pops newCircularDeps "foo"
      ["app", "storage", "db", "storage"]).2.2.2.2.2.2⟩

end container

namespace setter

/-! ## Package `setter` -/

/-- The chain of a pointer to a struct has no duplicate `Ptr` to remove. -/
theorem stripPtrs_ptr_struct : stripPtrs [.Ptr, .Struct] = ([.Ptr, .Struct], 0) := rfl

/-- C28 — `Set(strct, field, nil)` on a pointer to a struct that has the field assigns the zero
value of the field's type only when that type is nilable (chan, func, map, pointer,
unsafe pointer, interface, slice). For every other field type it leaves the struct as it was
and returns the error of `Convert`, wrapped by `Set`; with the struct `a` of the doc comment
of `Set`, whose field `val` is an `int`, the call `Set(&a, "val", nil)` returns
"set `*struct { val int }`.`val`: cannot cast `<nil>` to `int`" and `a.val` is not assigned. -/
theorem C28_nil_assigns_zero_only_to_nilable {V : Type} (zero : reflect.GoType → V)
    (convert : V → reflect.GoType → Option V × Option container.GoError)
    (pt t ft : reflect.GoType) (fields : List (String × reflect.GoType × V)) (field : String)
    (fv : V) (hf : container.mapGet fields field = some (ft, fv)) :
    Set zero convert (.ptr pt (.strct t fields)) field none =
      (if reflect.isNilable ft.kind then
        some (none, .ptr pt (.strct t (container.mapSet fields field (ft, zero ft))))
      else
        some (some (container.plainErr
          ("set `" ++ pt.name ++ "`.`" ++ field ++ "`: cannot cast `<nil>` to `" ++ ft.name ++
            "`")), .ptr pt (.strct t fields))) := by
  have hc : valueToKindChain (Value.ptr pt (Value.strct t fields)) = [.Ptr, .Struct] := rfl
  unfold Set
  simp only [hc, stripPtrs_ptr_struct]
  have he : equalTo [reflect.Kind.Ptr, reflect.Kind.Struct]
      [reflect.Kind.Ptr, reflect.Kind.Struct] = true := by decide
  rw [if_pos he]
  simp only [Nat.zero_add, Value.elems, set, hf, reflect.Convert]
  by_cases hn : reflect.isNilable ft.kind = true
  · simp [hn, Value.assign]
  · have hl : "`: " ++ "cannot cast `<nil>` to `" = "`: cannot cast `<nil>` to `" := by decide
    simp [hn, wrap, Value.typeString, container.plainErr, String.append_assoc]
    rw [← String.append_assoc "`: ", hl]

/-- Witness of C28 at the struct of the doc comment of `Set`: the field `val` is an `int`, and
`Set(&a, "val", nil)` returns an error and leaves `a` as it was. -/
theorem C28_nil_assigns_zero_only_to_nilable_witness :
    container.mapGet [("val", reflect.intType, (0 : Int))] "val" = some (reflect.intType, 0) ∧
    Set exampleZero exampleConvert exampleStructPtr "val" none =
      some (some (container.plainErr
        "set `*struct \x7b val int \x7d`.`val`: cannot cast `<nil>` to `int`"),
        exampleStructPtr) :=
  ⟨by decide, (C28_nil_assigns_zero_only_to_nilable exampleZero exampleConvert _ _
    reflect.intType [("val", reflect.intType, 0)] "val" 0 (by decide)).trans (by decide)⟩

end setter

namespace exporters

/-! ## Package `exporters` -/

/-- C29 — The default exporter chain returns "parameter of type `T` is not supported" for a
value of a named type `T` unless `T` is a slice or array type whose element type is an unnamed
primitive type: `PrimitiveTypeSliceExporter.Supports` looks at the package path of the element
type only, so such a value is exported by `PrimitiveTypeSliceExporter`, as if it had the
builtin type. `myString("foo")`, `myInt(5)` and `myBool(true)` give the error; with
`type myInts []int`, `Export(myInts{1, 2})` returns "[]int{int(1), int(2)}" and no error. -/
theorem C29_named_slice_exported_as_builtin (fuel : Nat) (v : Value) (t : reflect.GoType)
    (ht : v.type = some t) (hn : t.pkgPath ≠ "") :
    (PrimitiveTypeSliceExporter.Supports v = false →
      Export (fuel + 1) v = some ("", some (container.plainErr
        ("parameter of type `" ++ t.name ++ "` is not supported")))) ∧
    (PrimitiveTypeSliceExporter.Supports v = true →
      Export (fuel + 1) v = PrimitiveTypeSliceExporter.Export (Export fuel) v) ∧
    Export 1 (.str myString "\"foo\"") = some ("", some (container.plainErr
      "parameter of type `exporters.myString` is not supported")) ∧
    Export 1 (.num myInt "5") = some ("", some (container.plainErr
      "parameter of type `exporters.myInt` is not supported")) ∧
    Export 1 (.bool myBool true) = some ("", some (container.plainErr
      "parameter of type `exporters.myBool` is not supported")) ∧
    PrimitiveTypeSliceExporter.Supports myIntsValue = true ∧
    Export 2 myIntsValue = some ("[]int\x7bint(1), int(2)\x7d", none) := by
  have h1 : BoolExporter.Supports v = false := by
    simp only [BoolExporter.Supports, ht, decide_eq_false_iff_not]
    intro h
    exact hn (by rw [Option.some.inj h]; rfl)
  have h2 : NilExporter.Supports v = false := by
    cases v <;> simp_all [NilExporter.Supports, Value.type]
  have h3 : NumericExporter.Supports v = false := by
    simp [NumericExporter.Supports, ht, hn]
  have h4 : StringExporter.Supports v = false := by
    simp only [StringExporter.Supports, ht, decide_eq_false_iff_not]
    intro h
    exact hn (by rw [Option.some.inj h]; rfl)
  have h5 : BytesExporter.Supports v = false := by
    simp only [BytesExporter.Supports, ht, decide_eq_false_iff_not]
    intro h
    exact hn (by rw [Option.some.inj h]; rfl)
  have h6 : InterfaceSliceExporter.Supports v = false := by
    simp [InterfaceSliceExporter.Supports, ht, hn]
  refine ⟨?_, ?_, by decide, by decide, by decide, by decide, by decide⟩
  · intro h7
    simp [Export, NewDefaultExporter, ChainExporter.Export, List.find?, h1, h2, h3, h4, h5, h6,
      h7, Value.typeString, ht]
  · intro h7
    simp [Export, NewDefaultExporter, ChainExporter.Export, List.find?, h1, h2, h3, h4, h5, h6,
      h7]
    rfl

/-- Witness of C29 at `myInts{1, 2}`: its type is named, and the chain exports it as a `[]int`
instead of returning the error. -/
theorem C29_named_slice_exported_as_builtin_witness :
    myIntsValue.type = some myInts ∧ myInts.pkgPath ≠ "" ∧
    Export 2 myIntsValue = some ("[]int\x7bint(1), int(2)\x7d", none) :=
  ⟨rfl, by decide,
    (C29_named_slice_exported_as_builtin 1 myIntsValue myInts rfl (by decide)).2.2.2.2.2.2⟩

end exporters
